import Mathlib

/-!
The datacache package of framego, and parts of four other packages

A shallow embedding of `datacache/datacache.go` (the single-value cache) and
`datacache/datacachemap.go` (the keyed cache map), in the namespace
`Datacache`; of `uniqueid/generator.go` (`Uniqueid`), of Serialize and
Deserialize of `client/cache/utils.go` (`Cache`), of AESGCMDecrypt of
`crypto/aes.go` (`Crypto`) and of the struct getters of `config/stringmap.go`
and `config/config.go` (`Config`).  The definitions of all namespaces come
first, the theorems after them.

Conventions of the embedding of datacache.

* Timestamps and durations are `int64` nanoseconds in the source; here they are
  `Int`.  The products of the two constructors are wrapped to `int64`
  (`wrap64`).  The sums of the other operations are written as sums of `Int`,
  which are the sums of the source exactly when they are in the range of
  `int64` (`fitsInt64`, `wrap64_of_fitsInt64`); a theorem that depends on the
  value of such a sum states that the sum is in that range.
* `time.Now().UnixNano()` is an input of every operation (the argument `now`).
* The load callback is external.  Starting a goroutine that invokes it is
  recorded in the result of the operation that starts it; the completion of
  that goroutine is a separate operation that receives what the callback
  returned (`data`, and `err` as a flag for `err != nil`) and the clock reading
  taken after it returned.
* A region executed under a mutex is one atomic step.  An operation that reads
  a field under the read lock and re-checks it under the write lock takes the
  value of the first read as an explicit `snapshot` argument; the sequential
  reading of the operation passes the current value of the field.
* The polling loop reads the cutoff once per iteration; the values it reads are
  given by a function of the iteration number, and the loop carries fuel.
-/

namespace Datacache

/-! ## datacache.go -/

/-- MilliToNanoSecond: millisecond to nanosecond ratio (datacache.go, line 42). -/
def MilliToNanoSecond : Int := 1000000

/-- DefaultRetryInterval: one second in nanoseconds (datacache.go, line 45). -/
def DefaultRetryInterval : Int := 1000000000

/-- The range of `int64`, the type of every timestamp and duration of the
source. -/
@[reducible] def fitsInt64 (x : Int) : Prop :=
  -9223372036854775808 ≤ x ∧ x ≤ 9223372036854775807

/-- The `int64` that the source computes for an arithmetic expression whose
exact value is `x`: sums and products of `int64` wrap around. -/
def wrap64 (x : Int) : Int :=
  (x + 9223372036854775808) % 18446744073709551616 - 9223372036854775808

/-- DataCache (datacache.go, lines 17-27) without the callback and the mutex.
`data` is the value behind the pointer `c.data`, which is never nil. -/
structure DataCache (T : Type) where
  data : T
  expiration : Int
  expirationOnErr : Int
  retryInterval : Int
  waitTimeout : Int
  initCutOffTime : Int
  nextUpdateTime : Int
  deriving DecidableEq, Repr

/-- CacheInitOption (datacache.go, lines 30-38), numeric fields in milliseconds. -/
structure CacheInitOption (T : Type) where
  WithInitData : Bool
  InitData : T
  Expiration : Int
  ExpirationOnErr : Int
  RetryInterval : Int
  WaitTimeout : Int
  deriving DecidableEq, Repr

/-- NewDataCache (datacache.go, lines 53-73) for a type `T` that is not an
interface type.  `clock` is the reading of `time.Now().UnixNano()` on line 70;
`default` is the zero value of `T`, so `opt.InitData = default` is
`reflect.ValueOf(opt.InitData).IsZero()`.  The four products of lines 57-60
are products of `int64`.  For an interface type see NewDataCache.reflecting. -/
def NewDataCache {T : Type} [Inhabited T] [DecidableEq T]
    (opt : CacheInitOption T) (clock : Int) : DataCache T :=
  let c0 : DataCache T :=
    { data := opt.InitData
      expiration := wrap64 (opt.Expiration * MilliToNanoSecond)
      expirationOnErr := wrap64 (opt.ExpirationOnErr * MilliToNanoSecond)
      retryInterval := wrap64 (opt.RetryInterval * MilliToNanoSecond)
      waitTimeout := wrap64 (opt.WaitTimeout * MilliToNanoSecond)
      initCutOffTime := 0
      nextUpdateTime := 0 }
  let c1 := if c0.retryInterval ≤ 0 then { c0 with retryInterval := DefaultRetryInterval } else c0
  let c2 := if c1.waitTimeout ≤ 0 then { c1 with waitTimeout := 0 } else c1
  if opt.WithInitData || !(decide (opt.InitData = default)) then
    { c2 with initCutOffTime := clock }
  else c2

/-- NewDataCache (datacache.go, lines 53-73) for any type `T`.  `isZero v` is
the outcome of `reflect.ValueOf(v).IsZero()` on line 69: for a `T` that is an
interface type, `reflect.ValueOf` looks at the dynamic value, and on the nil
interface it returns the zero `reflect.Value`, on which `IsZero` panics; that
outcome is `none`, and so is the result of the constructor then.  The test of
line 69 is `opt.WithInitData || ...`, so `IsZero` is not called when
`opt.WithInitData` is set. -/
def NewDataCache.reflecting {T : Type} (isZero : T → Option Bool)
    (opt : CacheInitOption T) (clock : Int) : Option (DataCache T) :=
  let c0 : DataCache T :=
    { data := opt.InitData
      expiration := wrap64 (opt.Expiration * MilliToNanoSecond)
      expirationOnErr := wrap64 (opt.ExpirationOnErr * MilliToNanoSecond)
      retryInterval := wrap64 (opt.RetryInterval * MilliToNanoSecond)
      waitTimeout := wrap64 (opt.WaitTimeout * MilliToNanoSecond)
      initCutOffTime := 0
      nextUpdateTime := 0 }
  let c1 := if c0.retryInterval ≤ 0 then { c0 with retryInterval := DefaultRetryInterval } else c0
  let c2 := if c1.waitTimeout ≤ 0 then { c1 with waitTimeout := 0 } else c1
  if opt.WithInitData then some { c2 with initCutOffTime := clock }
  else
    match isZero opt.InitData with
    | none => none
    | some zero => if !zero then some { c2 with initCutOffTime := clock } else some c2

/-- The refresh section of DataCache.Get (datacache.go, lines 83-94).
`snapshot` is the value of `c.nextUpdateTime` read on line 81 under the read
lock; the body of the outer `if` runs under the write lock on the current
state `c`.  The flag returned is `doUpdate`: when true the call starts the
goroutine of lines 96-115.  The sums of lines 88 and 92 are sums of `int64`
in the source: they are the sums written here when these are in the range of
`int64` (DataCache.startFitsAt), and wrap around otherwise. -/
def DataCache.refreshFrom {T : Type} (c : DataCache T) (snapshot now : Int) :
    DataCache T × Bool :=
  if now ≥ snapshot then
    let r : DataCache T × Bool :=
      if now ≥ c.nextUpdateTime then
        ({ c with nextUpdateTime := now + c.retryInterval }, true)
      else (c, false)
    let c2 : DataCache T :=
      if r.1.initCutOffTime = 0 then { r.1 with initCutOffTime := now + r.1.waitTimeout }
      else r.1
    (c2, r.2)
  else (c, false)

/-- The refresh section of DataCache.Get when nothing runs between line 81 and
line 86: the snapshot is the current `nextUpdateTime`. -/
def DataCache.refresh {T : Type} (c : DataCache T) (now : Int) : DataCache T × Bool :=
  c.refreshFrom c.nextUpdateTime now

/-- The goroutine started by DataCache.Get (datacache.go, lines 96-115), from
the return of the load callback on: `data` and `err` are what `c.loadData()`
returned, `now` is the clock reading of line 107.  The sum of line 110 is a
sum of `int64` in the source: it is `now + expire` when that is in the range
of `int64` (loadFits), and wraps around otherwise. -/
def DataCache.loadTask {T : Type} (c : DataCache T) (data : T) (err : Bool) (now : Int) :
    DataCache T :=
  let expire := c.expiration
  if err then
    if c.expirationOnErr ≤ 0 then c
    else
      let expire := c.expirationOnErr
      let c1 : DataCache T := { c with data := data, nextUpdateTime := now + expire }
      if now < c1.initCutOffTime then { c1 with initCutOffTime := now } else c1
  else
    let c1 : DataCache T := { c with data := data, nextUpdateTime := now + expire }
    if now < c1.initCutOffTime then { c1 with initCutOffTime := now } else c1

/-- The first-value polling loop (datacache.go, lines 119-128; datacachemap.go,
lines 179-188 and 318-327).  `cutoff i` is the value of `initCutOffTime` read
in iteration `i`.  Returns the final value of the local `now` and the number of
`time.Sleep(time.Millisecond)` calls made; `none` when the fuel runs out.
The local `now` is an `int64` in the source: it is the value computed here as
long as that is in the range of `int64`. -/
def waitLoop (cutoff : Nat → Int) : Nat → Nat → Int → Option (Int × Nat)
  | 0, _, _ => none
  | fuel + 1, i, now =>
    if now > cutoff i then some (now, i)
    else waitLoop cutoff fuel (i + 1) (now + MilliToNanoSecond)

/-- Result of one DataCache.Get call. -/
structure GetResult (T : Type) where
  cache : DataCache T
  doUpdate : Bool
  sleeps : Nat
  value : T
  deriving DecidableEq, Repr

/-- DataCache.Get (datacache.go, lines 78-131) executed with nothing else
running in between: the polling loop reads the same cutoff in every
iteration, and the goroutine it may have started has not applied a result
when line 130 reads the value. -/
def DataCache.Get {T : Type} (fuel : Nat) (c : DataCache T) (now : Int) :
    Option (GetResult T) :=
  let r := c.refresh now
  match waitLoop (fun _ => r.1.initCutOffTime) fuel 0 now with
  | none => none
  | some w => some { cache := r.1, doUpdate := r.2, sleeps := w.2, value := r.1.data }

/-- The refresh sections of successive DataCache.Get calls, in the order in
which they take the write lock; a call is the pair (now, snapshot).  Returns
the final cache and the `doUpdate` flag of every call. -/
def DataCache.refreshAll {T : Type} (c : DataCache T) :
    List (Int × Int) → DataCache T × List Bool
  | [] => (c, [])
  | call :: rest =>
    let r := c.refreshFrom call.2 call.1
    let q := DataCache.refreshAll r.1 rest
    (q.1, r.2 :: q.2)

/-! ## datacachemap.go -/

/-- A Go map as an association list with at most one pair per key. -/
def mapGet {K A : Type} [DecidableEq K] : List (K × A) → K → Option A
  | [], _ => none
  | p :: rest, k => if p.1 = k then some p.2 else mapGet rest k

/-- The Go assignment `m[k] = a`. -/
def mapSet {K A : Type} [DecidableEq K] : List (K × A) → K → A → List (K × A)
  | [], k, a => [(k, a)]
  | p :: rest, k, a => if p.1 = k then (k, a) :: rest else p :: mapSet rest k a

/-- The Go statement `delete(m, k)`. -/
def mapDelete {K A : Type} [DecidableEq K] (m : List (K × A)) (k : K) : List (K × A) :=
  m.filter (fun p => decide (p.1 ≠ k))

/-- CacheItem (datacachemap.go, lines 19-26) without the mutexes; `data` is
the pointer `*V`, `none` for nil. -/
structure CacheItem (V : Type) where
  data : Option V
  nextUpdateTime : Int
  initCutOffTime : Int
  evictTime : Int
  deriving DecidableEq, Repr

/-- CacheMap (datacachemap.go, lines 29-40).  Items live behind pointers that
goroutines keep after the key is deleted, so the map sends a key to an address
and `items` is the heap of CacheItem objects; `nextAddr` is the first address
not yet allocated.  `hasLoadDataBatch` is `c.loadDataBatch != nil`. -/
structure CacheMap (K V : Type) where
  dataMap : List (K × Nat)
  items : Nat → CacheItem V
  nextAddr : Nat
  hasLoadDataBatch : Bool
  expiration : Int
  expirationOnErr : Int
  retryInterval : Int
  waitTimeout : Int
  evictTimeout : Int

/-- CacheMapOption (datacachemap.go, lines 43-51), numeric fields in
milliseconds; `HasLoadDataBatch` is `opt.LoadDataBatch != nil`. -/
structure CacheMapOption where
  HasLoadDataBatch : Bool
  Expiration : Int
  ExpirationOnErr : Int
  EvictTimeout : Int
  RetryInterval : Int
  WaitTimeout : Int
  deriving DecidableEq, Repr

/-- The zero CacheItem, the content of unallocated addresses. -/
def CacheItem.zero {V : Type} : CacheItem V :=
  { data := none, nextUpdateTime := 0, initCutOffTime := 0, evictTime := 0 }

/-- NewCacheMap (datacachemap.go, lines 59-90).  `time.NewTicker` panics on a
non-positive period, which is the result `none`.  The five products of lines
64-68 and the product of line 71 are products of `int64`. -/
def NewCacheMap {K V : Type} (opt : CacheMapOption) : Option (CacheMap K V) :=
  let c0 : CacheMap K V :=
    { dataMap := []
      items := fun _ => CacheItem.zero
      nextAddr := 0
      hasLoadDataBatch := opt.HasLoadDataBatch
      expiration := wrap64 (opt.Expiration * MilliToNanoSecond)
      expirationOnErr := wrap64 (opt.ExpirationOnErr * MilliToNanoSecond)
      evictTimeout := wrap64 (opt.EvictTimeout * MilliToNanoSecond)
      retryInterval := wrap64 (opt.RetryInterval * MilliToNanoSecond)
      waitTimeout := wrap64 (opt.WaitTimeout * MilliToNanoSecond) }
  let c1 := if c0.evictTimeout ≤ c0.expiration then { c0 with evictTimeout := wrap64 (c0.expiration * 2) } else c0
  let c2 := if c1.retryInterval ≤ 0 then { c1 with retryInterval := DefaultRetryInterval } else c1
  let c3 := if c2.waitTimeout ≤ 0 then { c2 with waitTimeout := 0 } else c2
  if c3.evictTimeout ≤ 0 then none else some c3

/-- The assignment `*item = it` for the item at address `item`. -/
def CacheMap.setItem {K V : Type} (c : CacheMap K V) (item : Nat) (it : CacheItem V) :
    CacheMap K V :=
  { c with items := Function.update c.items item it }

/-- A goroutine started by the keyed map, waiting for its load callback. -/
inductive Task (K : Type) where
  | updateData (key : K) (item : Nat)
  | updateBatch (unCachedDataMap : List (K × Nat)) (updatedStatus : Nat)
  deriving DecidableEq, Repr

/-- The part of updateData and updateBatch that stores a loaded value in one
item (datacachemap.go, lines 104-110 and 237-243).  The sum of lines 106 and
239 is a sum of `int64` in the source: it is `now + expire` when that is in
the range of `int64` (loadFits), and wraps around otherwise. -/
def CacheMap.storeItem {K V : Type} (c : CacheMap K V) (item : Nat) (data : V)
    (expire now : Int) : CacheMap K V :=
  let it := c.items item
  let it1 : CacheItem V := { it with data := some data, nextUpdateTime := now + expire }
  let it2 : CacheItem V := if now < it1.initCutOffTime then { it1 with initCutOffTime := now } else it1
  c.setItem item it2

/-- CacheMap.updateData (datacachemap.go, lines 92-111) from the return of
`c.loadData(key)` on: `data`, `err` are what the callback returned, `now` the
clock reading of line 103.  The key is only an argument of the callback. -/
def CacheMap.updateData {K V : Type} (c : CacheMap K V) (item : Nat) (data : V) (err : Bool)
    (now : Int) : CacheMap K V :=
  let expire := c.expiration
  if err then
    if c.expirationOnErr ≤ 0 then c
    else
      let expire := c.expirationOnErr
      c.storeItem item data expire now
  else c.storeItem item data expire now

/-- CacheMap.evictKeys (datacachemap.go, lines 114-131) at clock reading `now`. -/
def CacheMap.evictKeys {K V : Type} [DecidableEq K] (c : CacheMap K V) (now : Int) :
    CacheMap K V :=
  let keys := (c.dataMap.filter (fun p => decide ((c.items p.2).evictTime < now))).map Prod.fst
  { c with dataMap := keys.foldl mapDelete c.dataMap }

/-- CacheMap.updateEvictTime (datacachemap.go, lines 210-217).  The sum of
line 212 is a sum of `int64` in the source: it is `now + c.evictTimeout` when
that is in the range of `int64`, and wraps around otherwise. -/
def CacheMap.updateEvictTime {K V : Type} (c : CacheMap K V) (item : Nat) (now : Int) :
    CacheMap K V :=
  let it := c.items item
  let newEvictTime := now + c.evictTimeout
  if newEvictTime > it.evictTime then c.setItem item { it with evictTime := newEvictTime } else c

/-- Lines 141-162 of CacheMap.Get: find the item of `key`, or insert a new
one under the map lock.  Returns the map, the address of the item, and whether
the item was created, in which case line 160 starts `updateData(key, item)`.
The sums of lines 150-152 are sums of `int64` in the source: they are the
sums written here when these are in the range of `int64`
(CacheMap.startFitsAt), and wrap around otherwise. -/
def CacheMap.lookupOrCreate {K V : Type} [DecidableEq K] (c : CacheMap K V) (key : K)
    (now : Int) : CacheMap K V × Nat × Bool :=
  match mapGet c.dataMap key with
  | some item => (c, item, false)
  | none =>
    let item := c.nextAddr
    let it : CacheItem V :=
      { data := none
        nextUpdateTime := now + c.retryInterval
        evictTime := now + c.evictTimeout
        initCutOffTime := now + c.waitTimeout }
    ({ c with dataMap := mapSet c.dataMap key item
              items := Function.update c.items item it
              nextAddr := item + 1 }, item, true)

/-- Lines 165-176 of CacheMap.Get: the refresh gate on one item.  `snapshot`
is the value of `item.nextUpdateTime` read on line 166; the flag returned says
whether line 173 starts `updateData(key, item)`.  The sum of line 172 is a sum
of `int64` in the source: it is `now + c.retryInterval` when that is in the
range of `int64`, and wraps around otherwise. -/
def CacheMap.refreshItemFrom {K V : Type} (c : CacheMap K V) (item : Nat)
    (snapshot now : Int) : CacheMap K V × Bool :=
  if now > snapshot then
    let it := c.items item
    if now > it.nextUpdateTime then
      (c.setItem item { it with nextUpdateTime := now + c.retryInterval }, true)
    else (c, false)
  else (c, false)

/-- The gate of lines 165-176 with the snapshot equal to the current value. -/
def CacheMap.refreshItem {K V : Type} (c : CacheMap K V) (item : Nat) (now : Int) :
    CacheMap K V × Bool :=
  c.refreshItemFrom item (c.items item).nextUpdateTime now

/-- Lines 194-200 of CacheMap.Get: the value behind `item.data`, the zero
value of `V` (`default`) when the pointer is nil. -/
def valueOrZero {V : Type} [Inhabited V] (data : Option V) : V :=
  match data with
  | none => default
  | some v => v

/-- Result of a CacheMap.Get or GetMany call: the map afterwards, the
goroutines started, the number of one-millisecond sleeps, the value returned. -/
structure MapResult (K V R : Type) where
  cache : CacheMap K V
  tasks : List (Task K)
  sleeps : Nat
  value : R

/-- Lines 137-176 of CacheMap.Get, everything before the polling loop, with
the value read on line 166 given by `snapshot`.  Returns the map, the address
of the item and the goroutines started. -/
def CacheMap.getStartFrom {K V : Type} [DecidableEq K] (c : CacheMap K V) (key : K)
    (snapshot now : Int) : CacheMap K V × Nat × List (Task K) :=
  let l := c.lookupOrCreate key now
  let r := l.1.refreshItemFrom l.2.1 snapshot now
  (r.1, l.2.1,
    (if l.2.2 then [Task.updateData key l.2.1] else []) ++
    (if r.2 then [Task.updateData key l.2.1] else []))

/-- Lines 137-176 of CacheMap.Get when nothing runs in between: line 166
reads the current `nextUpdateTime` of the item found or created. -/
def CacheMap.getStart {K V : Type} [DecidableEq K] (c : CacheMap K V) (key : K) (now : Int) :
    CacheMap K V × Nat × List (Task K) :=
  let l := c.lookupOrCreate key now
  c.getStartFrom key (l.1.items l.2.1).nextUpdateTime now

/-- Lines 137-176 of successive CacheMap.Get calls on one key, in the order in
which they take the locks; a call is the pair (now, snapshot).  Returns the
final map and the goroutines started by every call. -/
def CacheMap.getStartAll {K V : Type} [DecidableEq K] (c : CacheMap K V) (key : K) :
    List (Int × Int) → CacheMap K V × List (List (Task K))
  | [] => (c, [])
  | call :: rest =>
    let r := c.getStartFrom key call.2 call.1
    let q := CacheMap.getStartAll r.1 key rest
    (q.1, r.2.2 :: q.2)

/-- CacheMap.Get (datacachemap.go, lines 136-201) executed with nothing else
running in between. -/
def CacheMap.Get {K V : Type} [DecidableEq K] [Inhabited V] (fuel : Nat) (c : CacheMap K V)
    (key : K) (now : Int) : Option (MapResult K V V) :=
  let s := c.getStart key now
  match waitLoop (fun _ => (s.1.items s.2.1).initCutOffTime) fuel 0 now with
  | none => none
  | some w =>
    let c1 := s.1.updateEvictTime s.2.1 w.1
    some { cache := c1, tasks := s.2.2, sleeps := w.2, value := valueOrZero (c1.items s.2.1).data }

/-- CacheMap.updateBatch (datacachemap.go, lines 219-248) from the return of
`c.loadDataBatch(uncachedKeys)` on: `data` is the map the callback returned
(a nil map is the empty list), `err` says whether it returned an error, `now`
is the clock reading of line 234.  `data[key]` of a missing key is the zero
value of `V`. -/
def CacheMap.updateBatch {K V : Type} [DecidableEq K] [Inhabited V] (c : CacheMap K V)
    (unCachedDataMap : List (K × Nat)) (updatedStatus : Nat) (data : List (K × V))
    (err : Bool) (now : Int) : CacheMap K V :=
  let expire := c.expiration
  let finish (expire : Int) : CacheMap K V :=
    let c1 := unCachedDataMap.foldl
      (fun (acc : CacheMap K V) p => acc.storeItem p.2 (valueOrZero (mapGet data p.1)) expire now) c
    c1.setItem updatedStatus { c1.items updatedStatus with initCutOffTime := now }
  if err then
    if c.expirationOnErr ≤ 0 then c
    else finish c.expirationOnErr
  else finish expire

/-- One iteration of the first loop of CacheMap.GetMany (datacachemap.go,
lines 260-279).  The state is the map, the result `data` and `uncachedKeys`. -/
def CacheMap.readKey {K V : Type} [DecidableEq K] [Inhabited V] (now : Int)
    (st : CacheMap K V × List (K × V) × List K) (key : K) :
    CacheMap K V × List (K × V) × List K :=
  match mapGet st.1.dataMap key with
  | some item =>
    let c1 := st.1.updateEvictTime item now
    let it := c1.items item
    let data := mapSet st.2.1 key (valueOrZero it.data)
    if now > it.nextUpdateTime then (c1, data, st.2.2 ++ [key]) else (c1, data, st.2.2)
  | none => (st.1, st.2.1, st.2.2 ++ [key])

/-- One iteration of the second loop of CacheMap.GetMany (datacachemap.go,
lines 286-301).  The state is the map, `unCachedDataMap` and `hasNonExistKey`.
The sums of lines 290-292 and 298 are sums of `int64` in the source: they are
the sums written here when these are in the range of `int64`
(CacheMap.startFitsAt), and wrap around otherwise. -/
def CacheMap.claimKey {K V : Type} [DecidableEq K] (now : Int)
    (st : CacheMap K V × List (K × Nat) × Bool) (uncachedKey : K) :
    CacheMap K V × List (K × Nat) × Bool :=
  let c := st.1
  match mapGet c.dataMap uncachedKey with
  | none =>
    let item := c.nextAddr
    let it : CacheItem V :=
      { data := none
        nextUpdateTime := now + c.retryInterval
        evictTime := now + c.evictTimeout
        initCutOffTime := now + c.waitTimeout }
    ({ c with dataMap := mapSet c.dataMap uncachedKey item
              items := Function.update c.items item it
              nextAddr := item + 1 }, mapSet st.2.1 uncachedKey item, true)
  | some item =>
    let it := c.items item
    if now > it.nextUpdateTime then
      (c.setItem item { it with nextUpdateTime := now + c.retryInterval },
        mapSet st.2.1 uncachedKey item, st.2.2)
    else st

/-- The last loop of CacheMap.GetMany (datacachemap.go, lines 331-340). -/
def CacheMap.readBack {K V : Type} [DecidableEq K] [Inhabited V] (c : CacheMap K V)
    (unCachedDataMap : List (K × Nat)) (data : List (K × V)) : List (K × V) :=
  unCachedDataMap.foldl (fun acc p => mapSet acc p.1 (valueOrZero (c.items p.2).data)) data

/-- What CacheMap.GetMany has done when it reaches its polling loop. -/
structure ManyStart (K V : Type) where
  cache : CacheMap K V
  data : List (K × V)
  unCachedDataMap : List (K × Nat)
  hasNonExistKey : Bool
  updatedStatus : Option Nat
  tasks : List (Task K)

/-- CacheMap.GetMany up to the start of its goroutines (datacachemap.go,
lines 254-314).  `updatedStatus` is the address of the status item of line
305, when one is allocated. -/
def CacheMap.getManyStart {K V : Type} [DecidableEq K] [Inhabited V] (c : CacheMap K V)
    (keys : List K) (now : Int) : ManyStart K V :=
  let r1 := keys.foldl (CacheMap.readKey now) (c, [], [])
  let uncachedKeys := r1.2.2
  if uncachedKeys.length > 0 then
    let r2 := uncachedKeys.foldl (CacheMap.claimKey now) (r1.1, [], false)
    let unCachedDataMap := r2.2.1
    if unCachedDataMap.length > 0 then
      let c2 := r2.1
      let updatedStatus := c2.nextAddr
      let status : CacheItem V := { CacheItem.zero with initCutOffTime := now + c2.waitTimeout }
      let c3 : CacheMap K V :=
        { c2 with items := Function.update c2.items updatedStatus status
                  nextAddr := updatedStatus + 1 }
      let tasks : List (Task K) :=
        if c3.hasLoadDataBatch then [Task.updateBatch unCachedDataMap updatedStatus]
        else unCachedDataMap.map (fun p => Task.updateData p.1 p.2)
      { cache := c3, data := r1.2.1, unCachedDataMap := unCachedDataMap
        hasNonExistKey := r2.2.2, updatedStatus := some updatedStatus, tasks := tasks }
    else
      { cache := r2.1, data := r1.2.1, unCachedDataMap := unCachedDataMap
        hasNonExistKey := r2.2.2, updatedStatus := none, tasks := [] }
  else
    { cache := r1.1, data := r1.2.1, unCachedDataMap := []
      hasNonExistKey := false, updatedStatus := none, tasks := [] }

/-- CacheMap.GetMany (datacachemap.go, lines 253-344) executed with nothing
else running in between. -/
def CacheMap.GetMany {K V : Type} [DecidableEq K] [Inhabited V] (fuel : Nat)
    (c : CacheMap K V) (keys : List K) (now : Int) : Option (MapResult K V (List (K × V))) :=
  let s := c.getManyStart keys now
  let done (sleeps : Nat) : MapResult K V (List (K × V)) :=
    { cache := s.cache, tasks := s.tasks, sleeps := sleeps
      value := s.cache.readBack s.unCachedDataMap s.data }
  match s.updatedStatus with
  | none => some (done 0)
  | some updatedStatus =>
    if s.hasNonExistKey then
      match waitLoop (fun _ => (s.cache.items updatedStatus).initCutOffTime) fuel 0 now with
      | none => none
      | some w => some (done w.2)
    else some (done 0)

/-- Successive DataCache.Get calls at the given times, each run to its end
before the next, with no load result applied in between.  Returns the final
cache and the result of every call. -/
def DataCache.getAll {T : Type} (fuel : Nat) (c : DataCache T) :
    List Int → Option (DataCache T × List (GetResult T))
  | [] => some (c, [])
  | now :: rest =>
    match c.Get fuel now with
    | none => none
    | some r =>
      match DataCache.getAll fuel r.cache rest with
      | none => none
      | some q => some (q.1, r :: q.2)

/-- Successive CacheMap.Get calls on one key at the given times, each run to
its end before the next, with no load result applied in between.  Returns the
final map and, for every call, the goroutines it started and its value. -/
def CacheMap.getAll {K V : Type} [DecidableEq K] [Inhabited V] (fuel : Nat)
    (c : CacheMap K V) (key : K) : List Int → Option (CacheMap K V × List (List (Task K) × V))
  | [] => some (c, [])
  | now :: rest =>
    match c.Get fuel key now with
    | none => none
    | some r =>
      match CacheMap.getAll fuel r.cache key rest with
      | none => none
      | some q => some (q.1, (r.tasks, r.value) :: q.2)

/-! ## Predicates on the keyed map -/

/-- Every key of the map points to an allocated item. -/
def CacheMap.wellFormed {K V : Type} (c : CacheMap K V) : Prop :=
  ∀ p ∈ c.dataMap, p.2 < c.nextAddr

/-- The map `c1` differs from `c` at most in eviction times. -/
structure CacheMap.SameEntries {K V : Type} (c c1 : CacheMap K V) : Prop where
  dataMap : c1.dataMap = c.dataMap
  nextAddr : c1.nextAddr = c.nextAddr
  hasLoadDataBatch : c1.hasLoadDataBatch = c.hasLoadDataBatch
  expiration : c1.expiration = c.expiration
  expirationOnErr : c1.expirationOnErr = c.expirationOnErr
  retryInterval : c1.retryInterval = c.retryInterval
  waitTimeout : c1.waitTimeout = c.waitTimeout
  evictTimeout : c1.evictTimeout = c.evictTimeout
  data : ∀ a, (c1.items a).data = (c.items a).data
  nextUpdateTime : ∀ a, (c1.items a).nextUpdateTime = (c.items a).nextUpdateTime
  initCutOffTime : ∀ a, (c1.items a).initCutOffTime = (c.items a).initCutOffTime

/-- The map `c1` has the policy of `c`. -/
structure CacheMap.SamePolicy {K V : Type} (c c1 : CacheMap K V) : Prop where
  hasLoadDataBatch : c1.hasLoadDataBatch = c.hasLoadDataBatch
  expiration : c1.expiration = c.expiration
  expirationOnErr : c1.expirationOnErr = c.expirationOnErr
  retryInterval : c1.retryInterval = c.retryInterval
  waitTimeout : c1.waitTimeout = c.waitTimeout
  evictTimeout : c1.evictTimeout = c.evictTimeout

/-- The key is uncached for a GetMany call at time `now`: it is not in the
map, or its item passes the test `now > nextUpdateTime`. -/
def CacheMap.uncached {K V : Type} [DecidableEq K] (c : CacheMap K V) (now : Int) (key : K) :
    Prop :=
  mapGet c.dataMap key = none ∨
    ∃ item, mapGet c.dataMap key = some item ∧ (c.items item).nextUpdateTime < now

/-- The key is in the map and the gate of its item stands at
`now + retryInterval`: a call at time `now` has claimed its refresh. -/
def CacheMap.claimed {K V : Type} [DecidableEq K] (c : CacheMap K V) (now : Int) (key : K) :
    Prop :=
  ∃ item, mapGet c.dataMap key = some item ∧
    (c.items item).nextUpdateTime = now + c.retryInterval

/-- Times of successive calls, each at least `gap` after the one before. -/
def spacedAtLeast (gap : Int) : List Int → Prop
  | [] => True
  | [_] => True
  | t :: t1 :: rest => t + gap ≤ t1 ∧ spacedAtLeast gap (t1 :: rest)

/-- Times of successive calls, each more than `gap` after the one before. -/
def spacedMoreThan (gap : Int) : List Int → Prop
  | [] => True
  | [_] => True
  | t :: t1 :: rest => t + gap < t1 ∧ spacedMoreThan gap (t1 :: rest)

/-- Successive DataCache.Get calls on a cache whose callback always fails.  A
call is (now, data, done): Get is called at `now`, and when it starts a load
the callback returns `data` with an error and the goroutine ends at `done`,
before the next call.  Returns the final cache and the number of callback
invocations. -/
def DataCache.getFailing {T : Type} (fuel : Nat) (c : DataCache T) :
    List (Int × T × Int) → Option (DataCache T × Nat)
  | [] => some (c, 0)
  | call :: rest =>
    match c.Get fuel call.1 with
    | none => none
    | some r =>
      let c1 := if r.doUpdate then r.cache.loadTask call.2.1 true call.2.2 else r.cache
      match DataCache.getFailing fuel c1 rest with
      | none => none
      | some q => some (q.1, (if r.doUpdate then 1 else 0) + q.2)

/-- The end of a goroutine of the keyed map whose callback returned `data`
(for a single key, the value `data[key]`) together with an error. -/
def CacheMap.finishErr {K V : Type} [DecidableEq K] [Inhabited V] (data : List (K × V))
    (now : Int) (c : CacheMap K V) : Task K → CacheMap K V
  | Task.updateData key item => c.updateData item (valueOrZero (mapGet data key)) true now
  | Task.updateBatch unCachedDataMap updatedStatus =>
    c.updateBatch unCachedDataMap updatedStatus data true now

/-- Successive CacheMap.GetMany calls for the same keys on a map whose
callbacks always fail.  A call is (now, data, done): GetMany is called at
`now`, and every goroutine it starts gets `data` with an error from its
callback and ends at `done`, before the next call.  Returns the final map and
the number of callback invocations. -/
def CacheMap.getManyFailing {K V : Type} [DecidableEq K] [Inhabited V] (fuel : Nat)
    (c : CacheMap K V) (keys : List K) :
    List (Int × List (K × V) × Int) → Option (CacheMap K V × Nat)
  | [] => some (c, 0)
  | call :: rest =>
    match c.GetMany fuel keys call.1 with
    | none => none
    | some r =>
      let c1 := r.tasks.foldl (CacheMap.finishErr call.2.1 call.2.2) r.cache
      match CacheMap.getManyFailing fuel c1 keys rest with
      | none => none
      | some q => some (q.1, r.tasks.length + q.2)

/-! ## One entry with its goroutines -/

/-- A single-value cache together with its goroutines: `running` holds, for
every load goroutine started and not yet finished, the `now` of the Get call
that started it. -/
structure CacheSys (T : Type) where
  cache : DataCache T
  running : List Int
  deriving DecidableEq, Repr

/-- What can happen to a single-value cache: a Get call runs its refresh
section, or the callback of the `i`-th running goroutine returns and the
goroutine runs to its end. -/
inductive CacheEvent (T : Type) where
  | get (now snapshot : Int)
  | done (i : Nat) (data : T) (err : Bool) (now : Int)
  deriving DecidableEq, Repr

/-- One event on a single-value cache. -/
def CacheSys.step {T : Type} (s : CacheSys T) : CacheEvent T → CacheSys T
  | CacheEvent.get now snapshot =>
    let r := s.cache.refreshFrom snapshot now
    { cache := r.1, running := if r.2 then s.running ++ [now] else s.running }
  | CacheEvent.done i data err now =>
    if i < s.running.length then
      { cache := s.cache.loadTask data err now, running := s.running.eraseIdx i }
    else s

/-- A sequence of events on a single-value cache. -/
def CacheSys.run {T : Type} (s : CacheSys T) (events : List (CacheEvent T)) : CacheSys T :=
  events.foldl CacheSys.step s

/-- Every Get call of the sequence comes less than `retryInterval` after the
start of each load that is still running when it is made: no load outlives
its retry window. -/
def CacheSys.timely {T : Type} (s : CacheSys T) : List (CacheEvent T) → Prop
  | [] => True
  | e :: rest =>
    (match e with
      | CacheEvent.get now _ => ∀ t ∈ s.running, now < t + s.cache.retryInterval
      | CacheEvent.done _ _ _ _ => True) ∧
    CacheSys.timely (s.step e) rest

/-- The invariant behind C2: no load is running, or exactly one is, started at
`t`, and the gate stands at `t + retryInterval`. -/
def CacheSys.gated {T : Type} (s : CacheSys T) : Prop :=
  s.running = [] ∨
    ∃ t, s.running = [t] ∧ s.cache.nextUpdateTime = t + s.cache.retryInterval

/-- A keyed map together with its single-key goroutines: `running` holds, for
every `updateData` goroutine started and not yet finished, the address of its
item and the `now` of the call that started it. -/
structure MapSys (K V : Type) where
  cache : CacheMap K V
  running : List (Nat × Int)

/-- What can happen to a keyed map, one locked region at a time: a Get call
runs lines 141-162 (`lookup`), a Get call holding the pointer `item` runs the
gate of lines 165-176 (`gate`) or line 191 (`touch`), the sweep runs
(`evict`), or the callback of the `i`-th running goroutine returns and the
goroutine runs to its end (`done`).  A Get call is `lookup`, then `gate` and
`touch` on the item it found, with anything else in between. -/
inductive MapEvent (K V : Type) where
  | lookup (key : K) (now : Int)
  | gate (item : Nat) (snapshot now : Int)
  | touch (item : Nat) (now : Int)
  | evict (now : Int)
  | done (i : Nat) (data : V) (err : Bool) (now : Int)

/-- One event on a keyed map.  Pointers held by callers point to allocated
items, so a gate on an unallocated address does nothing. -/
def MapSys.step {K V : Type} [DecidableEq K] (s : MapSys K V) : MapEvent K V → MapSys K V
  | MapEvent.lookup key now =>
    let l := s.cache.lookupOrCreate key now
    { cache := l.1, running := if l.2.2 then s.running ++ [(l.2.1, now)] else s.running }
  | MapEvent.gate item snapshot now =>
    if item < s.cache.nextAddr then
      let r := s.cache.refreshItemFrom item snapshot now
      { cache := r.1, running := if r.2 then s.running ++ [(item, now)] else s.running }
    else s
  | MapEvent.touch item now => { s with cache := s.cache.updateEvictTime item now }
  | MapEvent.evict now => { s with cache := s.cache.evictKeys now }
  | MapEvent.done i data err now =>
    match s.running[i]? with
    | some p =>
      { cache := s.cache.updateData p.1 data err now, running := s.running.eraseIdx i }
    | none => s

/-- A sequence of events on a keyed map. -/
def MapSys.run {K V : Type} [DecidableEq K] (s : MapSys K V) (events : List (MapEvent K V)) :
    MapSys K V :=
  events.foldl MapSys.step s

/-- Every gate of the sequence comes less than `retryInterval` after the start
of each load of the same item that is still running when the gate is passed. -/
def MapSys.timely {K V : Type} [DecidableEq K] (s : MapSys K V) :
    List (MapEvent K V) → Prop
  | [] => True
  | e :: rest =>
    (match e with
      | MapEvent.gate item _ now =>
        ∀ p ∈ s.running, p.1 = item → now < p.2 + s.cache.retryInterval
      | _ => True) ∧
    MapSys.timely (s.step e) rest

/-- The number of loads of the item at address `item` in flight. -/
def MapSys.inFlight {K V : Type} (s : MapSys K V) (item : Nat) : Nat :=
  (s.running.filter (fun p => decide (p.1 = item))).length

/-- The invariant behind C2 on the keyed map: running loads are on allocated
items, no two on the same item, and the gate of an item with a running load
started at `t` stands at `t + retryInterval`. -/
def MapSys.gated {K V : Type} (s : MapSys K V) : Prop :=
  (∀ p ∈ s.running, p.1 < s.cache.nextAddr) ∧
  s.running.Pairwise (fun p q => p.1 ≠ q.1) ∧
  (∀ p ∈ s.running, (s.cache.items p.1).nextUpdateTime = p.2 + s.cache.retryInterval)

/-- A single-value cache built with default retry interval and no initial
data: expiration 20 ms, wait timeout 1 ms, errors not cached. -/
def exampleCache : DataCache Nat :=
  NewDataCache
    { WithInitData := false, InitData := 0, Expiration := 20, ExpirationOnErr := 0,
      RetryInterval := 0, WaitTimeout := 1 } 5

/-- A keyed map with expiration 20 ms, eviction timeout 30 ms, retry interval
10 ms and wait timeout 1 ms that holds key 7 in the item at address 0, loaded
with value 41 and due for refresh after time 500. -/
def exampleMap : CacheMap Nat Nat :=
  { dataMap := [(7, 0)]
    items := Function.update (fun _ => CacheItem.zero) 0
      { data := some 41, nextUpdateTime := 500, initCutOffTime := 100, evictTime := 30000000 }
    nextAddr := 1
    hasLoadDataBatch := true
    expiration := 20000000
    expirationOnErr := 0
    retryInterval := 10000000
    waitTimeout := 1000000
    evictTimeout := 30000000 }

/-- Two Get calls (now, snapshot) inside the retry window, one second long,
that a call at time 1000 opens on the example cache. -/
def exampleCalls : List (Int × Int) := [(1500, 0), (1000000999, 1000001000)]

/-- Two Get calls (now, snapshot) inside the retry window, 10 ms long, that a
call at time 1000 opens on key 7 of the example map. -/
def exampleMapCalls : List (Int × Int) := [(1500, 500), (10000999, 10001000)]

/-- Events on the example cache in which the load started at time 1000 fails
at time 2000, before the next Get passes the gate one second later. -/
def exampleEvents : List (CacheEvent Nat) :=
  [CacheEvent.get 1000 0, CacheEvent.get 1500 0, CacheEvent.done 0 5 true 2000,
    CacheEvent.get 1000001000 1000001000]

/-- Events on the example map: a Get on the new key 8 at time 1000, whose load
returns 3 at time 2000, and a Get on the same key after the expiration. -/
def exampleMapEvents : List (MapEvent Nat Nat) :=
  [MapEvent.lookup 8 1000, MapEvent.gate 1 10001000 1000, MapEvent.touch 1 1001000,
    MapEvent.done 0 3 false 2000, MapEvent.lookup 8 30000000,
    MapEvent.gate 1 20002000 30000000, MapEvent.evict 30000001]

/-- A cutoff that a load completion pulls back from 1001000 to 600000 while
the reader polls. -/
def exampleCutoff : Nat → Int
  | 0 => 1001000
  | _ => 600000

/-- The two Get calls of the test `without init data ... without cache on
err` (datacache_test.go, lines 93-104), 30 ms apart, as (now, data, done):
the failing callback returns its counter 10 ms after the load is started. -/
def exampleTestCalls : List (Int × Nat × Int) :=
  [(1000, 1, 10001000), (30001000, 2, 40001000)]

/-- Two Get calls one second apart on a cache whose callback fails. -/
def exampleRetryCalls : List (Int × Nat × Int) :=
  [(1000, 1, 10001000), (1000001000, 2, 1010001000)]

/-- Two GetMany calls 20 ms apart on a map whose batch callback fails and
returns a nil map. -/
def exampleManyCalls : List (Int × List (Nat × Nat) × Int) :=
  [(1000, [], 10001000), (20000000, [], 30000000)]

/-- The zero value of CacheMapOption with no batch callback: what
`&CacheMapOption{LoadData: f}` holds. -/
def zeroMapOption : CacheMapOption :=
  { HasLoadDataBatch := false, Expiration := 0, ExpirationOnErr := 0, EvictTimeout := 0,
    RetryInterval := 0, WaitTimeout := 0 }

/-- The options of TestDataCacheMap: expiration 20 ms, eviction timeout 30 ms,
wait timeout 1 ms. -/
def testMapOption : CacheMapOption :=
  { HasLoadDataBatch := false, Expiration := 20, ExpirationOnErr := 0, EvictTimeout := 30,
    RetryInterval := 0, WaitTimeout := 1 }

/-- A single-value cache with the default wait timeout 0 and no initial
data: expiration 50 ms, default retry interval. -/
def exampleZeroWait : DataCache Nat :=
  NewDataCache
    { WithInitData := false, InitData := 0, Expiration := 50, ExpirationOnErr := 0,
      RetryInterval := 0, WaitTimeout := 0 } 5

/-- The example map with the default wait timeout 0. -/
def exampleZeroWaitMap : CacheMap Nat Nat :=
  { exampleMap with waitTimeout := 0 }

/-- No two pairs of the map have the same key, as in a Go map. -/
def CacheMap.uniqueKeys {K V : Type} (c : CacheMap K V) : Prop :=
  (c.dataMap.map Prod.fst).Nodup

/-- Every item allocated in `c` is still allocated in `c1`, with an eviction
time that is not earlier. -/
def CacheMap.evictMono {K V : Type} (c c1 : CacheMap K V) : Prop :=
  c.nextAddr ≤ c1.nextAddr ∧
    ∀ a, a < c.nextAddr → (c.items a).evictTime ≤ (c1.items a).evictTime

/-- The value that a read of `key` finds in the map: the value stored in the
item of the key, the zero value of `V` when the key is not in the map or its
item has no value. -/
def CacheMap.valueOf {K V : Type} [DecidableEq K] [Inhabited V] (c : CacheMap K V) (key : K) :
    V :=
  match mapGet c.dataMap key with
  | none => default
  | some item => valueOrZero (c.items item).data

/-- The state of CacheMap.GetMany after its first loop (datacachemap.go,
lines 259-280): the map, `data` and `uncachedKeys`. -/
def CacheMap.afterRead {K V : Type} [DecidableEq K] [Inhabited V] (c : CacheMap K V)
    (keys : List K) (now : Int) : CacheMap K V × List (K × V) × List K :=
  keys.foldl (CacheMap.readKey now) (c, [], [])

/-- The state of CacheMap.GetMany after its second loop (datacachemap.go,
lines 285-302): the map, `unCachedDataMap` and `hasNonExistKey`. -/
def CacheMap.afterClaim {K V : Type} [DecidableEq K] [Inhabited V] (c : CacheMap K V)
    (keys : List K) (now : Int) : CacheMap K V × List (K × Nat) × Bool :=
  (c.afterRead keys now).2.2.foldl (CacheMap.claimKey now) ((c.afterRead keys now).1, [], false)

/-- The allocation of the status item of CacheMap.GetMany (datacachemap.go,
lines 305-307) at the first free address. -/
def CacheMap.withStatus {K V : Type} (c : CacheMap K V) (now : Int) : CacheMap K V :=
  { c with items := Function.update c.items c.nextAddr
             { CacheItem.zero with initCutOffTime := now + c.waitTimeout }
           nextAddr := c.nextAddr + 1 }

/-- The times at which loads are started during a sequence of events on a
single-value cache, in order. -/
def CacheSys.starts {T : Type} (s : CacheSys T) : List (CacheEvent T) → List Int
  | [] => []
  | e :: rest =>
    (match e with
      | CacheEvent.get now snapshot =>
        if (s.cache.refreshFrom snapshot now).2 then [now] else []
      | CacheEvent.done _ _ _ _ => []) ++ CacheSys.starts (s.step e) rest

/-- The event applies no load result to a cache with the given
`expirationOnErr`: it is a Get call, or the end of a goroutine whose callback
failed while errors are not cached. -/
def CacheEvent.appliesNothing {T : Type} (expirationOnErr : Int) : CacheEvent T → Prop
  | CacheEvent.get _ _ => True
  | CacheEvent.done _ _ err _ => err = true ∧ expirationOnErr ≤ 0

/-- The times at which loads of the item at address `item` are started during
a sequence of events on a keyed map, in order. -/
def MapSys.starts {K V : Type} [DecidableEq K] (s : MapSys K V) (item : Nat) :
    List (MapEvent K V) → List Int
  | [] => []
  | e :: rest =>
    (match e with
      | MapEvent.lookup key now =>
        if (s.cache.lookupOrCreate key now).2.2 && decide ((s.cache.lookupOrCreate key now).2.1 = item)
        then [now] else []
      | MapEvent.gate it snapshot now =>
        if decide (it = item) && decide (it < s.cache.nextAddr) &&
          (s.cache.refreshItemFrom it snapshot now).2
        then [now] else []
      | _ => []) ++ MapSys.starts (s.step e) item rest

/-- The event applies no load result to a map with the given
`expirationOnErr`. -/
def MapEvent.appliesNothing {K V : Type} (expirationOnErr : Int) : MapEvent K V → Prop
  | MapEvent.done _ _ err _ => err = true ∧ expirationOnErr ≤ 0
  | _ => True

/-- The first block of TestDataCache (datacache_test.go, lines 72-81) up to
its third call: a Get at time 1000 starts a load, the load returns 1 after
10 ms, and the Get 100 ms after the first one starts the next load. -/
def exampleRefreshEvents : List (CacheEvent Nat) :=
  [CacheEvent.get 1000 0, CacheEvent.done 0 1 false 10001000,
    CacheEvent.get 100001000 60001000]

/-- Events on the example cache after a load was started at time 1000: the
load fails, a Get inside the retry window, a Get one second later. -/
def exampleFailEvents : List (CacheEvent Nat) :=
  [CacheEvent.done 0 9 true 10001000, CacheEvent.get 30001000 1000001000,
    CacheEvent.get 1000001000 1000001000]

/-- Events on the example map after a load of item 0 was started at time
1000: the load fails, a Get 10 ms later, a Get later than that. -/
def exampleMapFailEvents : List (MapEvent Nat Nat) :=
  [MapEvent.done 0 9 true 5001000, MapEvent.lookup 7 10001000,
    MapEvent.gate 0 10001000 10001000, MapEvent.lookup 7 10001001,
    MapEvent.gate 0 10001000 10001001]

/-- What the second loop of CacheMap.GetMany maintains, `c1` being the map
and `uncachedKeys` the list at its start: the map stays well formed and holds
the same values; `unCachedDataMap` sends keys of `uncachedKeys` to their
items and holds every key that the loop has added to the map; the keys that
were in the map stay where they were; and `hasNonExistKey` is set only when a
key of `uncachedKeys` was not in the map. -/
structure CacheMap.ClaimInv {K V : Type} [DecidableEq K] [Inhabited V] (c1 : CacheMap K V)
    (uncachedKeys : List K) (st : CacheMap K V × List (K × Nat) × Bool) : Prop where
  wf : st.1.wellFormed
  value : ∀ k, st.1.valueOf k = c1.valueOf k
  linked : ∀ p ∈ st.2.1, mapGet st.1.dataMap p.1 = some p.2
  listed : ∀ p ∈ st.2.1, p.1 ∈ uncachedKeys
  created : ∀ k, mapGet c1.dataMap k = none → (∃ a, mapGet st.1.dataMap k = some a) →
    ∃ p ∈ st.2.1, p.1 = k
  kept : ∀ k a, mapGet c1.dataMap k = some a → mapGet st.1.dataMap k = some a
  flag : st.2.2 = true → ∃ k ∈ uncachedKeys, mapGet c1.dataMap k = none

/-- What a caller of CacheMap.GetMany reads from `updatedStatus.initCutOffTime`
in iteration `j` of its polling loop (datacachemap.go, lines 319-321) when the
updateBatch goroutine, whose callback returned `data` and `err`, finishes at
time `t` between the readings `i - 1` and `i`. -/
def CacheMap.markerReadings {K V : Type} [DecidableEq K] [Inhabited V] (c : CacheMap K V)
    (unCachedDataMap : List (K × Nat)) (updatedStatus : Nat) (data : List (K × V))
    (err : Bool) (t : Int) (i : Nat) (j : Nat) : Int :=
  if j < i then (c.items updatedStatus).initCutOffTime
  else ((c.updateBatch unCachedDataMap updatedStatus data err t).items updatedStatus).initCutOffTime

/-- The example map after the locked part of a GetMany for key 8 at time 1000:
key 8 has the new item at address 1 and the batch marker is at address 2. -/
def exampleBatchCache : CacheMap Nat Nat := (exampleMap.getManyStart [8] 1000).cache

/-- CacheMap.updateBatch (datacachemap.go, lines 219-248) as a whole, with the
batch callback `loadDataBatch` (its result: the map, and whether `err != nil`)
and the clock reading `now` of line 234.  `uncachedKeys` is built from the
keys of `unCachedDataMap` (lines 220-223).  Returns the map afterwards and the
arguments of every call of the callback, in order. -/
def CacheMap.runBatch {K V : Type} [DecidableEq K] [Inhabited V] (c : CacheMap K V)
    (loadDataBatch : List K → List (K × V) × Bool) (unCachedDataMap : List (K × Nat))
    (updatedStatus : Nat) (now : Int) : CacheMap K V × List (List K) :=
  let uncachedKeys := unCachedDataMap.map Prod.fst
  let r := loadDataBatch uncachedKeys
  (c.updateBatch unCachedDataMap updatedStatus r.1 r.2 now, [uncachedKeys])

/-- A batch callback that fails with a nil map, as `sleepGetBatchNilDataMapErr`
of the tests does. -/
def nilBatchErr : List Nat → List (Nat × Nat) × Bool := fun _ => ([], true)

/-- A batch callback that knows key 8 only. -/
def exampleBatchLoad : List Nat → List (Nat × Nat) × Bool := fun _ => ([(8, 5)], false)

/-- The example map after the locked part of a GetMany for the keys 8 and 9 at
time 1000: the new items are at the addresses 1 and 2, the marker at 3. -/
def exampleBatchCache2 : CacheMap Nat Nat := (exampleMap.getManyStart [8, 9] 1000).cache

/-- The load goroutines that have returned by the time `now`, applied in the
order in which they were started.  `pending` holds the time at which each
running load returns; the callback never fails and returns the number of times
it has returned so far, `counter` before the call (sleepGetData of
datacache_test.go, lines 12-16).  Returns the cache, the counter and the loads
still running. -/
def DataCache.applyFinished (c : DataCache Int) (counter : Int) :
    List Int → Int → DataCache Int × Int × List Int
  | [], _ => (c, counter, [])
  | t :: rest, now =>
    if t ≤ now then
      DataCache.applyFinished (c.loadTask (counter + 1) false t) (counter + 1) rest now
    else
      let q := DataCache.applyFinished c counter rest now
      (q.1, q.2.1, t :: q.2.2)

/-- Successive DataCache.Get calls at the given times against a load callback
that takes `delay` and returns an incrementing counter: before each call the
loads that have returned are applied, and a load started by a call returns
`delay` after the call.  Gives the values the calls return. -/
def DataCache.scenario (fuel : Nat) (delay : Int) :
    DataCache Int → Int → List Int → List Int → Option (List Int)
  | _, _, _, [] => some []
  | c, counter, pending, t :: rest =>
    let a := c.applyFinished counter pending t
    match a.1.Get fuel t with
    | none => none
    | some r =>
      let started := if r.doUpdate then [t + delay] else []
      match DataCache.scenario fuel delay r.cache a.2.1 (a.2.2 ++ started) rest with
      | none => none
      | some vs => some (r.value :: vs)

/-- The options of the first cache of TestDataCache (datacache_test.go, lines
73-77): initial data 0, expiration 50 ms, the rest unset. -/
def scenarioOption : CacheInitOption Int :=
  { WithInitData := false, InitData := 0, Expiration := 50, ExpirationOnErr := 0,
    RetryInterval := 0, WaitTimeout := 0 }

/-- A step of a scenario on the keyed map: a Get on the key of the scenario,
or an eviction sweep, at the given time. -/
inductive MapCall where
  | get (t : Int)
  | sweep (t : Int)
  deriving DecidableEq, Repr

/-- What a step of a scenario on the keyed map shows: the value a Get
returned, or whether the key is still in the map after a sweep. -/
inductive MapSeen (V : Type) where
  | value (v : V)
  | kept (b : Bool)
  deriving DecidableEq, Repr

/-- The updateData goroutines that have returned by the time `now`, applied in
the order in which they were started.  `pending` holds, for each running load,
the time at which it returns and its item; the callback never fails and returns
the number of times it has returned so far for the key (sleepGetDataMap of
datacachemap_test.go, lines 19-30, which returns a pointer).  Returns the map,
the counter and the loads still running. -/
def CacheMap.applyFinished {K : Type} (c : CacheMap K (Option Int)) (counter : Int) :
    List (Int × Nat) → Int → CacheMap K (Option Int) × Int × List (Int × Nat)
  | [], _ => (c, counter, [])
  | p :: rest, now =>
    if p.1 ≤ now then
      CacheMap.applyFinished (c.updateData p.2 (some (counter + 1)) false p.1) (counter + 1)
        rest now
    else
      let q := CacheMap.applyFinished c counter rest now
      (q.1, q.2.1, p :: q.2.2)

/-- The updateData goroutines among `tasks`, each with the time `finish` at
which it returns. -/
def startedLoads {K : Type} (tasks : List (Task K)) (finish : Int) : List (Int × Nat) :=
  tasks.filterMap (fun task =>
    match task with
    | Task.updateData _ item => some (finish, item)
    | Task.updateBatch _ _ => none)

/-- Successive Get calls on `key` and eviction sweeps at the given times
against a per-key load callback that takes `delay` and returns an incrementing
counter: before each step the loads that have returned are applied, and a load
started by a Get returns `delay` after the call. -/
def CacheMap.scenario {K : Type} [DecidableEq K] (fuel : Nat) (delay : Int) (key : K) :
    CacheMap K (Option Int) → Int → List (Int × Nat) → List MapCall →
      Option (List (MapSeen (Option Int)))
  | _, _, _, [] => some []
  | c, counter, pending, MapCall.get t :: rest =>
    let a := c.applyFinished counter pending t
    match a.1.Get fuel key t with
    | none => none
    | some r =>
      match CacheMap.scenario fuel delay key r.cache a.2.1
          (a.2.2 ++ startedLoads r.tasks (t + delay)) rest with
      | none => none
      | some vs => some (MapSeen.value r.value :: vs)
  | c, counter, pending, MapCall.sweep t :: rest =>
    let a := c.applyFinished counter pending t
    let c1 := a.1.evictKeys t
    match CacheMap.scenario fuel delay key c1 a.2.1 a.2.2 rest with
    | none => none
    | some vs => some (MapSeen.kept (mapGet c1.dataMap key).isSome :: vs)

/-- The steps of the scenario of TestDataCacheMap from the time `T0` on: Get
calls after 0, 15, 35 and 50 ms, sweeps after 30 and 60 ms. -/
def mapScenarioCalls (T0 : Int) : List MapCall :=
  [MapCall.get T0, MapCall.get (T0 + 15 * MilliToNanoSecond),
    MapCall.sweep (T0 + 30 * MilliToNanoSecond), MapCall.get (T0 + 35 * MilliToNanoSecond),
    MapCall.get (T0 + 50 * MilliToNanoSecond), MapCall.sweep (T0 + 60 * MilliToNanoSecond)]

/-- The scenario of TestDataCacheMap on a new map with the options of the
test, from the time `T0` on, for the key "1". -/
def mapScenario (fuel : Nat) (T0 : Int) : Option (List (MapSeen (Option Int))) :=
  match (NewCacheMap testMapOption : Option (CacheMap String (Option Int))) with
  | none => none
  | some c => c.scenario fuel (10 * MilliToNanoSecond) "1" 0 [] (mapScenarioCalls T0)

/-- A map built with the options of TestDataCacheMap that holds the key "1"
alone, in the item `it` at address 0. -/
def oneKeyMap (it : CacheItem (Option Int)) : CacheMap String (Option Int) :=
  { dataMap := [("1", 0)]
    items := Function.update (fun _ => CacheItem.zero) 0 it
    nextAddr := 1
    hasLoadDataBatch := false
    expiration := 20000000
    expirationOnErr := 0
    retryInterval := 1000000000
    waitTimeout := 1000000
    evictTimeout := 30000000 }

/-- Events on the example cache: a Get at time 1000 starts load A, a Get one
retry interval later starts load B while A is still running, B returns 2 and
then A returns 1. -/
def exampleStaleEvents : List (CacheEvent Nat) :=
  [CacheEvent.get 1000 0, CacheEvent.get 1000001000 1000001000,
    CacheEvent.done 1 2 false 1000002000, CacheEvent.done 0 1 false 1000003000]

/-- Events on the item of key 7 of the example map: the gate passed at time
1000 starts load A, the gate passed just over one retry interval later starts
load B while A is still running, B returns 2 and then A returns 1. -/
def exampleMapStaleEvents : List (MapEvent Nat Nat) :=
  [MapEvent.gate 0 500 1000, MapEvent.gate 0 10001000 10001001,
    MapEvent.done 1 2 false 10002000, MapEvent.done 0 1 false 10003000]

/-- The key is in the map with an eviction time of at least `t + evictTimeout`:
the state an access at time `t` leaves behind. -/
def CacheMap.touched {K V : Type} [DecidableEq K] (c : CacheMap K V) (t : Int) (key : K) :
    Prop :=
  ∃ item, mapGet c.dataMap key = some item ∧ t + c.evictTimeout ≤ (c.items item).evictTime

/-- The invariant of the second loop of GetMany behind C29: the map is
well-formed with unique keys, its eviction timeout is `E`, and every key of
`keys` that is in the map has an eviction time of at least `now + E`. -/
structure CacheMap.TouchInv {K V : Type} [DecidableEq K] (E now : Int) (keys : List K)
    (c : CacheMap K V) : Prop where
  wf : c.wellFormed
  unique : c.uniqueKeys
  policy : c.evictTimeout = E
  fresh : ∀ k ∈ keys, ∀ a, mapGet c.dataMap k = some a → now + E ≤ (c.items a).evictTime

end Datacache

namespace Uniqueid

/-! ## uniqueid/generator.go

Values of type uint64 are natural numbers below `2 ^ 64`; the operations that
can leave that range are reduced modulo `2 ^ 64`.  The clock is an input: each
call of `snowflakeID` takes the reading of `time.Now().UnixMilli()` of line
107.  The block cipher is a function on 64-bit blocks. -/

/-- The epoch 2020-01-01T00:00:00Z in milliseconds (generator.go, line 21). -/
def epoch : Nat := 1577836800000

/-- The constant nodeBits (generator.go, line 22). -/
def nodeBits : Nat := 12

/-- The constant stepBits (generator.go, line 24). -/
def stepBits : Nat := 10

/-- The constant maxReservedId (generator.go, line 25). -/
def maxReservedId : Nat := 0xffffffff

/-- The number of values of type uint64. -/
def word : Nat := 2 ^ 64

/-- The struct generatorImpl (generator.go, lines 28-39) without the lock, the
unused field `epoch` and the cipher. -/
structure generatorImpl where
  lastTime : Nat
  nodeID : Nat
  step : Nat
  stepMax : Nat
  timeShift : Nat
  nodeShift : Nat
  deriving DecidableEq, Repr

/-- NewGenerator (generator.go, lines 41-58); `none` is an error return.
`keyLen` is `len(key)`: `xtea.NewCipher` fails unless it is 16.  The Go
expression `-1 ^ (-1 << n)` is `2 ^ n - 1`. -/
def NewGenerator (keyLen : Nat) (nodeID : Int) : Option generatorImpl :=
  let nodeMax : Int := 2 ^ nodeBits - 1
  if nodeID < 0 ∨ nodeID > nodeMax then none
  else if keyLen ≠ 16 then none
  else
    some { lastTime := 0
           nodeID := nodeID.toNat
           step := 0
           stepMax := 2 ^ stepBits - 1
           timeShift := nodeBits + stepBits
           nodeShift := stepBits }

/-- The method snowflakeID (generator.go, lines 106-119) with the clock reading
`clock` in milliseconds; returns the generator afterwards and the plain ID. -/
def generatorImpl.snowflakeID (g : generatorImpl) (clock : Int) : generatorImpl × Nat :=
  let now : Nat := ((clock - (epoch : Int)) % (word : Int)).toNat
  let g1 : generatorImpl :=
    if now ≤ g.lastTime then
      let g2 := { g with step := (g.step + 1) % word }
      if g2.step > g2.stepMax then { g2 with lastTime := (g2.lastTime + 1) % word, step := 0 }
      else g2
    else { g with lastTime := now, step := 0 }
  (g1, ((g1.lastTime <<< g1.timeShift) % word) ||| ((g1.nodeID <<< g1.nodeShift) % word)
    ||| g1.step)

/-- The method NewID (generator.go, lines 91-104) with the cipher `block` on
64-bit blocks.  Every iteration of the loop takes one clock reading from
`clocks`; returns the generator afterwards, the ID and the readings left, and
`none` when the readings run out before an ID above `maxReservedId` comes up. -/
def generatorImpl.NewID (block : Nat → Nat) :
    generatorImpl → List Int → Option (generatorImpl × Nat × List Int)
  | _, [] => none
  | g, clock :: rest =>
    let r := g.snowflakeID clock
    let cipherID := block r.2
    if cipherID > maxReservedId then some (r.1, cipherID, rest)
    else generatorImpl.NewID block r.1 rest

/-- Successive snowflakeID calls, one for each clock reading: the generator
after each call with the plain ID the call returned. -/
def generatorImpl.run (g : generatorImpl) : List Int → List (generatorImpl × Nat)
  | [] => []
  | clock :: rest => g.snowflakeID clock :: generatorImpl.run (g.snowflakeID clock).1 rest

/-- Successive NewID calls, `n` of them, drawing on the clock readings
`clocks`: the IDs returned, `none` when the readings run out. -/
def generatorImpl.newIDs (block : Nat → Nat) :
    Nat → generatorImpl → List Int → Option (List Nat)
  | 0, _, _ => some []
  | n + 1, g, clocks =>
    match g.NewID block clocks with
    | none => none
    | some r =>
      match generatorImpl.newIDs block n r.1 r.2.2 with
      | none => none
      | some ids => some (r.2.1 :: ids)

/-- The generator is as NewGenerator builds it, after any number of calls. -/
def generatorImpl.valid (g : generatorImpl) : Prop :=
  g.nodeID ≤ 4095 ∧ g.step ≤ 1023 ∧ g.stepMax = 1023 ∧ g.timeShift = 22 ∧ g.nodeShift = 10

/-- The plain ID that the fields of the generator stand for. -/
def generatorImpl.plain (g : generatorImpl) : Nat :=
  g.lastTime * 2 ^ 22 + g.nodeID * 2 ^ 10 + g.step

/-- A clock reading at or after the epoch, as an int64. -/
def validClock (clock : Int) : Prop := (epoch : Int) ≤ clock ∧ clock < 2 ^ 63

/-- A cipher for the examples: a permutation of the 64-bit blocks that flips
every bit. -/
def exampleBlock (x : Nat) : Nat := word - 1 - x % word

/-- Clock readings for the examples: one second after the epoch, the same
reading again, then a reading that has gone back by a second. -/
def exampleClocks : List Int := [1577836801000, 1577836801000, 1577836800000]

/-- The generator that NewGenerator builds for node 5. -/
def exampleGenerator : generatorImpl :=
  { lastTime := 0, nodeID := 5, step := 0, stepMax := 1023, timeShift := 22, nodeShift := 10 }

end Uniqueid

namespace Cache

/-! ## client/cache/utils.go

A byte is a natural number; a Go string is the list of its bytes, so
`utils.StringToBytes` and `utils.BytesToString` are the identity.  The
functions of strconv are given by their meaning for base 10 and bit size 64;
the float formatter and the gob codec stay parameters. -/

/-- The signed integer kinds of the `case` on line 19; `int` has 64 bits. -/
inductive IntKind where
  | int | int8 | int16 | int32 | int64
  deriving DecidableEq, Repr

/-- The unsigned integer kinds of the `case` on line 21; `uint` has 64 bits. -/
inductive UintKind where
  | uint | uint8 | uint16 | uint32 | uint64
  deriving DecidableEq, Repr

/-- The number of bits of a signed kind. -/
def IntKind.bits : IntKind → Nat
  | IntKind.int => 64
  | IntKind.int8 => 8
  | IntKind.int16 => 16
  | IntKind.int32 => 32
  | IntKind.int64 => 64

/-- The number of bits of an unsigned kind. -/
def UintKind.bits : UintKind → Nat
  | UintKind.uint => 64
  | UintKind.uint8 => 8
  | UintKind.uint16 => 16
  | UintKind.uint32 => 32
  | UintKind.uint64 => 64

/-- What the package does not define: the float formatter and parser of
strconv and the gob codec, for float values `F` and values `X` of every kind
that has no case of its own. -/
structure Codecs where
  F : Type
  X : Type
  formatFloat : F → List Nat
  parseFloat : List Nat → Option F
  gobEncode : X → Option (List Nat)
  gobDecode : List Nat → Option X

/-- A Go value as Serialize sees it: a `[]byte`, a value of another type whose
kind is a slice of uint8, an integer of a signed or unsigned kind, a float, a
string, or a value of any other kind. -/
inductive Value (E : Codecs) where
  | bytes (b : List Nat)
  | byteSlice (b : List Nat)
  | int (k : IntKind) (v : Int)
  | uint (k : UintKind) (v : Nat)
  | float (f : E.F)
  | str (s : List Nat)
  | other (x : E.X)

/-- The type behind the pointer handed to Deserialize; `notPointer` when the
argument is no pointer. -/
inductive Target where
  | bytes
  | byteSlice
  | int (k : IntKind)
  | uint (k : UintKind)
  | float
  | str
  | other
  | notPointer
  deriving DecidableEq, Repr

/-- The type of a value, as the target of a pointer to a variable of that type. -/
def Value.target {E : Codecs} : Value E → Target
  | Value.bytes _ => Target.bytes
  | Value.byteSlice _ => Target.byteSlice
  | Value.int k _ => Target.int k
  | Value.uint k _ => Target.uint k
  | Value.float _ => Target.float
  | Value.str _ => Target.str
  | Value.other _ => Target.other

/-- The decimal digits of `n` in ASCII, most significant first; `fuel` bounds
the number of digits. -/
def digits : Nat → Nat → List Nat
  | 0, _ => []
  | fuel + 1, n => if n < 10 then [48 + n] else digits fuel (n / 10) ++ [48 + n % 10]

/-- The result of strconv.FormatUint(n, 10). -/
def formatUint (n : Nat) : List Nat := digits (n + 1) n

/-- The result of strconv.FormatInt(i, 10): a minus sign (byte 45) before the
digits of a negative number. -/
def formatInt (i : Int) : List Nat :=
  if i < 0 then 45 :: formatUint (-i).toNat else formatUint i.toNat

/-- The number that a string of ASCII digits stands for, on top of `acc`;
`none` when a byte is no digit. -/
def parseDigits : List Nat → Nat → Option Nat
  | [], acc => some acc
  | b :: rest, acc =>
    if 48 ≤ b ∧ b ≤ 57 then parseDigits rest (acc * 10 + (b - 48)) else none

/-- The result of strconv.ParseUint(s, 10, 64); `none` is an error: the empty
string, a byte that is no digit, or a value of `2 ^ 64` or more. -/
def parseUint (s : List Nat) : Option Nat :=
  if s = [] then none
  else
    match parseDigits s 0 with
    | none => none
    | some n => if n < 2 ^ 64 then some n else none

/-- The result of strconv.ParseInt(s, 10, 64); `none` is an error.  A leading
`+` (byte 43) or `-` (byte 45) is the sign; the rest goes through ParseUint,
and the value has to fit an int64. -/
def parseInt (s : List Nat) : Option Int :=
  if s = [] then none
  else
    let neg := s.head? = some 45
    let body := if s.head? = some 43 ∨ s.head? = some 45 then s.tail else s
    match parseUint body with
    | none => none
    | some un =>
      if ¬ neg ∧ un ≥ 2 ^ 63 then none
      else if neg ∧ un > 2 ^ 63 then none
      else some (if neg then -(un : Int) else (un : Int))

/-- The conversion `intN(x)` that reflect's SetInt applies for a kind of
`bits` bits: the value of the low bits in two's complement. -/
def wrapInt (bits : Nat) (x : Int) : Int :=
  (x + 2 ^ (bits - 1)) % 2 ^ bits - 2 ^ (bits - 1)

/-- The conversion `uintN(x)` that reflect's SetUint applies. -/
def wrapUint (bits : Nat) (x : Nat) : Nat := x % 2 ^ bits

/-- Serialize (utils.go, lines 13-39); `none` is an error return. -/
def Serialize {E : Codecs} : Value E → Option (List Nat)
  | Value.bytes b => some b
  | Value.int _ v => some (formatInt v)
  | Value.uint _ v => some (formatUint v)
  | Value.float f => some (E.formatFloat f)
  | Value.str s => some s
  | Value.byteSlice b => some b
  | Value.other x => E.gobEncode x

/-- Deserialize (utils.go, lines 42-95) into a variable of the type `ptr`
points to; returns the value of the variable afterwards, `none` is an error
return.  No pointer, or a pointer to any other kind, goes to the gob decoder. -/
def Deserialize {E : Codecs} (byt : List Nat) : Target → Option (Value E)
  | Target.bytes => some (Value.bytes byt)
  | Target.int k =>
    match parseInt byt with
    | none => none
    | some i => some (Value.int k (wrapInt k.bits i))
  | Target.uint k =>
    match parseUint byt with
    | none => none
    | some i => some (Value.uint k (wrapUint k.bits i))
  | Target.float =>
    match E.parseFloat byt with
    | none => none
    | some f => some (Value.float f)
  | Target.str => some (Value.str byt)
  | Target.byteSlice => some (Value.byteSlice byt)
  | Target.other =>
    match E.gobDecode byt with
    | none => none
    | some x => some (Value.other x)
  | Target.notPointer => none

/-- The values of C24: byte slices, strings, and integers within the range of
their kind. -/
def Value.plain {E : Codecs} : Value E → Prop
  | Value.bytes _ => True
  | Value.byteSlice _ => True
  | Value.int k v => -(2 ^ (k.bits - 1) : Int) ≤ v ∧ v < 2 ^ (k.bits - 1)
  | Value.uint k v => v < 2 ^ k.bits
  | Value.float _ => False
  | Value.str _ => True
  | Value.other _ => False

/-- An instance of the parameters with no floats and no other values. -/
def noCodecs : Codecs :=
  { F := Empty, X := Empty, formatFloat := fun _ => [], parseFloat := fun _ => none,
    gobEncode := fun _ => none, gobDecode := fun _ => none }

/-- The int8 value -128. -/
def exampleInt8 : Value noCodecs := Value.int IntKind.int8 (-128)

end Cache

namespace Crypto

/-! ## crypto/aes.go

The standard library is given by what the package relies on: `aes.NewCipher`
fails unless the key has 16, 24 or 32 bytes, `cipher.NewGCM` does not fail on
an AES block and gives a nonce size of 12, and the method `Open` is a
parameter.  A slice expression out of range is a run-time panic. -/

/-- How a call ends: with a result, with an error return, or with a panic. -/
inductive Outcome where
  | ok (plain : List Nat)
  | error
  | panic
  deriving DecidableEq, Repr

/-- The nonce size of the GCM of the standard library. -/
def nonceSize : Nat := 12

/-- Whether `aes.NewCipher(key)` returns a block for a key of this length. -/
def validKeyLen (n : Nat) : Bool := n = 16 || n = 24 || n = 32

/-- AESGCMDecrypt (aes.go, lines 33-44).  `gcmOpen key nonce ciphertext` is
`crypter.Open(nil, nonce, ciphertext, nil)`, `none` for its error return.  The
slice expressions `data[:nonceSize]` and `data[nonceSize:]` of line 43 are
evaluated before the call, and the second panics when `len(data) < nonceSize`. -/
def AESGCMDecrypt (gcmOpen : List Nat → List Nat → List Nat → Option (List Nat))
    (data key : List Nat) : Outcome :=
  if validKeyLen key.length then
    if data.length < nonceSize then Outcome.panic
    else
      match gcmOpen key (data.take nonceSize) (data.drop nonceSize) with
      | none => Outcome.error
      | some plain => Outcome.ok plain
  else Outcome.error

/-- A stand-in for `Open` that rejects everything. -/
def rejectAll : List Nat → List Nat → List Nat → Option (List Nat) := fun _ _ _ => none

/-- A key of 16 bytes, the one of TestAESSuccess: "1234567890abcdef". -/
def exampleKey : List Nat :=
  [49, 50, 51, 52, 53, 54, 55, 56, 57, 48, 97, 98, 99, 100, 101, 102]

end Crypto

namespace Config

/-! ## config/stringmap.go and config/config.go

A raw configuration value is of type `Raw`, the struct a call fills is of type
`Target`, and the process-wide configuration of viper is of type `Global`.  The
libraries are parameters: jsonpath, the JSON deep copy, the validator and
viper.  A call that takes a pointer to the target returns the target
afterwards (`Except.ok`) or an error.  A path is the list of its characters. -/

/-- The errors of the package. -/
inductive ConfigError (Raw : Type) where
  | library (msg : String)
  | typeAssertion (value : Raw) (targetType : String)
  | wrapped (msg : String) (cause : String)

/-- The libraries the package calls. -/
structure Libs (Raw Target Global : Type) where
  jsonpathRead : Raw → List Char → Except String Raw
  asMap : Raw → Option Raw
  jsonDeepCopy : Target → Raw → Except String Target
  validateStruct : Target → Option String
  viperUnmarshalKey : Global → List Char → Target → Except String Target

/-- The function regularizePath (stringmap.go, lines 183-188). -/
def regularizePath (path : List Char) : List Char :=
  if path.head? = some '$' then path else '$' :: '.' :: path

/-- The method StringMap.ToStruct (stringmap.go, lines 37-39). -/
def StringMap.ToStruct {Raw Target Global : Type} (L : Libs Raw Target Global) (m : Raw)
    (targetObj : Target) : Except (ConfigError Raw) Target :=
  match L.jsonDeepCopy targetObj m with
  | Except.error e => Except.error (ConfigError.library e)
  | Except.ok t => Except.ok t

/-- The method StringMap.GetStruct (stringmap.go, lines 148-160). -/
def StringMap.GetStruct {Raw Target Global : Type} (L : Libs Raw Target Global) (m : Raw)
    (path : List Char) (value : Target) : Except (ConfigError Raw) Target :=
  let path := regularizePath path
  match L.jsonpathRead m path with
  | Except.error e => Except.error (ConfigError.library e)
  | Except.ok rawValue =>
    match L.asMap rawValue with
    | none => Except.error (ConfigError.typeAssertion rawValue "StringMap")
    | some mapValue => StringMap.ToStruct L mapValue value

/-- The package-level function GetStruct (config.go, lines 60-62), on the
process-wide configuration `global` of viper. -/
def GetStruct {Raw Target Global : Type} (L : Libs Raw Target Global) (global : Global)
    (path : List Char) (value : Target) : Except (ConfigError Raw) Target :=
  match L.viperUnmarshalKey global path value with
  | Except.error e => Except.error (ConfigError.library e)
  | Except.ok t => Except.ok t

/-- The method StringMap.GetStructWithValidation (stringmap.go, lines
163-174).  Line 164 calls `GetStruct(path, value)`, the function of the
package, not the method of `m`. -/
def StringMap.GetStructWithValidation {Raw Target Global : Type} (L : Libs Raw Target Global)
    (global : Global) (_m : Raw) (path : List Char) (value : Target) :
    Except (ConfigError Raw) Target :=
  match Config.GetStruct L global path value with
  | Except.error e => Except.error e
  | Except.ok t =>
    match L.validateStruct t with
    | some e => Except.error (ConfigError.wrapped "config_object_validation_error" e)
    | none => Except.ok t

/-- What C26 asks of the method: fill the target as the method GetStruct of `m`
does, then validate. -/
def getStructThenValidate {Raw Target Global : Type} (L : Libs Raw Target Global) (m : Raw)
    (path : List Char) (value : Target) : Except (ConfigError Raw) Target :=
  match StringMap.GetStruct L m path value with
  | Except.error e => Except.error e
  | Except.ok t =>
    match L.validateStruct t with
    | some e => Except.error (ConfigError.wrapped "config_object_validation_error" e)
    | none => Except.ok t

/-- Toy libraries for the examples: a raw value is a list of sections, each a
list of numeric fields, or one section on its own; a target is a list of
numeric fields; jsonpath finds the section named after `$.`, the deep copy
overwrites the target, the validator accepts everything, and viper finds the
section of its own configuration or fails. -/
inductive ToyRaw where
  | sections (s : List (List Char × List (List Char × Nat)))
  | fields (f : List (List Char × Nat))
  deriving DecidableEq, Repr

/-- The section of the given name. -/
def findSection (s : List (List Char × List (List Char × Nat))) (name : List Char) :
    Option (List (List Char × Nat)) :=
  (s.find? (fun p => p.1 == name)).map Prod.snd

/-- The toy libraries. -/
def toyLibs : Libs ToyRaw (List (List Char × Nat))
    (List (List Char × List (List Char × Nat))) :=
  { jsonpathRead := fun m path =>
      match m with
      | ToyRaw.sections s =>
        match findSection s (path.drop 2) with
        | some f => Except.ok (ToyRaw.fields f)
        | none => Except.error "key error"
      | ToyRaw.fields _ => Except.error "key error"
    asMap := fun raw =>
      match raw with
      | ToyRaw.fields f => some (ToyRaw.fields f)
      | ToyRaw.sections _ => none
    jsonDeepCopy := fun _ m =>
      match m with
      | ToyRaw.fields f => Except.ok f
      | ToyRaw.sections _ => Except.error "unmarshal error"
    validateStruct := fun _ => none
    viperUnmarshalKey := fun global path value =>
      match findSection global path with
      | some f => Except.ok f
      | none => Except.ok value }

/-- A StringMap with the section `db` that sets `port` to 5432. -/
def exampleStringMap : ToyRaw := ToyRaw.sections [(['d', 'b'], [(['p', 'o', 'r', 't'], 5432)])]

/-- Whether a call returned the target with the given fields. -/
def filledWith {Raw : Type} (r : Except (ConfigError Raw) (List (List Char × Nat)))
    (fields : List (List Char × Nat)) : Bool :=
  match r with
  | Except.ok t => t == fields
  | Except.error _ => false

end Config

namespace Datacache

/-! ## The locks

What a goroutine does to the mutexes and to the guarded fields of entries, in
program order.  The fields of an item that is being built and is not yet in
the map are not entries; reads of `c.dataMap` and of `evictTime` are not
recorded. -/

/-- A mutex: `c.mu` of a DataCache, `c.mu` of a CacheMap, or `muItemUpdate` or
`muItemEvict` of the item at an address. -/
inductive Mutex where
  | cache
  | map
  | itemUpdate (item : Nat)
  | itemEvict (item : Nat)
  deriving DecidableEq, Repr

/-- An entry: the one of a DataCache, or the item at an address. -/
inductive Entry where
  | single
  | item (item : Nat)
  deriving DecidableEq, Repr

/-- The guarded fields of an entry. -/
inductive EntryField where
  | data
  | nextUpdateTime
  | initCutOffTime
  deriving DecidableEq, Repr

/-- A step of a goroutine: it takes a mutex (Lock or RLock), releases it,
reads or writes a field of an entry on the given source line, or calls the
load callback on the given source line. -/
inductive LockEvent where
  | lock (m : Mutex)
  | unlock (m : Mutex)
  | access (e : Entry) (f : EntryField) (line : Nat)
  | callback (line : Nat)
  deriving DecidableEq, Repr

/-- The lock of an entry: `c.mu` for the entry of a DataCache, `muItemUpdate`
for an item. -/
def Entry.ownLock : Entry → Mutex
  | Entry.single => Mutex.cache
  | Entry.item a => Mutex.itemUpdate a

/-- The steps of a goroutine that break the lock discipline, given the mutexes
it holds at the start: an access to a field of an entry without the lock of the
entry, or a call of the load callback with the lock of the map. -/
def violations : List Mutex → List LockEvent → List LockEvent
  | _, [] => []
  | held, LockEvent.lock m :: rest => violations (m :: held) rest
  | held, LockEvent.unlock m :: rest => violations (held.erase m) rest
  | held, LockEvent.access e f line :: rest =>
    (if e.ownLock ∈ held then [] else [LockEvent.access e f line]) ++ violations held rest
  | held, LockEvent.callback line :: rest =>
    (if Mutex.map ∈ held then [LockEvent.callback line] else []) ++ violations held rest

/-- The polling loop (datacache.go, lines 119-128; datacachemap.go, lines
179-188 and 318-327) on the entry `e`, the read on source line `line`, leaving
after `sleeps` sleeps. -/
def waitEvents (e : Entry) (line : Nat) : Nat → List LockEvent
  | 0 => [LockEvent.lock e.ownLock, LockEvent.access e EntryField.initCutOffTime line,
      LockEvent.unlock e.ownLock]
  | sleeps + 1 =>
    [LockEvent.lock e.ownLock, LockEvent.access e EntryField.initCutOffTime line,
      LockEvent.unlock e.ownLock] ++ waitEvents e line sleeps

/-- The steps of DataCache.Get (datacache.go, lines 78-131) on the cache `c`,
with the value `snapshot` read on line 81, leaving the loop after `sleeps`
sleeps. -/
def DataCache.GetEvents {T : Type} (c : DataCache T) (snapshot now : Int) (sleeps : Nat) :
    List LockEvent :=
  [LockEvent.lock Mutex.cache,
    LockEvent.access Entry.single EntryField.nextUpdateTime 81,
    LockEvent.unlock Mutex.cache] ++
  (if now ≥ snapshot then
    [LockEvent.lock Mutex.cache, LockEvent.access Entry.single EntryField.nextUpdateTime 87] ++
    (if now ≥ c.nextUpdateTime then
      [LockEvent.access Entry.single EntryField.nextUpdateTime 88] else []) ++
    [LockEvent.access Entry.single EntryField.initCutOffTime 91] ++
    (if c.initCutOffTime = 0 then
      [LockEvent.access Entry.single EntryField.initCutOffTime 92] else []) ++
    [LockEvent.unlock Mutex.cache]
  else []) ++
  waitEvents Entry.single 121 sleeps ++
  [LockEvent.access Entry.single EntryField.data 130]

/-- The steps of the part of updateData and updateBatch that stores a value in
one item (datacachemap.go, lines 104-110 and 237-243), and of the same part of
the goroutine of DataCache.Get (datacache.go, lines 108-114); `line` is the
line of the store to `data`, `lower` says whether the cutoff is pulled back. -/
def storeEvents (e : Entry) (line : Nat) (lower : Bool) : List LockEvent :=
  [LockEvent.lock e.ownLock, LockEvent.access e EntryField.data line,
    LockEvent.access e EntryField.nextUpdateTime (line + 1),
    LockEvent.access e EntryField.initCutOffTime (line + 2)] ++
  (if lower then [LockEvent.access e EntryField.initCutOffTime (line + 3)] else []) ++
  [LockEvent.unlock e.ownLock]

/-- The steps of the goroutine of DataCache.Get (datacache.go, lines 96-115). -/
def DataCache.loadTaskEvents {T : Type} (c : DataCache T) (err : Bool) (now : Int) :
    List LockEvent :=
  [LockEvent.callback 99] ++
  (if err ∧ c.expirationOnErr ≤ 0 then []
   else storeEvents Entry.single 109 (decide (now < c.initCutOffTime)))

/-- The steps of CacheMap.updateData (datacachemap.go, lines 92-111). -/
def CacheMap.updateDataEvents {K V : Type} (c : CacheMap K V) (item : Nat) (err : Bool)
    (now : Int) : List LockEvent :=
  [LockEvent.callback 95] ++
  (if err ∧ c.expirationOnErr ≤ 0 then []
   else storeEvents (Entry.item item) 105 (decide (now < (c.items item).initCutOffTime)))

/-- The steps of the loop of CacheMap.updateBatch (datacachemap.go, lines
235-244). -/
def CacheMap.storeAllEvents {K V : Type} (c : CacheMap K V) (now : Int) :
    List (K × Nat) → List LockEvent
  | [] => []
  | p :: rest =>
    storeEvents (Entry.item p.2) 238 (decide (now < (c.items p.2).initCutOffTime)) ++
    CacheMap.storeAllEvents c now rest

/-- The steps of CacheMap.updateBatch (datacachemap.go, lines 219-248). -/
def CacheMap.updateBatchEvents {K V : Type} (c : CacheMap K V)
    (unCachedDataMap : List (K × Nat)) (updatedStatus : Nat) (err : Bool) (now : Int) :
    List LockEvent :=
  [LockEvent.callback 227] ++
  (if err ∧ c.expirationOnErr ≤ 0 then []
   else
    c.storeAllEvents now unCachedDataMap ++
    [LockEvent.lock (Mutex.itemUpdate updatedStatus),
      LockEvent.access (Entry.item updatedStatus) EntryField.initCutOffTime 246,
      LockEvent.unlock (Mutex.itemUpdate updatedStatus)])

/-- The steps of the last part of CacheMap.Get (lines 194-200) and of one
iteration of the last loop of GetMany (lines 332-339): the read of `data`
under the lock of the item, on source line `line`. -/
def readDataEvents (item : Nat) (line : Nat) : List LockEvent :=
  [LockEvent.lock (Mutex.itemUpdate item),
    LockEvent.access (Entry.item item) EntryField.data line,
    LockEvent.unlock (Mutex.itemUpdate item)]

/-- The steps of CacheMap.Get (datacachemap.go, lines 136-201) for `key` on
the map `c`, with the value `snapshot` read on line 166, leaving the loop after
`sleeps` sleeps. -/
def CacheMap.GetEvents {K V : Type} [DecidableEq K] (c : CacheMap K V) (key : K)
    (snapshot now : Int) (sleeps : Nat) : List LockEvent :=
  let l := c.lookupOrCreate key now
  let item := l.2.1
  [LockEvent.lock Mutex.map, LockEvent.unlock Mutex.map] ++
  (if l.2.2 then [LockEvent.lock Mutex.map, LockEvent.unlock Mutex.map] else []) ++
  [LockEvent.lock (Mutex.itemUpdate item),
    LockEvent.access (Entry.item item) EntryField.nextUpdateTime 166,
    LockEvent.unlock (Mutex.itemUpdate item)] ++
  (if now > snapshot then
    [LockEvent.lock (Mutex.itemUpdate item),
      LockEvent.access (Entry.item item) EntryField.nextUpdateTime 171] ++
    (if now > (l.1.items item).nextUpdateTime then
      [LockEvent.access (Entry.item item) EntryField.nextUpdateTime 172] else []) ++
    [LockEvent.unlock (Mutex.itemUpdate item)]
  else []) ++
  waitEvents (Entry.item item) 181 sleeps ++
  [LockEvent.lock (Mutex.itemEvict item), LockEvent.unlock (Mutex.itemEvict item)] ++
  readDataEvents item 196

/-- The steps of the first loop of CacheMap.GetMany (datacachemap.go, lines
260-279) from the state `st` on. -/
def CacheMap.readEvents {K V : Type} [DecidableEq K] [Inhabited V] (now : Int) :
    CacheMap K V × List (K × V) × List K → List K → List LockEvent
  | _, [] => []
  | st, key :: rest =>
    (match mapGet st.1.dataMap key with
      | some item =>
        [LockEvent.lock (Mutex.itemEvict item), LockEvent.unlock (Mutex.itemEvict item),
          LockEvent.lock (Mutex.itemUpdate item),
          LockEvent.access (Entry.item item) EntryField.data 266,
          LockEvent.access (Entry.item item) EntryField.nextUpdateTime 272,
          LockEvent.unlock (Mutex.itemUpdate item)]
      | none => []) ++
    CacheMap.readEvents now (CacheMap.readKey now st key) rest

/-- The steps of the second loop of CacheMap.GetMany (datacachemap.go, lines
286-301) from the state `st` on. -/
def CacheMap.claimEvents {K V : Type} [DecidableEq K] (now : Int) :
    CacheMap K V × List (K × Nat) × Bool → List K → List LockEvent
  | _, [] => []
  | st, uncachedKey :: rest =>
    (match mapGet st.1.dataMap uncachedKey with
      | some item =>
        [LockEvent.access (Entry.item item) EntryField.nextUpdateTime 297] ++
        (if now > (st.1.items item).nextUpdateTime then
          [LockEvent.access (Entry.item item) EntryField.nextUpdateTime 298] else [])
      | none => []) ++
    CacheMap.claimEvents now (CacheMap.claimKey now st uncachedKey) rest

/-- The steps of the last loop of CacheMap.GetMany (datacachemap.go, lines
331-340). -/
def readBackEvents {K : Type} : List (K × Nat) → List LockEvent
  | [] => []
  | p :: rest => readDataEvents p.2 333 ++ readBackEvents rest

/-- The steps of CacheMap.GetMany (datacachemap.go, lines 253-344) for `keys`
on the map `c`, leaving the loop, when it is run, after `sleeps` sleeps. -/
def CacheMap.GetManyEvents {K V : Type} [DecidableEq K] [Inhabited V] (c : CacheMap K V)
    (keys : List K) (now : Int) (sleeps : Nat) : List LockEvent :=
  let r1 := c.afterRead keys now
  let r2 := c.afterClaim keys now
  [LockEvent.lock Mutex.map] ++ CacheMap.readEvents now (c, [], []) keys ++
  [LockEvent.unlock Mutex.map] ++
  (if r1.2.2.length > 0 then
    [LockEvent.lock Mutex.map] ++ CacheMap.claimEvents now (r1.1, [], false) r1.2.2 ++
    [LockEvent.unlock Mutex.map] ++
    (if r2.2.1.length > 0 then
      (if r2.2.2 then waitEvents (Entry.item r2.1.nextAddr) 320 sleeps else [])
    else []) ++
    readBackEvents r2.2.1
  else [])

/-! ## Operations within the range of int64 -/

/-- The sums of the refresh section of DataCache.Get entered at `now` are in
the range of `int64`: `now + c.retryInterval` (datacache.go, line 88) and
`now + c.waitTimeout` (line 92). -/
@[reducible] def DataCache.startFitsAt {T : Type} (c : DataCache T) (now : Int) : Prop :=
  fitsInt64 (now + c.retryInterval) ∧ fitsInt64 (now + c.waitTimeout)

/-- Every sum of DataCache.Get entered at `now`, when nothing runs in between,
is in the range of `int64`: those of the refresh section, and the local `now`
of the polling loop (datacache.go, line 127), which grows by a millisecond
until it has passed the cutoff, the one the cache holds or
`now + c.waitTimeout`. -/
@[reducible] def DataCache.fitsAt {T : Type} (c : DataCache T) (now : Int) : Prop :=
  c.startFitsAt now ∧ fitsInt64 now ∧
  fitsInt64 (now + c.waitTimeout + MilliToNanoSecond) ∧
  fitsInt64 (c.initCutOffTime + MilliToNanoSecond)

/-- The sums that CacheMap.Get and CacheMap.GetMany compute from the clock
reading `now` of their entry are in the range of `int64`:
`now + c.retryInterval` (datacachemap.go, lines 150, 172, 290 and 298),
`now + c.evictTimeout` (lines 151, 291, and 212 when called from line 263)
and `now + c.waitTimeout` (lines 152, 292 and 306). -/
@[reducible] def CacheMap.startFitsAt {K V : Type} (c : CacheMap K V) (now : Int) : Prop :=
  fitsInt64 (now + c.retryInterval) ∧ fitsInt64 (now + c.evictTimeout) ∧
  fitsInt64 (now + c.waitTimeout)

/-- The cutoff that the polling loop of CacheMap.Get reads for `key` when
nothing runs in between: that of the entry of the key, or
`now + c.waitTimeout` when the call creates the entry. -/
def CacheMap.cutoffAt {K V : Type} [DecidableEq K] (c : CacheMap K V) (key : K)
    (now : Int) : Int :=
  match mapGet c.dataMap key with
  | some item => (c.items item).initCutOffTime
  | none => now + c.waitTimeout

/-- Every sum of CacheMap.Get entered at `now`, when nothing runs in between,
is in the range of `int64`: those computed from the clock reading of the
entry, the local `now` of the polling loop (datacachemap.go, line 187), which
grows by a millisecond until it has passed the cutoff, and the sum of line
212 for the `now` that the loop ends with. -/
@[reducible] def CacheMap.fitsAt {K V : Type} [DecidableEq K] (c : CacheMap K V) (key : K)
    (now : Int) : Prop :=
  c.startFitsAt now ∧ fitsInt64 now ∧
  fitsInt64 (c.cutoffAt key now + MilliToNanoSecond) ∧
  fitsInt64 (c.cutoffAt key now + MilliToNanoSecond + c.evictTimeout)

/-- Every sum of CacheMap.GetMany entered at `now`, when nothing runs in
between, is in the range of `int64`: those computed from the clock reading of
the entry, and the local `now` of the polling loop (datacachemap.go, line
326), which grows by a millisecond until it has passed `now + c.waitTimeout`. -/
@[reducible] def CacheMap.fitsManyAt {K V : Type} (c : CacheMap K V) (now : Int) : Prop :=
  c.startFitsAt now ∧ fitsInt64 now ∧ fitsInt64 (now + c.waitTimeout + MilliToNanoSecond)

/-- The sum that the end of a load goroutine computes at `now` (datacache.go,
line 110; datacachemap.go, lines 106 and 239) is in the range of `int64`; a
goroutine whose callback failed while errors are not cached computes none. -/
@[reducible] def loadFits (expiration expirationOnErr : Int) (err : Bool) (now : Int) : Prop :=
  (err = true ∧ expirationOnErr ≤ 0) ∨
    fitsInt64 (now + (if err then expirationOnErr else expiration))

/-- The sums that an event makes a single-value cache with the policy of `c`
compute are in the range of `int64`. -/
def CacheEvent.fits {T : Type} (c : DataCache T) : CacheEvent T → Prop
  | CacheEvent.get now _ => c.startFitsAt now
  | CacheEvent.done _ _ err now => loadFits c.expiration c.expirationOnErr err now

/-- The sums that an event makes a keyed map with the policy of `c` compute
are in the range of `int64`. -/
def MapEvent.fits {K V : Type} (c : CacheMap K V) : MapEvent K V → Prop
  | MapEvent.lookup _ now => c.startFitsAt now
  | MapEvent.gate _ _ now => fitsInt64 (now + c.retryInterval)
  | MapEvent.touch _ now => fitsInt64 (now + c.evictTimeout)
  | MapEvent.evict _ => True
  | MapEvent.done _ _ err now => loadFits c.expiration c.expirationOnErr err now

/-! ## Lemmas on the polling loop -/

/-- The loop leaves at the first iteration whose reading lies below the local clock. -/
theorem waitLoop_exit (cutoff : Nat → Int) (n : Nat) :
    ∀ (fuel i : Nat) (now : Int), n < fuel →
      (∀ j, j < n → ¬ (now + (j : Int) * MilliToNanoSecond > cutoff (i + j))) →
      now + (n : Int) * MilliToNanoSecond > cutoff (i + n) →
      waitLoop cutoff fuel i now = some (now + (n : Int) * MilliToNanoSecond, i + n) := by
  induction n with
  | zero =>
    intro fuel i now hf _ hexit
    obtain ⟨f, rfl⟩ : ∃ f, fuel = f + 1 := ⟨fuel - 1, by omega⟩
    simp only [Nat.cast_zero, zero_mul, add_zero, Nat.add_zero] at hexit ⊢
    simp [waitLoop, hexit]
  | succ n ih =>
    intro fuel i now hf hstay hexit
    obtain ⟨f, rfl⟩ : ∃ f, fuel = f + 1 := ⟨fuel - 1, by omega⟩
    have h0 : ¬ (now > cutoff i) := by
      have := hstay 0 (Nat.succ_pos n)
      simpa using this
    have hrec := ih f (i + 1) (now + MilliToNanoSecond) (by omega)
      (fun j hj => by
        have := hstay (j + 1) (by omega)
        have e : i + 1 + j = i + (j + 1) := by omega
        rw [e]
        push_cast at this ⊢
        intro hgt
        apply this
        linarith)
      (by
        have e : i + 1 + n = i + (n + 1) := by omega
        rw [e]
        push_cast at hexit ⊢
        linarith)
    simp only [waitLoop, h0, if_false]
    rw [hrec]
    have e : i + 1 + n = i + (n + 1) := by omega
    rw [e]
    congr 2
    push_cast
    ring

/-- A bounded cutoff is overtaken: when every reading is at most `B` and
`B < now + (m + 1) ms`, the loop returns after at most `m + 1` sleeps. -/
theorem waitLoop_bounded (cutoff : Nat → Int) (now B : Int) (m : Nat)
    (hB : ∀ j, cutoff j ≤ B) (hm : B < now + ((m : Int) + 1) * MilliToNanoSecond) :
    ∃ n : Nat, n ≤ m + 1 ∧ ∀ fuel, n < fuel →
      waitLoop cutoff fuel 0 now = some (now + ((n : Nat) : Int) * MilliToNanoSecond, n) := by
  classical
  have hex : ∃ n : Nat, now + ((n : Nat) : Int) * MilliToNanoSecond > cutoff (0 + n) := by
    refine ⟨m + 1, ?_⟩
    have := hB (0 + (m + 1))
    push_cast
    linarith
  refine ⟨Nat.find hex, ?_, ?_⟩
  · apply Nat.find_min'
    have := hB (0 + (m + 1))
    push_cast
    linarith
  · intro fuel hf
    have h := waitLoop_exit cutoff (Nat.find hex) fuel 0 now hf
      (fun j hj => Nat.find_min hex hj) (Nat.find_spec hex)
    simpa using h

/-- Every bound is below `now + (m + 1) ms` for some `m`. -/
theorem exists_ms_bound (now B : Int) :
    ∃ m : Nat, B < now + ((m : Int) + 1) * MilliToNanoSecond := by
  refine ⟨(B - now).toNat, ?_⟩
  have h1 : B - now ≤ ((B - now).toNat : Int) := Int.self_le_toNat _
  have h2 : (0 : Int) ≤ ((B - now).toNat : Int) := Int.ofNat_nonneg _
  unfold MilliToNanoSecond
  nlinarith

/-- A bounded cutoff is overtaken at a first iteration `n`: the loop sleeps
in the iterations before `n` and returns in iteration `n`. -/
theorem waitLoop_first (cutoff : Nat → Int) (now B : Int) (hB : ∀ j, cutoff j ≤ B) :
    ∃ n : Nat, (∀ j : Nat, j < n → now + (j : Int) * MilliToNanoSecond ≤ cutoff j) ∧
      cutoff n < now + ((n : Nat) : Int) * MilliToNanoSecond ∧
      ∀ fuel, n < fuel →
        waitLoop cutoff fuel 0 now = some (now + ((n : Nat) : Int) * MilliToNanoSecond, n) := by
  classical
  obtain ⟨m, hm⟩ := exists_ms_bound now B
  have hex : ∃ n : Nat, now + ((n : Nat) : Int) * MilliToNanoSecond > cutoff (0 + n) := by
    refine ⟨m + 1, ?_⟩
    have := hB (0 + (m + 1))
    push_cast
    linarith
  refine ⟨Nat.find hex, ?_, ?_, ?_⟩
  · intro j hj
    have := Nat.find_min hex hj
    simpa using this
  · have := Nat.find_spec hex
    simpa using this
  · intro fuel hf
    have h := waitLoop_exit cutoff (Nat.find hex) fuel 0 now hf
      (fun j hj => Nat.find_min hex hj) (Nat.find_spec hex)
    simpa using h

/-- With a cutoff that does not change the loop returns. -/
theorem waitLoop_const (cutoff now : Int) :
    ∃ n : Nat, ∀ fuel, n < fuel →
      waitLoop (fun _ => cutoff) fuel 0 now
        = some (now + ((n : Nat) : Int) * MilliToNanoSecond, n) := by
  obtain ⟨m, hm⟩ := exists_ms_bound now cutoff
  obtain ⟨n, _, hn⟩ := waitLoop_bounded (fun _ => cutoff) now cutoff m (fun _ => le_refl _) hm
  exact ⟨n, hn⟩

/-! ## Lemmas on the refresh gate -/

theorem DataCache.refreshFrom_of_lt {T : Type} (c : DataCache T) (snapshot now : Int)
    (h : now < c.nextUpdateTime) :
    (c.refreshFrom snapshot now).2 = false ∧
    (c.refreshFrom snapshot now).1.nextUpdateTime = c.nextUpdateTime ∧
    (c.refreshFrom snapshot now).1.data = c.data := by
  have h1 : ¬ now ≥ c.nextUpdateTime := by omega
  unfold DataCache.refreshFrom
  by_cases hs : now ≥ snapshot
  · simp only [hs, h1, if_true, if_false]
    by_cases hc : c.initCutOffTime = 0 <;> simp [hc]
  · simp [hs]

theorem DataCache.refresh_of_le {T : Type} (c : DataCache T) (now : Int)
    (h : c.nextUpdateTime ≤ now) :
    (c.refresh now).2 = true ∧
    (c.refresh now).1.nextUpdateTime = now + c.retryInterval ∧
    (c.refresh now).1.data = c.data := by
  have h1 : now ≥ c.nextUpdateTime := h
  unfold DataCache.refresh DataCache.refreshFrom
  simp only [h1, if_true]
  by_cases hc : c.initCutOffTime = 0 <;> simp [hc]

theorem DataCache.refreshAll_quiet {T : Type} (calls : List (Int × Int)) :
    ∀ (c : DataCache T), (∀ p ∈ calls, p.1 < c.nextUpdateTime) →
      (c.refreshAll calls).2 = List.replicate calls.length false ∧
      (c.refreshAll calls).1.nextUpdateTime = c.nextUpdateTime := by
  induction calls with
  | nil => intro c _; simp [DataCache.refreshAll]
  | cons call rest ih =>
    intro c h
    have h0 := DataCache.refreshFrom_of_lt c call.2 call.1 (h call (List.mem_cons_self _ _))
    have hrest : ∀ p ∈ rest, p.1 < (c.refreshFrom call.2 call.1).1.nextUpdateTime := by
      intro p hp
      rw [h0.2.1]
      exact h p (List.mem_cons_of_mem _ hp)
    have h1 := ih (c.refreshFrom call.2 call.1).1 hrest
    simp only [DataCache.refreshAll, List.length_cons, List.replicate_succ]
    refine ⟨?_, ?_⟩
    · rw [h1.1, h0.1]
    · rw [h1.2, h0.2.1]

theorem CacheMap.lookupOrCreate_of_some {K V : Type} [DecidableEq K] (c : CacheMap K V)
    (key : K) (item : Nat) (now : Int) (h : mapGet c.dataMap key = some item) :
    c.lookupOrCreate key now = (c, item, false) := by
  simp [CacheMap.lookupOrCreate, h]

theorem CacheMap.refreshItemFrom_of_le {K V : Type} (c : CacheMap K V) (item : Nat)
    (snapshot now : Int) (h : now ≤ (c.items item).nextUpdateTime) :
    c.refreshItemFrom item snapshot now = (c, false) := by
  have h1 : ¬ now > (c.items item).nextUpdateTime := by omega
  unfold CacheMap.refreshItemFrom
  by_cases hs : now > snapshot <;> simp [hs, h1]

theorem CacheMap.refreshItem_of_lt {K V : Type} (c : CacheMap K V) (item : Nat) (now : Int)
    (h : (c.items item).nextUpdateTime < now) :
    c.refreshItem item now =
      (c.setItem item { c.items item with nextUpdateTime := now + c.retryInterval }, true) := by
  have h1 : now > (c.items item).nextUpdateTime := h
  simp [CacheMap.refreshItem, CacheMap.refreshItemFrom, h1]

theorem CacheMap.setItem_items_same {K V : Type} (c : CacheMap K V) (item : Nat)
    (it : CacheItem V) : (c.setItem item it).items item = it := by
  simp [CacheMap.setItem]

theorem CacheMap.getStartFrom_quiet {K V : Type} [DecidableEq K] (c : CacheMap K V) (key : K)
    (item : Nat) (snapshot now : Int) (hk : mapGet c.dataMap key = some item)
    (h : now ≤ (c.items item).nextUpdateTime) :
    c.getStartFrom key snapshot now = (c, item, []) := by
  simp [CacheMap.getStartFrom, CacheMap.lookupOrCreate_of_some c key item now hk,
    CacheMap.refreshItemFrom_of_le c item snapshot now h]

theorem CacheMap.getStartAll_quiet {K V : Type} [DecidableEq K] (c : CacheMap K V) (key : K)
    (item : Nat) (hk : mapGet c.dataMap key = some item) (calls : List (Int × Int))
    (h : ∀ p ∈ calls, p.1 ≤ (c.items item).nextUpdateTime) :
    c.getStartAll key calls = (c, List.replicate calls.length []) := by
  induction calls with
  | nil => simp [CacheMap.getStartAll]
  | cons call rest ih =>
    have h0 := CacheMap.getStartFrom_quiet c key item call.2 call.1 hk
      (h call (List.mem_cons_self _ _))
    have h1 := ih (fun p hp => h p (List.mem_cons_of_mem _ hp))
    simp [CacheMap.getStartAll, h0, h1, List.replicate_succ]

theorem CacheMap.getStart_due {K V : Type} [DecidableEq K] (c : CacheMap K V) (key : K)
    (item : Nat) (now : Int) (hk : mapGet c.dataMap key = some item)
    (h : (c.items item).nextUpdateTime < now) :
    c.getStart key now =
      (c.setItem item { c.items item with nextUpdateTime := now + c.retryInterval }, item,
        [Task.updateData key item]) := by
  have h1 : now > (c.items item).nextUpdateTime := h
  simp [CacheMap.getStart, CacheMap.getStartFrom, CacheMap.lookupOrCreate_of_some c key item now hk,
    CacheMap.refreshItemFrom, h1]

/-! ## C1: the single-flight gate -/

/-- C1. Single-flight gate.  From an entry that is due at `t0` (the gate test
of DataCache.Get is `now >= nextUpdateTime`, that of CacheMap.Get on an
existing key is `now > nextUpdateTime`), with `t0 + retryInterval` in the
range of `int64`, the first Get starts a load and sets
`nextUpdateTime = t0 + retryInterval`; every later Get whose timestamp lies in
`[t0, t0 + retryInterval)`, in any number, with any value read before taking
the lock, and with no load result applied in between, starts no load and
leaves `nextUpdateTime` at `t0 + retryInterval`. -/
theorem single_flight_gate :
    (∀ (T : Type) (c : DataCache T) (t0 : Int) (calls : List (Int × Int)),
      c.nextUpdateTime ≤ t0 →
      fitsInt64 (t0 + c.retryInterval) →
      (∀ p ∈ calls, t0 ≤ p.1 ∧ p.1 < t0 + c.retryInterval) →
      (c.refresh t0).2 = true ∧
      (c.refresh t0).1.nextUpdateTime = t0 + c.retryInterval ∧
      ((c.refresh t0).1.refreshAll calls).2 = List.replicate calls.length false ∧
      ((c.refresh t0).1.refreshAll calls).1.nextUpdateTime = t0 + c.retryInterval) ∧
    (∀ (K V : Type) [DecidableEq K] (c : CacheMap K V) (key : K) (item : Nat) (t0 : Int)
      (calls : List (Int × Int)),
      mapGet c.dataMap key = some item →
      (c.items item).nextUpdateTime < t0 →
      fitsInt64 (t0 + c.retryInterval) →
      (∀ p ∈ calls, t0 ≤ p.1 ∧ p.1 < t0 + c.retryInterval) →
      (c.getStart key t0).2.2 = [Task.updateData key item] ∧
      (((c.getStart key t0).1).items item).nextUpdateTime = t0 + c.retryInterval ∧
      ((c.getStart key t0).1.getStartAll key calls).2 = List.replicate calls.length [] ∧
      ((((c.getStart key t0).1.getStartAll key calls).1).items item).nextUpdateTime
        = t0 + c.retryInterval) := by
  constructor
  · intro T c t0 calls hdue _ hcalls
    have h0 := DataCache.refresh_of_le c t0 hdue
    have hq := DataCache.refreshAll_quiet calls (c.refresh t0).1
      (fun p hp => by rw [h0.2.1]; exact (hcalls p hp).2)
    exact ⟨h0.1, h0.2.1, hq.1, by rw [hq.2, h0.2.1]⟩
  · intro K V _ c key item t0 calls hk hdue _ hcalls
    have h0 := CacheMap.getStart_due c key item t0 hk hdue
    have hk1 : mapGet (c.getStart key t0).1.dataMap key = some item := by
      rw [h0]; exact hk
    have hn : (((c.getStart key t0).1).items item).nextUpdateTime = t0 + c.retryInterval := by
      rw [h0]; simp [CacheMap.setItem]
    have hq := CacheMap.getStartAll_quiet (c.getStart key t0).1 key item hk1 calls
      (fun p hp => by rw [hn]; exact le_of_lt (hcalls p hp).2)
    refine ⟨by rw [h0], hn, by rw [hq], by rw [hq]; exact hn⟩

/-- Witness of C1: two later calls inside the retry window of a call at time
1000, on the example cache and on key 7 of the example map. -/
theorem single_flight_gate_witness :
    (exampleCache.nextUpdateTime ≤ 1000 ∧
      fitsInt64 (1000 + exampleCache.retryInterval) ∧
      (∀ p ∈ exampleCalls, (1000 : Int) ≤ p.1 ∧ p.1 < 1000 + exampleCache.retryInterval) ∧
      (exampleCache.refresh 1000).2 = true ∧
      (exampleCache.refresh 1000).1.nextUpdateTime = 1000 + exampleCache.retryInterval ∧
      ((exampleCache.refresh 1000).1.refreshAll exampleCalls).2 = [false, false]) ∧
    (mapGet exampleMap.dataMap 7 = some 0 ∧
      (exampleMap.items 0).nextUpdateTime < 1000 ∧
      fitsInt64 (1000 + exampleMap.retryInterval) ∧
      (∀ p ∈ exampleMapCalls, (1000 : Int) ≤ p.1 ∧ p.1 < 1000 + exampleMap.retryInterval) ∧
      (exampleMap.getStart 7 1000).2.2 = [Task.updateData 7 0] ∧
      ((exampleMap.getStart 7 1000).1.getStartAll 7 exampleMapCalls).2 = [[], []]) :=
  ⟨⟨by decide, by decide, by decide,
      (single_flight_gate.1 Nat exampleCache 1000 exampleCalls (by decide) (by decide)
        (by decide)).1,
      (single_flight_gate.1 Nat exampleCache 1000 exampleCalls (by decide) (by decide)
        (by decide)).2.1,
      (single_flight_gate.1 Nat exampleCache 1000 exampleCalls (by decide) (by decide)
        (by decide)).2.2.1⟩,
    ⟨by decide, by decide, by decide, by decide,
      (single_flight_gate.2 Nat Nat exampleMap 7 0 1000 exampleMapCalls (by decide) (by decide)
        (by decide) (by decide)).1,
      (single_flight_gate.2 Nat Nat exampleMap 7 0 1000 exampleMapCalls (by decide) (by decide)
        (by decide) (by decide)).2.2.1⟩⟩

/-! ## C2: loads in flight -/

theorem DataCache.refreshFrom_cases {T : Type} (c : DataCache T) (snapshot now : Int) :
    (c.refreshFrom snapshot now).1.retryInterval = c.retryInterval ∧
    (((c.refreshFrom snapshot now).2 = true ∧ c.nextUpdateTime ≤ now ∧
        (c.refreshFrom snapshot now).1.nextUpdateTime = now + c.retryInterval) ∨
      ((c.refreshFrom snapshot now).2 = false ∧
        (c.refreshFrom snapshot now).1.nextUpdateTime = c.nextUpdateTime)) := by
  unfold DataCache.refreshFrom
  by_cases hs : now ≥ snapshot
  · by_cases hn : now ≥ c.nextUpdateTime
    · by_cases hc : c.initCutOffTime = 0 <;> simp [hs, hn, hc]
    · by_cases hc : c.initCutOffTime = 0 <;> simp [hs, hn, hc]
  · simp [hs]

theorem DataCache.loadTask_retryInterval {T : Type} (c : DataCache T) (data : T) (err : Bool)
    (now : Int) : (c.loadTask data err now).retryInterval = c.retryInterval := by
  unfold DataCache.loadTask
  cases err
  · by_cases h : now < c.initCutOffTime <;> simp [h]
  · by_cases he : c.expirationOnErr ≤ 0
    · simp [he]
    · by_cases h : now < c.initCutOffTime <;> simp [he, h]

theorem CacheSys.gated_step {T : Type} (s : CacheSys T) (e : CacheEvent T)
    (hinv : s.gated)
    (ht : match e with
      | CacheEvent.get now _ => ∀ t ∈ s.running, now < t + s.cache.retryInterval
      | CacheEvent.done _ _ _ _ => True) :
    (s.step e).gated := by
  cases e with
  | get now snapshot =>
    have hc := DataCache.refreshFrom_cases s.cache snapshot now
    simp only at ht
    rcases hinv with h0 | ⟨t, h1, hn⟩
    · rcases hc.2 with ⟨hf, _, hnew⟩ | ⟨hf, _⟩
      · right
        refine ⟨now, ?_, ?_⟩
        · simp [CacheSys.step, hf, h0]
        · simp only [CacheSys.step]
          rw [hnew, hc.1]
      · left
        simp [CacheSys.step, hf, h0]
    · have hlt : now < t + s.cache.retryInterval := ht t (by simp [h1])
      rcases hc.2 with ⟨_, hdue, _⟩ | ⟨hf, hsame⟩
      · omega
      · right
        refine ⟨t, ?_, ?_⟩
        · simp [CacheSys.step, hf, h1]
        · simp only [CacheSys.step]
          rw [hsame, hc.1, hn]
  | done i data err now =>
    by_cases hi : i < s.running.length
    · left
      rcases hinv with h0 | ⟨t, h1, _⟩
      · simp [h0] at hi
      · have hi0 : i = 0 := by
          rw [h1] at hi
          simpa using hi
        simp [CacheSys.step, h1, hi0]
    · simpa [CacheSys.step, hi] using hinv

theorem CacheSys.gated_run {T : Type} (events : List (CacheEvent T)) :
    ∀ (s : CacheSys T), s.gated → s.timely events → (s.run events).gated := by
  induction events with
  | nil => intro s h _; simpa [CacheSys.run] using h
  | cons e rest ih =>
    intro s h ht
    have h1 := CacheSys.gated_step s e h ht.1
    have h2 := ih (s.step e) h1 ht.2
    simpa [CacheSys.run] using h2

theorem CacheMap.lookupOrCreate_cases {K V : Type} [DecidableEq K] (c : CacheMap K V)
    (key : K) (now : Int) :
    (c.lookupOrCreate key now).1.retryInterval = c.retryInterval ∧
    (((c.lookupOrCreate key now).2.2 = false ∧ (c.lookupOrCreate key now).1 = c) ∨
      ((c.lookupOrCreate key now).2.2 = true ∧ (c.lookupOrCreate key now).2.1 = c.nextAddr ∧
        (c.lookupOrCreate key now).1.nextAddr = c.nextAddr + 1 ∧
        ((c.lookupOrCreate key now).1.items c.nextAddr).nextUpdateTime
          = now + c.retryInterval ∧
        ∀ a, a ≠ c.nextAddr → (c.lookupOrCreate key now).1.items a = c.items a)) := by
  unfold CacheMap.lookupOrCreate
  cases h : mapGet c.dataMap key with
  | some item => simp
  | none =>
    refine ⟨rfl, Or.inr ⟨rfl, rfl, rfl, ?_, ?_⟩⟩
    · simp
    · intro a ha
      simp [Function.update_noteq ha]

theorem CacheMap.refreshItemFrom_cases {K V : Type} (c : CacheMap K V) (item : Nat)
    (snapshot now : Int) :
    (c.refreshItemFrom item snapshot now).1.retryInterval = c.retryInterval ∧
    (c.refreshItemFrom item snapshot now).1.nextAddr = c.nextAddr ∧
    (((c.refreshItemFrom item snapshot now).2 = false ∧
        (c.refreshItemFrom item snapshot now).1 = c) ∨
      ((c.refreshItemFrom item snapshot now).2 = true ∧ (c.items item).nextUpdateTime < now ∧
        ((c.refreshItemFrom item snapshot now).1.items item).nextUpdateTime
          = now + c.retryInterval ∧
        ∀ a, a ≠ item → (c.refreshItemFrom item snapshot now).1.items a = c.items a)) := by
  by_cases hs : now > snapshot
  · by_cases hn : now > (c.items item).nextUpdateTime
    · have e : c.refreshItemFrom item snapshot now =
          (c.setItem item { c.items item with nextUpdateTime := now + c.retryInterval }, true) := by
        simp [CacheMap.refreshItemFrom, hs, hn]
      rw [e]
      refine ⟨rfl, rfl, Or.inr ⟨rfl, hn, ?_, ?_⟩⟩
      · simp [CacheMap.setItem]
      · intro a ha
        simp [CacheMap.setItem, Function.update_noteq ha]
    · have e : c.refreshItemFrom item snapshot now = (c, false) := by
        simp [CacheMap.refreshItemFrom, hs, hn]
      rw [e]
      exact ⟨rfl, rfl, Or.inl ⟨rfl, rfl⟩⟩
  · have e : c.refreshItemFrom item snapshot now = (c, false) := by
      simp [CacheMap.refreshItemFrom, hs]
    rw [e]
    exact ⟨rfl, rfl, Or.inl ⟨rfl, rfl⟩⟩

theorem CacheMap.updateEvictTime_frame {K V : Type} (c : CacheMap K V) (item : Nat)
    (now : Int) :
    (c.updateEvictTime item now).retryInterval = c.retryInterval ∧
    (c.updateEvictTime item now).nextAddr = c.nextAddr ∧
    (c.updateEvictTime item now).dataMap = c.dataMap ∧
    ∀ a, ((c.updateEvictTime item now).items a).nextUpdateTime = (c.items a).nextUpdateTime ∧
      ((c.updateEvictTime item now).items a).data = (c.items a).data ∧
      ((c.updateEvictTime item now).items a).initCutOffTime = (c.items a).initCutOffTime := by
  unfold CacheMap.updateEvictTime
  by_cases h : now + c.evictTimeout > (c.items item).evictTime
  · simp only [h, if_true]
    refine ⟨rfl, rfl, rfl, ?_⟩
    intro a
    by_cases ha : a = item
    · subst ha
      simp [CacheMap.setItem]
    · simp [CacheMap.setItem, Function.update_noteq ha]
  · simp [h]

theorem CacheMap.storeItem_frame {K V : Type} (c : CacheMap K V) (item : Nat) (data : V)
    (expire now : Int) :
    (c.storeItem item data expire now).retryInterval = c.retryInterval ∧
    (c.storeItem item data expire now).nextAddr = c.nextAddr ∧
    (c.storeItem item data expire now).dataMap = c.dataMap ∧
    ∀ a, a ≠ item → (c.storeItem item data expire now).items a = c.items a := by
  refine ⟨rfl, rfl, rfl, ?_⟩
  intro a ha
  simp [CacheMap.storeItem, CacheMap.setItem, Function.update_noteq ha]

theorem CacheMap.updateData_frame {K V : Type} (c : CacheMap K V) (item : Nat) (data : V)
    (err : Bool) (now : Int) :
    (c.updateData item data err now).retryInterval = c.retryInterval ∧
    (c.updateData item data err now).nextAddr = c.nextAddr ∧
    (c.updateData item data err now).dataMap = c.dataMap ∧
    ∀ a, a ≠ item → (c.updateData item data err now).items a = c.items a := by
  cases err
  · have e : c.updateData item data false now = c.storeItem item data c.expiration now := by
      simp [CacheMap.updateData]
    rw [e]
    exact CacheMap.storeItem_frame c item data c.expiration now
  · by_cases he : c.expirationOnErr ≤ 0
    · have e : c.updateData item data true now = c := by
        simp [CacheMap.updateData, he]
      rw [e]
      exact ⟨rfl, rfl, rfl, fun _ _ => rfl⟩
    · have e : c.updateData item data true now
          = c.storeItem item data c.expirationOnErr now := by
        simp [CacheMap.updateData, he]
      rw [e]
      exact CacheMap.storeItem_frame c item data c.expirationOnErr now

/-- In a list whose first components are pairwise different, what is left
after removing position `i` differs in its first component from the element
removed. -/
theorem pairwise_eraseIdx_ne {A B : Type} (l : List (A × B)) :
    ∀ (i : Nat) (p : A × B), l.Pairwise (fun x y => x.1 ≠ y.1) → l[i]? = some p →
      ∀ q ∈ l.eraseIdx i, q.1 ≠ p.1 := by
  induction l with
  | nil => intro i p _ h; simp at h
  | cons x xs ih =>
    intro i p hp hi q hq
    rw [List.pairwise_cons] at hp
    cases i with
    | zero =>
      simp at hi
      subst hi
      simp at hq
      exact fun e => hp.1 q hq e.symm
    | succ j =>
      simp at hi
      simp at hq
      rcases hq with rfl | hq
      · exact hp.1 p (List.getElem?_mem hi)
      · exact ih j p hp.2 hi q hq

/-- No two loads on one item: at most one is in flight. -/
theorem filter_length_le_one {B : Type} (l : List (Nat × B)) (a : Nat)
    (hp : l.Pairwise (fun x y => x.1 ≠ y.1)) :
    (l.filter (fun p => decide (p.1 = a))).length ≤ 1 := by
  induction l with
  | nil => simp
  | cons x xs ih =>
    rw [List.pairwise_cons] at hp
    by_cases hx : x.1 = a
    · have hnone : xs.filter (fun p => decide (p.1 = a)) = [] := by
        rw [List.filter_eq_nil_iff]
        intro q hq
        have := hp.1 q hq
        simp
        intro e
        exact this (hx.trans e.symm)
      simp [List.filter_cons, hx, hnone]
    · simpa [List.filter_cons, hx] using ih hp.2

theorem MapSys.gated_map_step {K V : Type} [DecidableEq K] (s : MapSys K V) (e : MapEvent K V)
    (hinv : s.gated)
    (ht : match e with
      | MapEvent.gate item _ now =>
        ∀ p ∈ s.running, p.1 = item → now < p.2 + s.cache.retryInterval
      | _ => True) :
    (s.step e).gated := by
  obtain ⟨halloc, hpair, hgate⟩ := hinv
  cases e with
  | lookup key now =>
    have hc := CacheMap.lookupOrCreate_cases s.cache key now
    rcases hc.2 with ⟨hf, hsame⟩ | ⟨hf, haddr, hnext, hnut, hframe⟩
    · have e1 : s.step (MapEvent.lookup key now) = s := by
        cases s
        simp only [MapSys.step, hf] at hsame ⊢
        simp [hsame]
      rw [e1]
      exact ⟨halloc, hpair, hgate⟩
    · have hne : ∀ p ∈ s.running, p.1 ≠ s.cache.nextAddr :=
        fun p hp => Nat.ne_of_lt (halloc p hp)
      refine ⟨?_, ?_, ?_⟩
      · intro p hp
        simp only [MapSys.step, hf, if_true, List.mem_append, List.mem_singleton] at hp ⊢
        rw [hnext]
        rcases hp with hp | rfl
        · exact Nat.lt_succ_of_lt (halloc p hp)
        · simp [haddr]
      · simp only [MapSys.step, hf, if_true]
        rw [List.pairwise_append]
        refine ⟨hpair, List.pairwise_singleton _ _, ?_⟩
        intro p hp q hq
        simp only [List.mem_singleton] at hq
        subst hq
        simpa [haddr] using hne p hp
      · intro p hp
        simp only [MapSys.step, hf, if_true, List.mem_append, List.mem_singleton] at hp ⊢
        rw [hc.1]
        rcases hp with hp | rfl
        · rw [hframe p.1 (hne p hp)]
          exact hgate p hp
        · simp only [haddr]
          exact hnut
  | gate item snapshot now =>
    simp only at ht
    by_cases ha : item < s.cache.nextAddr
    · have hc := CacheMap.refreshItemFrom_cases s.cache item snapshot now
      rcases hc.2.2 with ⟨hf, hsame⟩ | ⟨hf, hdue, hnut, hframe⟩
      · have e1 : s.step (MapEvent.gate item snapshot now) = s := by
          cases s
          simp only [MapSys.step, ha, if_true, hf] at hsame ⊢
          simp [hsame]
        rw [e1]
        exact ⟨halloc, hpair, hgate⟩
      · have hne : ∀ p ∈ s.running, p.1 ≠ item := by
          intro p hp e
          have h1 := ht p hp e
          have h2 := hgate p hp
          rw [e] at h2
          omega
        refine ⟨?_, ?_, ?_⟩
        · intro p hp
          simp only [MapSys.step, ha, hf, if_true, List.mem_append, List.mem_singleton] at hp ⊢
          rw [hc.2.1]
          rcases hp with hp | rfl
          · exact halloc p hp
          · exact ha
        · simp only [MapSys.step, ha, hf, if_true]
          rw [List.pairwise_append]
          refine ⟨hpair, List.pairwise_singleton _ _, ?_⟩
          intro p hp q hq
          simp only [List.mem_singleton] at hq
          subst hq
          exact hne p hp
        · intro p hp
          simp only [MapSys.step, ha, hf, if_true, List.mem_append, List.mem_singleton] at hp ⊢
          rw [hc.1]
          rcases hp with hp | rfl
          · rw [hframe p.1 (hne p hp)]
            exact hgate p hp
          · exact hnut
    · have e1 : s.step (MapEvent.gate item snapshot now) = s := by
        simp [MapSys.step, ha]
      rw [e1]
      exact ⟨halloc, hpair, hgate⟩
  | touch item now =>
    have hc := CacheMap.updateEvictTime_frame s.cache item now
    refine ⟨?_, hpair, ?_⟩
    · intro p hp
      simp only [MapSys.step] at hp ⊢
      rw [hc.2.1]
      exact halloc p hp
    · intro p hp
      simp only [MapSys.step] at hp ⊢
      rw [(hc.2.2.2 p.1).1, hc.1]
      exact hgate p hp
  | evict now => exact ⟨halloc, hpair, hgate⟩
  | done i data err now =>
    cases hi : s.running[i]? with
    | none =>
      have e1 : s.step (MapEvent.done i data err now) = s := by
        simp [MapSys.step, hi]
      rw [e1]
      exact ⟨halloc, hpair, hgate⟩
    | some p =>
      have hc := CacheMap.updateData_frame s.cache p.1 data err now
      have hsub : ∀ q ∈ s.running.eraseIdx i, q ∈ s.running :=
        fun q hq => (List.eraseIdx_sublist s.running i).subset hq
      have hne := pairwise_eraseIdx_ne s.running i p hpair hi
      refine ⟨?_, ?_, ?_⟩
      · intro q hq
        simp only [MapSys.step, hi] at hq ⊢
        rw [hc.2.1]
        exact halloc q (hsub q hq)
      · simp only [MapSys.step, hi]
        exact hpair.sublist (List.eraseIdx_sublist s.running i)
      · intro q hq
        simp only [MapSys.step, hi] at hq ⊢
        rw [hc.2.2.2 q.1 (hne q hq), hc.1]
        exact hgate q (hsub q hq)

theorem MapSys.gated_map_run {K V : Type} [DecidableEq K] (events : List (MapEvent K V)) :
    ∀ (s : MapSys K V), s.gated → s.timely events → (s.run events).gated := by
  induction events with
  | nil => intro s h _; simpa [MapSys.run] using h
  | cons e rest ih =>
    intro s h ht
    have h1 := MapSys.gated_map_step s e h ht.1
    have h2 := ih (s.step e) h1 ht.2
    simpa [MapSys.run] using h2

/-- C2 (as stated, refuted). On the example cache (retry interval one second)
a Get at time 1000 starts a load; that load is still running when a Get one
second later starts another: two loads of the one entry are in flight. -/
theorem one_refresh_in_flight_counterexample :
    ¬ (((CacheSys.mk exampleCache []).run
        [CacheEvent.get 1000 0, CacheEvent.get 1000001000 1000001000]).running.length ≤ 1) := by
  decide

/-- C2 (amended). In every state reachable through Get calls, sweeps and load
completions in which no Get passes the gate of an entry `retryInterval` or
more after the start of a load of that entry that is still running, and in
which every sum computed is in the range of `int64`, at most
one load per entry is in flight, in the single-value cache and for every item
of the keyed map. -/
theorem one_refresh_in_flight_within_retry_window :
    (∀ (T : Type) (c : DataCache T) (events : List (CacheEvent T)),
      (∀ e ∈ events, e.fits c) →
      (CacheSys.mk c []).timely events →
      ((CacheSys.mk c []).run events).running.length ≤ 1) ∧
    (∀ (K V : Type) [DecidableEq K] (c : CacheMap K V) (events : List (MapEvent K V))
      (item : Nat),
      (∀ e ∈ events, e.fits c) →
      (MapSys.mk c []).timely events →
      ((MapSys.mk c []).run events).inFlight item ≤ 1) := by
  constructor
  · intro T c events _ ht
    have h := CacheSys.gated_run events (CacheSys.mk c []) (Or.inl rfl) ht
    rcases h with h | ⟨t, h, _⟩ <;> simp [h]
  · intro K V _ c events item _ ht
    have h0 : (MapSys.mk c []).gated :=
      ⟨by intro p hp; simp at hp, List.Pairwise.nil, by intro p hp; simp at hp⟩
    have h := MapSys.gated_map_run events (MapSys.mk c []) h0 ht
    exact filter_length_le_one _ item h.2.1

theorem exampleEvents_fit : ∀ e ∈ exampleEvents, e.fits exampleCache := by
  intro e he
  simp only [exampleEvents, List.mem_cons, List.mem_singleton, List.not_mem_nil,
    or_false] at he
  rcases he with rfl | rfl | rfl | rfl
  · exact (by decide : exampleCache.startFitsAt 1000)
  · exact (by decide : exampleCache.startFitsAt 1500)
  · exact (by decide : loadFits exampleCache.expiration exampleCache.expirationOnErr true 2000)
  · exact (by decide : exampleCache.startFitsAt 1000001000)

theorem exampleMapEvents_fit : ∀ e ∈ exampleMapEvents, e.fits exampleMap := by
  intro e he
  simp only [exampleMapEvents, List.mem_cons, List.mem_singleton, List.not_mem_nil,
    or_false] at he
  rcases he with rfl | rfl | rfl | rfl | rfl | rfl | rfl
  · exact (by decide : exampleMap.startFitsAt 1000)
  · exact (by decide : fitsInt64 (1000 + exampleMap.retryInterval))
  · exact (by decide : fitsInt64 (1001000 + exampleMap.evictTimeout))
  · exact (by decide : loadFits exampleMap.expiration exampleMap.expirationOnErr false 2000)
  · exact (by decide : exampleMap.startFitsAt 30000000)
  · exact (by decide : fitsInt64 (30000000 + exampleMap.retryInterval))
  · exact trivial

/-- Witness of C2 (amended): the example event sequences are timely and
compute sums in the range of `int64`, and leave one load of the cache and one
load of item 1 of the map in flight. -/
theorem one_refresh_in_flight_within_retry_window_witness :
    ((∀ e ∈ exampleEvents, e.fits exampleCache) ∧
      (CacheSys.mk exampleCache []).timely exampleEvents ∧
      ((CacheSys.mk exampleCache []).run exampleEvents).running.length ≤ 1) ∧
    ((∀ e ∈ exampleMapEvents, e.fits exampleMap) ∧
      (MapSys.mk exampleMap []).timely exampleMapEvents ∧
      ((MapSys.mk exampleMap []).run exampleMapEvents).inFlight 1 ≤ 1) :=
  ⟨⟨exampleEvents_fit, by simp only [exampleEvents, CacheSys.timely]; decide,
      one_refresh_in_flight_within_retry_window.1 Nat exampleCache exampleEvents
        exampleEvents_fit (by simp only [exampleEvents, CacheSys.timely]; decide)⟩,
    ⟨exampleMapEvents_fit, by simp only [exampleMapEvents, MapSys.timely]; decide,
      one_refresh_in_flight_within_retry_window.2 Nat Nat exampleMap exampleMapEvents 1
        exampleMapEvents_fit (by simp only [exampleMapEvents, MapSys.timely]; decide)⟩⟩

/-! ## Lemmas on Get -/

theorem DataCache.refreshFrom_policy {T : Type} (c : DataCache T) (snapshot now : Int) :
    (c.refreshFrom snapshot now).1.data = c.data ∧
    (c.refreshFrom snapshot now).1.expiration = c.expiration ∧
    (c.refreshFrom snapshot now).1.expirationOnErr = c.expirationOnErr ∧
    (c.refreshFrom snapshot now).1.retryInterval = c.retryInterval ∧
    (c.refreshFrom snapshot now).1.waitTimeout = c.waitTimeout := by
  unfold DataCache.refreshFrom
  by_cases hs : now ≥ snapshot
  · by_cases hn : now ≥ c.nextUpdateTime
    · by_cases hc : c.initCutOffTime = 0 <;> simp [hs, hn, hc]
    · by_cases hc : c.initCutOffTime = 0 <;> simp [hs, hn, hc]
  · simp [hs]

/-- DataCache.Get returns: with enough fuel the call ends, having run its
refresh section and slept `n` times. -/
theorem DataCache.Get_returns {T : Type} (c : DataCache T) (now : Int) :
    ∃ n : Nat, ∀ fuel, n < fuel →
      c.Get fuel now = some
        { cache := (c.refresh now).1, doUpdate := (c.refresh now).2, sleeps := n,
          value := c.data } := by
  obtain ⟨n, hn⟩ := waitLoop_const (c.refresh now).1.initCutOffTime now
  refine ⟨n, fun fuel hf => ?_⟩
  have hd : (c.refresh now).1.data = c.data :=
    (DataCache.refreshFrom_policy c c.nextUpdateTime now).1
  simp [DataCache.Get, hn fuel hf, hd]

theorem mapGet_mapSet_same {K A : Type} [DecidableEq K] (m : List (K × A)) (k : K) (a : A) :
    mapGet (mapSet m k a) k = some a := by
  induction m with
  | nil => simp [mapSet, mapGet]
  | cons p rest ih =>
    by_cases h : p.1 = k
    · simp [mapSet, mapGet, h]
    · simp [mapSet, mapGet, h, ih]

theorem CacheMap.getStart_quiet {K V : Type} [DecidableEq K] (c : CacheMap K V) (key : K)
    (item : Nat) (now : Int) (hk : mapGet c.dataMap key = some item)
    (h : now ≤ (c.items item).nextUpdateTime) :
    c.getStart key now = (c, item, []) := by
  unfold CacheMap.getStart
  exact CacheMap.getStartFrom_quiet c key item _ now hk h

/-- What lines 137-176 of CacheMap.Get leave behind: the key is mapped to the
item returned, the policy is untouched, and when a goroutine was started the
gate of the item stands at `now + retryInterval`. -/
theorem CacheMap.getStart_spec {K V : Type} [DecidableEq K] (c : CacheMap K V) (key : K)
    (now : Int) :
    mapGet (c.getStart key now).1.dataMap key = some (c.getStart key now).2.1 ∧
    (c.getStart key now).1.retryInterval = c.retryInterval ∧
    (c.getStart key now).1.expirationOnErr = c.expirationOnErr ∧
    ((c.getStart key now).2.2 ≠ [] →
      ((c.getStart key now).1.items (c.getStart key now).2.1).nextUpdateTime
        = now + c.retryInterval) := by
  cases hk : mapGet c.dataMap key with
  | some item =>
    by_cases hdue : (c.items item).nextUpdateTime < now
    · rw [CacheMap.getStart_due c key item now hk hdue]
      refine ⟨hk, rfl, rfl, fun _ => ?_⟩
      simp [CacheMap.setItem]
    · rw [CacheMap.getStart_quiet c key item now hk (by omega)]
      exact ⟨hk, rfl, rfl, fun h => absurd rfl h⟩
  | none =>
    by_cases hr : now > now + c.retryInterval
    · have e : c.getStart key now =
          (({ c with dataMap := mapSet c.dataMap key c.nextAddr
                     items := Function.update c.items c.nextAddr
                       { data := none, nextUpdateTime := now + c.retryInterval
                         evictTime := now + c.evictTimeout
                         initCutOffTime := now + c.waitTimeout }
                     nextAddr := c.nextAddr + 1 } : CacheMap K V).setItem c.nextAddr
              { data := none, nextUpdateTime := now + c.retryInterval
                evictTime := now + c.evictTimeout
                initCutOffTime := now + c.waitTimeout }, c.nextAddr,
            [Task.updateData key c.nextAddr, Task.updateData key c.nextAddr]) := by
        simp [CacheMap.getStart, CacheMap.getStartFrom, CacheMap.lookupOrCreate, hk,
          CacheMap.refreshItemFrom, hr]
      rw [e]
      refine ⟨mapGet_mapSet_same _ _ _, rfl, rfl, fun _ => ?_⟩
      simp [CacheMap.setItem]
    · have e : c.getStart key now =
          (({ c with dataMap := mapSet c.dataMap key c.nextAddr
                     items := Function.update c.items c.nextAddr
                       { data := none, nextUpdateTime := now + c.retryInterval
                         evictTime := now + c.evictTimeout
                         initCutOffTime := now + c.waitTimeout }
                     nextAddr := c.nextAddr + 1 } : CacheMap K V), c.nextAddr,
            [Task.updateData key c.nextAddr]) := by
        simp [CacheMap.getStart, CacheMap.getStartFrom, CacheMap.lookupOrCreate, hk,
          CacheMap.refreshItemFrom, hr]
      rw [e]
      refine ⟨mapGet_mapSet_same _ _ _, rfl, rfl, fun _ => ?_⟩
      simp

/-- CacheMap.Get on a key that is in the map returns: with enough fuel the
call ends with the value stored in the item of the key, having started one
load when the item was due and none otherwise. -/
theorem CacheMap.Get_existing {K V : Type} [DecidableEq K] [Inhabited V] (c : CacheMap K V)
    (key : K) (item : Nat) (now : Int) (hk : mapGet c.dataMap key = some item) :
    ∃ n : Nat, ∀ fuel, n < fuel → ∃ r, c.Get fuel key now = some r ∧ r.sleeps = n ∧
      r.value = valueOrZero (c.items item).data ∧
      r.tasks = (if (c.items item).nextUpdateTime < now then [Task.updateData key item]
        else []) := by
  by_cases hdue : (c.items item).nextUpdateTime < now
  · have hs := CacheMap.getStart_due c key item now hk hdue
    obtain ⟨n, hn⟩ := waitLoop_const (((c.getStart key now).1.items item).initCutOffTime) now
    refine ⟨n, fun fuel hf => ?_⟩
    have hw := hn fuel hf
    rw [hs] at hw
    simp only [CacheMap.Get, hs, hw, if_pos hdue]
    refine ⟨_, rfl, rfl, ?_, rfl⟩
    simp only
    rw [((CacheMap.updateEvictTime_frame _ item _).2.2.2 item).2.1]
    simp [CacheMap.setItem]
  · have hs := CacheMap.getStart_quiet c key item now hk (by omega)
    obtain ⟨n, hn⟩ := waitLoop_const (((c.getStart key now).1.items item).initCutOffTime) now
    refine ⟨n, fun fuel hf => ?_⟩
    have hw := hn fuel hf
    rw [hs] at hw
    simp only [CacheMap.Get, hs, hw, if_neg hdue]
    refine ⟨_, rfl, rfl, ?_, rfl⟩
    simp only
    rw [((CacheMap.updateEvictTime_frame _ item _).2.2.2 item).2.1]

/-! ## C3: a successful load is applied -/

/-- C3. Successful refresh: when the callback returns `(value, nil)` and the
result is applied at time `now`, with `now + expiration` in the range of
`int64`, the stored value becomes `value` and `nextUpdateTime` becomes
`now + expiration`, in the single-value cache (goroutine of DataCache.Get) and
in the keyed map (updateData). -/
theorem successful_refresh_applied :
    (∀ (T : Type) (c : DataCache T) (value : T) (now : Int),
      fitsInt64 (now + c.expiration) →
      (c.loadTask value false now).data = value ∧
      (c.loadTask value false now).nextUpdateTime = now + c.expiration) ∧
    (∀ (K V : Type) (c : CacheMap K V) (item : Nat) (value : V) (now : Int),
      fitsInt64 (now + c.expiration) →
      ((c.updateData item value false now).items item).data = some value ∧
      ((c.updateData item value false now).items item).nextUpdateTime
        = now + c.expiration) := by
  constructor
  · intro T c value now _
    unfold DataCache.loadTask
    by_cases h : now < c.initCutOffTime <;> simp [h]
  · intro K V c item value now _
    unfold CacheMap.updateData CacheMap.storeItem CacheMap.setItem
    by_cases h : now < (c.items item).initCutOffTime <;> simp [h]

/-- Witness of C3: a load of the example cache and a load of key 7 of the
example map that return 9 at time 2000; the next refresh is due 20 ms later. -/
theorem successful_refresh_applied_witness :
    (fitsInt64 (2000 + exampleCache.expiration) ∧
      (exampleCache.loadTask 9 false 2000).data = 9 ∧
      (exampleCache.loadTask 9 false 2000).nextUpdateTime = 20002000) ∧
    (fitsInt64 (2000 + exampleMap.expiration) ∧
      ((exampleMap.updateData 0 9 false 2000).items 0).data = some 9 ∧
      ((exampleMap.updateData 0 9 false 2000).items 0).nextUpdateTime = 20002000) :=
  ⟨⟨by decide, (successful_refresh_applied.1 Nat exampleCache 9 2000 (by decide)).1,
      (successful_refresh_applied.1 Nat exampleCache 9 2000 (by decide)).2⟩,
    ⟨by decide, (successful_refresh_applied.2 Nat Nat exampleMap 0 9 2000 (by decide)).1,
      (successful_refresh_applied.2 Nat Nat exampleMap 0 9 2000 (by decide)).2⟩⟩

/-! ## C4: an error that is not cached -/

theorem DataCache.loadTask_untolerated {T : Type} (c : DataCache T) (data : T) (now : Int)
    (h : c.expirationOnErr ≤ 0) : c.loadTask data true now = c := by
  simp [DataCache.loadTask, h]

theorem CacheMap.updateData_untolerated {K V : Type} (c : CacheMap K V) (item : Nat)
    (data : V) (now : Int) (h : c.expirationOnErr ≤ 0) :
    c.updateData item data true now = c := by
  simp [CacheMap.updateData, h]

/-- C4. Untolerated error: when the callback returns an error and
`expirationOnErr <= 0`, the goroutine started by the Get at time `g` leaves
the whole entry as it was, whatever `data` came with the error; the gate
stays at `g + retryInterval`; every later Get returns (with enough fuel) the
previous value, and a Get at a time later than `g + retryInterval` starts a
new load.  The sums that the Get at `g` computes from `g`, and the sums of
the later Get, are in the range of `int64`. -/
theorem untolerated_error_keeps_entry :
    (∀ (T : Type) (c0 : DataCache T) (g : Int) (data : T) (now : Int),
      c0.expirationOnErr ≤ 0 → c0.nextUpdateTime ≤ g → c0.startFitsAt g →
      (c0.refresh g).1.loadTask data true now = (c0.refresh g).1 ∧
      ((c0.refresh g).1.loadTask data true now).nextUpdateTime = g + c0.retryInterval ∧
      ((c0.refresh g).1.loadTask data true now).data = c0.data ∧
      ∀ t : Int, (c0.refresh g).1.fitsAt t → ∃ n : Nat, ∀ fuel, n < fuel →
        ∃ r, ((c0.refresh g).1.loadTask data true now).Get fuel t = some r ∧
          r.value = c0.data ∧ (g + c0.retryInterval < t → r.doUpdate = true)) ∧
    (∀ (K V : Type) [DecidableEq K] [Inhabited V] (c0 : CacheMap K V) (key : K) (g : Int)
      (data : V) (now : Int),
      c0.expirationOnErr ≤ 0 → (c0.getStart key g).2.2 ≠ [] → c0.startFitsAt g →
      (c0.getStart key g).1.updateData (c0.getStart key g).2.1 data true now
        = (c0.getStart key g).1 ∧
      ((((c0.getStart key g).1.updateData (c0.getStart key g).2.1 data true now).items
        (c0.getStart key g).2.1).nextUpdateTime = g + c0.retryInterval) ∧
      ∀ t : Int, (c0.getStart key g).1.fitsAt key t → ∃ n : Nat, ∀ fuel, n < fuel →
        ∃ r, ((c0.getStart key g).1.updateData (c0.getStart key g).2.1 data true now).Get
            fuel key t = some r ∧
          r.value = valueOrZero (((c0.getStart key g).1.items (c0.getStart key g).2.1).data) ∧
          (g + c0.retryInterval < t →
            r.tasks = [Task.updateData key (c0.getStart key g).2.1])) := by
  constructor
  · intro T c0 g data now he hdue _
    have hp := DataCache.refreshFrom_policy c0 c0.nextUpdateTime g
    have hr := DataCache.refresh_of_le c0 g hdue
    have he1 : (c0.refresh g).1.expirationOnErr ≤ 0 := by
      unfold DataCache.refresh
      rw [hp.2.2.1]
      exact he
    have hid := DataCache.loadTask_untolerated (c0.refresh g).1 data now he1
    rw [hid]
    refine ⟨rfl, hr.2.1, hr.2.2, fun t _ => ?_⟩
    obtain ⟨n, hn⟩ := DataCache.Get_returns (c0.refresh g).1 t
    refine ⟨n, fun fuel hf => ⟨_, hn fuel hf, hr.2.2, fun hlate => ?_⟩⟩
    have hrp : (c0.refresh g).1.nextUpdateTime ≤ t := by
      rw [hr.2.1]
      omega
    exact (DataCache.refresh_of_le (c0.refresh g).1 t hrp).1
  · intro K V _ _ c0 key g data now he hstart _
    have hs := CacheMap.getStart_spec c0 key g
    have he1 : (c0.getStart key g).1.expirationOnErr ≤ 0 := by
      rw [hs.2.2.1]
      exact he
    have hid := CacheMap.updateData_untolerated (c0.getStart key g).1 (c0.getStart key g).2.1
      data now he1
    rw [hid]
    refine ⟨rfl, hs.2.2.2 hstart, fun t _ => ?_⟩
    obtain ⟨n, hn⟩ := CacheMap.Get_existing (c0.getStart key g).1 key (c0.getStart key g).2.1 t
      hs.1
    refine ⟨n, fun fuel hf => ?_⟩
    obtain ⟨r, hr, _, hv, htasks⟩ := hn fuel hf
    refine ⟨r, hr, hv, fun hlate => ?_⟩
    rw [htasks, if_pos]
    rw [hs.2.2.2 hstart]
    exact hlate

/-- Witness of C4: the example cache and key 7 of the example map, both due,
at gate time 1000. -/
theorem untolerated_error_keeps_entry_witness :
    (exampleCache.expirationOnErr ≤ 0 ∧ exampleCache.nextUpdateTime ≤ 1000 ∧
      exampleCache.startFitsAt 1000 ∧
      (exampleCache.refresh 1000).1.loadTask 9 true 12000000
        = (exampleCache.refresh 1000).1 ∧
      (exampleCache.refresh 1000).1.fitsAt 1000002000 ∧
      ∃ n : Nat, ∀ fuel, n < fuel →
        ∃ r, ((exampleCache.refresh 1000).1.loadTask 9 true 12000000).Get fuel 1000002000
            = some r ∧
          r.value = exampleCache.data ∧
          (1000 + exampleCache.retryInterval < 1000002000 → r.doUpdate = true)) ∧
    (exampleMap.expirationOnErr ≤ 0 ∧ (exampleMap.getStart 7 1000).2.2 ≠ [] ∧
      exampleMap.startFitsAt 1000 ∧
      (exampleMap.getStart 7 1000).1.updateData (exampleMap.getStart 7 1000).2.1 9 true
        12000000 = (exampleMap.getStart 7 1000).1 ∧
      (exampleMap.getStart 7 1000).1.fitsAt 7 12000000 ∧
      ∃ n : Nat, ∀ fuel, n < fuel →
        ∃ r, ((exampleMap.getStart 7 1000).1.updateData (exampleMap.getStart 7 1000).2.1 9
            true 12000000).Get fuel 7 12000000 = some r ∧
          r.value
            = valueOrZero (((exampleMap.getStart 7 1000).1.items
                (exampleMap.getStart 7 1000).2.1).data) ∧
          (1000 + exampleMap.retryInterval < 12000000 →
            r.tasks = [Task.updateData 7 (exampleMap.getStart 7 1000).2.1])) :=
  ⟨⟨by decide, by decide, by decide,
      (untolerated_error_keeps_entry.1 Nat exampleCache 1000 9 12000000 (by decide)
        (by decide) (by decide)).1, by decide,
      (untolerated_error_keeps_entry.1 Nat exampleCache 1000 9 12000000 (by decide)
        (by decide) (by decide)).2.2.2 1000002000 (by decide)⟩,
    ⟨by decide, by decide, by decide,
      (untolerated_error_keeps_entry.2 Nat Nat exampleMap 7 1000 9 12000000 (by decide)
        (by decide) (by decide)).1, by decide,
      (untolerated_error_keeps_entry.2 Nat Nat exampleMap 7 1000 9 12000000 (by decide)
        (by decide) (by decide)).2.2 12000000 (by decide)⟩⟩

/-! ## C5: an error that is cached -/

theorem CacheMap.updateData_dataMap {K V : Type} (c : CacheMap K V) (item : Nat) (data : V)
    (err : Bool) (now : Int) : (c.updateData item data err now).dataMap = c.dataMap :=
  (CacheMap.updateData_frame c item data err now).2.2.1

/-- C5. Tolerated error: when the callback returns `(value, err)` with an
error and `expirationOnErr > 0`, applying the result at time `now`, with
`now + expirationOnErr` in the range of `int64`, stores `value` and sets
`nextUpdateTime = now + expirationOnErr`; the Get calls made before
`now + expirationOnErr`, in any number, start no load. -/
theorem tolerated_error_cached :
    (∀ (T : Type) (c : DataCache T) (value : T) (now : Int),
      0 < c.expirationOnErr → fitsInt64 (now + c.expirationOnErr) →
      (c.loadTask value true now).data = value ∧
      (c.loadTask value true now).nextUpdateTime = now + c.expirationOnErr ∧
      ∀ calls : List (Int × Int), (∀ p ∈ calls, p.1 < now + c.expirationOnErr) →
        ((c.loadTask value true now).refreshAll calls).2
          = List.replicate calls.length false) ∧
    (∀ (K V : Type) [DecidableEq K] (c : CacheMap K V) (key : K) (item : Nat) (value : V)
      (now : Int),
      0 < c.expirationOnErr → fitsInt64 (now + c.expirationOnErr) →
      mapGet c.dataMap key = some item →
      ((c.updateData item value true now).items item).data = some value ∧
      ((c.updateData item value true now).items item).nextUpdateTime
        = now + c.expirationOnErr ∧
      ∀ calls : List (Int × Int), (∀ p ∈ calls, p.1 < now + c.expirationOnErr) →
        ((c.updateData item value true now).getStartAll key calls).2
          = List.replicate calls.length []) := by
  constructor
  · intro T c value now he _
    have hne : ¬ c.expirationOnErr ≤ 0 := by omega
    have hd : (c.loadTask value true now).data = value := by
      unfold DataCache.loadTask
      by_cases h : now < c.initCutOffTime <;> simp [hne, h]
    have hn : (c.loadTask value true now).nextUpdateTime = now + c.expirationOnErr := by
      unfold DataCache.loadTask
      by_cases h : now < c.initCutOffTime <;> simp [hne, h]
    refine ⟨hd, hn, fun calls hcalls => ?_⟩
    exact (DataCache.refreshAll_quiet calls (c.loadTask value true now)
      (fun p hp => by rw [hn]; exact hcalls p hp)).1
  · intro K V _ c key item value now he _ hk
    have hne : ¬ c.expirationOnErr ≤ 0 := by omega
    have hd : ((c.updateData item value true now).items item).data = some value := by
      unfold CacheMap.updateData CacheMap.storeItem CacheMap.setItem
      by_cases h : now < (c.items item).initCutOffTime <;> simp [hne, h]
    have hn : ((c.updateData item value true now).items item).nextUpdateTime
        = now + c.expirationOnErr := by
      unfold CacheMap.updateData CacheMap.storeItem CacheMap.setItem
      by_cases h : now < (c.items item).initCutOffTime <;> simp [hne, h]
    have hk1 : mapGet (c.updateData item value true now).dataMap key = some item := by
      rw [CacheMap.updateData_dataMap]
      exact hk
    refine ⟨hd, hn, fun calls hcalls => ?_⟩
    rw [CacheMap.getStartAll_quiet (c.updateData item value true now) key item hk1 calls
      (fun p hp => by rw [hn]; exact le_of_lt (hcalls p hp))]

/-- Witness of C5: the example cache and key 7 of the example map with errors
cached for 10 ms, a failed load that returned 0 applied at time 2000. -/
theorem tolerated_error_cached_witness :
    ((0 : Int) < ({ exampleCache with expirationOnErr := 10000000 } : DataCache Nat).expirationOnErr ∧
      fitsInt64 (2000 +
        ({ exampleCache with expirationOnErr := 10000000 } : DataCache Nat).expirationOnErr) ∧
      (({ exampleCache with expirationOnErr := 10000000 } : DataCache Nat).loadTask 0 true
        2000).nextUpdateTime = 2000 + 10000000) ∧
    ((0 : Int) < ({ exampleMap with expirationOnErr := 10000000 } : CacheMap Nat Nat).expirationOnErr ∧
      fitsInt64 (2000 +
        ({ exampleMap with expirationOnErr := 10000000 } : CacheMap Nat Nat).expirationOnErr) ∧
      mapGet ({ exampleMap with expirationOnErr := 10000000 } : CacheMap Nat Nat).dataMap 7
        = some 0 ∧
      ((({ exampleMap with expirationOnErr := 10000000 } : CacheMap Nat Nat).updateData 0 0
        true 2000).items 0).data = some 0) :=
  ⟨⟨by decide, by decide,
      (tolerated_error_cached.1 Nat { exampleCache with expirationOnErr := 10000000 } 0 2000
        (by decide) (by decide)).2.1⟩,
    ⟨by decide, by decide, by decide,
      (tolerated_error_cached.2 Nat Nat { exampleMap with expirationOnErr := 10000000 } 7 0 0
        2000 (by decide) (by decide) (by decide)).1⟩⟩

/-! ## C7: release of the first-load cutoff -/

/-- C7 (as stated, refuted). On the example cache (errors not cached) the Get
at time 1000 sets the cutoff to 1001000; the load fails at time 2000, before
that cutoff, and the cutoff is still 1001000 afterwards, not 2000. -/
theorem cutoff_release_counterexample :
    ¬ ((2000 : Int) < (exampleCache.refresh 1000).1.initCutOffTime →
      ((exampleCache.refresh 1000).1.loadTask 9 true 2000).initCutOffTime = 2000) := by
  decide

/-- C7 (amended). When the callback succeeds, or fails with
`expirationOnErr > 0`, and the goroutine finishes at a time `now` before the
entry's `initCutOffTime`, the cutoff is `now` afterwards; when the callback
fails with `expirationOnErr <= 0` the cutoff is left as it was.  Both for the
single-value cache and for updateData of the keyed map. -/
theorem cutoff_released_when_result_applied :
    (∀ (T : Type) (c : DataCache T) (data : T) (err : Bool) (now : Int),
      (err = false ∨ 0 < c.expirationOnErr) → now < c.initCutOffTime →
      (c.loadTask data err now).initCutOffTime = now) ∧
    (∀ (T : Type) (c : DataCache T) (data : T) (now : Int),
      c.expirationOnErr ≤ 0 →
      (c.loadTask data true now).initCutOffTime = c.initCutOffTime) ∧
    (∀ (K V : Type) (c : CacheMap K V) (item : Nat) (data : V) (err : Bool) (now : Int),
      (err = false ∨ 0 < c.expirationOnErr) → now < (c.items item).initCutOffTime →
      ((c.updateData item data err now).items item).initCutOffTime = now) ∧
    (∀ (K V : Type) (c : CacheMap K V) (item : Nat) (data : V) (now : Int),
      c.expirationOnErr ≤ 0 →
      ((c.updateData item data true now).items item).initCutOffTime
        = (c.items item).initCutOffTime) := by
  refine ⟨?_, ?_, ?_, ?_⟩
  · intro T c data err now hok hlt
    unfold DataCache.loadTask
    cases err
    · simp [hlt]
    · have hne : ¬ c.expirationOnErr ≤ 0 := by
        rcases hok with h | h
        · cases h
        · omega
      simp [hne, hlt]
  · intro T c data now he
    rw [DataCache.loadTask_untolerated c data now he]
  · intro K V c item data err now hok hlt
    unfold CacheMap.updateData CacheMap.storeItem CacheMap.setItem
    cases err
    · simp [hlt]
    · have hne : ¬ c.expirationOnErr ≤ 0 := by
        rcases hok with h | h
        · cases h
        · omega
      simp [hne, hlt]
  · intro K V c item data now he
    rw [CacheMap.updateData_untolerated c item data now he]

/-- Witness of C7 (amended): a successful load on the example cache and on
item 0 of the example map, finished before the cutoff. -/
theorem cutoff_released_when_result_applied_witness :
    ((2000 : Int) < (exampleCache.refresh 1000).1.initCutOffTime ∧
      ((exampleCache.refresh 1000).1.loadTask 9 false 2000).initCutOffTime = 2000) ∧
    (exampleCache.expirationOnErr ≤ 0 ∧
      ((exampleCache.refresh 1000).1.loadTask 9 true 2000).initCutOffTime
        = (exampleCache.refresh 1000).1.initCutOffTime) ∧
    ((50 : Int) < (exampleMap.items 0).initCutOffTime ∧
      ((exampleMap.updateData 0 9 false 50).items 0).initCutOffTime = 50) :=
  ⟨⟨by decide,
      cutoff_released_when_result_applied.1 Nat (exampleCache.refresh 1000).1 9 false 2000
        (Or.inl rfl) (by decide)⟩,
    ⟨by decide,
      cutoff_released_when_result_applied.2.1 Nat (exampleCache.refresh 1000).1 9 2000
        (by decide)⟩,
    ⟨by decide,
      cutoff_released_when_result_applied.2.2.1 Nat Nat exampleMap 0 9 false 50 (Or.inl rfl)
        (by decide)⟩⟩

/-! ## C8: no redundant loads -/

/-- What a successful load leaves in the single-value cache. -/
theorem DataCache.loadTask_success {T : Type} (c : DataCache T) (v : T) (t : Int) :
    (c.loadTask v false t).data = v ∧
    (c.loadTask v false t).nextUpdateTime = t + c.expiration ∧
    (c.loadTask v false t).initCutOffTime ≤ t := by
  unfold DataCache.loadTask
  by_cases h : t < c.initCutOffTime
  · simp [h]
  · simp [h]
    omega

/-- What a successful load leaves in an item of the keyed map. -/
theorem CacheMap.updateData_success {K V : Type} (c : CacheMap K V) (item : Nat) (v : V)
    (t : Int) :
    ((c.updateData item v false t).items item).data = some v ∧
    ((c.updateData item v false t).items item).nextUpdateTime = t + c.expiration ∧
    ((c.updateData item v false t).items item).initCutOffTime ≤ t := by
  unfold CacheMap.updateData CacheMap.storeItem CacheMap.setItem
  by_cases h : t < (c.items item).initCutOffTime
  · simp [h]
  · simp [h]
    omega


/-- A Get on a single-value cache that is not due and whose cutoff has passed
changes nothing, starts no load and returns the stored value after at most
one sleep. -/
theorem DataCache.Get_quiet {T : Type} (c : DataCache T) (now : Int)
    (hn : now < c.nextUpdateTime) (hc : c.initCutOffTime ≤ now) :
    ∀ fuel, 1 < fuel → ∃ r, c.Get fuel now = some r ∧ r.cache = c ∧ r.doUpdate = false ∧
      r.value = c.data ∧ r.sleeps ≤ 1 := by
  have hr : c.refresh now = (c, false) := by
    have h1 : ¬ now ≥ c.nextUpdateTime := by omega
    simp [DataCache.refresh, DataCache.refreshFrom, h1]
  obtain ⟨n, hn1, hw⟩ := waitLoop_bounded (fun _ => c.initCutOffTime) now c.initCutOffTime 0
    (fun _ => le_refl _) (by unfold MilliToNanoSecond; push_cast; omega)
  intro fuel hf
  have hw1 := hw fuel (by omega)
  refine ⟨{ cache := c, doUpdate := false, sleeps := n, value := c.data }, ?_, rfl, rfl, rfl,
    hn1⟩
  simp [DataCache.Get, hr, hw1]

theorem DataCache.getAll_quiet {T : Type} (c : DataCache T) (times : List Int)
    (h : ∀ t ∈ times, c.initCutOffTime ≤ t ∧ t < c.nextUpdateTime) :
    ∀ fuel, 1 < fuel → ∃ rs, c.getAll fuel times = some (c, rs) ∧
      rs.length = times.length ∧ ∀ r ∈ rs, r.doUpdate = false ∧ r.value = c.data := by
  induction times with
  | nil => intro fuel _; exact ⟨[], rfl, rfl, by simp⟩
  | cons t rest ih =>
    intro fuel hf
    have ht := h t (List.mem_cons_self _ _)
    obtain ⟨r, hr, hcache, hno, hval, _⟩ := DataCache.Get_quiet c t ht.2 ht.1 fuel hf
    obtain ⟨rs, hrs, hlen, hall⟩ := ih (fun t1 h1 => h t1 (List.mem_cons_of_mem _ h1)) fuel hf
    refine ⟨r :: rs, ?_, by simp [hlen], ?_⟩
    · simp [DataCache.getAll, hr, hcache, hrs]
    · intro r1 hr1
      rcases List.mem_cons.mp hr1 with rfl | hr1
      · exact ⟨hno, hval⟩
      · exact hall r1 hr1

/-- A Get on a key of the map whose item is not due and whose cutoff has
passed starts no load and returns the stored value; the item keeps its value,
gate and cutoff, and the key its item. -/
theorem CacheMap.Get_key_quiet {K V : Type} [DecidableEq K] [Inhabited V] (c : CacheMap K V)
    (key : K) (item : Nat) (now : Int) (hk : mapGet c.dataMap key = some item)
    (hn : now ≤ (c.items item).nextUpdateTime) (hc : (c.items item).initCutOffTime ≤ now) :
    ∀ fuel, 1 < fuel → ∃ r, c.Get fuel key now = some r ∧ r.tasks = [] ∧
      r.value = valueOrZero (c.items item).data ∧ r.sleeps ≤ 1 ∧
      mapGet r.cache.dataMap key = some item ∧
      (r.cache.items item).data = (c.items item).data ∧
      (r.cache.items item).nextUpdateTime = (c.items item).nextUpdateTime ∧
      (r.cache.items item).initCutOffTime = (c.items item).initCutOffTime := by
  have hs := CacheMap.getStart_quiet c key item now hk hn
  obtain ⟨n, hn1, hw⟩ := waitLoop_bounded (fun _ => (c.items item).initCutOffTime) now
    (c.items item).initCutOffTime 0 (fun _ => le_refl _)
    (by unfold MilliToNanoSecond; push_cast; omega)
  intro fuel hf
  have hw1 := hw fuel (by omega)
  have hfr := CacheMap.updateEvictTime_frame c item (now + (n : Int) * MilliToNanoSecond)
  refine ⟨{ cache := c.updateEvictTime item (now + (n : Int) * MilliToNanoSecond), tasks := [],
            sleeps := n
            value := valueOrZero
              ((c.updateEvictTime item (now + (n : Int) * MilliToNanoSecond)).items item).data },
    ?_, rfl, ?_, hn1, ?_, (hfr.2.2.2 item).2.1, (hfr.2.2.2 item).1, (hfr.2.2.2 item).2.2⟩
  · simp [CacheMap.Get, hs, hw1]
  · simp only
    rw [(hfr.2.2.2 item).2.1]
  · simp only
    rw [hfr.2.2.1]
    exact hk

theorem CacheMap.getAll_key_quiet {K V : Type} [DecidableEq K] [Inhabited V] (key : K)
    (item : Nat) (v : Option V) (gate cutoff : Int) (times : List Int)
    (h : ∀ t ∈ times, cutoff ≤ t ∧ t ≤ gate) :
    ∀ (c : CacheMap K V), mapGet c.dataMap key = some item → (c.items item).data = v →
      (c.items item).nextUpdateTime = gate → (c.items item).initCutOffTime = cutoff →
      ∀ fuel, 1 < fuel → ∃ q, c.getAll fuel key times = some q ∧
        q.2 = List.replicate times.length ([], valueOrZero v) := by
  induction times with
  | nil => intro c _ _ _ _ fuel _; exact ⟨(c, []), rfl, rfl⟩
  | cons t rest ih =>
    intro c hk hv hg hc fuel hf
    have ht := h t (List.mem_cons_self _ _)
    obtain ⟨r, hr, htasks, hval, _, hk1, hv1, hg1, hc1⟩ :=
      CacheMap.Get_key_quiet c key item t hk (by rw [hg]; exact ht.2) (by rw [hc]; exact ht.1)
        fuel hf
    obtain ⟨q, hq, hq2⟩ := ih (fun t1 h1 => h t1 (List.mem_cons_of_mem _ h1)) r.cache hk1
      (by rw [hv1, hv]) (by rw [hg1, hg]) (by rw [hc1, hc]) fuel hf
    refine ⟨(q.1, (r.tasks, r.value) :: q.2), ?_, ?_⟩
    · simp [CacheMap.getAll, hr, hq]
    · simp [hq2, htasks, hval, hv, List.replicate_succ]

/-- C8. No redundant loads: after a successful load result `v` is applied to
an entry at time `t`, with `t + expiration` in the range of `int64`, the Get
calls on that entry at times `t'` with `t <= t' < t + expiration`, in any
number and run one after the other with no other load result applied, all
return (with fuel for two loop iterations) the value `v` and start no load;
the single-value cache, and a key of the keyed map whose item received the
result. -/
theorem no_redundant_loads :
    (∀ (T : Type) (c : DataCache T) (v : T) (t : Int) (times : List Int),
      fitsInt64 (t + c.expiration) →
      (∀ t1 ∈ times, t ≤ t1 ∧ t1 < t + c.expiration) →
      ∀ fuel, 1 < fuel → ∃ q, (c.loadTask v false t).getAll fuel times = some q ∧
        q.2.length = times.length ∧ ∀ r ∈ q.2, r.doUpdate = false ∧ r.value = v) ∧
    (∀ (K V : Type) [DecidableEq K] [Inhabited V] (c : CacheMap K V) (key : K) (item : Nat)
      (v : V) (t : Int) (times : List Int),
      mapGet c.dataMap key = some item →
      fitsInt64 (t + c.expiration) →
      (∀ t1 ∈ times, t ≤ t1 ∧ t1 < t + c.expiration) →
      ∀ fuel, 1 < fuel → ∃ q, (c.updateData item v false t).getAll fuel key times = some q ∧
        q.2 = List.replicate times.length ([], v)) := by
  constructor
  · intro T c v t times _ h fuel hf
    have h3 := (DataCache.loadTask_success c v t)
    obtain ⟨rs, hrs, hlen, hall⟩ := DataCache.getAll_quiet (c.loadTask v false t) times
      (fun t1 h1 => ⟨le_trans h3.2.2 (h t1 h1).1, by rw [h3.2.1]; exact (h t1 h1).2⟩) fuel hf
    refine ⟨_, hrs, hlen, fun r hr => ?_⟩
    have := hall r hr
    rw [h3.1] at this
    exact this
  · intro K V _ _ c key item v t times hk _ h fuel hf
    have h3 := CacheMap.updateData_success c item v t
    have hk1 : mapGet (c.updateData item v false t).dataMap key = some item := by
      rw [CacheMap.updateData_dataMap]
      exact hk
    obtain ⟨q, hq, hq2⟩ := CacheMap.getAll_key_quiet key item (some v) (t + c.expiration)
      ((c.updateData item v false t).items item).initCutOffTime times
      (fun t1 h1 => ⟨le_trans h3.2.2 (h t1 h1).1, le_of_lt (h t1 h1).2⟩)
      (c.updateData item v false t) hk1 h3.1 h3.2.1 rfl fuel hf
    exact ⟨q, hq, by simpa [valueOrZero] using hq2⟩

/-- Witness of C8: three Get calls inside the expiration window of a load
applied at time 2000, on the example cache and on key 7 of the example map. -/
theorem no_redundant_loads_witness :
    (fitsInt64 (2000 + exampleCache.expiration) ∧
      (∀ t1 ∈ [(2000 : Int), 5000, 20001999], (2000 : Int) ≤ t1 ∧
        t1 < 2000 + exampleCache.expiration) ∧
      ∃ q, (exampleCache.loadTask 7 false 2000).getAll 2 [(2000 : Int), 5000, 20001999]
          = some q ∧
        q.2.length = 3 ∧ ∀ r ∈ q.2, r.doUpdate = false ∧ r.value = 7) ∧
    (mapGet exampleMap.dataMap 7 = some 0 ∧
      fitsInt64 (2000 + exampleMap.expiration) ∧
      (∀ t1 ∈ [(2000 : Int), 5000, 20001999], (2000 : Int) ≤ t1 ∧
        t1 < 2000 + exampleMap.expiration) ∧
      ∃ q, (exampleMap.updateData 0 7 false 2000).getAll 2 7 [(2000 : Int), 5000, 20001999]
          = some q ∧
        q.2 = List.replicate 3 ([], 7)) :=
  ⟨⟨by decide, by decide,
      no_redundant_loads.1 Nat exampleCache 7 2000 [(2000 : Int), 5000, 20001999] (by decide)
        (by decide) 2 (by decide)⟩,
    ⟨by decide, by decide, by decide,
      no_redundant_loads.2 Nat Nat exampleMap 7 0 7 2000 [(2000 : Int), 5000, 20001999]
        (by decide) (by decide) (by decide) 2 (by decide)⟩⟩

/-! ## C9: Get on a key that is not in the map -/

theorem mapGet_mem {K A : Type} [DecidableEq K] (m : List (K × A)) (k : K) (a : A)
    (h : mapGet m k = some a) : (k, a) ∈ m := by
  induction m with
  | nil => simp [mapGet] at h
  | cons p rest ih =>
    by_cases hp : p.1 = k
    · simp [mapGet, hp] at h
      have e : p = (k, a) := Prod.ext hp h
      simp [e]
    · simp [mapGet, hp] at h
      exact List.mem_cons_of_mem _ (ih h)

theorem mapGet_filter_none {K A : Type} [DecidableEq K] (f : K × A → Bool) (m : List (K × A))
    (k : K) (h : ∀ p ∈ m, p.1 = k → f p = false) : mapGet (m.filter f) k = none := by
  induction m with
  | nil => simp [mapGet]
  | cons p rest ih =>
    have hrest := ih (fun q hq => h q (List.mem_cons_of_mem _ hq))
    by_cases hf : f p = true
    · have hne : p.1 ≠ k := by
        intro e
        have := h p (List.mem_cons_self _ _) e
        simp [this] at hf
      simp [List.filter_cons, hf, mapGet, hne, hrest]
    · simp [List.filter_cons, hf, hrest]

theorem foldl_mapDelete {K A : Type} [DecidableEq K] (keys : List K) :
    ∀ m : List (K × A), keys.foldl mapDelete m = m.filter (fun p => decide (p.1 ∉ keys)) := by
  induction keys with
  | nil => intro m; simp
  | cons k rest ih =>
    intro m
    simp only [List.foldl_cons, ih, mapDelete, List.filter_filter]
    congr 1
    funext p
    by_cases h1 : p.1 = k <;> by_cases h2 : p.1 ∈ rest <;> simp [h1, h2]

/-- The sweep removes a key whose item has passed its eviction time. -/
theorem CacheMap.evictKeys_removes {K V : Type} [DecidableEq K] (c : CacheMap K V) (key : K)
    (item : Nat) (now : Int) (hk : mapGet c.dataMap key = some item)
    (he : (c.items item).evictTime < now) :
    mapGet (c.evictKeys now).dataMap key = none := by
  unfold CacheMap.evictKeys
  simp only
  rw [foldl_mapDelete]
  apply mapGet_filter_none
  intro p _ hpk
  have hin : key ∈ (c.dataMap.filter
      (fun p => decide ((c.items p.2).evictTime < now))).map Prod.fst := by
    rw [List.mem_map]
    refine ⟨(key, item), ?_, rfl⟩
    rw [List.mem_filter]
    exact ⟨mapGet_mem _ _ _ hk, by simpa using he⟩
  rw [hpk]
  simpa using hin

/-- CacheMap.Get on a key that is not in the map, for any fuel: the result is
that of the polling loop on the cutoff `now + waitTimeout`. -/
theorem CacheMap.Get_missing {K V : Type} [DecidableEq K] [Inhabited V] (c : CacheMap K V)
    (key : K) (now : Int) (fuel : Nat) (hr : 0 ≤ c.retryInterval)
    (hk : mapGet c.dataMap key = none) :
    c.Get fuel key now =
      match waitLoop (fun _ => now + c.waitTimeout) fuel 0 now with
      | none => none
      | some w =>
        some { cache := (c.lookupOrCreate key now).1.updateEvictTime c.nextAddr w.1
               tasks := [Task.updateData key c.nextAddr]
               sleeps := w.2
               value := default } := by
  have hng : ¬ now > now + c.retryInterval := by omega
  have hs : c.getStart key now = ((c.lookupOrCreate key now).1, c.nextAddr,
      [Task.updateData key c.nextAddr]) := by
    simp [CacheMap.getStart, CacheMap.getStartFrom, CacheMap.lookupOrCreate, hk,
      CacheMap.refreshItemFrom, hng]
  have hcut : ((c.lookupOrCreate key now).1.items c.nextAddr).initCutOffTime
      = now + c.waitTimeout := by
    simp [CacheMap.lookupOrCreate, hk]
  have hdata : ((c.lookupOrCreate key now).1.items c.nextAddr).data = none := by
    simp [CacheMap.lookupOrCreate, hk]
  simp only [CacheMap.Get, hs, hcut]
  cases waitLoop (fun _ => now + c.waitTimeout) fuel 0 now with
  | none => rfl
  | some w =>
    simp only
    rw [((CacheMap.updateEvictTime_frame _ c.nextAddr w.1).2.2.2 c.nextAddr).2.1, hdata]
    rfl

/-- The item that CacheMap.Get creates for a missing key, after line 191 has
run with the final clock `w` of the polling loop. -/
theorem CacheMap.fresh_item {K V : Type} [DecidableEq K] (c : CacheMap K V) (key : K)
    (now w : Int) (hk : mapGet c.dataMap key = none) :
    ((c.lookupOrCreate key now).1.updateEvictTime c.nextAddr w).items c.nextAddr =
      { data := none
        nextUpdateTime := now + c.retryInterval
        initCutOffTime := now + c.waitTimeout
        evictTime := max (now + c.evictTimeout) (w + c.evictTimeout) } := by
  by_cases h : w + c.evictTimeout > now + c.evictTimeout
  · have hm : max (now + c.evictTimeout) (w + c.evictTimeout) = w + c.evictTimeout :=
      max_eq_right (le_of_lt h)
    simp [CacheMap.lookupOrCreate, hk, CacheMap.updateEvictTime, CacheMap.setItem, h, hm]
  · have hm : max (now + c.evictTimeout) (w + c.evictTimeout) = now + c.evictTimeout :=
      max_eq_left (by omega)
    simp [CacheMap.lookupOrCreate, hk, CacheMap.updateEvictTime, CacheMap.setItem, h, hm]

/-- C9. For a key that has no entry in the map (in particular a key whose
entry a sweep has removed), CacheMap.Get at time `now`, with no load result
applied during the call and with every sum it computes in the range of
`int64`, returns (with enough fuel) the zero value of `V`,
starts exactly one load for the key, and leaves the key mapped to a newly
allocated item with no value, `nextUpdateTime = now + retryInterval`,
`initCutOffTime = now + waitTimeout` and `evictTime >= now + evictTimeout`.
The item and the value are functions of `now` and the policy alone: two maps
with the same policy give the same result, whatever else they hold. -/
theorem get_on_missing_key :
    (∀ (K V : Type) [DecidableEq K] [Inhabited V] (c : CacheMap K V) (key : K) (now : Int),
      0 ≤ c.retryInterval → mapGet c.dataMap key = none → c.fitsAt key now →
      ∃ n : Nat, ∀ fuel, n < fuel → ∃ r, c.Get fuel key now = some r ∧
        r.tasks = [Task.updateData key c.nextAddr] ∧ r.sleeps = n ∧ r.value = default ∧
        mapGet r.cache.dataMap key = some c.nextAddr ∧
        (r.cache.items c.nextAddr).data = none ∧
        (r.cache.items c.nextAddr).nextUpdateTime = now + c.retryInterval ∧
        (r.cache.items c.nextAddr).initCutOffTime = now + c.waitTimeout ∧
        (r.cache.items c.nextAddr).evictTime
          = now + (n : Int) * MilliToNanoSecond + c.evictTimeout ∧
        now + c.evictTimeout ≤ (r.cache.items c.nextAddr).evictTime) ∧
    (∀ (K V : Type) [DecidableEq K] (c : CacheMap K V) (key : K) (item : Nat) (sweep : Int),
      mapGet c.dataMap key = some item → (c.items item).evictTime < sweep →
      mapGet (c.evictKeys sweep).dataMap key = none) ∧
    (∀ (K V : Type) [DecidableEq K] [Inhabited V] (c c1 : CacheMap K V) (key : K)
      (now : Int) (fuel : Nat),
      0 ≤ c.retryInterval → mapGet c.dataMap key = none → mapGet c1.dataMap key = none →
      c1.retryInterval = c.retryInterval → c1.waitTimeout = c.waitTimeout →
      c1.evictTimeout = c.evictTimeout → c.fitsAt key now →
      (c1.Get fuel key now).map (fun r => (r.value, r.sleeps, r.cache.items c1.nextAddr))
        = (c.Get fuel key now).map (fun r => (r.value, r.sleeps, r.cache.items c.nextAddr))) := by
  refine ⟨?_, ?_, ?_⟩
  · intro K V _ _ c key now hr hk _
    obtain ⟨n, _, _, hw⟩ := waitLoop_first (fun _ => now + c.waitTimeout) now
      (now + c.waitTimeout) (fun _ => le_refl _)
    refine ⟨n, fun fuel hf => ?_⟩
    have hG := CacheMap.Get_missing c key now fuel hr hk
    rw [hw fuel hf] at hG
    have hitem := CacheMap.fresh_item c key now (now + (n : Int) * MilliToNanoSecond) hk
    have hn0 : (0 : Int) ≤ (n : Int) * MilliToNanoSecond := by
      unfold MilliToNanoSecond
      positivity
    have hmax : max (now + c.evictTimeout) (now + (n : Int) * MilliToNanoSecond + c.evictTimeout)
        = now + (n : Int) * MilliToNanoSecond + c.evictTimeout := max_eq_right (by omega)
    rw [hmax] at hitem
    refine ⟨_, hG, rfl, rfl, rfl, ?_, ?_, ?_, ?_, ?_, ?_⟩
    · simp only
      rw [(CacheMap.updateEvictTime_frame _ _ _).2.2.1]
      simp [CacheMap.lookupOrCreate, hk, mapGet_mapSet_same]
    · simp only [hitem]
    · simp only [hitem]
    · simp only [hitem]
    · simp only [hitem]
    · simp only [hitem]
      omega
  · intro K V _ c key item sweep hk he
    exact CacheMap.evictKeys_removes c key item sweep hk he
  · intro K V _ _ c c1 key now fuel hr hk hk1 e1 e2 e3 _
    rw [CacheMap.Get_missing c key now fuel hr hk,
      CacheMap.Get_missing c1 key now fuel (by rw [e1]; exact hr) hk1, e2]
    cases waitLoop (fun _ => now + c.waitTimeout) fuel 0 now with
    | none => rfl
    | some w =>
      simp only [Option.map_some']
      rw [CacheMap.fresh_item c key now w.1 hk, CacheMap.fresh_item c1 key now w.1 hk1, e1, e2,
        e3]

/-- Witness of C9: key 8 is not in the example map; key 7 is, and a sweep at
time 30000001 removes it, after which key 7 is not in the map either. -/
theorem get_on_missing_key_witness :
    ((0 : Int) ≤ exampleMap.retryInterval ∧ mapGet exampleMap.dataMap 8 = none ∧
      exampleMap.fitsAt 8 1000 ∧
      ∃ n : Nat, ∀ fuel, n < fuel → ∃ r, exampleMap.Get fuel 8 1000 = some r ∧
        r.tasks = [Task.updateData 8 exampleMap.nextAddr] ∧ r.sleeps = n ∧ r.value = default ∧
        mapGet r.cache.dataMap 8 = some exampleMap.nextAddr ∧
        (r.cache.items exampleMap.nextAddr).data = none ∧
        (r.cache.items exampleMap.nextAddr).nextUpdateTime = 1000 + exampleMap.retryInterval ∧
        (r.cache.items exampleMap.nextAddr).initCutOffTime = 1000 + exampleMap.waitTimeout ∧
        (r.cache.items exampleMap.nextAddr).evictTime
          = 1000 + (n : Int) * MilliToNanoSecond + exampleMap.evictTimeout ∧
        1000 + exampleMap.evictTimeout ≤ (r.cache.items exampleMap.nextAddr).evictTime) ∧
    (mapGet exampleMap.dataMap 7 = some 0 ∧ (exampleMap.items 0).evictTime < 30000001 ∧
      mapGet (exampleMap.evictKeys 30000001).dataMap 7 = none) :=
  ⟨⟨by decide, by decide, by decide,
      get_on_missing_key.1 Nat Nat exampleMap 8 1000 (by decide) (by decide) (by decide)⟩,
    ⟨by decide, by decide,
      get_on_missing_key.2.1 Nat Nat exampleMap 7 0 30000001 (by decide) (by decide)⟩⟩

/-! ## Lemmas on GetMany -/

theorem mapGet_mapSet_ne {K A : Type} [DecidableEq K] (m : List (K × A)) (k k1 : K) (a : A)
    (h : k1 ≠ k) : mapGet (mapSet m k a) k1 = mapGet m k1 := by
  have h1 : ¬ k = k1 := fun e => h e.symm
  induction m with
  | nil => simp [mapSet, mapGet, h1]
  | cons p rest ih =>
    by_cases hp : p.1 = k
    · have h2 : ¬ p.1 = k1 := fun e => h (e.symm.trans hp)
      simp only [mapSet, hp, if_true, mapGet, h1, if_false]
    · simp only [mapSet, hp, if_false, mapGet]
      by_cases hq : p.1 = k1
      · simp [hq]
      · simp [hq, ih]

theorem mapSet_ne_nil {K A : Type} [DecidableEq K] (m : List (K × A)) (k : K) (a : A) :
    mapSet m k a ≠ [] := by
  cases m with
  | nil => simp [mapSet]
  | cons p rest =>
    by_cases hp : p.1 = k <;> simp [mapSet, hp]

theorem mem_mapSet {K A : Type} [DecidableEq K] (m : List (K × A)) (k : K) (a : A)
    (p : K × A) (h : p ∈ mapSet m k a) : p ∈ m ∨ p = (k, a) := by
  induction m with
  | nil =>
    simp [mapSet] at h
    exact Or.inr h
  | cons q rest ih =>
    by_cases hq : q.1 = k
    · simp [mapSet, hq] at h
      rcases h with h | h
      · exact Or.inr h
      · exact Or.inl (List.mem_cons_of_mem _ h)
    · simp [mapSet, hq] at h
      rcases h with h | h
      · exact Or.inl (by simp [h])
      · rcases ih h with h1 | h1
        · exact Or.inl (List.mem_cons_of_mem _ h1)
        · exact Or.inr h1

theorem CacheMap.SameEntries.rfl_same {K V : Type} (c : CacheMap K V) : c.SameEntries c :=
  ⟨rfl, rfl, rfl, rfl, rfl, rfl, rfl, rfl, fun _ => rfl, fun _ => rfl, fun _ => rfl⟩

theorem CacheMap.SameEntries.trans_same {K V : Type} {c c1 c2 : CacheMap K V}
    (h1 : c.SameEntries c1) (h2 : c1.SameEntries c2) : c.SameEntries c2 :=
  ⟨h2.dataMap.trans h1.dataMap, h2.nextAddr.trans h1.nextAddr,
    h2.hasLoadDataBatch.trans h1.hasLoadDataBatch, h2.expiration.trans h1.expiration,
    h2.expirationOnErr.trans h1.expirationOnErr, h2.retryInterval.trans h1.retryInterval,
    h2.waitTimeout.trans h1.waitTimeout, h2.evictTimeout.trans h1.evictTimeout,
    fun a => (h2.data a).trans (h1.data a),
    fun a => (h2.nextUpdateTime a).trans (h1.nextUpdateTime a),
    fun a => (h2.initCutOffTime a).trans (h1.initCutOffTime a)⟩

theorem CacheMap.updateEvictTime_same {K V : Type} (c : CacheMap K V) (item : Nat)
    (now : Int) : c.SameEntries (c.updateEvictTime item now) := by
  have hf := CacheMap.updateEvictTime_frame c item now
  by_cases h : now + c.evictTimeout > (c.items item).evictTime
  · refine ⟨hf.2.2.1, hf.2.1, ?_, ?_, ?_, hf.1, ?_, ?_, fun a => (hf.2.2.2 a).2.1,
      fun a => (hf.2.2.2 a).1, fun a => (hf.2.2.2 a).2.2⟩ <;>
    simp [CacheMap.updateEvictTime, h, CacheMap.setItem]
  · have e : c.updateEvictTime item now = c := by
      simp [CacheMap.updateEvictTime, h]
    rw [e]
    exact CacheMap.SameEntries.rfl_same c

/-- The first loop of GetMany changes eviction times only, and lists every
requested key as uncached when every requested key is uncached. -/
theorem CacheMap.readKey_fold {K V : Type} [DecidableEq K] [Inhabited V] (now : Int)
    (keys : List K) :
    ∀ st : CacheMap K V × List (K × V) × List K,
      st.1.SameEntries (keys.foldl (CacheMap.readKey now) st).1 ∧
      ((∀ k ∈ keys, st.1.uncached now k) →
        (keys.foldl (CacheMap.readKey now) st).2.2 = st.2.2 ++ keys) := by
  induction keys with
  | nil => intro st; exact ⟨CacheMap.SameEntries.rfl_same _, fun _ => by simp⟩
  | cons k rest ih =>
    intro st
    have hstep : st.1.SameEntries (CacheMap.readKey now st k).1 ∧
        (st.1.uncached now k → (CacheMap.readKey now st k).2.2 = st.2.2 ++ [k]) := by
      cases hk : mapGet st.1.dataMap k with
      | none =>
        have e : CacheMap.readKey now st k = (st.1, st.2.1, st.2.2 ++ [k]) := by
          simp [CacheMap.readKey, hk]
        rw [e]
        exact ⟨CacheMap.SameEntries.rfl_same _, fun _ => rfl⟩
      | some item =>
        have hsame := CacheMap.updateEvictTime_same st.1 item now
        by_cases hdue : now > ((st.1.updateEvictTime item now).items item).nextUpdateTime
        · have e : CacheMap.readKey now st k = (st.1.updateEvictTime item now,
              mapSet st.2.1 k (valueOrZero ((st.1.updateEvictTime item now).items item).data),
              st.2.2 ++ [k]) := by
            simp [CacheMap.readKey, hk, hdue]
          rw [e]
          exact ⟨hsame, fun _ => rfl⟩
        · have e : CacheMap.readKey now st k = (st.1.updateEvictTime item now,
              mapSet st.2.1 k (valueOrZero ((st.1.updateEvictTime item now).items item).data),
              st.2.2) := by
            simp [CacheMap.readKey, hk, hdue]
          rw [e]
          refine ⟨hsame, fun hu => ?_⟩
          exfalso
          rcases hu with hu | ⟨a, ha, hlt⟩
          · rw [hk] at hu
            cases hu
          · rw [hk] at ha
            cases ha
            rw [hsame.nextUpdateTime] at hdue
            omega
    have hrest := ih (CacheMap.readKey now st k)
    simp only [List.foldl_cons]
    refine ⟨hstep.1.trans_same hrest.1, fun hall => ?_⟩
    have h1 := hstep.2 (hall k (List.mem_cons_self _ _))
    have h2 := hrest.2 (fun k1 hk1 => by
      have hu := hall k1 (List.mem_cons_of_mem _ hk1)
      unfold CacheMap.uncached at hu ⊢
      rw [hstep.1.dataMap]
      rcases hu with hu | ⟨a, ha, hlt⟩
      · exact Or.inl hu
      · exact Or.inr ⟨a, ha, by rw [hstep.1.nextUpdateTime]; exact hlt⟩)
    rw [h2, h1]
    simp

theorem CacheMap.SamePolicy.rfl_policy {K V : Type} (c : CacheMap K V) : c.SamePolicy c :=
  ⟨rfl, rfl, rfl, rfl, rfl, rfl⟩

theorem CacheMap.SamePolicy.trans_policy {K V : Type} {c c1 c2 : CacheMap K V}
    (h1 : c.SamePolicy c1) (h2 : c1.SamePolicy c2) : c.SamePolicy c2 :=
  ⟨h2.hasLoadDataBatch.trans h1.hasLoadDataBatch, h2.expiration.trans h1.expiration,
    h2.expirationOnErr.trans h1.expirationOnErr, h2.retryInterval.trans h1.retryInterval,
    h2.waitTimeout.trans h1.waitTimeout, h2.evictTimeout.trans h1.evictTimeout⟩

theorem CacheMap.SameEntries.policy {K V : Type} {c c1 : CacheMap K V}
    (h : c.SameEntries c1) : c.SamePolicy c1 :=
  ⟨h.hasLoadDataBatch, h.expiration, h.expirationOnErr, h.retryInterval, h.waitTimeout,
    h.evictTimeout⟩

/-- One iteration of the second loop of GetMany, when the key is not in the
map: a new item is allocated for it. -/
theorem CacheMap.claimKey_absent {K V : Type} [DecidableEq K] (now : Int)
    (st : CacheMap K V × List (K × Nat) × Bool) (k : K) (hk : mapGet st.1.dataMap k = none) :
    CacheMap.claimKey now st k =
      ({ st.1 with dataMap := mapSet st.1.dataMap k st.1.nextAddr
                   items := Function.update st.1.items st.1.nextAddr
                     { data := none
                       nextUpdateTime := now + st.1.retryInterval
                       evictTime := now + st.1.evictTimeout
                       initCutOffTime := now + st.1.waitTimeout }
                   nextAddr := st.1.nextAddr + 1 }, mapSet st.2.1 k st.1.nextAddr, true) := by
  simp [CacheMap.claimKey, hk]

/-- One iteration of the second loop of GetMany, when the key is in the map
and due: its gate is advanced. -/
theorem CacheMap.claimKey_due {K V : Type} [DecidableEq K] (now : Int)
    (st : CacheMap K V × List (K × Nat) × Bool) (k : K) (item : Nat)
    (hk : mapGet st.1.dataMap k = some item)
    (hdue : (st.1.items item).nextUpdateTime < now) :
    CacheMap.claimKey now st k =
      (st.1.setItem item
          { st.1.items item with nextUpdateTime := now + st.1.retryInterval },
        mapSet st.2.1 k item, st.2.2) := by
  have h1 : now > (st.1.items item).nextUpdateTime := hdue
  simp [CacheMap.claimKey, hk, h1]

/-- One iteration of the second loop of GetMany, when the key is in the map
and not due: nothing changes. -/
theorem CacheMap.claimKey_skip {K V : Type} [DecidableEq K] (now : Int)
    (st : CacheMap K V × List (K × Nat) × Bool) (k : K) (item : Nat)
    (hk : mapGet st.1.dataMap k = some item)
    (hdue : ¬ (st.1.items item).nextUpdateTime < now) :
    CacheMap.claimKey now st k = st := by
  have h1 : ¬ now > (st.1.items item).nextUpdateTime := hdue
  simp [CacheMap.claimKey, hk, h1]

/-- One iteration of the second loop of GetMany keeps the map well formed and
its policy, keeps claimed keys claimed, claims the key it is run on, and
records it in `unCachedDataMap` when it was uncached. -/
theorem CacheMap.claimKey_step {K V : Type} [DecidableEq K] (now : Int)
    (st : CacheMap K V × List (K × Nat) × Bool) (k : K) (hwf : st.1.wellFormed) :
    (CacheMap.claimKey now st k).1.wellFormed ∧
    st.1.SamePolicy (CacheMap.claimKey now st k).1 ∧
    (∀ k1, st.1.claimed now k1 → (CacheMap.claimKey now st k).1.claimed now k1) ∧
    (∀ k1, st.1.uncached now k1 ∨ st.1.claimed now k1 →
      (CacheMap.claimKey now st k).1.uncached now k1 ∨
        (CacheMap.claimKey now st k).1.claimed now k1) ∧
    (st.1.uncached now k ∨ st.1.claimed now k → (CacheMap.claimKey now st k).1.claimed now k) ∧
    (st.2.1 ≠ [] → (CacheMap.claimKey now st k).2.1 ≠ []) ∧
    (st.1.uncached now k → (CacheMap.claimKey now st k).2.1 ≠ []) := by
  cases hk : mapGet st.1.dataMap k with
  | none =>
    rw [CacheMap.claimKey_absent now st k hk]
    have hkeep : ∀ k1 a, mapGet st.1.dataMap k1 = some a →
        mapGet (mapSet st.1.dataMap k st.1.nextAddr) k1 = some a ∧
        Function.update st.1.items st.1.nextAddr
          ({ data := none
             nextUpdateTime := now + st.1.retryInterval
             evictTime := now + st.1.evictTimeout
             initCutOffTime := now + st.1.waitTimeout } : CacheItem V) a = st.1.items a := by
      intro k1 a ha
      have hne : k1 ≠ k := by
        intro e
        rw [e, hk] at ha
        cases ha
      have hlt : a < st.1.nextAddr := hwf (k1, a) (mapGet_mem _ _ _ ha)
      exact ⟨by rw [mapGet_mapSet_ne _ _ _ _ hne]; exact ha,
        Function.update_noteq (Nat.ne_of_lt hlt) _ _⟩
    have hself : ({ st.1 with dataMap := mapSet st.1.dataMap k st.1.nextAddr
                              items := Function.update st.1.items st.1.nextAddr
                                { data := none
                                  nextUpdateTime := now + st.1.retryInterval
                                  evictTime := now + st.1.evictTimeout
                                  initCutOffTime := now + st.1.waitTimeout }
                              nextAddr := st.1.nextAddr + 1 } : CacheMap K V).claimed now k :=
      ⟨st.1.nextAddr, mapGet_mapSet_same _ _ _, by simp⟩
    have hclaimed : ∀ k1, st.1.claimed now k1 →
        ({ st.1 with dataMap := mapSet st.1.dataMap k st.1.nextAddr
                     items := Function.update st.1.items st.1.nextAddr
                       { data := none
                         nextUpdateTime := now + st.1.retryInterval
                         evictTime := now + st.1.evictTimeout
                         initCutOffTime := now + st.1.waitTimeout }
                     nextAddr := st.1.nextAddr + 1 } : CacheMap K V).claimed now k1 := by
      rintro k1 ⟨a, ha, hn⟩
      obtain ⟨h1, h2⟩ := hkeep k1 a ha
      exact ⟨a, h1, by simp only [h2]; exact hn⟩
    refine ⟨?_, ⟨rfl, rfl, rfl, rfl, rfl, rfl⟩, hclaimed, ?_, fun _ => hself,
      fun _ => mapSet_ne_nil _ _ _, fun _ => mapSet_ne_nil _ _ _⟩
    · intro p hp
      rcases mem_mapSet _ _ _ p hp with h | h
      · exact Nat.lt_succ_of_lt (hwf p h)
      · simp [h]
    · intro k1 h
      rcases h with h | h
      · by_cases e : k1 = k
        · rw [e]
          exact Or.inr hself
        · rcases h with h | ⟨a, ha, hlt⟩
          · exact Or.inl (Or.inl (by
              simp only
              rw [mapGet_mapSet_ne _ _ _ _ e]
              exact h))
          · obtain ⟨h1, h2⟩ := hkeep k1 a ha
            exact Or.inl (Or.inr ⟨a, h1, by simp only [h2]; exact hlt⟩)
      · exact Or.inr (hclaimed k1 h)
  | some item =>
    by_cases hdue : (st.1.items item).nextUpdateTime < now
    · rw [CacheMap.claimKey_due now st k item hk hdue]
      have hat : ∀ a, ((st.1.setItem item
          { st.1.items item with nextUpdateTime := now + st.1.retryInterval }).items
            a).nextUpdateTime
          = if a = item then now + st.1.retryInterval else (st.1.items a).nextUpdateTime := by
        intro a
        by_cases e : a = item
        · subst e
          simp [CacheMap.setItem]
        · simp [CacheMap.setItem, Function.update_noteq e, e]
      have hclaimed : ∀ k1, st.1.claimed now k1 →
          (st.1.setItem item
            { st.1.items item with nextUpdateTime := now + st.1.retryInterval }).claimed
              now k1 := by
        rintro k1 ⟨a, ha, hn⟩
        refine ⟨a, ha, ?_⟩
        rw [hat a]
        by_cases e : a = item
        · simp [e, CacheMap.setItem]
        · simp only [e, if_false]
          exact hn
      have hself : (st.1.setItem item
          { st.1.items item with nextUpdateTime := now + st.1.retryInterval }).claimed now k :=
        ⟨item, hk, by rw [hat item]; simp [CacheMap.setItem]⟩
      refine ⟨hwf, ⟨rfl, rfl, rfl, rfl, rfl, rfl⟩, hclaimed, ?_, fun _ => hself,
        fun _ => mapSet_ne_nil _ _ _, fun _ => mapSet_ne_nil _ _ _⟩
      intro k1 h
      rcases h with h | h
      · rcases h with h | ⟨a, ha, hlt⟩
        · exact Or.inl (Or.inl h)
        · by_cases e : a = item
          · exact Or.inr ⟨a, ha, by rw [hat a]; simp [e, CacheMap.setItem]⟩
          · exact Or.inl (Or.inr ⟨a, ha, by rw [hat a]; simp only [e, if_false]; exact hlt⟩)
      · exact Or.inr (hclaimed k1 h)
    · rw [CacheMap.claimKey_skip now st k item hk hdue]
      have hnot : ¬ st.1.uncached now k := by
        rintro (h | ⟨a, ha, hlt⟩)
        · rw [hk] at h
          cases h
        · rw [hk] at ha
          cases ha
          exact hdue hlt
      refine ⟨hwf, CacheMap.SamePolicy.rfl_policy _, fun _ h => h, fun _ h => h, ?_,
        fun h => h, fun h => absurd h hnot⟩
      rintro (h | h)
      · exact absurd h hnot
      · exact h

theorem CacheMap.claimed_of_policy {K V : Type} [DecidableEq K] {c c1 : CacheMap K V}
    (now : Int) (k : K) (hp : c.SamePolicy c1) (hd : c1.dataMap = c.dataMap)
    (hn : ∀ a, (c1.items a).nextUpdateTime = (c.items a).nextUpdateTime)
    (h : c.claimed now k) : c1.claimed now k := by
  obtain ⟨a, ha, hg⟩ := h
  exact ⟨a, by rw [hd]; exact ha, by rw [hn, hp.retryInterval]; exact hg⟩

/-- The second loop of GetMany keeps the map well formed and its policy,
claims every key it is run on, and leaves `unCachedDataMap` non-empty when
its first key was uncached. -/
theorem CacheMap.claimKey_fold {K V : Type} [DecidableEq K] (now : Int) (keys : List K) :
    ∀ st : CacheMap K V × List (K × Nat) × Bool, st.1.wellFormed →
      (∀ k ∈ keys, st.1.uncached now k ∨ st.1.claimed now k) →
      (keys.foldl (CacheMap.claimKey now) st).1.wellFormed ∧
      st.1.SamePolicy (keys.foldl (CacheMap.claimKey now) st).1 ∧
      (∀ k1, st.1.claimed now k1 → (keys.foldl (CacheMap.claimKey now) st).1.claimed now k1) ∧
      (∀ k ∈ keys, (keys.foldl (CacheMap.claimKey now) st).1.claimed now k) ∧
      (st.2.1 ≠ [] → (keys.foldl (CacheMap.claimKey now) st).2.1 ≠ []) ∧
      (∀ k0 rest, keys = k0 :: rest → st.1.uncached now k0 →
        (keys.foldl (CacheMap.claimKey now) st).2.1 ≠ []) := by
  induction keys with
  | nil =>
    intro st hwf _
    exact ⟨hwf, CacheMap.SamePolicy.rfl_policy _, fun _ h => h, by simp, fun h => h,
      by simp⟩
  | cons k rest ih =>
    intro st hwf hall
    obtain ⟨s1, s2, s3, s4, s5, s6, s7⟩ := CacheMap.claimKey_step now st k hwf
    obtain ⟨r1, r2, r3, r4, r5, _⟩ := ih (CacheMap.claimKey now st k) s1
      (fun k1 hk1 => s4 k1 (hall k1 (List.mem_cons_of_mem _ hk1)))
    simp only [List.foldl_cons]
    refine ⟨r1, s2.trans_policy r2, fun k1 h => r3 k1 (s3 k1 h), ?_, fun h => r5 (s6 h), ?_⟩
    · intro k1 hk1
      rcases List.mem_cons.mp hk1 with e | hk1
      · rw [e]
        exact r3 k (s5 (hall k (List.mem_cons_self _ _)))
      · exact r4 k1 hk1
    · intro k0 rest0 e hu
      have e0 : k = k0 := by
        injection e
      rw [← e0] at hu
      exact r5 (s7 hu)

/-- The second loop of GetMany keeps the policy of any map. -/
theorem CacheMap.claimKey_policy {K V : Type} [DecidableEq K] (now : Int) (keys : List K) :
    ∀ st : CacheMap K V × List (K × Nat) × Bool,
      st.1.SamePolicy (keys.foldl (CacheMap.claimKey now) st).1 := by
  induction keys with
  | nil => intro st; exact CacheMap.SamePolicy.rfl_policy _
  | cons k rest ih =>
    intro st
    have hstep : st.1.SamePolicy (CacheMap.claimKey now st k).1 := by
      cases hk : mapGet st.1.dataMap k with
      | none =>
        rw [CacheMap.claimKey_absent now st k hk]
        exact ⟨rfl, rfl, rfl, rfl, rfl, rfl⟩
      | some item =>
        by_cases hdue : (st.1.items item).nextUpdateTime < now
        · rw [CacheMap.claimKey_due now st k item hk hdue]
          exact ⟨rfl, rfl, rfl, rfl, rfl, rfl⟩
        · rw [CacheMap.claimKey_skip now st k item hk hdue]
          exact CacheMap.SamePolicy.rfl_policy _
    simp only [List.foldl_cons]
    exact hstep.trans_policy (ih _)

/-- The status item that GetMany allocates carries the cutoff
`now + waitTimeout`, and GetMany keeps the policy. -/
theorem CacheMap.getManyStart_status {K V : Type} [DecidableEq K] [Inhabited V]
    (c : CacheMap K V) (keys : List K) (now : Int) :
    c.SamePolicy (c.getManyStart keys now).cache ∧
    ∀ a, (c.getManyStart keys now).updatedStatus = some a →
      ((c.getManyStart keys now).cache.items a).initCutOffTime = now + c.waitTimeout := by
  have h1 := (CacheMap.readKey_fold now keys (c, ([] : List (K × V)), ([] : List K))).1
  have h2 := CacheMap.claimKey_policy now
    (keys.foldl (CacheMap.readKey now) (c, [], [])).2.2
    ((keys.foldl (CacheMap.readKey now) (c, [], [])).1, ([] : List (K × Nat)), false)
  have hp := h1.policy.trans_policy h2
  unfold CacheMap.getManyStart
  simp only
  by_cases hu : (keys.foldl (CacheMap.readKey now) (c, [], [])).2.2.length > 0
  · by_cases hm : ((keys.foldl (CacheMap.readKey now) (c, [], [])).2.2.foldl
        (CacheMap.claimKey now)
        ((keys.foldl (CacheMap.readKey now) (c, [], [])).1, [], false)).2.1.length > 0
    · simp only [hu, hm, if_true]
      refine ⟨⟨hp.hasLoadDataBatch, hp.expiration, hp.expirationOnErr, hp.retryInterval,
        hp.waitTimeout, hp.evictTimeout⟩, ?_⟩
      intro a ha
      simp only [Option.some.injEq] at ha
      subst ha
      simp [CacheItem.zero, hp.waitTimeout]
    · simp only [hu, hm, if_true, if_false]
      exact ⟨hp, fun a ha => by cases ha⟩
  · simp only [hu, if_false]
    exact ⟨h1.policy, fun a ha => by cases ha⟩

/-! ## C10: the wait for the first value is bounded -/

theorem cutoff_le_first (cutoff : Nat → Int) (hmono : ∀ j, cutoff (j + 1) ≤ cutoff j) :
    ∀ j, cutoff j ≤ cutoff 0 := by
  intro j
  induction j with
  | zero => exact le_refl _
  | succ j ih => exact le_trans (hmono j) ih

/-- C10. Bounded first-value wait.  The polling loop shared by DataCache.Get,
CacheMap.Get and CacheMap.GetMany, reading a cutoff that never increases while
it waits, returns; when the cutoff was set to `tset + w ms` by a call at a
time `tset` not later than the timestamp `now` of the waiting call, it returns
after at most `w + 1` one-millisecond sleeps.  So do the three operations run
on their own: with `waitTimeout = w ms` and a cutoff of at most
`now + waitTimeout` they return after at most `w + 1` sleeps. -/
theorem bounded_first_value_wait :
    (∀ (cutoff : Nat → Int) (now : Int), (∀ j, cutoff (j + 1) ≤ cutoff j) →
      (∃ n : Nat, ∀ fuel, n < fuel →
        waitLoop cutoff fuel 0 now = some (now + ((n : Nat) : Int) * MilliToNanoSecond, n)) ∧
      ∀ (tset : Int) (w : Nat), tset ≤ now → cutoff 0 ≤ tset + (w : Int) * MilliToNanoSecond →
        ∃ n : Nat, n ≤ w + 1 ∧ ∀ fuel, n < fuel →
          waitLoop cutoff fuel 0 now
            = some (now + ((n : Nat) : Int) * MilliToNanoSecond, n)) ∧
    (∀ (T : Type) (c : DataCache T) (now : Int) (w : Nat),
      c.waitTimeout = (w : Int) * MilliToNanoSecond →
      (c.refresh now).1.initCutOffTime ≤ now + c.waitTimeout →
      ∃ n : Nat, n ≤ w + 1 ∧ ∀ fuel, n < fuel →
        ∃ r, c.Get fuel now = some r ∧ r.sleeps = n) ∧
    (∀ (K V : Type) [DecidableEq K] [Inhabited V] (c : CacheMap K V) (key : K) (now : Int)
      (w : Nat),
      c.waitTimeout = (w : Int) * MilliToNanoSecond →
      ((c.getStart key now).1.items (c.getStart key now).2.1).initCutOffTime
        ≤ now + c.waitTimeout →
      ∃ n : Nat, n ≤ w + 1 ∧ ∀ fuel, n < fuel →
        ∃ r, c.Get fuel key now = some r ∧ r.sleeps = n) ∧
    (∀ (K V : Type) [DecidableEq K] [Inhabited V] (c : CacheMap K V) (keys : List K)
      (now : Int) (w : Nat),
      c.waitTimeout = (w : Int) * MilliToNanoSecond →
      ∃ n : Nat, n ≤ w + 1 ∧ ∀ fuel, n < fuel →
        ∃ r, c.GetMany fuel keys now = some r ∧ r.sleeps ≤ n) := by
  refine ⟨?_, ?_, ?_, ?_⟩
  · intro cutoff now hmono
    have hB := cutoff_le_first cutoff hmono
    refine ⟨?_, ?_⟩
    · obtain ⟨n, _, _, hn⟩ := waitLoop_first cutoff now (cutoff 0) hB
      exact ⟨n, hn⟩
    · intro tset w hset h0
      exact waitLoop_bounded cutoff now (cutoff 0) w hB (by
        unfold MilliToNanoSecond at h0 ⊢
        linarith)
  · intro T c now w hw hcut
    obtain ⟨n, hn, hloop⟩ := waitLoop_bounded (fun _ => (c.refresh now).1.initCutOffTime) now
      (c.refresh now).1.initCutOffTime w (fun _ => le_refl _) (by
        rw [hw] at hcut
        unfold MilliToNanoSecond at hcut ⊢
        linarith)
    refine ⟨n, hn, fun fuel hf => ?_⟩
    simp [DataCache.Get, hloop fuel hf]
  · intro K V _ _ c key now w hw hcut
    obtain ⟨n, hn, hloop⟩ := waitLoop_bounded
      (fun _ => ((c.getStart key now).1.items (c.getStart key now).2.1).initCutOffTime) now
      ((c.getStart key now).1.items (c.getStart key now).2.1).initCutOffTime w
      (fun _ => le_refl _) (by
        rw [hw] at hcut
        unfold MilliToNanoSecond at hcut ⊢
        linarith)
    refine ⟨n, hn, fun fuel hf => ?_⟩
    simp [CacheMap.Get, hloop fuel hf]
  · intro K V _ _ c keys now w hw
    obtain ⟨n, hn, hloop⟩ := waitLoop_bounded (fun _ => now + c.waitTimeout) now
      (now + c.waitTimeout) w (fun _ => le_refl _) (by
        rw [hw]
        unfold MilliToNanoSecond
        linarith)
    refine ⟨n, hn, fun fuel hf => ?_⟩
    have hst := (CacheMap.getManyStart_status c keys now).2
    cases hs : (c.getManyStart keys now).updatedStatus with
    | none => simp [CacheMap.GetMany, hs]
    | some a =>
      by_cases hne : (c.getManyStart keys now).hasNonExistKey = true
      · simp [CacheMap.GetMany, hs, hne, hst a hs, hloop fuel hf]
      · simp [CacheMap.GetMany, hs, hne]

theorem exampleCutoff_mono : ∀ j, exampleCutoff (j + 1) ≤ exampleCutoff j := by
  intro j
  cases j <;> simp [exampleCutoff]

/-- Witness of C10: a reader at time 1000 polling the cutoff set at time 1000
with a wait timeout of 1 ms, pulled back after the first reading; and the
first Get on the example cache and on key 8 of the example map. -/
theorem bounded_first_value_wait_witness :
    ((∀ j, exampleCutoff (j + 1) ≤ exampleCutoff j) ∧ (1000 : Int) ≤ 1000 ∧
      exampleCutoff 0 ≤ 1000 + ((1 : Nat) : Int) * MilliToNanoSecond ∧
      ∃ n : Nat, n ≤ 1 + 1 ∧ ∀ fuel, n < fuel →
        waitLoop exampleCutoff fuel 0 1000
          = some (1000 + ((n : Nat) : Int) * MilliToNanoSecond, n)) ∧
    (exampleCache.waitTimeout = ((1 : Nat) : Int) * MilliToNanoSecond ∧
      (exampleCache.refresh 1000).1.initCutOffTime ≤ 1000 + exampleCache.waitTimeout ∧
      ∃ n : Nat, n ≤ 1 + 1 ∧ ∀ fuel, n < fuel →
        ∃ r, exampleCache.Get fuel 1000 = some r ∧ r.sleeps = n) ∧
    (exampleMap.waitTimeout = ((1 : Nat) : Int) * MilliToNanoSecond ∧
      ((exampleMap.getStart 8 1000).1.items (exampleMap.getStart 8 1000).2.1).initCutOffTime
        ≤ 1000 + exampleMap.waitTimeout ∧
      (∃ n : Nat, n ≤ 1 + 1 ∧ ∀ fuel, n < fuel →
        ∃ r, exampleMap.Get fuel 8 1000 = some r ∧ r.sleeps = n) ∧
      ∃ n : Nat, n ≤ 1 + 1 ∧ ∀ fuel, n < fuel →
        ∃ r, exampleMap.GetMany fuel [8, 7] 1000 = some r ∧ r.sleeps ≤ n) :=
  ⟨⟨exampleCutoff_mono, by decide, by decide,
      (bounded_first_value_wait.1 exampleCutoff 1000 exampleCutoff_mono).2 1000 1 (by decide)
        (by decide)⟩,
    ⟨by decide, by decide,
      bounded_first_value_wait.2.1 Nat exampleCache 1000 1 (by decide) (by decide)⟩,
    ⟨by decide, by decide,
      bounded_first_value_wait.2.2.1 Nat Nat exampleMap 8 1000 1 (by decide) (by decide),
      bounded_first_value_wait.2.2.2 Nat Nat exampleMap [8, 7] 1000 1 (by decide)⟩⟩

/-! ## C6: failed loads and the retry interval -/

theorem CacheMap.updateBatch_untolerated {K V : Type} [DecidableEq K] [Inhabited V]
    (c : CacheMap K V) (unCachedDataMap : List (K × Nat)) (updatedStatus : Nat)
    (data : List (K × V)) (now : Int) (h : c.expirationOnErr ≤ 0) :
    c.updateBatch unCachedDataMap updatedStatus data true now = c := by
  simp [CacheMap.updateBatch, h]

/-- CacheMap.GetMany returns: with enough fuel the call ends in the state in
which it started its goroutines. -/
theorem CacheMap.GetMany_returns {K V : Type} [DecidableEq K] [Inhabited V]
    (c : CacheMap K V) (keys : List K) (now : Int) :
    ∃ n : Nat, ∀ fuel, n < fuel → ∃ r, c.GetMany fuel keys now = some r ∧
      r.cache = (c.getManyStart keys now).cache ∧
      r.tasks = (c.getManyStart keys now).tasks := by
  cases hs : (c.getManyStart keys now).updatedStatus with
  | none => exact ⟨0, fun fuel _ => by simp [CacheMap.GetMany, hs]⟩
  | some a =>
    obtain ⟨n, hn⟩ := waitLoop_const ((c.getManyStart keys now).cache.items a).initCutOffTime now
    refine ⟨n, fun fuel hf => ?_⟩
    by_cases hne : (c.getManyStart keys now).hasNonExistKey = true
    · simp [CacheMap.GetMany, hs, hne, hn fuel hf]
    · simp [CacheMap.GetMany, hs, hne]

/-- GetMany on a well-formed map with a batch callback, for keys that are all
uncached: one `updateBatch` goroutine is started, and afterwards every
requested key is in the map with its gate at `now + retryInterval`. -/
theorem CacheMap.getManyStart_uncached {K V : Type} [DecidableEq K] [Inhabited V]
    (c : CacheMap K V) (keys : List K) (now : Int) (hwf : c.wellFormed)
    (hb : c.hasLoadDataBatch = true) (hne : keys ≠ [])
    (hall : ∀ k ∈ keys, c.uncached now k) :
    (c.getManyStart keys now).tasks.length = 1 ∧
    (∀ task ∈ (c.getManyStart keys now).tasks, ∃ m a, task = Task.updateBatch m a) ∧
    (c.getManyStart keys now).cache.wellFormed ∧
    ∀ k ∈ keys, (c.getManyStart keys now).cache.claimed now k := by
  obtain ⟨h1, h1u⟩ := CacheMap.readKey_fold now keys (c, ([] : List (K × V)), ([] : List K))
  have hkeys : (keys.foldl (CacheMap.readKey now) (c, [], [])).2.2 = keys := by
    rw [h1u hall]
    simp
  obtain ⟨k0, rest0, hk0⟩ : ∃ k0 rest0, keys = k0 :: rest0 := by
    cases keys with
    | nil => exact absurd rfl hne
    | cons k0 rest0 => exact ⟨k0, rest0, rfl⟩
  have hwf1 : (keys.foldl (CacheMap.readKey now) (c, [], [])).1.wellFormed := by
    intro p hp
    rw [h1.dataMap] at hp
    rw [h1.nextAddr]
    exact hwf p hp
  have hunc1 : ∀ k ∈ keys,
      (keys.foldl (CacheMap.readKey now) (c, [], [])).1.uncached now k := by
    intro k hk
    rcases hall k hk with h | ⟨a, ha, hlt⟩
    · exact Or.inl (by rw [h1.dataMap]; exact h)
    · exact Or.inr ⟨a, by rw [h1.dataMap]; exact ha, by rw [h1.nextUpdateTime]; exact hlt⟩
  obtain ⟨f1, f2, _, f4, _, f6⟩ := CacheMap.claimKey_fold now keys
    ((keys.foldl (CacheMap.readKey now) (c, [], [])).1, ([] : List (K × Nat)), false) hwf1
    (fun k hk => Or.inl (hunc1 k hk))
  have hnonempty := f6 k0 rest0 hk0 (hunc1 k0 (by rw [hk0]; exact List.mem_cons_self _ _))
  have hbatch : (keys.foldl (CacheMap.claimKey now)
      ((keys.foldl (CacheMap.readKey now) (c, [], [])).1, ([] : List (K × Nat)),
        false)).1.hasLoadDataBatch = true := by
    rw [f2.hasLoadDataBatch, h1.hasLoadDataBatch]
    exact hb
  have hu : (keys.foldl (CacheMap.readKey now) (c, [], [])).2.2.length > 0 := by
    rw [hkeys, hk0]
    simp
  have hm : ((keys.foldl (CacheMap.readKey now) (c, [], [])).2.2.foldl
      (CacheMap.claimKey now)
      ((keys.foldl (CacheMap.readKey now) (c, [], [])).1, [], false)).2.1.length > 0 := by
    rw [hkeys]
    exact List.length_pos.mpr hnonempty
  unfold CacheMap.getManyStart
  simp only [hu, hm, if_true]
  rw [hkeys]
  simp only [hbatch, if_true]
  refine ⟨rfl, ?_, ?_, ?_⟩
  · intro task ht
    simp only [List.mem_singleton] at ht
    exact ⟨_, _, ht⟩
  · intro p hp
    exact Nat.lt_succ_of_lt (f1 p hp)
  · intro k hk
    obtain ⟨a, ha, hg⟩ := f4 k hk
    have hlt : a < (keys.foldl (CacheMap.claimKey now)
        ((keys.foldl (CacheMap.readKey now) (c, [], [])).1, ([] : List (K × Nat)),
          false)).1.nextAddr := f1 (k, a) (mapGet_mem _ _ _ ha)
    refine ⟨a, ha, ?_⟩
    simp only [Function.update_noteq (Nat.ne_of_lt hlt)]
    exact hg

theorem DataCache.getFailing_spaced {T : Type} (gap : Int) (calls : List (Int × T × Int)) :
    ∀ c : DataCache T, c.expirationOnErr ≤ 0 → c.retryInterval = gap →
      (∀ call, calls.head? = some call → c.nextUpdateTime ≤ call.1) →
      spacedAtLeast gap (calls.map Prod.fst) →
      ∃ N : Nat, ∀ fuel, N < fuel → ∃ q, c.getFailing fuel calls = some q ∧
        q.2 = calls.length := by
  induction calls with
  | nil =>
    intro c _ _ _ _
    exact ⟨0, fun fuel _ => ⟨(c, 0), rfl, rfl⟩⟩
  | cons call rest ih =>
    intro c he hg hdue hsp
    have hd := hdue call rfl
    have hr := DataCache.refresh_of_le c call.1 hd
    have hp := DataCache.refreshFrom_policy c c.nextUpdateTime call.1
    have he1 : (c.refresh call.1).1.expirationOnErr ≤ 0 := by
      unfold DataCache.refresh
      rw [hp.2.2.1]
      exact he
    have hg1 : (c.refresh call.1).1.retryInterval = gap := by
      unfold DataCache.refresh
      rw [hp.2.2.2.1]
      exact hg
    obtain ⟨n, hn⟩ := DataCache.Get_returns c call.1
    have hnext : ∀ call1, rest.head? = some call1 →
        (c.refresh call.1).1.nextUpdateTime ≤ call1.1 := by
      intro call1 h1
      cases rest with
      | nil => cases h1
      | cons c1 rest1 =>
        simp only [List.head?_cons, Option.some.injEq] at h1
        subst h1
        have := hsp.1
        rw [hr.2.1, hg]
        exact this
    have hsp1 : spacedAtLeast gap (rest.map Prod.fst) := by
      cases rest with
      | nil => exact trivial
      | cons c1 rest1 => exact hsp.2
    obtain ⟨N, hN⟩ := ih (c.refresh call.1).1 he1 hg1 hnext hsp1
    refine ⟨max n N, fun fuel hf => ?_⟩
    obtain ⟨q, hq, hq2⟩ := hN fuel (lt_of_le_of_lt (le_max_right n N) hf)
    have hget := hn fuel (lt_of_le_of_lt (le_max_left n N) hf)
    refine ⟨(q.1, 1 + q.2), ?_, ?_⟩
    · simp only [DataCache.getFailing, hget, hr.1, if_true,
        DataCache.loadTask_untolerated _ _ _ he1, hq]
    · simp only [hq2, List.length_cons]
      omega

theorem CacheMap.finishErr_batch {K V : Type} [DecidableEq K] [Inhabited V]
    (c : CacheMap K V) (data : List (K × V)) (now : Int) (tasks : List (Task K))
    (he : c.expirationOnErr ≤ 0) : tasks.foldl (CacheMap.finishErr data now) c = c := by
  induction tasks with
  | nil => rfl
  | cons task rest ih =>
    have h1 : CacheMap.finishErr data now c task = c := by
      cases task with
      | updateData key item =>
        exact CacheMap.updateData_untolerated c item _ now he
      | updateBatch m a =>
        exact CacheMap.updateBatch_untolerated c m a data now he
    simp only [List.foldl_cons, h1, ih]

theorem CacheMap.getManyFailing_spaced {K V : Type} [DecidableEq K] [Inhabited V] (gap : Int)
    (keys : List K) (hne : keys ≠ []) (calls : List (Int × List (K × V) × Int)) :
    ∀ c : CacheMap K V, c.wellFormed → c.hasLoadDataBatch = true → c.expirationOnErr ≤ 0 →
      c.retryInterval = gap →
      (∀ call, calls.head? = some call → ∀ k ∈ keys, c.uncached call.1 k) →
      spacedMoreThan gap (calls.map Prod.fst) →
      ∃ N : Nat, ∀ fuel, N < fuel → ∃ q, c.getManyFailing fuel keys calls = some q ∧
        q.2 = calls.length := by
  induction calls with
  | nil =>
    intro c _ _ _ _ _ _
    exact ⟨0, fun fuel _ => ⟨(c, 0), rfl, rfl⟩⟩
  | cons call rest ih =>
    intro c hwf hb he hg hunc hsp
    obtain ⟨t1, _, t3, t4⟩ := CacheMap.getManyStart_uncached c keys call.1 hwf hb hne
      (hunc call rfl)
    have hp := (CacheMap.getManyStart_status c keys call.1).1
    have he1 : (c.getManyStart keys call.1).cache.expirationOnErr ≤ 0 := by
      rw [hp.expirationOnErr]
      exact he
    obtain ⟨n, hn⟩ := CacheMap.GetMany_returns c keys call.1
    have hnext : ∀ call1, rest.head? = some call1 →
        ∀ k ∈ keys, (c.getManyStart keys call.1).cache.uncached call1.1 k := by
      intro call1 h1 k hk
      cases rest with
      | nil => cases h1
      | cons c1 rest1 =>
        simp only [List.head?_cons, Option.some.injEq] at h1
        subst h1
        obtain ⟨a, ha, hgate⟩ := t4 k hk
        refine Or.inr ⟨a, ha, ?_⟩
        rw [hgate, hp.retryInterval, hg]
        exact hsp.1
    have hsp1 : spacedMoreThan gap (rest.map Prod.fst) := by
      cases rest with
      | nil => exact trivial
      | cons c1 rest1 => exact hsp.2
    obtain ⟨N, hN⟩ := ih (c.getManyStart keys call.1).cache t3
      (by rw [hp.hasLoadDataBatch]; exact hb) he1 (by rw [hp.retryInterval]; exact hg) hnext
      hsp1
    refine ⟨max n N, fun fuel hf => ?_⟩
    obtain ⟨q, hq, hq2⟩ := hN fuel (lt_of_le_of_lt (le_max_right n N) hf)
    obtain ⟨r, hr, hrc, hrt⟩ := hn fuel (lt_of_le_of_lt (le_max_left n N) hf)
    have hfin : r.tasks.foldl (CacheMap.finishErr call.2.1 call.2.2) r.cache
        = (c.getManyStart keys call.1).cache := by
      rw [CacheMap.finishErr_batch r.cache _ _ _ (by rw [hrc]; exact he1), hrc]
    refine ⟨(q.1, r.tasks.length + q.2), ?_, ?_⟩
    · simp only [CacheMap.getManyFailing, hr, hfin, hq]
    · simp only [hq2, hrt, t1, List.length_cons]
      omega

/-- C6 (the code at the failing input). The test scenario of
datacache_test.go, lines 93-104, run on its own: expiration 20 ms, wait
timeout 1 ms, default retry interval of one second, errors not cached, a
callback that always fails 10 ms after it is called, two Get calls 30 ms
apart.  The first Get starts a load, and the goroutine of that load leaves the
cache as it was.  The second Get is inside the retry window that the first
one opened: it starts no load, leaves the cache as it was and returns the zero
value.  The callback is invoked once, where the test asserts two
invocations. -/
theorem failed_load_second_call_starts_no_load :
    ((exampleCache.Get 3 1000).bind fun r1 =>
      ((r1.cache.loadTask 1 true 10001000).Get 3 30001000).map fun r2 =>
        (r1.doUpdate, decide (r1.cache.loadTask 1 true 10001000 = r1.cache), r2.doUpdate,
          decide (r2.cache = r1.cache), r2.value))
      = some (true, true, false, true, 0) ∧
    (exampleCache.getFailing 3 exampleTestCalls).map Prod.snd = some 1 ∧
    (30001000 : Int) < 1000 + exampleCache.retryInterval := by
  decide

/-- Past the retry window a failed load is retried.  With
`expirationOnErr <= 0` and a callback that always fails, successive calls each
made at least `retryInterval` after the call before (DataCache.Get, the first
call finding the cache due), or more than `retryInterval` after the call
before (CacheMap.GetMany with a batch callback on the same non-empty list of
keys, uncached at the first call), each run to its end and followed by the end
of the goroutine it started, with the sums they compute in the range of
`int64`, invoke the callback once per call: `n` calls cause `n`
invocations. -/
theorem failed_load_retried_after_retry_interval :
    (∀ (T : Type) (c : DataCache T) (calls : List (Int × T × Int)),
      c.expirationOnErr ≤ 0 →
      (∀ call, calls.head? = some call → c.nextUpdateTime ≤ call.1) →
      spacedAtLeast c.retryInterval (calls.map Prod.fst) →
      (∀ call ∈ calls, c.startFitsAt call.1) →
      ∃ N : Nat, ∀ fuel, N < fuel → ∃ q, c.getFailing fuel calls = some q ∧
        q.2 = calls.length) ∧
    (∀ (K V : Type) [DecidableEq K] [Inhabited V] (c : CacheMap K V) (keys : List K)
      (calls : List (Int × List (K × V) × Int)),
      c.wellFormed → c.hasLoadDataBatch = true → c.expirationOnErr ≤ 0 → keys ≠ [] →
      (∀ call, calls.head? = some call → ∀ k ∈ keys, c.uncached call.1 k) →
      spacedMoreThan c.retryInterval (calls.map Prod.fst) →
      (∀ call ∈ calls, c.fitsManyAt call.1) →
      ∃ N : Nat, ∀ fuel, N < fuel → ∃ q, c.getManyFailing fuel keys calls = some q ∧
        q.2 = calls.length) := by
  constructor
  · intro T c calls he hdue hsp _
    exact DataCache.getFailing_spaced c.retryInterval calls c he rfl hdue hsp
  · intro K V _ _ c keys calls hwf hb he hne hunc hsp _
    exact CacheMap.getManyFailing_spaced c.retryInterval keys hne calls c hwf hb he rfl hunc hsp

theorem exampleCache_due :
    ∀ call, exampleRetryCalls.head? = some call → exampleCache.nextUpdateTime ≤ call.1 := by
  intro call h
  simp only [exampleRetryCalls, List.head?_cons, Option.some.injEq] at h
  subst h
  decide

theorem exampleMap_wellFormed : exampleMap.wellFormed := by
  unfold CacheMap.wellFormed
  decide

theorem exampleMap_uncached :
    ∀ call, exampleManyCalls.head? = some call →
      ∀ k ∈ [8, 7], exampleMap.uncached call.1 k := by
  intro call h k hk
  simp only [exampleManyCalls, List.head?_cons, Option.some.injEq] at h
  subst h
  simp only [List.mem_cons, List.mem_singleton, List.not_mem_nil, or_false] at hk
  rcases hk with rfl | rfl
  · exact Or.inl (by decide)
  · exact Or.inr ⟨0, by decide, by decide⟩

/-- Two Get calls one second apart on the example cache, and two GetMany calls
20 ms apart for the keys 8 and 7 of the example map (retry interval 10 ms),
with failing callbacks: two invocations each. -/
theorem failed_load_retried_after_retry_interval_witness :
    (exampleCache.expirationOnErr ≤ 0 ∧
      (∀ call, exampleRetryCalls.head? = some call → exampleCache.nextUpdateTime ≤ call.1) ∧
      spacedAtLeast exampleCache.retryInterval (exampleRetryCalls.map Prod.fst) ∧
      (∀ call ∈ exampleRetryCalls, exampleCache.startFitsAt call.1) ∧
      ∃ N : Nat, ∀ fuel, N < fuel → ∃ q, exampleCache.getFailing fuel exampleRetryCalls = some q ∧
        q.2 = exampleRetryCalls.length) ∧
    (exampleMap.wellFormed ∧ exampleMap.hasLoadDataBatch = true ∧
      exampleMap.expirationOnErr ≤ 0 ∧ [8, 7] ≠ [] ∧
      (∀ call, exampleManyCalls.head? = some call →
        ∀ k ∈ [8, 7], exampleMap.uncached call.1 k) ∧
      spacedMoreThan exampleMap.retryInterval (exampleManyCalls.map Prod.fst) ∧
      (∀ call ∈ exampleManyCalls, exampleMap.fitsManyAt call.1) ∧
      ∃ N : Nat, ∀ fuel, N < fuel →
        ∃ q, exampleMap.getManyFailing fuel [8, 7] exampleManyCalls = some q ∧
          q.2 = exampleManyCalls.length) :=
  ⟨⟨by decide, exampleCache_due, by simp only [exampleRetryCalls, List.map, spacedAtLeast]; decide,
      by decide,
      failed_load_retried_after_retry_interval.1 Nat exampleCache exampleRetryCalls (by decide)
        exampleCache_due (by simp only [exampleRetryCalls, List.map, spacedAtLeast]; decide)
        (by decide)⟩,
    ⟨exampleMap_wellFormed, by decide, by decide, by decide, exampleMap_uncached,
      by simp only [exampleManyCalls, List.map, spacedMoreThan]; decide, by decide,
      failed_load_retried_after_retry_interval.2 Nat Nat exampleMap [8, 7] exampleManyCalls
        exampleMap_wellFormed (by decide) (by decide) (by decide) exampleMap_uncached
        (by simp only [exampleManyCalls, List.map, spacedMoreThan]; decide) (by decide)⟩⟩

/-! ## C16, C17: normalisation of the policy -/

/-- A value in the range of `int64` is what the source computes for it. -/
theorem wrap64_of_fitsInt64 (x : Int) (h : fitsInt64 x) : wrap64 x = x := by
  unfold wrap64
  obtain ⟨h1, h2⟩ := h
  omega

/-- What the source computes is in the range of `int64`. -/
theorem fitsInt64_wrap64 (x : Int) : fitsInt64 (wrap64 x) := by
  unfold wrap64
  constructor <;> omega

/-- The policy that NewCacheMap computes, and when the ticker can be started. -/
theorem NewCacheMap_eq {K V : Type} (opt : CacheMapOption) :
    (NewCacheMap opt : Option (CacheMap K V)) =
      if (if wrap64 (opt.EvictTimeout * MilliToNanoSecond)
              ≤ wrap64 (opt.Expiration * MilliToNanoSecond) then
            wrap64 (wrap64 (opt.Expiration * MilliToNanoSecond) * 2)
          else wrap64 (opt.EvictTimeout * MilliToNanoSecond)) ≤ 0 then none
      else some
        { dataMap := []
          items := fun _ => CacheItem.zero
          nextAddr := 0
          hasLoadDataBatch := opt.HasLoadDataBatch
          expiration := wrap64 (opt.Expiration * MilliToNanoSecond)
          expirationOnErr := wrap64 (opt.ExpirationOnErr * MilliToNanoSecond)
          retryInterval :=
            if wrap64 (opt.RetryInterval * MilliToNanoSecond) ≤ 0 then DefaultRetryInterval
            else wrap64 (opt.RetryInterval * MilliToNanoSecond)
          waitTimeout :=
            if wrap64 (opt.WaitTimeout * MilliToNanoSecond) ≤ 0 then 0
            else wrap64 (opt.WaitTimeout * MilliToNanoSecond)
          evictTimeout :=
            if wrap64 (opt.EvictTimeout * MilliToNanoSecond)
                ≤ wrap64 (opt.Expiration * MilliToNanoSecond) then
              wrap64 (wrap64 (opt.Expiration * MilliToNanoSecond) * 2)
            else wrap64 (opt.EvictTimeout * MilliToNanoSecond) } := by
  unfold NewCacheMap
  by_cases h1 : wrap64 (opt.EvictTimeout * MilliToNanoSecond)
      ≤ wrap64 (opt.Expiration * MilliToNanoSecond) <;>
  by_cases h2 : wrap64 (opt.RetryInterval * MilliToNanoSecond) ≤ 0 <;>
  by_cases h3 : wrap64 (opt.WaitTimeout * MilliToNanoSecond) ≤ 0 <;>
  simp [h1, h2, h3]

/-- The policy that NewDataCache.reflecting computes, and when line 69
panics. -/
theorem NewDataCache.reflecting_eq {T : Type} (isZero : T → Option Bool)
    (opt : CacheInitOption T) (clock : Int) :
    NewDataCache.reflecting isZero opt clock =
      if opt.WithInitData = false ∧ isZero opt.InitData = none then none
      else some
        { data := opt.InitData
          expiration := wrap64 (opt.Expiration * MilliToNanoSecond)
          expirationOnErr := wrap64 (opt.ExpirationOnErr * MilliToNanoSecond)
          retryInterval :=
            if wrap64 (opt.RetryInterval * MilliToNanoSecond) ≤ 0 then DefaultRetryInterval
            else wrap64 (opt.RetryInterval * MilliToNanoSecond)
          waitTimeout :=
            if wrap64 (opt.WaitTimeout * MilliToNanoSecond) ≤ 0 then 0
            else wrap64 (opt.WaitTimeout * MilliToNanoSecond)
          initCutOffTime :=
            if opt.WithInitData = true ∨ isZero opt.InitData = some false then clock else 0
          nextUpdateTime := 0 } := by
  unfold NewDataCache.reflecting
  by_cases h2 : wrap64 (opt.RetryInterval * MilliToNanoSecond) ≤ 0 <;>
  by_cases h3 : wrap64 (opt.WaitTimeout * MilliToNanoSecond) ≤ 0 <;>
  cases hw : opt.WithInitData <;>
  cases hz : isZero opt.InitData with
  | none => simp [h2, h3]
  | some z => cases z <;> simp [h2, h3]

/-- C16. Policy normalisation.  NewDataCache and NewCacheMap multiply every
millisecond option by 1,000,000 as `int64`; then `retryInterval` is
1,000,000,000 when the converted value is `<= 0` and the converted value
otherwise, `waitTimeout` is 0 when the converted value is `<= 0` and the
converted value otherwise, and (map only) `evictTimeout` is twice the
converted expiration, as `int64`, when the converted EvictTimeout is not
greater than it and the converted EvictTimeout otherwise; `expiration` and
`expirationOnErr` are kept as converted.  The converted value of an option is
its product with 1,000,000 when that product is in the range of `int64`.
NewDataCache returns unless `T` is an interface type, `InitData` is nil and
`WithInitData` is not set; NewCacheMap returns unless the normalised
`evictTimeout` is `<= 0`. -/
theorem policy_normalisation :
    (∀ (T : Type) [Inhabited T] [DecidableEq T] (opt : CacheInitOption T) (clock : Int),
      (NewDataCache opt clock).expiration = wrap64 (opt.Expiration * 1000000) ∧
      (NewDataCache opt clock).expirationOnErr = wrap64 (opt.ExpirationOnErr * 1000000) ∧
      (NewDataCache opt clock).retryInterval =
        (if wrap64 (opt.RetryInterval * 1000000) ≤ 0 then 1000000000
          else wrap64 (opt.RetryInterval * 1000000)) ∧
      (NewDataCache opt clock).waitTimeout =
        (if wrap64 (opt.WaitTimeout * 1000000) ≤ 0 then 0
          else wrap64 (opt.WaitTimeout * 1000000)) ∧
      NewDataCache.reflecting (fun v => some (decide (v = default))) opt clock
        = some (NewDataCache opt clock)) ∧
    (∀ (T : Type) (isZero : T → Option Bool) (opt : CacheInitOption T) (clock : Int),
      (NewDataCache.reflecting isZero opt clock = none ↔
        opt.WithInitData = false ∧ isZero opt.InitData = none) ∧
      ∀ c, NewDataCache.reflecting isZero opt clock = some c →
        c.expiration = wrap64 (opt.Expiration * 1000000) ∧
        c.expirationOnErr = wrap64 (opt.ExpirationOnErr * 1000000) ∧
        c.retryInterval =
          (if wrap64 (opt.RetryInterval * 1000000) ≤ 0 then 1000000000
            else wrap64 (opt.RetryInterval * 1000000)) ∧
        c.waitTimeout =
          (if wrap64 (opt.WaitTimeout * 1000000) ≤ 0 then 0
            else wrap64 (opt.WaitTimeout * 1000000))) ∧
    (∀ (K V : Type) (opt : CacheMapOption),
      ((NewCacheMap opt : Option (CacheMap K V)) = none ↔
        (if wrap64 (opt.EvictTimeout * 1000000) ≤ wrap64 (opt.Expiration * 1000000) then
          wrap64 (wrap64 (opt.Expiration * 1000000) * 2)
        else wrap64 (opt.EvictTimeout * 1000000)) ≤ 0) ∧
      ∀ c : CacheMap K V, NewCacheMap opt = some c →
        c.expiration = wrap64 (opt.Expiration * 1000000) ∧
        c.expirationOnErr = wrap64 (opt.ExpirationOnErr * 1000000) ∧
        c.retryInterval =
          (if wrap64 (opt.RetryInterval * 1000000) ≤ 0 then 1000000000
            else wrap64 (opt.RetryInterval * 1000000)) ∧
        c.waitTimeout =
          (if wrap64 (opt.WaitTimeout * 1000000) ≤ 0 then 0
            else wrap64 (opt.WaitTimeout * 1000000)) ∧
        c.evictTimeout =
          (if wrap64 (opt.EvictTimeout * 1000000) ≤ wrap64 (opt.Expiration * 1000000) then
            wrap64 (wrap64 (opt.Expiration * 1000000) * 2)
          else wrap64 (opt.EvictTimeout * 1000000))) ∧
    (∀ (T : Type) [Inhabited T] [DecidableEq T] (opt : CacheInitOption T) (clock : Int),
      fitsInt64 (opt.Expiration * 1000000) → fitsInt64 (opt.ExpirationOnErr * 1000000) →
      fitsInt64 (opt.RetryInterval * 1000000) → fitsInt64 (opt.WaitTimeout * 1000000) →
      (NewDataCache opt clock).expiration = opt.Expiration * 1000000 ∧
      (NewDataCache opt clock).expirationOnErr = opt.ExpirationOnErr * 1000000 ∧
      (NewDataCache opt clock).retryInterval =
        (if opt.RetryInterval * 1000000 ≤ 0 then 1000000000 else opt.RetryInterval * 1000000) ∧
      (NewDataCache opt clock).waitTimeout =
        (if opt.WaitTimeout * 1000000 ≤ 0 then 0 else opt.WaitTimeout * 1000000)) ∧
    (∀ (K V : Type) (opt : CacheMapOption) (c : CacheMap K V),
      fitsInt64 (opt.Expiration * 1000000) → fitsInt64 (opt.ExpirationOnErr * 1000000) →
      fitsInt64 (opt.EvictTimeout * 1000000) → fitsInt64 (opt.RetryInterval * 1000000) →
      fitsInt64 (opt.WaitTimeout * 1000000) → fitsInt64 (opt.Expiration * 1000000 * 2) →
      NewCacheMap opt = some c →
      c.expiration = opt.Expiration * 1000000 ∧
      c.expirationOnErr = opt.ExpirationOnErr * 1000000 ∧
      c.retryInterval =
        (if opt.RetryInterval * 1000000 ≤ 0 then 1000000000 else opt.RetryInterval * 1000000) ∧
      c.waitTimeout =
        (if opt.WaitTimeout * 1000000 ≤ 0 then 0 else opt.WaitTimeout * 1000000) ∧
      c.evictTimeout =
        (if opt.EvictTimeout * 1000000 ≤ opt.Expiration * 1000000 then
          opt.Expiration * 1000000 * 2
        else opt.EvictTimeout * 1000000)) := by
  have hdc : ∀ (T : Type) [Inhabited T] [DecidableEq T] (opt : CacheInitOption T)
      (clock : Int),
      (NewDataCache opt clock).expiration = wrap64 (opt.Expiration * 1000000) ∧
      (NewDataCache opt clock).expirationOnErr = wrap64 (opt.ExpirationOnErr * 1000000) ∧
      (NewDataCache opt clock).retryInterval =
        (if wrap64 (opt.RetryInterval * 1000000) ≤ 0 then 1000000000
          else wrap64 (opt.RetryInterval * 1000000)) ∧
      (NewDataCache opt clock).waitTimeout =
        (if wrap64 (opt.WaitTimeout * 1000000) ≤ 0 then 0
          else wrap64 (opt.WaitTimeout * 1000000)) := by
    intro T _ _ opt clock
    unfold NewDataCache
    simp only [MilliToNanoSecond, DefaultRetryInterval]
    refine ⟨?_, ?_, ?_, ?_⟩ <;> split_ifs <;> rfl
  have hmap : ∀ (K V : Type) (opt : CacheMapOption) (c : CacheMap K V),
      NewCacheMap opt = some c →
      c.expiration = wrap64 (opt.Expiration * 1000000) ∧
      c.expirationOnErr = wrap64 (opt.ExpirationOnErr * 1000000) ∧
      c.retryInterval =
        (if wrap64 (opt.RetryInterval * 1000000) ≤ 0 then 1000000000
          else wrap64 (opt.RetryInterval * 1000000)) ∧
      c.waitTimeout =
        (if wrap64 (opt.WaitTimeout * 1000000) ≤ 0 then 0
          else wrap64 (opt.WaitTimeout * 1000000)) ∧
      c.evictTimeout =
        (if wrap64 (opt.EvictTimeout * 1000000) ≤ wrap64 (opt.Expiration * 1000000) then
          wrap64 (wrap64 (opt.Expiration * 1000000) * 2)
        else wrap64 (opt.EvictTimeout * 1000000)) := by
    intro K V opt c h
    rw [NewCacheMap_eq] at h
    by_cases h0 : (if wrap64 (opt.EvictTimeout * MilliToNanoSecond)
        ≤ wrap64 (opt.Expiration * MilliToNanoSecond)
        then wrap64 (wrap64 (opt.Expiration * MilliToNanoSecond) * 2)
        else wrap64 (opt.EvictTimeout * MilliToNanoSecond)) ≤ 0
    · rw [if_pos h0] at h
      cases h
    · rw [if_neg h0] at h
      simp only [Option.some.injEq] at h
      subst h
      simp [MilliToNanoSecond, DefaultRetryInterval]
  refine ⟨?_, ?_, ?_, ?_, ?_⟩
  · intro T _ _ opt clock
    obtain ⟨a1, a2, a3, a4⟩ := hdc T opt clock
    refine ⟨a1, a2, a3, a4, ?_⟩
    unfold NewDataCache.reflecting NewDataCache
    cases hw : opt.WithInitData <;> by_cases hz : opt.InitData = default <;> simp [hw, hz]
  · intro T isZero opt clock
    rw [NewDataCache.reflecting_eq]
    constructor
    · constructor
      · intro h
        by_contra hn
        rw [if_neg hn] at h
        cases h
      · intro h
        rw [if_pos h]
    · intro c h
      by_cases h0 : opt.WithInitData = false ∧ isZero opt.InitData = none
      · rw [if_pos h0] at h
        cases h
      · rw [if_neg h0] at h
        simp only [Option.some.injEq] at h
        subst h
        simp [MilliToNanoSecond, DefaultRetryInterval]
  · intro K V opt
    refine ⟨?_, hmap K V opt⟩
    rw [NewCacheMap_eq]
    simp only [MilliToNanoSecond]
    constructor
    · intro h
      by_contra hn
      rw [if_neg hn] at h
      cases h
    · intro h
      rw [if_pos h]
  · intro T _ _ opt clock f1 f2 f3 f4
    have h := hdc T opt clock
    rw [wrap64_of_fitsInt64 _ f1, wrap64_of_fitsInt64 _ f2, wrap64_of_fitsInt64 _ f3,
      wrap64_of_fitsInt64 _ f4] at h
    exact h
  · intro K V opt c f1 f2 f3 f4 f5 f6 hc
    have h := hmap K V opt c hc
    rw [wrap64_of_fitsInt64 _ f1, wrap64_of_fitsInt64 _ f2, wrap64_of_fitsInt64 _ f3,
      wrap64_of_fitsInt64 _ f4, wrap64_of_fitsInt64 _ f5, wrap64_of_fitsInt64 _ f6] at h
    exact h

/-- Witness of C16: the keyed map of TestDataCacheMap is built, and the
products of its options are in the range of `int64`. -/
theorem policy_normalisation_witness :
    (NewDataCache.reflecting (fun _ : Option Nat => (none : Option Bool))
        { WithInitData := false, InitData := none, Expiration := 20, ExpirationOnErr := 0,
          RetryInterval := 0, WaitTimeout := 1 } 5 = none) ∧
    ∃ c : CacheMap Nat Nat, NewCacheMap testMapOption = some c ∧
      fitsInt64 (testMapOption.Expiration * 1000000) ∧
      fitsInt64 (testMapOption.Expiration * 1000000 * 2) ∧
      c.expiration = 20000000 ∧ c.retryInterval = 1000000000 ∧ c.waitTimeout = 1000000 ∧
      c.evictTimeout = 30000000 := by
  refine ⟨((policy_normalisation.2.1 (Option Nat) (fun _ => none)
    { WithInitData := false, InitData := none, Expiration := 20, ExpirationOnErr := 0,
      RetryInterval := 0, WaitTimeout := 1 } 5).1).2 ⟨rfl, rfl⟩, ?_⟩
  obtain ⟨c, hc⟩ : ∃ c : CacheMap Nat Nat, NewCacheMap testMapOption = some c := by
    rw [NewCacheMap_eq]
    exact ⟨_, rfl⟩
  have h := policy_normalisation.2.2.2.2 Nat Nat testMapOption c (by decide) (by decide)
    (by decide) (by decide) (by decide) (by decide) hc
  refine ⟨c, hc, by decide, by decide, ?_, ?_, ?_, ?_⟩
  · rw [h.1]; rfl
  · rw [h.2.2.1]; rfl
  · rw [h.2.2.2.1]; rfl
  · rw [h.2.2.2.2]; rfl

/-- NewCacheMap fails exactly when the normalised eviction timeout is not
positive; for options whose products are in the range of `int64`, that is
when neither Expiration nor EvictTimeout is positive. -/
theorem NewCacheMap_none_iff {K V : Type} (opt : CacheMapOption)
    (f1 : fitsInt64 (opt.Expiration * 1000000)) (f2 : fitsInt64 (opt.EvictTimeout * 1000000))
    (f3 : fitsInt64 (opt.Expiration * 1000000 * 2)) :
    (NewCacheMap opt : Option (CacheMap K V)) = none ↔
      opt.Expiration ≤ 0 ∧ opt.EvictTimeout ≤ 0 := by
  rw [NewCacheMap_eq]
  unfold MilliToNanoSecond
  rw [wrap64_of_fitsInt64 _ f1, wrap64_of_fitsInt64 _ f2, wrap64_of_fitsInt64 _ f3]
  by_cases h1 : opt.EvictTimeout * 1000000 ≤ opt.Expiration * 1000000
  · by_cases h2 : opt.Expiration * 1000000 * 2 ≤ 0
    · simp only [h1, h2, if_true, true_iff]
      omega
    · simp only [h1, h2, if_true, if_false]
      constructor
      · intro h; cases h
      · intro h; omega
  · by_cases h2 : opt.EvictTimeout * 1000000 ≤ 0
    · simp only [h1, h2, if_true, if_false, true_iff]
      omega
    · simp only [h1, h2, if_false]
      constructor
      · intro h; cases h
      · intro h; omega

/-- C17 (the code at the failing input). With the zero value of
CacheMapOption the eviction timeout is normalised to `2 * 0 = 0`, and
NewCacheMap fails in `time.NewTicker`, which panics on a period that is not
positive. -/
theorem newCacheMap_zero_option_fails :
    (NewCacheMap zeroMapOption : Option (CacheMap Nat Nat)) = none := by
  rw [NewCacheMap_none_iff zeroMapOption (by decide) (by decide) (by decide)]
  decide

/-! ## C11: the wait with the default wait timeout -/

/-- A reader whose cutoff equals its timestamp sleeps exactly once. -/
theorem waitLoop_at_cutoff (now : Int) :
    ∀ fuel, 1 < fuel →
      waitLoop (fun _ => now) fuel 0 now = some (now + ((1 : Nat) : Int) * MilliToNanoSecond, 1) := by
  intro fuel hf
  have h := waitLoop_exit (fun _ => now) 1 fuel 0 now hf
    (fun j hj => by
      have e : j = 0 := by omega
      subst e
      simp)
    (by unfold MilliToNanoSecond; push_cast; omega)
  simpa using h

/-- A reader whose cutoff lies before its timestamp does not sleep. -/
theorem waitLoop_past_cutoff (cutoff now : Int) (h : cutoff < now) :
    ∀ fuel, 0 < fuel → waitLoop (fun _ => cutoff) fuel 0 now = some (now, 0) := by
  intro fuel hf
  obtain ⟨f, rfl⟩ : ∃ f, fuel = f + 1 := ⟨fuel - 1, by omega⟩
  have h1 : now > cutoff := h
  simp [waitLoop, h1]

/-- C11 (as stated, refuted). On a cache built with the default wait timeout
0 and no initial data, the first Get, at time 1000, sets the cutoff to
`1000 + 0` and the loop test `now > initCutOffTime` fails once: the call
sleeps one time, not zero times. -/
theorem zero_wait_first_get_counterexample :
    ¬ ((exampleZeroWait.Get 2 1000).map GetResult.sleeps = some 0) := by
  decide

/-- C11 (amended). With `waitTimeout = 0` the very first Get on a cache with
no value yet (cutoff unset, refresh due), and the Get on a key that is not in
the map, set the cutoff to `now` and sleep exactly once, the loop test being
`now > initCutOffTime`; a Get that reads a cutoff lying before its timestamp,
on a cache or on a key of the map, sleeps zero times. -/
theorem zero_wait_sleeps_at_most_once :
    (∀ (T : Type) (c : DataCache T) (now : Int),
      c.waitTimeout = 0 → c.initCutOffTime = 0 → c.nextUpdateTime ≤ now →
      ∀ fuel, 1 < fuel → ∃ r, c.Get fuel now = some r ∧ r.sleeps = 1) ∧
    (∀ (K V : Type) [DecidableEq K] [Inhabited V] (c : CacheMap K V) (key : K) (now : Int),
      c.waitTimeout = 0 → 0 ≤ c.retryInterval → mapGet c.dataMap key = none →
      ∀ fuel, 1 < fuel → ∃ r, c.Get fuel key now = some r ∧ r.sleeps = 1) ∧
    (∀ (T : Type) (c : DataCache T) (now : Int),
      (c.refresh now).1.initCutOffTime < now →
      ∀ fuel, 0 < fuel → ∃ r, c.Get fuel now = some r ∧ r.sleeps = 0) ∧
    (∀ (K V : Type) [DecidableEq K] [Inhabited V] (c : CacheMap K V) (key : K) (item : Nat)
      (now : Int),
      mapGet c.dataMap key = some item → (c.items item).initCutOffTime < now →
      ∀ fuel, 0 < fuel → ∃ r, c.Get fuel key now = some r ∧ r.sleeps = 0) := by
  refine ⟨?_, ?_, ?_, ?_⟩
  · intro T c now hw hc hdue fuel hf
    have hcut : (c.refresh now).1.initCutOffTime = now := by
      have h1 : now ≥ c.nextUpdateTime := hdue
      simp [DataCache.refresh, DataCache.refreshFrom, h1, hc, hw]
    have hloop := waitLoop_at_cutoff now fuel hf
    refine ⟨{ cache := (c.refresh now).1, doUpdate := (c.refresh now).2, sleeps := 1,
              value := (c.refresh now).1.data }, ?_, rfl⟩
    simp only [DataCache.Get, hcut, hloop]
  · intro K V _ _ c key now hw hr hk fuel hf
    have hG := CacheMap.Get_missing c key now fuel hr hk
    rw [hw, add_zero, waitLoop_at_cutoff now fuel hf] at hG
    exact ⟨_, hG, rfl⟩
  · intro T c now hcut fuel hf
    have hloop := waitLoop_past_cutoff _ now hcut fuel hf
    refine ⟨{ cache := (c.refresh now).1, doUpdate := (c.refresh now).2, sleeps := 0,
              value := (c.refresh now).1.data }, ?_, rfl⟩
    simp only [DataCache.Get, hloop]
  · intro K V _ _ c key item now hk hcut fuel hf
    have hitem : (c.getStart key now).2.1 = item ∧
        ((c.getStart key now).1.items item).initCutOffTime = (c.items item).initCutOffTime := by
      by_cases hdue : (c.items item).nextUpdateTime < now
      · rw [CacheMap.getStart_due c key item now hk hdue]
        simp [CacheMap.setItem]
      · rw [CacheMap.getStart_quiet c key item now hk (by omega)]
        exact ⟨rfl, rfl⟩
    have hloop := waitLoop_past_cutoff
      ((c.getStart key now).1.items (c.getStart key now).2.1).initCutOffTime now
      (by rw [hitem.1, hitem.2]; exact hcut) fuel hf
    simp only [CacheMap.Get, hloop]
    exact ⟨_, rfl, rfl⟩

/-- Witness of C11 (amended): the first Get on the cache with wait timeout 0,
a Get on the new key 8 of the map with wait timeout 0, and later calls. -/
theorem zero_wait_sleeps_at_most_once_witness :
    (exampleZeroWait.waitTimeout = 0 ∧ exampleZeroWait.initCutOffTime = 0 ∧
      exampleZeroWait.nextUpdateTime ≤ 1000 ∧
      ∃ r, exampleZeroWait.Get 2 1000 = some r ∧ r.sleeps = 1) ∧
    (exampleZeroWaitMap.waitTimeout = 0 ∧ 0 ≤ exampleZeroWaitMap.retryInterval ∧
      mapGet exampleZeroWaitMap.dataMap 8 = none ∧
      ∃ r, exampleZeroWaitMap.Get 2 8 1000 = some r ∧ r.sleeps = 1) ∧
    (((exampleZeroWait.refresh 1000).1.refresh 2000).1.initCutOffTime < 2000 ∧
      ∃ r, (exampleZeroWait.refresh 1000).1.Get 1 2000 = some r ∧ r.sleeps = 0) ∧
    (mapGet exampleZeroWaitMap.dataMap 7 = some 0 ∧
      (exampleZeroWaitMap.items 0).initCutOffTime < 1000 ∧
      ∃ r, exampleZeroWaitMap.Get 1 7 1000 = some r ∧ r.sleeps = 0) :=
  ⟨⟨by decide, by decide, by decide,
      zero_wait_sleeps_at_most_once.1 Nat exampleZeroWait 1000 (by decide) (by decide)
        (by decide) 2 (by decide)⟩,
    ⟨by decide, by decide, by decide,
      zero_wait_sleeps_at_most_once.2.1 Nat Nat exampleZeroWaitMap 8 1000 (by decide)
        (by decide) (by decide) 2 (by decide)⟩,
    ⟨by decide,
      zero_wait_sleeps_at_most_once.2.2.1 Nat (exampleZeroWait.refresh 1000).1 2000
        (by decide) 1 (by decide)⟩,
    ⟨by decide, by decide,
      zero_wait_sleeps_at_most_once.2.2.2 Nat Nat exampleZeroWaitMap 7 0 1000 (by decide)
        (by decide) 1 (by decide)⟩⟩

/-! ## C13: the eviction sweep -/

theorem mapGet_none_of_not_mem {K A : Type} [DecidableEq K] (m : List (K × A)) (k : K)
    (h : k ∉ m.map Prod.fst) : mapGet m k = none := by
  induction m with
  | nil => rfl
  | cons p rest ih =>
    simp only [List.map_cons, List.mem_cons, not_or] at h
    have hp : ¬ p.1 = k := fun e => h.1 e.symm
    simp [mapGet, hp, ih h.2]

/-- Looking a key up in a filtered map with unique keys. -/
theorem mapGet_filter_unique {K A : Type} [DecidableEq K] (f : K × A → Bool)
    (m : List (K × A)) (k : K) (hu : (m.map Prod.fst).Nodup) :
    mapGet (m.filter f) k =
      match mapGet m k with
      | none => none
      | some a => if f (k, a) then some a else none := by
  induction m with
  | nil => simp [mapGet]
  | cons p rest ih =>
    rw [List.map_cons, List.nodup_cons] at hu
    by_cases hp : p.1 = k
    · have hpk : p = (k, p.2) := Prod.ext hp rfl
      have hnot : k ∉ (rest.filter f).map Prod.fst := by
        intro hmem
        apply hu.1
        rw [hp]
        rw [List.mem_map] at hmem ⊢
        obtain ⟨q, hq, hqk⟩ := hmem
        exact ⟨q, (List.mem_filter.mp hq).1, hqk⟩
      by_cases hf : f p = true
      · have hf1 : f (k, p.2) = true := by rw [← hpk]; exact hf
        simp [List.filter_cons, hf, mapGet, hp, hf1]
      · have hf1 : ¬ f (k, p.2) = true := by rw [← hpk]; exact hf
        simp [List.filter_cons, hf, mapGet, hp, hf1, mapGet_none_of_not_mem _ _ hnot]
    · by_cases hf : f p = true
      · simp [List.filter_cons, hf, mapGet, hp, ih hu.2]
      · simp [List.filter_cons, hf, mapGet, hp, ih hu.2]

/-- The sweep keeps exactly the pairs whose item has not passed its eviction
time, when the keys of the map are unique. -/
theorem CacheMap.evictKeys_dataMap {K V : Type} [DecidableEq K] (c : CacheMap K V)
    (now : Int) (hu : c.uniqueKeys) :
    (c.evictKeys now).dataMap =
      c.dataMap.filter (fun p => decide (¬ (c.items p.2).evictTime < now)) := by
  unfold CacheMap.evictKeys
  simp only
  rw [foldl_mapDelete]
  apply List.filter_congr
  intro p hp
  have hiff : p.1 ∈ (c.dataMap.filter
      (fun p => decide ((c.items p.2).evictTime < now))).map Prod.fst ↔
      (c.items p.2).evictTime < now := by
    constructor
    · intro h
      rw [List.mem_map] at h
      obtain ⟨q, hq, hqk⟩ := h
      rw [List.mem_filter] at hq
      have e : q = p := List.inj_on_of_nodup_map hu hq.1 hp hqk
      rw [← e]
      simpa using hq.2
    · intro h
      rw [List.mem_map]
      exact ⟨p, List.mem_filter.mpr ⟨hp, by simpa using h⟩, rfl⟩
  by_cases he : (c.items p.2).evictTime < now
  · simp [hiff.mpr he, he]
  · have hn : p.1 ∉ (c.dataMap.filter
        (fun p => decide ((c.items p.2).evictTime < now))).map Prod.fst :=
      fun h => he (hiff.mp h)
    simp [hn, he]

/-- C13. Eviction sweep: evictKeys run at time `now` on a map (whose keys are
unique, as in a Go map) removes exactly the keys whose entry has
`evictTime < now`: such a key is no longer in the map, every key with
`evictTime >= now` is still mapped to the same item, no key is added, and no
item is modified. -/
theorem eviction_sweep_exact {K V : Type} [DecidableEq K] (c : CacheMap K V) (now : Int)
    (hu : c.uniqueKeys) :
    (∀ key item, mapGet c.dataMap key = some item → (c.items item).evictTime < now →
      mapGet (c.evictKeys now).dataMap key = none) ∧
    (∀ key item, mapGet c.dataMap key = some item → now ≤ (c.items item).evictTime →
      mapGet (c.evictKeys now).dataMap key = some item) ∧
    (∀ key, mapGet c.dataMap key = none → mapGet (c.evictKeys now).dataMap key = none) ∧
    (c.evictKeys now).dataMap
      = c.dataMap.filter (fun p => decide (¬ (c.items p.2).evictTime < now)) ∧
    (c.evictKeys now).items = c.items ∧
    (c.evictKeys now).nextAddr = c.nextAddr := by
  have hd := CacheMap.evictKeys_dataMap c now hu
  have hget : ∀ key, mapGet (c.evictKeys now).dataMap key =
      match mapGet c.dataMap key with
      | none => none
      | some a => if decide (¬ (c.items a).evictTime < now) then some a else none := by
    intro key
    rw [hd, mapGet_filter_unique (fun p => decide (¬ (c.items p.2).evictTime < now)) c.dataMap
      key hu]
    cases mapGet c.dataMap key <;> rfl
  refine ⟨?_, ?_, ?_, hd, rfl, rfl⟩
  · intro key item hk he
    rw [hget key, hk]
    simp [he]
  · intro key item hk he
    rw [hget key, hk]
    have hn : ¬ (c.items item).evictTime < now := by omega
    simp [hn]
  · intro key hk
    rw [hget key, hk]

theorem exampleMap_uniqueKeys : exampleMap.uniqueKeys := by
  unfold CacheMap.uniqueKeys
  decide

/-- Witness of C13: a sweep of the example map at the eviction time 30000000
of key 7 keeps the key, a sweep one nanosecond later removes it. -/
theorem eviction_sweep_exact_witness :
    exampleMap.uniqueKeys ∧
    mapGet (exampleMap.evictKeys 30000000).dataMap 7 = some 0 ∧
    mapGet (exampleMap.evictKeys 30000001).dataMap 7 = none :=
  ⟨exampleMap_uniqueKeys,
    (eviction_sweep_exact exampleMap 30000000 exampleMap_uniqueKeys).2.1 7 0 (by decide)
      (by decide),
    (eviction_sweep_exact exampleMap 30000001 exampleMap_uniqueKeys).1 7 0 (by decide)
      (by decide)⟩

/-! ## The three loops of GetMany -/

/-- CacheMap.getManyStart in terms of the states after its two loops. -/
theorem CacheMap.getManyStart_eq {K V : Type} [DecidableEq K] [Inhabited V]
    (c : CacheMap K V) (keys : List K) (now : Int) :
    c.getManyStart keys now =
      if (c.afterRead keys now).2.2.length > 0 then
        if (c.afterClaim keys now).2.1.length > 0 then
          { cache := (c.afterClaim keys now).1.withStatus now
            data := (c.afterRead keys now).2.1
            unCachedDataMap := (c.afterClaim keys now).2.1
            hasNonExistKey := (c.afterClaim keys now).2.2
            updatedStatus := some (c.afterClaim keys now).1.nextAddr
            tasks :=
              if (c.afterClaim keys now).1.hasLoadDataBatch then
                [Task.updateBatch (c.afterClaim keys now).2.1 (c.afterClaim keys now).1.nextAddr]
              else (c.afterClaim keys now).2.1.map (fun p => Task.updateData p.1 p.2) }
        else
          { cache := (c.afterClaim keys now).1
            data := (c.afterRead keys now).2.1
            unCachedDataMap := (c.afterClaim keys now).2.1
            hasNonExistKey := (c.afterClaim keys now).2.2
            updatedStatus := none
            tasks := [] }
      else
        { cache := (c.afterRead keys now).1
          data := (c.afterRead keys now).2.1
          unCachedDataMap := []
          hasNonExistKey := false
          updatedStatus := none
          tasks := [] } := by
  rfl

/-- An invariant of the steps of a fold holds after the fold. -/
theorem foldl_invariant {S A : Type} (f : S → A → S) (P : S → Prop) (l : List A) :
    ∀ s0 : S, (∀ s x, x ∈ l → P s → P (f s x)) → P s0 → P (l.foldl f s0) := by
  induction l with
  | nil => intro s0 _ h0; exact h0
  | cons x rest ih =>
    intro s0 hstep h0
    simp only [List.foldl_cons]
    exact ih (f s0 x) (fun s y hy hs => hstep s y (List.mem_cons_of_mem _ hy) hs)
      (hstep s0 x (List.mem_cons_self _ _) h0)

/-- What the step on `k` establishes, and the other steps keep, holds after
a fold over a list that contains `k`. -/
theorem foldl_establish {S A : Type} (f : S → A → S) (P Q : S → Prop) (k : A) (l : List A) :
    ∀ s0 : S, (∀ s x, x ∈ l → P s → P (f s x)) → (∀ s, P s → Q (f s k)) →
      (∀ s x, x ∈ l → P s → Q s → Q (f s x)) → k ∈ l → P s0 → Q (l.foldl f s0) := by
  induction l with
  | nil => intro s0 _ _ _ hk _; cases hk
  | cons x rest ih =>
    intro s0 hP hest hkeep hk h0
    simp only [List.foldl_cons]
    have hP1 : ∀ s y, y ∈ rest → P s → P (f s y) :=
      fun s y hy hs => hP s y (List.mem_cons_of_mem _ hy) hs
    have hkeep1 : ∀ s y, y ∈ rest → P s → Q s → Q (f s y) :=
      fun s y hy hs hq => hkeep s y (List.mem_cons_of_mem _ hy) hs hq
    have h1 : P (f s0 x) := hP s0 x (List.mem_cons_self _ _) h0
    by_cases hin : k ∈ rest
    · exact ih (f s0 x) hP1 hest hkeep1 hin h1
    · have e : k = x := by
        rcases List.mem_cons.mp hk with e | e
        · exact e
        · exact absurd e hin
      have hq : Q (f s0 x) := by
        rw [← e]
        exact hest s0 h0
      have hboth : P (rest.foldl f (f s0 x)) ∧ Q (rest.foldl f (f s0 x)) :=
        foldl_invariant f (fun s => P s ∧ Q s) rest (f s0 x)
          (fun s y hy hs => ⟨hP1 s y hy hs.1, hkeep1 s y hy hs.1 hs.2⟩) ⟨h1, hq⟩
      exact hboth.2

/-! ## C12: eviction times only grow -/

theorem CacheMap.evictMono_rfl {K V : Type} (c : CacheMap K V) : c.evictMono c :=
  ⟨le_refl _, fun _ _ => le_refl _⟩

theorem CacheMap.evictMono_trans {K V : Type} {c c1 c2 : CacheMap K V}
    (h1 : c.evictMono c1) (h2 : c1.evictMono c2) : c.evictMono c2 :=
  ⟨le_trans h1.1 h2.1,
    fun a ha => le_trans (h1.2 a ha) (h2.2 a (lt_of_lt_of_le ha h1.1))⟩

/-- updateEvictTime sets the eviction time of its item to the maximum of the
old one and `now + evictTimeout`, and leaves the other items alone. -/
theorem CacheMap.updateEvictTime_evictTime {K V : Type} (c : CacheMap K V) (item : Nat)
    (now : Int) :
    ((c.updateEvictTime item now).items item).evictTime
      = max (c.items item).evictTime (now + c.evictTimeout) ∧
    ∀ a, a ≠ item → (c.updateEvictTime item now).items a = c.items a := by
  by_cases h : now + c.evictTimeout > (c.items item).evictTime
  · have hm : max (c.items item).evictTime (now + c.evictTimeout) = now + c.evictTimeout :=
      max_eq_right (le_of_lt h)
    refine ⟨?_, ?_⟩
    · simp [CacheMap.updateEvictTime, h, CacheMap.setItem, hm]
    · intro a ha
      simp [CacheMap.updateEvictTime, h, CacheMap.setItem, Function.update_noteq ha]
  · have hm : max (c.items item).evictTime (now + c.evictTimeout) = (c.items item).evictTime :=
      max_eq_left (by omega)
    have e : c.updateEvictTime item now = c := by
      simp [CacheMap.updateEvictTime, h]
    rw [e, hm]
    exact ⟨rfl, fun _ _ => rfl⟩

theorem CacheMap.updateEvictTime_mono {K V : Type} (c : CacheMap K V) (item : Nat)
    (now : Int) : c.evictMono (c.updateEvictTime item now) := by
  have h := CacheMap.updateEvictTime_evictTime c item now
  refine ⟨le_of_eq (CacheMap.updateEvictTime_frame c item now).2.1.symm, fun a _ => ?_⟩
  by_cases ha : a = item
  · subst ha
    rw [h.1]
    exact le_max_left _ _
  · rw [h.2 a ha]

theorem CacheMap.storeItem_evictTime {K V : Type} (c : CacheMap K V) (item : Nat) (data : V)
    (expire now : Int) :
    (c.storeItem item data expire now).nextAddr = c.nextAddr ∧
    ∀ a, ((c.storeItem item data expire now).items a).evictTime = (c.items a).evictTime := by
  refine ⟨rfl, fun a => ?_⟩
  by_cases ha : a = item
  · subst ha
    by_cases h : now < (c.items a).initCutOffTime <;>
    simp [CacheMap.storeItem, CacheMap.setItem, h]
  · rw [(CacheMap.storeItem_frame c item data expire now).2.2.2 a ha]

theorem CacheMap.storeItem_mono {K V : Type} (c : CacheMap K V) (item : Nat) (data : V)
    (expire now : Int) : c.evictMono (c.storeItem item data expire now) :=
  ⟨le_refl _, fun a _ => le_of_eq ((CacheMap.storeItem_evictTime c item data expire now).2 a).symm⟩

theorem CacheMap.updateData_mono {K V : Type} (c : CacheMap K V) (item : Nat) (data : V)
    (err : Bool) (now : Int) : c.evictMono (c.updateData item data err now) := by
  unfold CacheMap.updateData
  cases err
  · exact CacheMap.storeItem_mono c item data c.expiration now
  · by_cases he : c.expirationOnErr ≤ 0
    · simp only [he, if_true]
      exact CacheMap.evictMono_rfl c
    · simp only [he, if_false, if_true]
      exact CacheMap.storeItem_mono c item data c.expirationOnErr now

theorem CacheMap.setItem_cutoff_mono {K V : Type} (c : CacheMap K V) (item : Nat)
    (cutoff : Int) :
    c.evictMono (c.setItem item { c.items item with initCutOffTime := cutoff }) := by
  refine ⟨le_refl _, fun a _ => ?_⟩
  by_cases ha : a = item
  · subst ha
    simp [CacheMap.setItem]
  · simp [CacheMap.setItem, Function.update_noteq ha]

theorem CacheMap.updateBatch_mono {K V : Type} [DecidableEq K] [Inhabited V]
    (c : CacheMap K V) (unCachedDataMap : List (K × Nat)) (updatedStatus : Nat)
    (data : List (K × V)) (err : Bool) (now : Int) :
    c.evictMono (c.updateBatch unCachedDataMap updatedStatus data err now) := by
  have hfin : ∀ expire : Int, c.evictMono
      ((unCachedDataMap.foldl
        (fun (acc : CacheMap K V) p =>
          acc.storeItem p.2 (valueOrZero (mapGet data p.1)) expire now) c).setItem
        updatedStatus
        { (unCachedDataMap.foldl
            (fun (acc : CacheMap K V) p =>
              acc.storeItem p.2 (valueOrZero (mapGet data p.1)) expire now) c).items
            updatedStatus with initCutOffTime := now }) := by
    intro expire
    have h1 : c.evictMono (unCachedDataMap.foldl
        (fun (acc : CacheMap K V) p =>
          acc.storeItem p.2 (valueOrZero (mapGet data p.1)) expire now) c) :=
      foldl_invariant _ (fun s => c.evictMono s) unCachedDataMap c
        (fun s p _ hs => CacheMap.evictMono_trans hs (CacheMap.storeItem_mono s p.2 _ expire now))
        (CacheMap.evictMono_rfl c)
    exact CacheMap.evictMono_trans h1 (CacheMap.setItem_cutoff_mono _ updatedStatus now)
  unfold CacheMap.updateBatch
  cases err
  · exact hfin c.expiration
  · by_cases he : c.expirationOnErr ≤ 0
    · simp only [he, if_true]
      exact CacheMap.evictMono_rfl c
    · simp only [he, if_false, if_true]
      exact hfin c.expirationOnErr

theorem CacheMap.lookupOrCreate_mono {K V : Type} [DecidableEq K] (c : CacheMap K V) (key : K)
    (now : Int) : c.evictMono (c.lookupOrCreate key now).1 := by
  have h := (CacheMap.lookupOrCreate_cases c key now).2
  rcases h with ⟨_, hsame⟩ | ⟨_, _, hnext, _, hframe⟩
  · rw [hsame]
    exact CacheMap.evictMono_rfl c
  · refine ⟨by rw [hnext]; exact Nat.le_succ _, fun a ha => ?_⟩
    rw [hframe a (Nat.ne_of_lt ha)]

theorem CacheMap.refreshItemFrom_mono {K V : Type} (c : CacheMap K V) (item : Nat)
    (snapshot now : Int) : c.evictMono (c.refreshItemFrom item snapshot now).1 := by
  by_cases hs : now > snapshot
  · by_cases hn : now > (c.items item).nextUpdateTime
    · have e : c.refreshItemFrom item snapshot now =
          (c.setItem item { c.items item with nextUpdateTime := now + c.retryInterval }, true) := by
        simp [CacheMap.refreshItemFrom, hs, hn]
      rw [e]
      refine ⟨le_refl _, fun a _ => ?_⟩
      by_cases ha : a = item
      · subst ha
        simp [CacheMap.setItem]
      · simp [CacheMap.setItem, Function.update_noteq ha]
    · have e : c.refreshItemFrom item snapshot now = (c, false) := by
        simp [CacheMap.refreshItemFrom, hs, hn]
      rw [e]
      exact CacheMap.evictMono_rfl c
  · have e : c.refreshItemFrom item snapshot now = (c, false) := by
      simp [CacheMap.refreshItemFrom, hs]
    rw [e]
    exact CacheMap.evictMono_rfl c

theorem CacheMap.getStartFrom_mono {K V : Type} [DecidableEq K] (c : CacheMap K V) (key : K)
    (snapshot now : Int) : c.evictMono (c.getStartFrom key snapshot now).1 := by
  unfold CacheMap.getStartFrom
  exact CacheMap.evictMono_trans (CacheMap.lookupOrCreate_mono c key now)
    (CacheMap.refreshItemFrom_mono _ _ snapshot now)

/-- The polling loop only moves the local clock forward. -/
theorem waitLoop_clock (cutoff : Nat → Int) :
    ∀ (fuel i : Nat) (now : Int) (w : Int × Nat), waitLoop cutoff fuel i now = some w →
      now ≤ w.1 := by
  intro fuel
  induction fuel with
  | zero => intro i now w h; simp [waitLoop] at h
  | succ f ih =>
    intro i now w h
    by_cases hc : now > cutoff i
    · simp [waitLoop, hc] at h
      rw [← h]
    · simp only [waitLoop, hc, if_false] at h
      have := ih (i + 1) (now + MilliToNanoSecond) w h
      unfold MilliToNanoSecond at this
      omega

theorem CacheMap.lookupOrCreate_policy {K V : Type} [DecidableEq K] (c : CacheMap K V)
    (key : K) (now : Int) :
    (c.lookupOrCreate key now).1.waitTimeout = c.waitTimeout ∧
    (c.lookupOrCreate key now).1.evictTimeout = c.evictTimeout := by
  unfold CacheMap.lookupOrCreate
  cases mapGet c.dataMap key <;> exact ⟨rfl, rfl⟩

theorem CacheMap.refreshItemFrom_policy {K V : Type} (c : CacheMap K V) (item : Nat)
    (snapshot now : Int) :
    (c.refreshItemFrom item snapshot now).1.waitTimeout = c.waitTimeout ∧
    (c.refreshItemFrom item snapshot now).1.evictTimeout = c.evictTimeout := by
  unfold CacheMap.refreshItemFrom
  by_cases hs : now > snapshot
  · by_cases hn : now > (c.items item).nextUpdateTime
    · simp [hs, hn, CacheMap.setItem]
    · simp [hs, hn]
  · simp [hs]

theorem CacheMap.readKey_absent {K V : Type} [DecidableEq K] [Inhabited V] (now : Int)
    (st : CacheMap K V × List (K × V) × List K) (k : K) (hk : mapGet st.1.dataMap k = none) :
    CacheMap.readKey now st k = (st.1, st.2.1, st.2.2 ++ [k]) := by
  simp [CacheMap.readKey, hk]

theorem CacheMap.readKey_present {K V : Type} [DecidableEq K] [Inhabited V] (now : Int)
    (st : CacheMap K V × List (K × V) × List K) (k : K) (item : Nat)
    (hk : mapGet st.1.dataMap k = some item) :
    CacheMap.readKey now st k =
      (st.1.updateEvictTime item now, mapSet st.2.1 k (valueOrZero (st.1.items item).data),
        if now > (st.1.items item).nextUpdateTime then st.2.2 ++ [k] else st.2.2) := by
  have hf := (CacheMap.updateEvictTime_frame st.1 item now).2.2.2 item
  by_cases hdue : now > (st.1.items item).nextUpdateTime
  · have hdue1 : now > ((st.1.updateEvictTime item now).items item).nextUpdateTime := by
      rw [hf.1]; exact hdue
    simp [CacheMap.readKey, hk, hdue, hdue1, hf.2.1]
  · have hdue1 : ¬ now > ((st.1.updateEvictTime item now).items item).nextUpdateTime := by
      rw [hf.1]; exact hdue
    simp [CacheMap.readKey, hk, hdue, hdue1, hf.2.1]

theorem CacheMap.readKey_mono {K V : Type} [DecidableEq K] [Inhabited V] (now : Int)
    (st : CacheMap K V × List (K × V) × List K) (k : K) :
    st.1.evictMono (CacheMap.readKey now st k).1 := by
  cases hk : mapGet st.1.dataMap k with
  | none =>
    rw [CacheMap.readKey_absent now st k hk]
    exact CacheMap.evictMono_rfl _
  | some item =>
    rw [CacheMap.readKey_present now st k item hk]
    exact CacheMap.updateEvictTime_mono st.1 item now

theorem CacheMap.claimKey_mono {K V : Type} [DecidableEq K] (now : Int)
    (st : CacheMap K V × List (K × Nat) × Bool) (k : K) :
    st.1.evictMono (CacheMap.claimKey now st k).1 := by
  cases hk : mapGet st.1.dataMap k with
  | none =>
    rw [CacheMap.claimKey_absent now st k hk]
    refine ⟨Nat.le_succ _, fun a ha => ?_⟩
    simp only [Function.update_noteq (Nat.ne_of_lt ha)]
    exact le_refl _
  | some item =>
    by_cases hdue : (st.1.items item).nextUpdateTime < now
    · rw [CacheMap.claimKey_due now st k item hk hdue]
      refine ⟨le_refl _, fun a _ => ?_⟩
      by_cases ha : a = item
      · subst ha
        simp [CacheMap.setItem]
      · simp [CacheMap.setItem, Function.update_noteq ha]
    · rw [CacheMap.claimKey_skip now st k item hk hdue]
      exact CacheMap.evictMono_rfl _

theorem CacheMap.withStatus_mono {K V : Type} (c : CacheMap K V) (now : Int) :
    c.evictMono (c.withStatus now) := by
  refine ⟨Nat.le_succ _, fun a ha => ?_⟩
  simp only [CacheMap.withStatus, Function.update_noteq (Nat.ne_of_lt ha)]
  exact le_refl _

theorem CacheMap.afterRead_mono {K V : Type} [DecidableEq K] [Inhabited V] (c : CacheMap K V)
    (keys : List K) (now : Int) : c.evictMono (c.afterRead keys now).1 :=
  foldl_invariant (CacheMap.readKey now) (fun st => c.evictMono st.1) keys (c, [], [])
    (fun st k _ hs => CacheMap.evictMono_trans hs (CacheMap.readKey_mono now st k))
    (CacheMap.evictMono_rfl c)

theorem CacheMap.afterClaim_mono {K V : Type} [DecidableEq K] [Inhabited V] (c : CacheMap K V)
    (keys : List K) (now : Int) : c.evictMono (c.afterClaim keys now).1 :=
  foldl_invariant (CacheMap.claimKey now) (fun st => c.evictMono st.1)
    (c.afterRead keys now).2.2 ((c.afterRead keys now).1, [], false)
    (fun st k _ hs => CacheMap.evictMono_trans hs (CacheMap.claimKey_mono now st k))
    (CacheMap.afterRead_mono c keys now)

theorem CacheMap.getManyStart_mono {K V : Type} [DecidableEq K] [Inhabited V]
    (c : CacheMap K V) (keys : List K) (now : Int) :
    c.evictMono (c.getManyStart keys now).cache := by
  rw [CacheMap.getManyStart_eq]
  by_cases hu : (c.afterRead keys now).2.2.length > 0
  · by_cases hm : (c.afterClaim keys now).2.1.length > 0
    · simp only [hu, hm, if_true]
      exact CacheMap.evictMono_trans (CacheMap.afterClaim_mono c keys now)
        (CacheMap.withStatus_mono _ now)
    · simp only [hu, hm, if_true, if_false]
      exact CacheMap.afterClaim_mono c keys now
  · simp only [hu, if_false]
    exact CacheMap.afterRead_mono c keys now

/-- The result of CacheMap.GetMany, when it returns, is that of its start:
the map and the goroutines are those of `getManyStart`, the value is read
back from that map. -/
theorem CacheMap.GetMany_result {K V : Type} [DecidableEq K] [Inhabited V]
    (c : CacheMap K V) (keys : List K) (now : Int) (fuel : Nat)
    (r : MapResult K V (List (K × V))) (h : c.GetMany fuel keys now = some r) :
    r.cache = (c.getManyStart keys now).cache ∧
    r.tasks = (c.getManyStart keys now).tasks ∧
    r.value = (c.getManyStart keys now).cache.readBack
      (c.getManyStart keys now).unCachedDataMap (c.getManyStart keys now).data := by
  unfold CacheMap.GetMany at h
  simp only at h
  cases hs : (c.getManyStart keys now).updatedStatus with
  | none =>
    rw [hs] at h
    simp only [Option.some.injEq] at h
    rw [← h]
    exact ⟨rfl, rfl, rfl⟩
  | some a =>
    rw [hs] at h
    simp only at h
    by_cases hne : (c.getManyStart keys now).hasNonExistKey = true
    · rw [if_pos hne] at h
      cases hw : waitLoop (fun _ => ((c.getManyStart keys now).cache.items a).initCutOffTime)
          fuel 0 now with
      | none =>
        rw [hw] at h
        cases h
      | some w =>
        rw [hw] at h
        simp only [Option.some.injEq] at h
        rw [← h]
        exact ⟨rfl, rfl, rfl⟩
    · rw [if_neg hne] at h
      simp only [Option.some.injEq] at h
      rw [← h]
      exact ⟨rfl, rfl, rfl⟩

/-- The result of CacheMap.Get, when it returns: the map of `getStart` after
line 191 has run with a clock that is not earlier than `now`. -/
theorem CacheMap.Get_result {K V : Type} [DecidableEq K] [Inhabited V] (c : CacheMap K V)
    (key : K) (now : Int) (fuel : Nat) (r : MapResult K V V)
    (h : c.Get fuel key now = some r) :
    ∃ w : Int, now ≤ w ∧
      r.cache = (c.getStart key now).1.updateEvictTime (c.getStart key now).2.1 w ∧
      r.tasks = (c.getStart key now).2.2 := by
  unfold CacheMap.Get at h
  simp only at h
  cases hw : waitLoop
      (fun _ => ((c.getStart key now).1.items (c.getStart key now).2.1).initCutOffTime)
      fuel 0 now with
  | none =>
    rw [hw] at h
    cases h
  | some w =>
    rw [hw] at h
    simp only [Option.some.injEq] at h
    rw [← h]
    exact ⟨w.1, waitLoop_clock _ fuel 0 now w hw, rfl, rfl⟩

/-- C12. Eviction deadline is monotonic.  updateEvictTime sets the eviction
time of its item to `max(evictTime, now + evictTimeout)`, when
`now + evictTimeout` is in the range of `int64`; a Get on a key, when every
sum it computes is in that range, leaves the item of that key with
`evictTime >= now + evictTimeout`; and Get, GetMany, updateData, updateBatch
and evictKeys keep every allocated item allocated and never decrease its
eviction time. -/
theorem evict_time_monotonic :
    (∀ (K V : Type) (c : CacheMap K V) (item : Nat) (now : Int),
      fitsInt64 (now + c.evictTimeout) →
      ((c.updateEvictTime item now).items item).evictTime
        = max (c.items item).evictTime (now + c.evictTimeout)) ∧
    (∀ (K V : Type) [DecidableEq K] [Inhabited V] (c : CacheMap K V) (key : K) (now : Int)
      (fuel : Nat) (r : MapResult K V V),
      c.fitsAt key now →
      c.Get fuel key now = some r →
      c.evictMono r.cache ∧
      ∃ item, mapGet r.cache.dataMap key = some item ∧
        now + c.evictTimeout ≤ (r.cache.items item).evictTime) ∧
    (∀ (K V : Type) [DecidableEq K] [Inhabited V] (c : CacheMap K V) (keys : List K)
      (now : Int) (fuel : Nat) (r : MapResult K V (List (K × V))),
      c.GetMany fuel keys now = some r → c.evictMono r.cache) ∧
    (∀ (K V : Type) (c : CacheMap K V) (item : Nat) (data : V) (err : Bool) (now : Int),
      c.evictMono (c.updateData item data err now)) ∧
    (∀ (K V : Type) [DecidableEq K] [Inhabited V] (c : CacheMap K V)
      (unCachedDataMap : List (K × Nat)) (updatedStatus : Nat) (data : List (K × V))
      (err : Bool) (now : Int),
      c.evictMono (c.updateBatch unCachedDataMap updatedStatus data err now)) ∧
    (∀ (K V : Type) [DecidableEq K] (c : CacheMap K V) (now : Int),
      c.evictMono (c.evictKeys now)) := by
  refine ⟨?_, ?_, ?_, ?_, ?_, ?_⟩
  · intro K V c item now _
    exact (CacheMap.updateEvictTime_evictTime c item now).1
  · intro K V _ _ c key now fuel r _ h
    obtain ⟨w, hw, hcache, _⟩ := CacheMap.Get_result c key now fuel r h
    have hspec := CacheMap.getStart_spec c key now
    have hpol : (c.getStart key now).1.evictTimeout = c.evictTimeout := by
      unfold CacheMap.getStart CacheMap.getStartFrom
      rw [(CacheMap.refreshItemFrom_policy _ _ _ _).2, (CacheMap.lookupOrCreate_policy _ _ _).2]
    rw [hcache]
    refine ⟨?_, (c.getStart key now).2.1, ?_, ?_⟩
    · exact CacheMap.evictMono_trans (CacheMap.getStartFrom_mono c key _ now)
        (CacheMap.updateEvictTime_mono _ _ w)
    · rw [(CacheMap.updateEvictTime_frame _ _ _).2.2.1]
      exact hspec.1
    · rw [(CacheMap.updateEvictTime_evictTime _ _ w).1, hpol]
      exact le_trans (by omega) (le_max_right _ _)
  · intro K V _ _ c keys now fuel r h
    rw [(CacheMap.GetMany_result c keys now fuel r h).1]
    exact CacheMap.getManyStart_mono c keys now
  · intro K V c item data err now
    exact CacheMap.updateData_mono c item data err now
  · intro K V _ _ c unc status data err now
    exact CacheMap.updateBatch_mono c unc status data err now
  · intro K V _ c now
    exact ⟨le_refl _, fun _ _ => le_refl _⟩

/-- Witness of C12: a Get on key 7 and a GetMany on the keys 8 and 7 of the
example map return and decrease no eviction time. -/
theorem evict_time_monotonic_witness :
    (fitsInt64 (1000 + exampleMap.evictTimeout) ∧
      ((exampleMap.updateEvictTime 0 1000).items 0).evictTime
        = max (exampleMap.items 0).evictTime (1000 + exampleMap.evictTimeout)) ∧
    (exampleMap.fitsAt 7 1000 ∧
      ∃ r, exampleMap.Get 3 7 1000 = some r ∧ exampleMap.evictMono r.cache ∧
        ∃ item, mapGet r.cache.dataMap 7 = some item ∧
          1000 + exampleMap.evictTimeout ≤ (r.cache.items item).evictTime) ∧
    (∃ r, exampleMap.GetMany 3 [8, 7] 1000 = some r ∧ exampleMap.evictMono r.cache) := by
  obtain ⟨r, hr⟩ := Option.isSome_iff_exists.mp
    (by decide : (exampleMap.Get 3 7 1000).isSome = true)
  obtain ⟨r1, hr1⟩ := Option.isSome_iff_exists.mp
    (by decide : (exampleMap.GetMany 3 [8, 7] 1000).isSome = true)
  exact ⟨⟨by decide, evict_time_monotonic.1 Nat Nat exampleMap 0 1000 (by decide)⟩,
    ⟨by decide, r, hr, evict_time_monotonic.2.1 Nat Nat exampleMap 7 1000 3 r (by decide) hr⟩,
    ⟨r1, hr1, evict_time_monotonic.2.2.1 Nat Nat exampleMap [8, 7] 1000 3 r1 hr1⟩⟩

/-! ## C14: when an entry of the keyed map is due -/

/-- C14 (as stated, refuted). Key 7 of the example map has
`nextUpdateTime = 500`.  At `now = 500`, where `now >= nextUpdateTime` holds,
neither Get nor GetMany starts a refresh, and `nextUpdateTime` stays 500. -/
theorem map_due_at_boundary_counterexample :
    ¬ ((exampleMap.items 0).nextUpdateTime ≤ 500 →
      (exampleMap.getStart 7 500).2.2 ≠ [] ∨ (exampleMap.getManyStart [7] 500).tasks ≠ [] ∨
        ((exampleMap.getStart 7 500).1.items 0).nextUpdateTime
          = 500 + exampleMap.retryInterval) := by
  decide

/-- GetMany for a single key that is in the map. -/
theorem CacheMap.getManyStart_single {K V : Type} [DecidableEq K] [Inhabited V]
    (c : CacheMap K V) (key : K) (item : Nat) (now : Int)
    (hk : mapGet c.dataMap key = some item) :
    (c.getManyStart [key] now).tasks =
      (if (c.items item).nextUpdateTime < now then
        (if c.hasLoadDataBatch then [Task.updateBatch [(key, item)] c.nextAddr]
          else [Task.updateData key item])
      else []) ∧
    (item < c.nextAddr →
      ((c.getManyStart [key] now).cache.items item).nextUpdateTime =
        if (c.items item).nextUpdateTime < now then now + c.retryInterval
        else (c.items item).nextUpdateTime) := by
  have hfr := CacheMap.updateEvictTime_frame c item now
  have hread : c.afterRead [key] now =
      (c.updateEvictTime item now, mapSet [] key (valueOrZero (c.items item).data),
        if now > (c.items item).nextUpdateTime then [] ++ [key] else []) := by
    unfold CacheMap.afterRead
    simp only [List.foldl_cons, List.foldl_nil]
    exact CacheMap.readKey_present now (c, [], []) key item hk
  by_cases hdue : (c.items item).nextUpdateTime < now
  · have hdue1 : now > (c.items item).nextUpdateTime := hdue
    have hclaim : c.afterClaim [key] now =
        ((c.updateEvictTime item now).setItem item
          { (c.updateEvictTime item now).items item with
            nextUpdateTime := now + c.retryInterval }, [(key, item)], false) := by
      unfold CacheMap.afterClaim
      rw [hread]
      simp only [hdue1, if_true, List.nil_append, List.foldl_cons, List.foldl_nil]
      rw [CacheMap.claimKey_due now _ key item (by simp only; rw [hfr.2.2.1]; exact hk)
        (by simp only; rw [(hfr.2.2.2 item).1]; exact hdue)]
      simp only [hfr.1, mapSet]
    rw [CacheMap.getManyStart_eq, hread, hclaim]
    simp only [hdue1, hdue, if_true, List.nil_append, List.length_cons, List.length_nil,
      Nat.zero_add, Nat.lt_one_iff, gt_iff_lt, Nat.pos_of_ne_zero, Nat.one_pos]
    refine ⟨?_, ?_⟩
    · simp [CacheMap.setItem, CacheMap.updateEvictTime]
      split_ifs <;> simp_all [CacheMap.setItem]
    · intro hlt
      simp [CacheMap.withStatus, CacheMap.setItem, Function.update_noteq (Nat.ne_of_lt hlt),
        hfr.2.1]
  · have hdue1 : ¬ now > (c.items item).nextUpdateTime := hdue
    rw [CacheMap.getManyStart_eq, hread]
    simp only [hdue1, hdue, if_false, List.length_nil, gt_iff_lt, Nat.lt_irrefl]
    refine ⟨trivial, fun _ => ?_⟩
    exact (hfr.2.2.2 item).1

/-- C14 (amended). For a key that is in the map, CacheMap.Get and
CacheMap.GetMany at time `now`, with `now + retryInterval` in the range of
`int64`, start a refresh and advance `nextUpdateTime`
to `now + retryInterval` exactly when `now > nextUpdateTime`; when
`now <= nextUpdateTime`, in particular when `now == nextUpdateTime`, they
start none and leave `nextUpdateTime` as it is.  The same test decides, in
the two loops of GetMany over any list of keys, whether a key that is in the
map is listed as uncached and whether its refresh is claimed.  DataCache.Get
passes its gate exactly when `now >= nextUpdateTime`. -/
theorem map_entry_due_strictly :
    (∀ (K V : Type) [DecidableEq K] (c : CacheMap K V) (key : K) (item : Nat) (now : Int),
      mapGet c.dataMap key = some item → fitsInt64 (now + c.retryInterval) →
      (c.getStart key now).2.2 =
        (if (c.items item).nextUpdateTime < now then [Task.updateData key item] else []) ∧
      ((c.getStart key now).1.items item).nextUpdateTime =
        (if (c.items item).nextUpdateTime < now then now + c.retryInterval
          else (c.items item).nextUpdateTime)) ∧
    (∀ (K V : Type) [DecidableEq K] [Inhabited V] (c : CacheMap K V) (key : K) (item : Nat)
      (now : Int),
      mapGet c.dataMap key = some item → fitsInt64 (now + c.retryInterval) →
      (c.getManyStart [key] now).tasks =
        (if (c.items item).nextUpdateTime < now then
          (if c.hasLoadDataBatch then [Task.updateBatch [(key, item)] c.nextAddr]
            else [Task.updateData key item])
        else []) ∧
      (item < c.nextAddr →
        ((c.getManyStart [key] now).cache.items item).nextUpdateTime =
          if (c.items item).nextUpdateTime < now then now + c.retryInterval
          else (c.items item).nextUpdateTime)) ∧
    (∀ (K V : Type) [DecidableEq K] [Inhabited V] (now : Int)
      (st : CacheMap K V × List (K × V) × List K) (key : K) (item : Nat),
      mapGet st.1.dataMap key = some item →
      (CacheMap.readKey now st key).2.2 =
        if (st.1.items item).nextUpdateTime < now then st.2.2 ++ [key] else st.2.2) ∧
    (∀ (K V : Type) [DecidableEq K] (now : Int) (st : CacheMap K V × List (K × Nat) × Bool)
      (key : K) (item : Nat),
      mapGet st.1.dataMap key = some item → fitsInt64 (now + st.1.retryInterval) →
      CacheMap.claimKey now st key =
        if (st.1.items item).nextUpdateTime < now then
          (st.1.setItem item
              { st.1.items item with nextUpdateTime := now + st.1.retryInterval },
            mapSet st.2.1 key item, st.2.2)
        else st) ∧
    (∀ (T : Type) (c : DataCache T) (now : Int),
      ((c.refresh now).2 = true ↔ c.nextUpdateTime ≤ now)) := by
  refine ⟨?_, ?_, ?_, ?_, ?_⟩
  · intro K V _ c key item now hk _
    by_cases hdue : (c.items item).nextUpdateTime < now
    · rw [CacheMap.getStart_due c key item now hk hdue]
      simp [hdue, CacheMap.setItem]
    · rw [CacheMap.getStart_quiet c key item now hk (by omega)]
      simp [hdue]
  · intro K V _ _ c key item now hk _
    exact CacheMap.getManyStart_single c key item now hk
  · intro K V _ _ now st key item hk
    rw [CacheMap.readKey_present now st key item hk]
  · intro K V _ now st key item hk _
    by_cases hdue : (st.1.items item).nextUpdateTime < now
    · rw [CacheMap.claimKey_due now st key item hk hdue, if_pos hdue]
    · rw [CacheMap.claimKey_skip now st key item hk hdue, if_neg hdue]
  · intro T c now
    constructor
    · intro h
      by_contra hlt
      have := (DataCache.refreshFrom_of_lt c c.nextUpdateTime now (by omega)).1
      unfold DataCache.refresh at h
      rw [this] at h
      cases h
    · intro h
      exact (DataCache.refresh_of_le c now h).1

/-- Witness of C14 (amended): key 7 of the example map, due after time 500,
at the times 500 and 501. -/
theorem map_entry_due_strictly_witness :
    mapGet exampleMap.dataMap 7 = some 0 ∧
    fitsInt64 (500 + exampleMap.retryInterval) ∧
    fitsInt64 (501 + exampleMap.retryInterval) ∧
    (exampleMap.getStart 7 500).2.2 = [] ∧
    (exampleMap.getStart 7 501).2.2 = [Task.updateData 7 0] ∧
    (exampleMap.getManyStart [7] 500).tasks = [] ∧
    (exampleMap.getManyStart [7] 501).tasks = [Task.updateBatch [(7, 0)] 1] :=
  ⟨by decide, by decide, by decide,
    (map_entry_due_strictly.1 Nat Nat exampleMap 7 0 500 (by decide) (by decide)).1,
    (map_entry_due_strictly.1 Nat Nat exampleMap 7 0 501 (by decide) (by decide)).1,
    (map_entry_due_strictly.2.1 Nat Nat exampleMap 7 0 500 (by decide) (by decide)).1,
    (map_entry_due_strictly.2.1 Nat Nat exampleMap 7 0 501 (by decide) (by decide)).1⟩

/-! ## C15: the spacing of load attempts -/

theorem spacedAtLeast_cons (gap t : Int) (l : List Int) (hsp : spacedAtLeast gap l)
    (hhead : ∀ t1, l.head? = some t1 → t + gap ≤ t1) : spacedAtLeast gap (t :: l) := by
  cases l with
  | nil => exact trivial
  | cons t1 rest => exact ⟨hhead t1 rfl, hsp⟩

theorem spacedMoreThan_cons (gap t : Int) (l : List Int) (hsp : spacedMoreThan gap l)
    (hhead : ∀ t1, l.head? = some t1 → t + gap < t1) : spacedMoreThan gap (t :: l) := by
  cases l with
  | nil => exact trivial
  | cons t1 rest => exact ⟨hhead t1 rfl, hsp⟩

/-- While no load result is applied, the loads of a single-value cache start
at least `retryInterval` apart, the first of them at or after the gate. -/
theorem CacheSys.starts_spaced {T : Type} (gap eoe : Int) (events : List (CacheEvent T)) :
    ∀ s : CacheSys T, s.cache.retryInterval = gap → s.cache.expirationOnErr = eoe →
      (∀ e ∈ events, e.appliesNothing eoe) →
      spacedAtLeast gap (s.starts events) ∧
      ∀ t, (s.starts events).head? = some t → s.cache.nextUpdateTime ≤ t := by
  induction events with
  | nil => intro s _ _ _; exact ⟨trivial, fun t ht => by cases ht⟩
  | cons e rest ih =>
    intro s hg he hall
    have hrest : ∀ e1 ∈ rest, e1.appliesNothing eoe :=
      fun e1 h1 => hall e1 (List.mem_cons_of_mem _ h1)
    cases e with
    | get now snapshot =>
      have hc := DataCache.refreshFrom_cases s.cache snapshot now
      have hp := DataCache.refreshFrom_policy s.cache snapshot now
      obtain ⟨i1, i2⟩ := ih (s.step (CacheEvent.get now snapshot))
        (by simp only [CacheSys.step]; rw [hc.1]; exact hg)
        (by simp only [CacheSys.step]; rw [hp.2.2.1]; exact he) hrest
      rcases hc.2 with ⟨hf, hdue, hnew⟩ | ⟨hf, hsame⟩
      · have hnut : (s.step (CacheEvent.get now snapshot)).cache.nextUpdateTime = now + gap := by
          simp only [CacheSys.step]
          rw [hnew, hg]
        simp only [CacheSys.starts, hf, if_true, List.singleton_append]
        refine ⟨spacedAtLeast_cons gap now _ i1 (fun t1 h1 => by
          have := i2 t1 h1
          rw [hnut] at this
          exact this), ?_⟩
        intro t ht
        simp only [List.head?_cons, Option.some.injEq] at ht
        rw [← ht]
        exact hdue
      · have hnut : (s.step (CacheEvent.get now snapshot)).cache.nextUpdateTime
            = s.cache.nextUpdateTime := by
          simp only [CacheSys.step]
          exact hsame
        simp only [CacheSys.starts, hf, List.nil_append]
        refine ⟨i1, fun t ht => ?_⟩
        have := i2 t ht
        rw [hnut] at this
        exact this
    | done i data err now =>
      have hfail := hall (CacheEvent.done i data err now) (List.mem_cons_self _ _)
      simp only [CacheEvent.appliesNothing] at hfail
      have hcache : (s.step (CacheEvent.done i data err now)).cache = s.cache := by
        simp only [CacheSys.step]
        rw [hfail.1, DataCache.loadTask_untolerated s.cache data now (by rw [he]; exact hfail.2)]
        by_cases hi : i < s.running.length <;> simp [hi]
      obtain ⟨i1, i2⟩ := ih (s.step (CacheEvent.done i data err now))
        (by rw [hcache]; exact hg) (by rw [hcache]; exact he) hrest
      simp only [CacheSys.starts, List.nil_append]
      refine ⟨i1, fun t ht => ?_⟩
      have := i2 t ht
      rw [hcache] at this
      exact this

theorem CacheMap.lookupOrCreate_expirationOnErr {K V : Type} [DecidableEq K]
    (c : CacheMap K V) (key : K) (now : Int) :
    (c.lookupOrCreate key now).1.expirationOnErr = c.expirationOnErr := by
  unfold CacheMap.lookupOrCreate
  cases mapGet c.dataMap key <;> rfl

theorem CacheMap.refreshItemFrom_expirationOnErr {K V : Type} (c : CacheMap K V) (item : Nat)
    (snapshot now : Int) :
    (c.refreshItemFrom item snapshot now).1.expirationOnErr = c.expirationOnErr := by
  unfold CacheMap.refreshItemFrom
  by_cases hs : now > snapshot
  · by_cases hn : now > (c.items item).nextUpdateTime
    · simp [hs, hn, CacheMap.setItem]
    · simp [hs, hn]
  · simp [hs]

/-- While no load result is applied, the loads of an allocated item of the
keyed map start more than `retryInterval` apart, the first of them after the
gate of the item. -/
theorem MapSys.starts_map_spaced {K V : Type} [DecidableEq K] (gap eoe : Int) (item : Nat)
    (events : List (MapEvent K V)) :
    ∀ s : MapSys K V, s.cache.retryInterval = gap → s.cache.expirationOnErr = eoe →
      item < s.cache.nextAddr → (∀ e ∈ events, e.appliesNothing eoe) →
      spacedMoreThan gap (s.starts item events) ∧
      ∀ t, (s.starts item events).head? = some t → (s.cache.items item).nextUpdateTime < t := by
  induction events with
  | nil => intro s _ _ _ _; exact ⟨trivial, fun t ht => by cases ht⟩
  | cons e rest ih =>
    intro s hg he ha hall
    have hrest : ∀ e1 ∈ rest, e1.appliesNothing eoe :=
      fun e1 h1 => hall e1 (List.mem_cons_of_mem _ h1)
    -- an event that starts no load of the item and leaves its gate alone
    have hquiet : ∀ e0 : MapEvent K V,
        s.starts item (e0 :: rest) = (s.step e0).starts item rest →
        (s.step e0).cache.retryInterval = gap → (s.step e0).cache.expirationOnErr = eoe →
        item < (s.step e0).cache.nextAddr →
        ((s.step e0).cache.items item).nextUpdateTime = (s.cache.items item).nextUpdateTime →
        spacedMoreThan gap (s.starts item (e0 :: rest)) ∧
        ∀ t, (s.starts item (e0 :: rest)).head? = some t →
          (s.cache.items item).nextUpdateTime < t := by
      intro e0 hst h1 h2 h3 h4
      obtain ⟨i1, i2⟩ := ih (s.step e0) h1 h2 h3 hrest
      rw [hst]
      refine ⟨i1, fun t ht => ?_⟩
      have := i2 t ht
      rw [h4] at this
      exact this
    cases e with
    | lookup key now =>
      have hc := CacheMap.lookupOrCreate_cases s.cache key now
      have hne : ¬ ((s.cache.lookupOrCreate key now).2.2 = true ∧
          (s.cache.lookupOrCreate key now).2.1 = item) := by
        rintro ⟨h1, h2⟩
        rcases hc.2 with ⟨hf, _⟩ | ⟨_, haddr, _⟩
        · rw [hf] at h1
          cases h1
        · rw [haddr] at h2
          omega
      apply hquiet
      · simp only [MapSys.starts]
        have : ((s.cache.lookupOrCreate key now).2.2 &&
            decide ((s.cache.lookupOrCreate key now).2.1 = item)) = false := by
          simpa using hne
        rw [this]
        rfl
      · simp only [MapSys.step]
        rw [hc.1]
        exact hg
      · simp only [MapSys.step]
        rw [CacheMap.lookupOrCreate_expirationOnErr]
        exact he
      · simp only [MapSys.step]
        exact lt_of_lt_of_le ha (CacheMap.lookupOrCreate_mono s.cache key now).1
      · simp only [MapSys.step]
        rcases hc.2 with ⟨_, hsame⟩ | ⟨_, _, _, _, hframe⟩
        · rw [hsame]
        · rw [hframe item (Nat.ne_of_lt ha)]
    | gate it snapshot now =>
      have hc := CacheMap.refreshItemFrom_cases s.cache it snapshot now
      by_cases hfire : it = item ∧ (s.cache.refreshItemFrom it snapshot now).2 = true
      · obtain ⟨hit, hf⟩ := hfire
        subst hit
        rcases hc.2.2 with ⟨hf0, _⟩ | ⟨_, hdue, hnut, _⟩
        · rw [hf0] at hf
          cases hf
        · have hstep : s.step (MapEvent.gate it snapshot now) =
              { cache := (s.cache.refreshItemFrom it snapshot now).1,
                running := s.running ++ [(it, now)] } := by
            simp [MapSys.step, ha, hf]
          obtain ⟨i1, i2⟩ := ih (s.step (MapEvent.gate it snapshot now))
            (by rw [hstep]; simp only; rw [hc.1]; exact hg)
            (by rw [hstep]; simp only; rw [CacheMap.refreshItemFrom_expirationOnErr]; exact he)
            (by rw [hstep]; simp only; rw [hc.2.1]; exact ha) hrest
          have hstarts : s.starts it (MapEvent.gate it snapshot now :: rest) =
              now :: (s.step (MapEvent.gate it snapshot now)).starts it rest := by
            simp [MapSys.starts, ha, hf]
          rw [hstarts]
          refine ⟨spacedMoreThan_cons gap now _ i1 (fun t1 h1 => ?_), fun t ht => ?_⟩
          · have := i2 t1 h1
            rw [hstep] at this
            simp only at this
            rw [hnut, hg] at this
            exact this
          · simp only [List.head?_cons, Option.some.injEq] at ht
            rw [← ht]
            exact hdue
      · have hstarts : s.starts item (MapEvent.gate it snapshot now :: rest) =
            (s.step (MapEvent.gate it snapshot now)).starts item rest := by
          have : (decide (it = item) && decide (it < s.cache.nextAddr) &&
              (s.cache.refreshItemFrom it snapshot now).2) = false := by
            by_cases h1 : it = item
            · have h2 : (s.cache.refreshItemFrom it snapshot now).2 = false := by
                cases hb : (s.cache.refreshItemFrom it snapshot now).2
                · rfl
                · exact absurd ⟨h1, hb⟩ hfire
              simp [h2]
            · simp [h1]
          simp only [MapSys.starts, this]
          rfl
        by_cases hlt : it < s.cache.nextAddr
        · have hstep : (s.step (MapEvent.gate it snapshot now)).cache
              = (s.cache.refreshItemFrom it snapshot now).1 := by
            simp [MapSys.step, hlt]
          apply hquiet _ hstarts
          · rw [hstep, hc.1]
            exact hg
          · rw [hstep, CacheMap.refreshItemFrom_expirationOnErr]
            exact he
          · rw [hstep, hc.2.1]
            exact ha
          · rw [hstep]
            rcases hc.2.2 with ⟨_, hsame⟩ | ⟨hf, _, _, hframe⟩
            · rw [hsame]
            · have hne : item ≠ it := fun e => hfire ⟨e.symm, hf⟩
              rw [hframe item hne]
        · have hstep : s.step (MapEvent.gate it snapshot now) = s := by
            simp [MapSys.step, hlt]
          apply hquiet _ hstarts <;> rw [hstep]
          · exact hg
          · exact he
          · exact ha
    | touch it now =>
      have hsame := CacheMap.updateEvictTime_same s.cache it now
      apply hquiet
      · simp only [MapSys.starts]
        rfl
      · simp only [MapSys.step]
        rw [hsame.retryInterval]
        exact hg
      · simp only [MapSys.step]
        rw [hsame.expirationOnErr]
        exact he
      · simp only [MapSys.step]
        rw [hsame.nextAddr]
        exact ha
      · simp only [MapSys.step]
        exact hsame.nextUpdateTime item
    | evict now =>
      apply hquiet
      · simp only [MapSys.starts]
        rfl
      · exact hg
      · exact he
      · exact ha
      · rfl
    | done i data err now =>
      have hfail := hall (MapEvent.done i data err now) (List.mem_cons_self _ _)
      simp only [MapEvent.appliesNothing] at hfail
      have hcache : (s.step (MapEvent.done i data err now)).cache = s.cache := by
        simp only [MapSys.step]
        cases hi : s.running[i]? with
        | none => rfl
        | some p =>
          simp only
          rw [hfail.1, CacheMap.updateData_untolerated s.cache p.1 data now
            (by rw [he]; exact hfail.2)]
      apply hquiet
      · simp only [MapSys.starts]
        rfl
      · rw [hcache]
        exact hg
      · rw [hcache]
        exact he
      · rw [hcache]
        exact ha
      · rw [hcache]

/-- C15 (as stated, refuted). The first block of TestDataCache: expiration
50 ms and the default retry interval of one second.  The load started by the
Get at time 1000 returns after 10 ms, which moves the gate to 60 ms, and the
Get 100 ms after the first one starts the next load: two successive loads
100 ms apart, less than `retryInterval`. -/
theorem retry_spacing_counterexample :
    ¬ spacedAtLeast exampleZeroWait.retryInterval
      ((CacheSys.mk exampleZeroWait []).starts exampleRefreshEvents) := by
  have e : (CacheSys.mk exampleZeroWait []).starts exampleRefreshEvents
      = [1000, 100001000] := by decide
  rw [e]
  simp only [spacedAtLeast]
  decide

/-- C15 (amended). As long as no load result is applied to an entry (the
loads started are still running, or have failed with
`expirationOnErr <= 0`), successive load attempts for the entry are started
at least `retryInterval` apart in the single-value cache and more than
`retryInterval` apart in the keyed map: in every state, after a load is
started at time `now`, the loads started by any later events that apply no
result are so spaced from `now` and from each other, when every sum that the
events compute is in the range of `int64`. -/
theorem retry_spacing_without_result :
    (∀ (T : Type) (s : CacheSys T) (now snapshot : Int) (events : List (CacheEvent T)),
      (s.cache.refreshFrom snapshot now).2 = true →
      (∀ e ∈ events, e.appliesNothing s.cache.expirationOnErr) →
      s.cache.startFitsAt now → (∀ e ∈ events, e.fits s.cache) →
      spacedAtLeast s.cache.retryInterval
        (now :: (s.step (CacheEvent.get now snapshot)).starts events)) ∧
    (∀ (K V : Type) [DecidableEq K] (s : MapSys K V) (item : Nat) (e0 : MapEvent K V)
      (now : Int) (events : List (MapEvent K V)),
      s.starts item [e0] = [now] →
      (∀ e ∈ events, e.appliesNothing s.cache.expirationOnErr) →
      e0.fits s.cache → (∀ e ∈ events, e.fits s.cache) →
      spacedMoreThan s.cache.retryInterval (now :: (s.step e0).starts item events)) := by
  constructor
  · intro T s now snapshot events hf hall _ _
    have hc := DataCache.refreshFrom_cases s.cache snapshot now
    have hp := DataCache.refreshFrom_policy s.cache snapshot now
    obtain ⟨i1, i2⟩ := CacheSys.starts_spaced s.cache.retryInterval s.cache.expirationOnErr
      events (s.step (CacheEvent.get now snapshot))
      (by simp only [CacheSys.step]; exact hc.1)
      (by simp only [CacheSys.step]; exact hp.2.2.1) hall
    refine spacedAtLeast_cons _ now _ i1 (fun t1 h1 => ?_)
    have := i2 t1 h1
    rcases hc.2 with ⟨_, _, hnew⟩ | ⟨hf0, _⟩
    · simp only [CacheSys.step] at this
      rw [hnew] at this
      exact this
    · rw [hf0] at hf
      cases hf
  · intro K V _ s item e0 now events hstart hall _ _
    have key : (s.step e0).cache.retryInterval = s.cache.retryInterval ∧
        (s.step e0).cache.expirationOnErr = s.cache.expirationOnErr ∧
        item < (s.step e0).cache.nextAddr ∧
        ((s.step e0).cache.items item).nextUpdateTime = now + s.cache.retryInterval := by
      cases e0 with
      | lookup key t =>
        have hc := CacheMap.lookupOrCreate_cases s.cache key t
        by_cases hcond : ((s.cache.lookupOrCreate key t).2.2 &&
            decide ((s.cache.lookupOrCreate key t).2.1 = item)) = true
        · simp only [MapSys.starts, hcond, if_true, List.append_nil, List.cons.injEq,
            and_true] at hstart
          subst hstart
          simp only [Bool.and_eq_true, decide_eq_true_eq] at hcond
          rcases hc.2 with ⟨hf0, _⟩ | ⟨_, haddr, hnext, hnut, _⟩
          · rw [hf0] at hcond
            cases hcond.1
          · have hit : item = s.cache.nextAddr := by rw [← hcond.2, haddr]
            simp only [MapSys.step]
            refine ⟨hc.1, CacheMap.lookupOrCreate_expirationOnErr _ _ _, ?_, ?_⟩
            · rw [hnext, hit]
              exact Nat.lt_succ_self _
            · rw [hit]
              exact hnut
        · simp [MapSys.starts, hcond] at hstart
      | gate it snapshot t =>
        have hc := CacheMap.refreshItemFrom_cases s.cache it snapshot t
        by_cases hcond : (decide (it = item) && decide (it < s.cache.nextAddr) &&
            (s.cache.refreshItemFrom it snapshot t).2) = true
        · simp only [MapSys.starts, hcond, if_true, List.append_nil, List.cons.injEq,
            and_true] at hstart
          subst hstart
          simp only [Bool.and_eq_true, decide_eq_true_eq] at hcond
          obtain ⟨⟨hit, hlt⟩, hf⟩ := hcond
          subst hit
          have hstep : s.step (MapEvent.gate it snapshot t) =
              { cache := (s.cache.refreshItemFrom it snapshot t).1,
                running := s.running ++ [(it, t)] } := by
            simp [MapSys.step, hlt, hf]
          rw [hstep]
          simp only
          rcases hc.2.2 with ⟨hf0, _⟩ | ⟨_, _, hnut, _⟩
          · rw [hf0] at hf
            cases hf
          · exact ⟨hc.1, CacheMap.refreshItemFrom_expirationOnErr _ _ _ _,
              by rw [hc.2.1]; exact hlt, hnut⟩
        · simp [MapSys.starts, hcond] at hstart
      | touch it t => simp [MapSys.starts] at hstart
      | evict t => simp [MapSys.starts] at hstart
      | done i data err t => simp [MapSys.starts] at hstart
    obtain ⟨i1, i2⟩ := MapSys.starts_map_spaced s.cache.retryInterval s.cache.expirationOnErr
      item events (s.step e0) key.1 key.2.1 key.2.2.1 hall
    refine spacedMoreThan_cons _ now _ i1 (fun t1 h1 => ?_)
    have := i2 t1 h1
    rw [key.2.2.2] at this
    exact this

theorem exampleFailEvents_fit : ∀ e ∈ exampleFailEvents, e.fits exampleCache := by
  intro e he
  simp only [exampleFailEvents, List.mem_cons, List.mem_singleton, List.not_mem_nil,
    or_false] at he
  rcases he with rfl | rfl | rfl
  · exact (by decide :
      loadFits exampleCache.expiration exampleCache.expirationOnErr true 10001000)
  · exact (by decide : exampleCache.startFitsAt 30001000)
  · exact (by decide : exampleCache.startFitsAt 1000001000)

theorem exampleMapFailEvents_fit : ∀ e ∈ exampleMapFailEvents, e.fits exampleMap := by
  intro e he
  simp only [exampleMapFailEvents, List.mem_cons, List.mem_singleton, List.not_mem_nil,
    or_false] at he
  rcases he with rfl | rfl | rfl | rfl | rfl
  · exact (by decide : loadFits exampleMap.expiration exampleMap.expirationOnErr true 5001000)
  · exact (by decide : exampleMap.startFitsAt 10001000)
  · exact (by decide : fitsInt64 (10001000 + exampleMap.retryInterval))
  · exact (by decide : exampleMap.startFitsAt 10001001)
  · exact (by decide : fitsInt64 (10001001 + exampleMap.retryInterval))

theorem exampleFailEvents_fail :
    ∀ e ∈ exampleFailEvents, e.appliesNothing exampleCache.expirationOnErr := by
  intro e he
  simp only [exampleFailEvents, List.mem_cons, List.mem_singleton, List.not_mem_nil,
    or_false] at he
  rcases he with rfl | rfl | rfl
  · exact ⟨rfl, by decide⟩
  · exact trivial
  · exact trivial

theorem exampleMapFailEvents_fail :
    ∀ e ∈ exampleMapFailEvents, e.appliesNothing exampleMap.expirationOnErr := by
  intro e he
  simp only [exampleMapFailEvents, List.mem_cons, List.mem_singleton, List.not_mem_nil,
    or_false] at he
  rcases he with rfl | rfl | rfl | rfl | rfl
  · exact ⟨rfl, by decide⟩
  · exact trivial
  · exact trivial
  · exact trivial
  · exact trivial

/-- Witness of C15 (amended): on the example cache a load started at time
1000 that fails, and on item 0 of the example map a load started at time 1000
that fails; the next loads start one second later, and 10 ms and 1 ns later. -/
theorem retry_spacing_without_result_witness :
    ((exampleCache.refreshFrom 0 1000).2 = true ∧
      (∀ e ∈ exampleFailEvents, e.appliesNothing exampleCache.expirationOnErr) ∧
      exampleCache.startFitsAt 1000 ∧ (∀ e ∈ exampleFailEvents, e.fits exampleCache) ∧
      ((CacheSys.mk exampleCache []).step (CacheEvent.get 1000 0)).starts exampleFailEvents
        = [1000001000] ∧
      spacedAtLeast exampleCache.retryInterval
        (1000 :: ((CacheSys.mk exampleCache []).step (CacheEvent.get 1000 0)).starts
          exampleFailEvents)) ∧
    ((MapSys.mk exampleMap []).starts 0 [MapEvent.gate 0 500 1000] = [1000] ∧
      (∀ e ∈ exampleMapFailEvents, e.appliesNothing exampleMap.expirationOnErr) ∧
      (MapEvent.gate 0 500 1000 : MapEvent Nat Nat).fits exampleMap ∧
      (∀ e ∈ exampleMapFailEvents, e.fits exampleMap) ∧
      ((MapSys.mk exampleMap []).step (MapEvent.gate 0 500 1000)).starts 0 exampleMapFailEvents
        = [10001001] ∧
      spacedMoreThan exampleMap.retryInterval
        (1000 :: ((MapSys.mk exampleMap []).step (MapEvent.gate 0 500 1000)).starts 0
          exampleMapFailEvents)) :=
  ⟨⟨by decide, exampleFailEvents_fail, by decide, exampleFailEvents_fit, by decide,
      retry_spacing_without_result.1 Nat (CacheSys.mk exampleCache []) 1000 0 exampleFailEvents
        (by decide) exampleFailEvents_fail (by decide) exampleFailEvents_fit⟩,
    ⟨by decide, exampleMapFailEvents_fail,
      (by decide : fitsInt64 (1000 + exampleMap.retryInterval)), exampleMapFailEvents_fit,
      by decide,
      retry_spacing_without_result.2 Nat Nat (MapSys.mk exampleMap []) 0
        (MapEvent.gate 0 500 1000) 1000 exampleMapFailEvents (by decide)
        exampleMapFailEvents_fail (by decide : fitsInt64 (1000 + exampleMap.retryInterval))
        exampleMapFailEvents_fit⟩⟩

/-! ## C18, C19: what GetMany returns -/

theorem mapGet_isSome_iff {K A : Type} [DecidableEq K] (m : List (K × A)) (k : K) :
    (∃ a, mapGet m k = some a) ↔ ∃ p ∈ m, p.1 = k := by
  constructor
  · rintro ⟨a, ha⟩
    exact ⟨(k, a), mapGet_mem m k a ha, rfl⟩
  · rintro ⟨p, hp, hpk⟩
    cases h : mapGet m k with
    | some a => exact ⟨a, rfl⟩
    | none =>
      exfalso
      have hin : k ∈ m.map Prod.fst := List.mem_map.mpr ⟨p, hp, hpk⟩
      induction m with
      | nil => cases hp
      | cons q rest ih =>
        by_cases hq : q.1 = k
        · simp [mapGet, hq] at h
        · simp only [mapGet, hq, if_false] at h
          rcases List.mem_cons.mp hp with e | hp1
          · exact hq (by rw [← e]; exact hpk)
          · exact ih hp1 h (List.mem_map.mpr ⟨p, hp1, hpk⟩)

theorem mapSet_has_key {K A : Type} [DecidableEq K] (m : List (K × A)) (k : K) (a : A) :
    ∃ p ∈ mapSet m k a, p.1 = k :=
  (mapGet_isSome_iff _ k).mp ⟨a, mapGet_mapSet_same m k a⟩

theorem mapSet_keeps_key {K A : Type} [DecidableEq K] (m : List (K × A)) (k k1 : K) (a : A)
    (h : ∃ p ∈ m, p.1 = k1) : ∃ p ∈ mapSet m k a, p.1 = k1 := by
  by_cases e : k1 = k
  · rw [e]
    exact mapSet_has_key m k a
  · obtain ⟨b, hb⟩ := (mapGet_isSome_iff m k1).mpr h
    exact (mapGet_isSome_iff _ k1).mp ⟨b, by rw [mapGet_mapSet_ne m k k1 a e]; exact hb⟩

/-- A map that differs in eviction times only holds the same values. -/
theorem CacheMap.valueOf_same {K V : Type} [DecidableEq K] [Inhabited V] {c c1 : CacheMap K V}
    (h : c.SameEntries c1) (k : K) : c1.valueOf k = c.valueOf k := by
  unfold CacheMap.valueOf
  rw [h.dataMap]
  cases mapGet c.dataMap k with
  | none => rfl
  | some a =>
    simp only
    rw [h.data]

theorem CacheMap.valueOf_present {K V : Type} [DecidableEq K] [Inhabited V] (c : CacheMap K V)
    (k : K) (item : Nat) (h : mapGet c.dataMap k = some item) :
    c.valueOf k = valueOrZero (c.items item).data := by
  simp [CacheMap.valueOf, h]

theorem CacheMap.valueOf_absent {K V : Type} [DecidableEq K] [Inhabited V] (c : CacheMap K V)
    (k : K) (h : mapGet c.dataMap k = none) : c.valueOf k = default := by
  simp [CacheMap.valueOf, h]

/-- The first loop of GetMany: `data` holds the value of every requested key
that is in the map and nothing else; `uncachedKeys` holds requested keys
only, among them every requested key that is not in the map. -/
theorem CacheMap.afterRead_spec {K V : Type} [DecidableEq K] [Inhabited V] (c : CacheMap K V)
    (keys : List K) (now : Int) :
    c.SameEntries (c.afterRead keys now).1 ∧
    (∀ k item, k ∈ keys → mapGet c.dataMap k = some item →
      mapGet (c.afterRead keys now).2.1 k = some (c.valueOf k)) ∧
    (∀ k, (k ∉ keys ∨ mapGet c.dataMap k = none) → mapGet (c.afterRead keys now).2.1 k = none) ∧
    (∀ k ∈ (c.afterRead keys now).2.2, k ∈ keys) ∧
    (∀ k ∈ keys, mapGet c.dataMap k = none → k ∈ (c.afterRead keys now).2.2) := by
  have hP : ∀ (st : CacheMap K V × List (K × V) × List K) (x : K), x ∈ keys →
      c.SameEntries st.1 → c.SameEntries (CacheMap.readKey now st x).1 := by
    intro st x _ hs
    cases hx : mapGet st.1.dataMap x with
    | none =>
      rw [CacheMap.readKey_absent now st x hx]
      exact hs
    | some b =>
      rw [CacheMap.readKey_present now st x b hx]
      exact hs.trans_same (CacheMap.updateEvictTime_same st.1 b now)
  refine ⟨(CacheMap.readKey_fold now keys (c, [], [])).1, ?_, ?_, ?_, ?_⟩
  · intro k item hk hpres
    refine foldl_establish (CacheMap.readKey now) (fun st => c.SameEntries st.1)
      (fun st => mapGet st.2.1 k = some (c.valueOf k)) k keys (c, [], []) hP ?_ ?_ hk
      (CacheMap.SameEntries.rfl_same c)
    · intro st hs
      have hk1 : mapGet st.1.dataMap k = some item := by rw [hs.dataMap]; exact hpres
      rw [CacheMap.readKey_present now st k item hk1]
      simp only
      rw [mapGet_mapSet_same, ← CacheMap.valueOf_present st.1 k item hk1,
        CacheMap.valueOf_same hs]
    · intro st x _ hs hq
      cases hx : mapGet st.1.dataMap x with
      | none =>
        rw [CacheMap.readKey_absent now st x hx]
        exact hq
      | some b =>
        rw [CacheMap.readKey_present now st x b hx]
        simp only
        by_cases e : k = x
        · subst e
          rw [mapGet_mapSet_same, ← CacheMap.valueOf_present st.1 k b hx,
            CacheMap.valueOf_same hs]
        · rw [mapGet_mapSet_ne _ _ _ _ e]
          exact hq
  · intro k hk
    have h := foldl_invariant (CacheMap.readKey now)
      (fun st => c.SameEntries st.1 ∧ mapGet st.2.1 k = none) keys (c, [], [])
      (fun st x hx hs => by
        refine ⟨hP st x hx hs.1, ?_⟩
        cases hxm : mapGet st.1.dataMap x with
        | none =>
          rw [CacheMap.readKey_absent now st x hxm]
          exact hs.2
        | some b =>
          rw [CacheMap.readKey_present now st x b hxm]
          simp only
          have hne : k ≠ x := by
            intro e
            rcases hk with hk | hk
            · exact hk (by rw [e]; exact hx)
            · rw [hs.1.dataMap, ← e, hk] at hxm
              cases hxm
          rw [mapGet_mapSet_ne _ _ _ _ hne]
          exact hs.2)
      ⟨CacheMap.SameEntries.rfl_same c, rfl⟩
    exact h.2
  · exact foldl_invariant (CacheMap.readKey now) (fun st => ∀ k ∈ st.2.2, k ∈ keys) keys
      (c, [], [])
      (fun st x hx hs => by
        cases hxm : mapGet st.1.dataMap x with
        | none =>
          rw [CacheMap.readKey_absent now st x hxm]
          intro k hk
          rcases List.mem_append.mp hk with h | h
          · exact hs k h
          · rw [List.mem_singleton.mp h]
            exact hx
        | some b =>
          rw [CacheMap.readKey_present now st x b hxm]
          simp only
          intro k hk
          by_cases hdue : now > (st.1.items b).nextUpdateTime
          · rw [if_pos hdue] at hk
            rcases List.mem_append.mp hk with h | h
            · exact hs k h
            · rw [List.mem_singleton.mp h]
              exact hx
          · rw [if_neg hdue] at hk
            exact hs k hk)
      (fun k hk => by cases hk)
  · intro k hk habs
    refine foldl_establish (CacheMap.readKey now) (fun st => c.SameEntries st.1)
      (fun st => k ∈ st.2.2) k keys (c, [], []) hP ?_ ?_ hk (CacheMap.SameEntries.rfl_same c)
    · intro st hs
      rw [CacheMap.readKey_absent now st k (by rw [hs.dataMap]; exact habs)]
      simp
    · intro st x _ _ hq
      cases hxm : mapGet st.1.dataMap x with
      | none =>
        rw [CacheMap.readKey_absent now st x hxm]
        exact List.mem_append_left _ hq
      | some b =>
        rw [CacheMap.readKey_present now st x b hxm]
        simp only
        by_cases hdue : now > (st.1.items b).nextUpdateTime
        · rw [if_pos hdue]
          exact List.mem_append_left _ hq
        · rw [if_neg hdue]
          exact hq

/-- One iteration of the second loop of GetMany keeps its invariant. -/
theorem CacheMap.claimKey_inv {K V : Type} [DecidableEq K] [Inhabited V] (now : Int)
    (c1 : CacheMap K V) (uncachedKeys : List K) (st : CacheMap K V × List (K × Nat) × Bool)
    (x : K) (hx : x ∈ uncachedKeys) (h : CacheMap.ClaimInv c1 uncachedKeys st) :
    CacheMap.ClaimInv c1 uncachedKeys (CacheMap.claimKey now st x) := by
  have hwf := (CacheMap.claimKey_step now st x h.wf).1
  cases hk : mapGet st.1.dataMap x with
  | none =>
    have hc1 : mapGet c1.dataMap x = none := by
      cases hc : mapGet c1.dataMap x with
      | none => rfl
      | some a =>
        have := h.kept x a hc
        rw [hk] at this
        cases this
    rw [CacheMap.claimKey_absent now st x hk] at hwf ⊢
    have hold : ∀ k a, mapGet st.1.dataMap k = some a →
        mapGet (mapSet st.1.dataMap x st.1.nextAddr) k = some a ∧
        Function.update st.1.items st.1.nextAddr
          ({ data := none
             nextUpdateTime := now + st.1.retryInterval
             evictTime := now + st.1.evictTimeout
             initCutOffTime := now + st.1.waitTimeout } : CacheItem V) a = st.1.items a := by
      intro k a ha
      have hne : k ≠ x := by
        intro e
        rw [e, hk] at ha
        cases ha
      exact ⟨by rw [mapGet_mapSet_ne _ _ _ _ hne]; exact ha,
        Function.update_noteq (Nat.ne_of_lt (h.wf (k, a) (mapGet_mem _ _ _ ha))) _ _⟩
    refine ⟨hwf, ?_, ?_, ?_, ?_, ?_, ?_⟩
    · intro k
      rw [← h.value k]
      by_cases e : k = x
      · subst e
        rw [CacheMap.valueOf_absent st.1 k hk]
        simp [CacheMap.valueOf, mapGet_mapSet_same, valueOrZero]
      · cases hkm : mapGet st.1.dataMap k with
        | none =>
          rw [CacheMap.valueOf_absent st.1 k hkm]
          exact CacheMap.valueOf_absent _ k (by
            simp only
            rw [mapGet_mapSet_ne _ _ _ _ e]
            exact hkm)
        | some a =>
          obtain ⟨h1, h2⟩ := hold k a hkm
          rw [CacheMap.valueOf_present st.1 k a hkm, CacheMap.valueOf_present _ k a h1]
          simp only [h2]
    · intro p hp
      rcases mem_mapSet _ _ _ p hp with hp | hp
      · exact (hold p.1 p.2 (h.linked p hp)).1
      · rw [hp]
        exact mapGet_mapSet_same _ _ _
    · intro p hp
      rcases mem_mapSet _ _ _ p hp with hp | hp
      · exact h.listed p hp
      · rw [hp]
        exact hx
    · intro k hkc hpres
      by_cases e : k = x
      · rw [e]
        exact mapSet_has_key _ _ _
      · apply mapSet_keeps_key
        apply h.created k hkc
        obtain ⟨a, ha⟩ := hpres
        simp only at ha
        rw [mapGet_mapSet_ne _ _ _ _ e] at ha
        exact ⟨a, ha⟩
    · intro k a hka
      exact (hold k a (h.kept k a hka)).1
    · intro _
      exact ⟨x, hx, hc1⟩
  | some item =>
    by_cases hdue : (st.1.items item).nextUpdateTime < now
    · rw [CacheMap.claimKey_due now st x item hk hdue] at hwf ⊢
      refine ⟨hwf, ?_, ?_, ?_, ?_, h.kept, h.flag⟩
      · intro k
        rw [← h.value k]
        unfold CacheMap.valueOf
        simp only [CacheMap.setItem]
        cases mapGet st.1.dataMap k with
        | none => rfl
        | some a =>
          simp only
          by_cases ea : a = item
          · subst ea
            simp
          · simp [Function.update_noteq ea]
      · intro p hp
        rcases mem_mapSet _ _ _ p hp with hp | hp
        · exact h.linked p hp
        · rw [hp]
          exact hk
      · intro p hp
        rcases mem_mapSet _ _ _ p hp with hp | hp
        · exact h.listed p hp
        · rw [hp]
          exact hx
      · intro k hkc hpres
        exact mapSet_keeps_key _ _ _ _ (h.created k hkc hpres)
    · rw [CacheMap.claimKey_skip now st x item hk hdue]
      exact h

/-- One iteration of the second loop of GetMany leaves its key in the map,
and keeps in the map every key that was there. -/
theorem CacheMap.claimKey_present {K V : Type} [DecidableEq K] (now : Int)
    (st : CacheMap K V × List (K × Nat) × Bool) (x : K) :
    (∃ a, mapGet (CacheMap.claimKey now st x).1.dataMap x = some a) ∧
    ∀ k, (∃ a, mapGet st.1.dataMap k = some a) →
      ∃ a, mapGet (CacheMap.claimKey now st x).1.dataMap k = some a := by
  cases hk : mapGet st.1.dataMap x with
  | none =>
    rw [CacheMap.claimKey_absent now st x hk]
    refine ⟨⟨_, mapGet_mapSet_same _ _ _⟩, ?_⟩
    rintro k ⟨a, ha⟩
    have hne : k ≠ x := by
      intro e
      rw [e, hk] at ha
      cases ha
    exact ⟨a, by simp only; rw [mapGet_mapSet_ne _ _ _ _ hne]; exact ha⟩
  | some item =>
    by_cases hdue : (st.1.items item).nextUpdateTime < now
    · rw [CacheMap.claimKey_due now st x item hk hdue]
      exact ⟨⟨item, hk⟩, fun k hka => hka⟩
    · rw [CacheMap.claimKey_skip now st x item hk hdue]
      exact ⟨⟨item, hk⟩, fun k hka => hka⟩

/-- The second loop of GetMany on a well-formed map: its invariant holds at
the end, and every key of `uncachedKeys` is in the map. -/
theorem CacheMap.afterClaim_spec {K V : Type} [DecidableEq K] [Inhabited V]
    (c : CacheMap K V) (keys : List K) (now : Int) (hwf : c.wellFormed) :
    CacheMap.ClaimInv (c.afterRead keys now).1 (c.afterRead keys now).2.2
      (c.afterClaim keys now) ∧
    ∀ k ∈ (c.afterRead keys now).2.2,
      ∃ a, mapGet (c.afterClaim keys now).1.dataMap k = some a := by
  have hsame := (CacheMap.afterRead_spec c keys now).1
  have h0 : CacheMap.ClaimInv (c.afterRead keys now).1 (c.afterRead keys now).2.2
      ((c.afterRead keys now).1, ([] : List (K × Nat)), false) := by
    refine ⟨?_, fun _ => rfl, fun p hp => (by cases hp), fun p hp => (by cases hp), ?_,
      fun _ _ h => h, fun h => (by cases h)⟩
    · intro p hp
      rw [hsame.dataMap] at hp
      rw [hsame.nextAddr]
      exact hwf p hp
    · rintro k hk ⟨a, ha⟩
      simp only at ha
      rw [hk] at ha
      cases ha
  have hstep : ∀ (st : CacheMap K V × List (K × Nat) × Bool) (x : K),
      x ∈ (c.afterRead keys now).2.2 →
      CacheMap.ClaimInv (c.afterRead keys now).1 (c.afterRead keys now).2.2 st →
      CacheMap.ClaimInv (c.afterRead keys now).1 (c.afterRead keys now).2.2
        (CacheMap.claimKey now st x) :=
    fun st x hx hs => CacheMap.claimKey_inv now _ _ st x hx hs
  refine ⟨foldl_invariant (CacheMap.claimKey now) _ _ _ hstep h0, ?_⟩
  intro k hk
  exact foldl_establish (CacheMap.claimKey now)
    (CacheMap.ClaimInv (c.afterRead keys now).1 (c.afterRead keys now).2.2)
    (fun st => ∃ a, mapGet st.1.dataMap k = some a) k _ _ hstep
    (fun st _ => (CacheMap.claimKey_present now st k).1)
    (fun st x _ _ hq => (CacheMap.claimKey_present now st x).2 k hq) hk h0

/-- The last loop of GetMany: a key of `unCachedDataMap` gets the value read
from its item, the other keys keep what `data` holds for them. -/
theorem CacheMap.readBack_spec {K V : Type} [DecidableEq K] [Inhabited V] (c : CacheMap K V)
    (h : K → V) (unCachedDataMap : List (K × Nat)) :
    ∀ data : List (K × V),
      (∀ p ∈ unCachedDataMap, valueOrZero (c.items p.2).data = h p.1) →
      ∀ k, ((∃ p ∈ unCachedDataMap, p.1 = k) →
          mapGet (c.readBack unCachedDataMap data) k = some (h k)) ∧
        ((¬ ∃ p ∈ unCachedDataMap, p.1 = k) →
          mapGet (c.readBack unCachedDataMap data) k = mapGet data k) := by
  induction unCachedDataMap with
  | nil =>
    intro data _ k
    exact ⟨fun ⟨p, hp, _⟩ => (by cases hp), fun _ => rfl⟩
  | cons q rest ih =>
    intro data hg k
    have hrest := ih (mapSet data q.1 (valueOrZero (c.items q.2).data))
      (fun p hp => hg p (List.mem_cons_of_mem _ hp)) k
    have hq := hg q (List.mem_cons_self _ _)
    have hunf : c.readBack (q :: rest) data
        = c.readBack rest (mapSet data q.1 (valueOrZero (c.items q.2).data)) := rfl
    rw [hunf]
    by_cases hin : ∃ p ∈ rest, p.1 = k
    · refine ⟨fun _ => hrest.1 hin, fun hno => ?_⟩
      exfalso
      obtain ⟨p, hp, hpk⟩ := hin
      exact hno ⟨p, List.mem_cons_of_mem _ hp, hpk⟩
    · refine ⟨fun hex => ?_, fun hno => ?_⟩
      · obtain ⟨p, hp, hpk⟩ := hex
        have e : q.1 = k := by
          rcases List.mem_cons.mp hp with e | hp1
          · rw [← e]; exact hpk
          · exact absurd ⟨p, hp1, hpk⟩ hin
        rw [hrest.2 hin, ← e, mapGet_mapSet_same, hq]
      · have hne : k ≠ q.1 := fun e => hno ⟨q, List.mem_cons_self _ _, e.symm⟩
        rw [hrest.2 hin, mapGet_mapSet_ne _ _ _ _ hne]

/-- The second loop of GetMany sets `hasNonExistKey` only when a key of
`uncachedKeys` is not in the map. -/
theorem CacheMap.afterClaim_flag {K V : Type} [DecidableEq K] [Inhabited V]
    (c : CacheMap K V) (keys : List K) (now : Int) :
    (c.afterClaim keys now).2.2 = true → ∃ k ∈ keys, mapGet c.dataMap k = none := by
  have hspec := CacheMap.afterRead_spec c keys now
  have h := foldl_invariant (CacheMap.claimKey now)
    (fun st => (∀ k a, mapGet (c.afterRead keys now).1.dataMap k = some a →
        mapGet st.1.dataMap k = some a) ∧
      (st.2.2 = true → ∃ k ∈ (c.afterRead keys now).2.2,
        mapGet (c.afterRead keys now).1.dataMap k = none))
    (c.afterRead keys now).2.2 ((c.afterRead keys now).1, ([] : List (K × Nat)), false)
    (fun st x hx hs => by
      cases hk : mapGet st.1.dataMap x with
      | none =>
        rw [CacheMap.claimKey_absent now st x hk]
        refine ⟨fun k a hka => ?_, fun _ => ⟨x, hx, ?_⟩⟩
        · have h1 := hs.1 k a hka
          have hne : k ≠ x := by
            intro e
            rw [e, hk] at h1
            cases h1
          simp only
          rw [mapGet_mapSet_ne _ _ _ _ hne]
          exact h1
        · cases hc : mapGet (c.afterRead keys now).1.dataMap x with
          | none => rfl
          | some a =>
            have := hs.1 x a hc
            rw [hk] at this
            cases this
      | some item =>
        by_cases hdue : (st.1.items item).nextUpdateTime < now
        · rw [CacheMap.claimKey_due now st x item hk hdue]
          exact ⟨hs.1, hs.2⟩
        · rw [CacheMap.claimKey_skip now st x item hk hdue]
          exact hs)
    ⟨fun _ _ h => h, fun h => (by cases h)⟩
  intro hflag
  obtain ⟨k, hk, hnone⟩ := h.2 hflag
  exact ⟨k, hspec.2.2.2.1 k hk, by rw [hspec.1.dataMap] at hnone; exact hnone⟩

/-- What CacheMap.GetMany holds when it reaches its polling loop, on a
well-formed map: `data` is that of the first loop, every pair of
`unCachedDataMap` is a requested key with the item that holds its value, and
every requested key that was not in the map is in `unCachedDataMap`. -/
theorem CacheMap.getManyStart_spec {K V : Type} [DecidableEq K] [Inhabited V]
    (c : CacheMap K V) (keys : List K) (now : Int) (hwf : c.wellFormed) :
    (c.getManyStart keys now).data = (c.afterRead keys now).2.1 ∧
    (∀ p ∈ (c.getManyStart keys now).unCachedDataMap,
      valueOrZero ((c.getManyStart keys now).cache.items p.2).data = c.valueOf p.1 ∧
        p.1 ∈ keys) ∧
    (∀ k ∈ keys, mapGet c.dataMap k = none →
      ∃ p ∈ (c.getManyStart keys now).unCachedDataMap, p.1 = k) := by
  have hread := CacheMap.afterRead_spec c keys now
  obtain ⟨hinv, hpres⟩ := CacheMap.afterClaim_spec c keys now hwf
  have hval : ∀ p ∈ (c.afterClaim keys now).2.1,
      valueOrZero ((c.afterClaim keys now).1.items p.2).data = c.valueOf p.1 ∧
      p.2 < (c.afterClaim keys now).1.nextAddr ∧ p.1 ∈ keys := by
    intro p hp
    have hl := hinv.linked p hp
    refine ⟨?_, hinv.wf (p.1, p.2) (mapGet_mem _ _ _ hl), hread.2.2.2.1 p.1 (hinv.listed p hp)⟩
    rw [← CacheMap.valueOf_present _ p.1 p.2 hl, hinv.value, CacheMap.valueOf_same hread.1]
  have hall : ∀ k ∈ keys, mapGet c.dataMap k = none →
      ∃ p ∈ (c.afterClaim keys now).2.1, p.1 = k := by
    intro k hk hnone
    exact hinv.created k (by rw [hread.1.dataMap]; exact hnone)
      (hpres k (hread.2.2.2.2 k hk hnone))
  rw [CacheMap.getManyStart_eq]
  by_cases hu : (c.afterRead keys now).2.2.length > 0
  · by_cases hm : (c.afterClaim keys now).2.1.length > 0
    · simp only [hu, hm, if_true]
      refine ⟨trivial, fun p hp => ?_, hall⟩
      obtain ⟨h1, h2, h3⟩ := hval p hp
      refine ⟨?_, h3⟩
      simp only [CacheMap.withStatus, Function.update_noteq (Nat.ne_of_lt h2)]
      exact h1
    · simp only [hu, hm, if_true, if_false]
      exact ⟨trivial, fun p hp => ⟨(hval p hp).1, (hval p hp).2.2⟩, hall⟩
  · simp only [hu, if_false]
    refine ⟨trivial, fun p hp => (by cases hp), fun k hk hnone => ?_⟩
    have hin := hread.2.2.2.2 k hk hnone
    have hnil : (c.afterRead keys now).2.2 = [] := by
      cases hl : (c.afterRead keys now).2.2 with
      | nil => rfl
      | cons a l =>
        rw [hl] at hu
        simp at hu
    rw [hnil] at hin
    cases hin

/-- The map returned by CacheMap.GetMany on a well-formed map: every
requested key with the value stored for it, and no other key. -/
theorem CacheMap.GetMany_value {K V : Type} [DecidableEq K] [Inhabited V]
    (c : CacheMap K V) (keys : List K) (now : Int) (fuel : Nat)
    (r : MapResult K V (List (K × V))) (hwf : c.wellFormed)
    (h : c.GetMany fuel keys now = some r) :
    ∀ k, (k ∈ keys → mapGet r.value k = some (c.valueOf k)) ∧
      (k ∉ keys → mapGet r.value k = none) := by
  obtain ⟨hdata, hpairs, hnew⟩ := CacheMap.getManyStart_spec c keys now hwf
  have hread := CacheMap.afterRead_spec c keys now
  have hrb := CacheMap.readBack_spec (c.getManyStart keys now).cache c.valueOf
    (c.getManyStart keys now).unCachedDataMap (c.getManyStart keys now).data
    (fun p hp => (hpairs p hp).1)
  intro k
  rw [(CacheMap.GetMany_result c keys now fuel r h).2.2]
  by_cases hin : ∃ p ∈ (c.getManyStart keys now).unCachedDataMap, p.1 = k
  · refine ⟨fun _ => (hrb k).1 hin, fun hk => ?_⟩
    obtain ⟨p, hp, hpk⟩ := hin
    exact absurd (by rw [← hpk]; exact (hpairs p hp).2) hk
  · rw [(hrb k).2 hin, hdata]
    refine ⟨fun hk => ?_, fun hk => hread.2.2.1 k (Or.inl hk)⟩
    cases hc : mapGet c.dataMap k with
    | none => exact absurd (hnew k hk hc) hin
    | some item => exact hread.2.1 k item hk hc

/-- Allocating the status item of GetMany keeps a well-formed map well-formed
and changes the value of no key. -/
theorem CacheMap.withStatus_keeps {K V : Type} [DecidableEq K] [Inhabited V]
    (c : CacheMap K V) (now : Int) (hwf : c.wellFormed) :
    (c.withStatus now).wellFormed ∧ ∀ k, (c.withStatus now).valueOf k = c.valueOf k := by
  constructor
  · intro p hp
    exact Nat.lt_succ_of_lt (hwf p hp)
  · intro k
    unfold CacheMap.valueOf
    have hd : (c.withStatus now).dataMap = c.dataMap := rfl
    rw [hd]
    cases hk : mapGet c.dataMap k with
    | none => rfl
    | some a =>
      have ha : a < c.nextAddr := hwf (k, a) (mapGet_mem _ _ _ hk)
      simp only [CacheMap.withStatus, Function.update_noteq (Nat.ne_of_lt ha)]

/-- The locked part of CacheMap.GetMany keeps a well-formed map well-formed and
changes the value of no key. -/
theorem CacheMap.getManyStart_keeps {K V : Type} [DecidableEq K] [Inhabited V]
    (c : CacheMap K V) (keys : List K) (now : Int) (hwf : c.wellFormed) :
    (c.getManyStart keys now).cache.wellFormed ∧
    ∀ k, (c.getManyStart keys now).cache.valueOf k = c.valueOf k := by
  have hread := CacheMap.afterRead_spec c keys now
  obtain ⟨hinv, _⟩ := CacheMap.afterClaim_spec c keys now hwf
  have h2 : ∀ k, (c.afterClaim keys now).1.valueOf k = c.valueOf k := fun k => by
    rw [hinv.value, CacheMap.valueOf_same hread.1]
  have hwf1 : (c.afterRead keys now).1.wellFormed := by
    intro p hp
    rw [hread.1.dataMap] at hp
    rw [hread.1.nextAddr]
    exact hwf p hp
  rw [CacheMap.getManyStart_eq]
  by_cases hu : (c.afterRead keys now).2.2.length > 0
  · by_cases hm : (c.afterClaim keys now).2.1.length > 0
    · simp only [hu, hm, if_true]
      obtain ⟨w1, w2⟩ := CacheMap.withStatus_keeps (c.afterClaim keys now).1 now hinv.wf
      exact ⟨w1, fun k => by rw [w2, h2]⟩
    · simp only [hu, hm, if_true, if_false]
      exact ⟨hinv.wf, h2⟩
  · simp only [hu, if_false]
    exact ⟨hwf1, fun k => CacheMap.valueOf_same hread.1 k⟩

/-- A map built by NewCacheMap is well-formed: it has no entry. -/
theorem NewCacheMap_wellFormed {K V : Type} (opt : CacheMapOption) (c : CacheMap K V)
    (h : NewCacheMap opt = some c) : c.wellFormed := by
  have hd : c.dataMap = [] := by
    unfold NewCacheMap at h
    simp only at h
    split_ifs at h <;> simp only [Option.some.injEq] at h <;> rw [← h]
  intro p hp
  rw [hd] at hp
  cases hp

/-- After the locked part of CacheMap.GetMany on a well-formed map, every
requested key has an entry. -/
theorem CacheMap.getManyStart_present {K V : Type} [DecidableEq K] [Inhabited V]
    (c : CacheMap K V) (keys : List K) (now : Int) (hwf : c.wellFormed) :
    ∀ k ∈ keys, ∃ item, mapGet (c.getManyStart keys now).cache.dataMap k = some item := by
  have hread := CacheMap.afterRead_spec c keys now
  obtain ⟨hinv, hpres⟩ := CacheMap.afterClaim_spec c keys now hwf
  have h2 : ∀ k ∈ keys, ∃ item, mapGet (c.afterClaim keys now).1.dataMap k = some item := by
    intro k hk
    cases hc : mapGet c.dataMap k with
    | none => exact hpres k (hread.2.2.2.2 k hk hc)
    | some a => exact ⟨a, hinv.kept k a (by rw [hread.1.dataMap]; exact hc)⟩
  rw [CacheMap.getManyStart_eq]
  by_cases hu : (c.afterRead keys now).2.2.length > 0
  · by_cases hm : (c.afterClaim keys now).2.1.length > 0
    · simp only [hu, hm, if_true]
      exact h2
    · simp only [hu, hm, if_true, if_false]
      exact h2
  · simp only [hu, if_false]
    intro k hk
    rw [hread.1.dataMap]
    cases hc : mapGet c.dataMap k with
    | none =>
      have hin := hread.2.2.2.2 k hk hc
      have hnil : (c.afterRead keys now).2.2 = [] := by
        cases hl : (c.afterRead keys now).2.2 with
        | nil => rfl
        | cons a l =>
          rw [hl] at hu
          simp at hu
      rw [hnil] at hin
      cases hin
    | some a => exact ⟨a, rfl⟩

/-- Claim C18.  CacheMap.GetMany, run with nothing else in between on a
well-formed map, returns for every list of keys (empty or with repeats): given
enough fuel for its polling loop it returns a map whose keys are exactly the
requested keys; each requested key has an entry in the map afterwards and is
returned with the value stored in that entry, or the zero value of V when the
entry holds none; the call changes the stored value of no key. -/
theorem getMany_returns_requested_keys {K V : Type} [DecidableEq K] [Inhabited V]
    (c : CacheMap K V) (keys : List K) (now : Int) (hwf : c.wellFormed) :
    ∃ n : Nat, ∀ fuel, n < fuel → ∃ r, c.GetMany fuel keys now = some r ∧
      (∀ k, k ∈ keys → ∃ item, mapGet r.cache.dataMap k = some item ∧
        mapGet r.value k = some (valueOrZero (r.cache.items item).data)) ∧
      (∀ k, k ∉ keys → mapGet r.value k = none) ∧
      (∀ k, r.cache.valueOf k = c.valueOf k) := by
  obtain ⟨n, hn⟩ := CacheMap.GetMany_returns c keys now
  refine ⟨n, fun fuel hf => ?_⟩
  obtain ⟨r, hr, hcache, _⟩ := hn fuel hf
  have hv := CacheMap.GetMany_value c keys now fuel r hwf hr
  have hk := (CacheMap.getManyStart_keeps c keys now hwf).2
  have hp := CacheMap.getManyStart_present c keys now hwf
  rw [← hcache] at hk hp
  refine ⟨r, hr, fun k hin => ?_, fun k hout => (hv k).2 hout, hk⟩
  obtain ⟨item, hitem⟩ := hp k hin
  refine ⟨item, hitem, ?_⟩
  rw [← CacheMap.valueOf_present r.cache k item hitem, hk]
  exact (hv k).1 hin

/-- The example map, asked for key 8 twice and key 7 once, returns the zero
value for key 8 (not in the map so far), 41 for key 7 and nothing for key 9. -/
theorem getMany_returns_requested_keys_witness :
    exampleMap.wellFormed ∧
    ∃ n : Nat, ∀ fuel, n < fuel → ∃ r, exampleMap.GetMany fuel [8, 7, 8] 1000 = some r ∧
      (∀ k, k ∈ [8, 7, 8] → ∃ item, mapGet r.cache.dataMap k = some item ∧
        mapGet r.value k = some (valueOrZero (r.cache.items item).data)) ∧
      (∀ k, k ∉ [8, 7, 8] → mapGet r.value k = none) ∧
      (∀ k, r.cache.valueOf k = exampleMap.valueOf k) :=
  ⟨exampleMap_wellFormed,
    getMany_returns_requested_keys exampleMap [8, 7, 8] 1000 exampleMap_wellFormed⟩

/-- When every requested key is in the map, the locked part of CacheMap.GetMany
leaves `hasNonExistKey` unset. -/
theorem CacheMap.getManyStart_flag {K V : Type} [DecidableEq K] [Inhabited V]
    (c : CacheMap K V) (keys : List K) (now : Int)
    (hall : ∀ k ∈ keys, ∃ item, mapGet c.dataMap k = some item) :
    (c.getManyStart keys now).hasNonExistKey = false := by
  have hflag : (c.afterClaim keys now).2.2 = false := by
    cases hf : (c.afterClaim keys now).2.2 with
    | false => rfl
    | true =>
      obtain ⟨k, hk, hnone⟩ := CacheMap.afterClaim_flag c keys now hf
      obtain ⟨item, hitem⟩ := hall k hk
      rw [hnone] at hitem
      cases hitem
  rw [CacheMap.getManyStart_eq]
  split_ifs <;> first | exact hflag | rfl

/-- Claim C19.  When every requested key is already in the map, CacheMap.GetMany
returns with zero sleep iterations whatever the fuel of its polling loop, also
when keys are due and a refresh is started for them; on a well-formed map
every requested key is returned with the value its entry held before the call. -/
theorem getMany_present_keys_never_wait {K V : Type} [DecidableEq K] [Inhabited V]
    (c : CacheMap K V) (keys : List K) (now : Int) (fuel : Nat)
    (hall : ∀ k ∈ keys, ∃ item, mapGet c.dataMap k = some item) :
    ∃ r, c.GetMany fuel keys now = some r ∧ r.sleeps = 0 ∧
      r.tasks = (c.getManyStart keys now).tasks ∧
      (c.wellFormed → ∀ k ∈ keys, ∃ item, mapGet c.dataMap k = some item ∧
        mapGet r.value k = some (valueOrZero (c.items item).data)) := by
  have hflag := CacheMap.getManyStart_flag c keys now hall
  have hget : c.GetMany fuel keys now = some
      { cache := (c.getManyStart keys now).cache, tasks := (c.getManyStart keys now).tasks
        sleeps := 0
        value := (c.getManyStart keys now).cache.readBack
          (c.getManyStart keys now).unCachedDataMap (c.getManyStart keys now).data } := by
    unfold CacheMap.GetMany
    simp only [hflag]
    cases (c.getManyStart keys now).updatedStatus <;> rfl
  refine ⟨_, hget, rfl, rfl, fun hwf k hk => ?_⟩
  obtain ⟨item, hitem⟩ := hall k hk
  refine ⟨item, hitem, ?_⟩
  rw [← CacheMap.valueOf_present c k item hitem]
  exact ((CacheMap.GetMany_value c keys now fuel _ hwf hget) k).1 hk

/-- Key 7 is in the example map. -/
theorem exampleMap_present :
    ∀ k ∈ [7], ∃ item, mapGet exampleMap.dataMap k = some item := by
  intro k hk
  rw [List.mem_singleton] at hk
  rw [hk]
  exact ⟨0, by decide⟩

/-- The example map asked for key 7 at time 1000, when the key is due: the call
starts one batch refresh, does not sleep even without fuel, and returns the
stored value 41. -/
theorem getMany_present_keys_never_wait_witness :
    (∀ k ∈ [7], ∃ item, mapGet exampleMap.dataMap k = some item) ∧
    (exampleMap.getManyStart [7] 1000).tasks = [Task.updateBatch [(7, 0)] 1] ∧
    valueOrZero (exampleMap.items 0).data = 41 ∧
    ∃ r, exampleMap.GetMany 0 [7] 1000 = some r ∧ r.sleeps = 0 ∧
      r.tasks = (exampleMap.getManyStart [7] 1000).tasks ∧
      (exampleMap.wellFormed → ∀ k ∈ [7], ∃ item, mapGet exampleMap.dataMap k = some item ∧
        mapGet r.value k = some (valueOrZero (exampleMap.items item).data)) :=
  ⟨exampleMap_present, by decide, by decide,
    getMany_present_keys_never_wait exampleMap [7] 1000 0 exampleMap_present⟩

/-! ## C20: release of the batch marker -/

/-- Claim C20 (as stated, refuted).  On the example map (errors not cached) a
GetMany for the new key 8 at time 1000 starts one updateBatch goroutine with
the marker at address 2 and waits on it; the batch callback fails and the
goroutine finishes at time 500000: the marker's cutoff is still 1001000, not
500000, and the caller sleeps twice, as long as with no goroutine at all. -/
theorem batch_marker_release_counterexample :
    (exampleMap.getManyStart [8] 1000).tasks = [Task.updateBatch [(8, 1)] 2] ∧
    (exampleMap.getManyStart [8] 1000).hasNonExistKey = true ∧
    ((exampleBatchCache.updateBatch [(8, 1)] 2 [] true 500000).items 2).initCutOffTime
      ≠ 500000 ∧
    ((exampleBatchCache.updateBatch [(8, 1)] 2 [] true 500000).items 2).initCutOffTime
      = 1001000 ∧
    waitLoop (exampleBatchCache.markerReadings [(8, 1)] 2 [] true 500000 1) 3 0 1000
      = some (2001000, 2) ∧
    waitLoop (fun _ => (exampleBatchCache.items 2).initCutOffTime) 3 0 1000
      = some (2001000, 2) := by
  decide

/-- Claim C20 (amended).  When the batch callback succeeded, or failed with
`expirationOnErr > 0`, updateBatch finishing at time `t` sets the cutoff of the
marker to `t`, and a caller polling the marker leaves in the first iteration
`n` in which its local clock is past `t`.  When the callback failed with
`expirationOnErr <= 0`, updateBatch changes nothing, and a caller polling a
marker with the cutoff `now + w ms` sleeps `w + 1` times. -/
theorem batch_marker_released_when_result_applied {K V : Type} [DecidableEq K] [Inhabited V]
    (c : CacheMap K V) (unCachedDataMap : List (K × Nat)) (updatedStatus : Nat)
    (data : List (K × V)) (t now : Int) (i : Nat) :
    (∀ err : Bool, (err = false ∨ 0 < c.expirationOnErr) →
      ((c.updateBatch unCachedDataMap updatedStatus data err t).items
        updatedStatus).initCutOffTime = t) ∧
    (c.expirationOnErr ≤ 0 → c.updateBatch unCachedDataMap updatedStatus data true t = c) ∧
    (∀ (err : Bool) (n : Nat), (err = false ∨ 0 < c.expirationOnErr) → i ≤ n →
      (∀ j : Nat, j < i →
        now + (j : Int) * MilliToNanoSecond ≤ (c.items updatedStatus).initCutOffTime) →
      (∀ j : Nat, i ≤ j → j < n → now + (j : Int) * MilliToNanoSecond ≤ t) →
      t < now + (n : Int) * MilliToNanoSecond →
      ∀ fuel, n < fuel →
        waitLoop (c.markerReadings unCachedDataMap updatedStatus data err t i) fuel 0 now
          = some (now + (n : Int) * MilliToNanoSecond, n)) ∧
    (∀ w : Nat, c.expirationOnErr ≤ 0 →
      (c.items updatedStatus).initCutOffTime = now + (w : Int) * MilliToNanoSecond →
      ∀ fuel, w + 1 < fuel →
        waitLoop (c.markerReadings unCachedDataMap updatedStatus data true t i) fuel 0 now
          = some (now + ((w + 1 : Nat) : Int) * MilliToNanoSecond, w + 1)) := by
  have happlied : ∀ err : Bool, (err = false ∨ 0 < c.expirationOnErr) →
      ((c.updateBatch unCachedDataMap updatedStatus data err t).items
        updatedStatus).initCutOffTime = t := by
    intro err hok
    cases err
    · simp [CacheMap.updateBatch, CacheMap.setItem]
    · have hne : ¬ c.expirationOnErr ≤ 0 := by
        rcases hok with h | h
        · cases h
        · omega
      simp [CacheMap.updateBatch, CacheMap.setItem, hne]
  refine ⟨happlied, CacheMap.updateBatch_untolerated c unCachedDataMap updatedStatus data t,
    ?_, ?_⟩
  · intro err n hok hin hbefore hafter hpast fuel hf
    have h := waitLoop_exit (c.markerReadings unCachedDataMap updatedStatus data err t i) n
      fuel 0 now hf
      (fun j hj => by
        unfold CacheMap.markerReadings
        by_cases hji : j < i
        · have := hbefore j hji
          simp only [Nat.zero_add, hji, if_true]
          omega
        · have := hafter j (Nat.le_of_not_lt hji) hj
          simp only [Nat.zero_add, hji, if_false]
          rw [happlied err hok]
          omega)
      (by
        unfold CacheMap.markerReadings
        have hni : ¬ n < i := Nat.not_lt.mpr hin
        simp only [Nat.zero_add, hni, if_false]
        rw [happlied err hok]
        exact hpast)
    simpa using h
  · intro w he hcut fuel hf
    have hread : ∀ j, c.markerReadings unCachedDataMap updatedStatus data true t i j
        = now + (w : Int) * MilliToNanoSecond := by
      intro j
      unfold CacheMap.markerReadings
      rw [CacheMap.updateBatch_untolerated c unCachedDataMap updatedStatus data t he, hcut]
      split_ifs <;> rfl
    have h := waitLoop_exit (c.markerReadings unCachedDataMap updatedStatus data true t i)
      (w + 1) fuel 0 now hf
      (fun j hj => by
        rw [hread]
        simp only [MilliToNanoSecond]
        omega)
      (by
        rw [hread]
        simp only [MilliToNanoSecond]
        push_cast
        omega)
    simpa using h

/-- On the example map waiting for key 8 since time 1000: a batch that succeeds
at time 500000, between the first two readings of the caller, sets the marker
to 500000 and the caller leaves after one sleep; with errors not cached a
failed batch changes nothing and the caller sleeps twice. -/
theorem batch_marker_released_when_result_applied_witness :
    ((exampleBatchCache.updateBatch [(8, 1)] 2 [(8, 5)] false 500000).items 2).initCutOffTime
      = 500000 ∧
    (exampleBatchCache.expirationOnErr ≤ 0 ∧
      exampleBatchCache.updateBatch [(8, 1)] 2 [] true 500000 = exampleBatchCache) ∧
    ((1 : Nat) ≤ 1 ∧
      (∀ j : Nat, j < 1 →
        (1000 : Int) + (j : Int) * MilliToNanoSecond ≤ (exampleBatchCache.items 2).initCutOffTime) ∧
      (∀ j : Nat, 1 ≤ j → j < 1 → (1000 : Int) + (j : Int) * MilliToNanoSecond ≤ 500000) ∧
      (500000 : Int) < 1000 + ((1 : Nat) : Int) * MilliToNanoSecond ∧
      ∀ fuel, 1 < fuel →
        waitLoop (exampleBatchCache.markerReadings [(8, 1)] 2 [(8, 5)] false 500000 1) fuel 0 1000
          = some (1000 + ((1 : Nat) : Int) * MilliToNanoSecond, 1)) ∧
    ((exampleBatchCache.items 2).initCutOffTime = 1000 + ((1 : Nat) : Int) * MilliToNanoSecond ∧
      ∀ fuel, 1 + 1 < fuel →
        waitLoop (exampleBatchCache.markerReadings [(8, 1)] 2 [] true 500000 1) fuel 0 1000
          = some (1000 + ((1 + 1 : Nat) : Int) * MilliToNanoSecond, 1 + 1)) :=
  ⟨(batch_marker_released_when_result_applied exampleBatchCache [(8, 1)] 2 [(8, 5)] 500000 1000
      1).1 false (Or.inl rfl),
    ⟨by decide,
      (batch_marker_released_when_result_applied exampleBatchCache [(8, 1)] 2 [] 500000 1000
        1).2.1 (by decide)⟩,
    ⟨by decide, by decide, by decide, by decide,
      (batch_marker_released_when_result_applied exampleBatchCache [(8, 1)] 2 [(8, 5)] 500000
        1000 1).2.2.1 false 1 (Or.inl rfl) (by decide) (by decide) (by decide) (by decide)⟩,
    ⟨by decide,
      (batch_marker_released_when_result_applied exampleBatchCache [(8, 1)] 2 [] 500000 1000
        1).2.2.2 1 (by decide) (by decide)⟩⟩

/-! ## C21: distribution of a batch result -/

/-- The loop of updateBatch (datacachemap.go, lines 235-244) leaves alone every
item that is not in `unCachedDataMap`. -/
theorem CacheMap.storeAll_frame {K V : Type} [DecidableEq K] [Inhabited V]
    (data : List (K × V)) (expire now : Int) (a : Nat) :
    ∀ (unCachedDataMap : List (K × Nat)) (c : CacheMap K V),
      a ∉ unCachedDataMap.map Prod.snd →
      (unCachedDataMap.foldl
        (fun (acc : CacheMap K V) p =>
          acc.storeItem p.2 (valueOrZero (mapGet data p.1)) expire now) c).items a
        = c.items a := by
  intro unCachedDataMap
  induction unCachedDataMap with
  | nil => intro c _; rfl
  | cons q rest ih =>
    intro c ha
    simp only [List.map_cons, List.mem_cons, not_or] at ha
    simp only [List.foldl_cons]
    rw [ih _ ha.2]
    exact (CacheMap.storeItem_frame c q.2 _ expire now).2.2.2 a ha.1

/-- The loop of updateBatch stores in the item of every key what `data` holds
for the key and moves its gate to `now + expire`, when no two keys share an
item. -/
theorem CacheMap.storeAll_spec {K V : Type} [DecidableEq K] [Inhabited V]
    (data : List (K × V)) (expire now : Int) :
    ∀ (unCachedDataMap : List (K × Nat)) (c : CacheMap K V),
      (unCachedDataMap.map Prod.snd).Nodup →
      ∀ p ∈ unCachedDataMap,
        ((unCachedDataMap.foldl
          (fun (acc : CacheMap K V) p =>
            acc.storeItem p.2 (valueOrZero (mapGet data p.1)) expire now) c).items p.2).data
          = some (valueOrZero (mapGet data p.1)) ∧
        ((unCachedDataMap.foldl
          (fun (acc : CacheMap K V) p =>
            acc.storeItem p.2 (valueOrZero (mapGet data p.1)) expire now) c).items
            p.2).nextUpdateTime = now + expire := by
  intro unCachedDataMap
  induction unCachedDataMap with
  | nil => intro c _ p hp; cases hp
  | cons q rest ih =>
    intro c hnd p hp
    simp only [List.map_cons, List.nodup_cons] at hnd
    simp only [List.foldl_cons]
    rcases List.mem_cons.mp hp with e | hin
    · rw [e, CacheMap.storeAll_frame data expire now q.2 rest _ hnd.1]
      unfold CacheMap.storeItem CacheMap.setItem
      by_cases h : now < (c.items q.2).initCutOffTime
      · simp [h]
      · simp [h]
    · exact ih _ hnd.2 p hin

/-- What updateBatch leaves in the items of the refresh set when the result is
applied with the expiration `expire`. -/
theorem CacheMap.updateBatch_applied {K V : Type} [DecidableEq K] [Inhabited V]
    (c : CacheMap K V) (unCachedDataMap : List (K × Nat)) (updatedStatus : Nat)
    (data : List (K × V)) (err : Bool) (now : Int)
    (hok : err = false ∨ 0 < c.expirationOnErr)
    (hnd : (unCachedDataMap.map Prod.snd).Nodup) :
    ∀ p ∈ unCachedDataMap,
      ((c.updateBatch unCachedDataMap updatedStatus data err now).items p.2).data
        = some (valueOrZero (mapGet data p.1)) ∧
      ((c.updateBatch unCachedDataMap updatedStatus data err now).items p.2).nextUpdateTime
        = now + (if err then c.expirationOnErr else c.expiration) := by
  intro p hp
  have hfin : ∀ expire : Int,
      (((unCachedDataMap.foldl
        (fun (acc : CacheMap K V) p =>
          acc.storeItem p.2 (valueOrZero (mapGet data p.1)) expire now) c).setItem
        updatedStatus
        { (unCachedDataMap.foldl
            (fun (acc : CacheMap K V) p =>
              acc.storeItem p.2 (valueOrZero (mapGet data p.1)) expire now) c).items
            updatedStatus with initCutOffTime := now }).items p.2).data
        = some (valueOrZero (mapGet data p.1)) ∧
      (((unCachedDataMap.foldl
        (fun (acc : CacheMap K V) p =>
          acc.storeItem p.2 (valueOrZero (mapGet data p.1)) expire now) c).setItem
        updatedStatus
        { (unCachedDataMap.foldl
            (fun (acc : CacheMap K V) p =>
              acc.storeItem p.2 (valueOrZero (mapGet data p.1)) expire now) c).items
            updatedStatus with initCutOffTime := now }).items p.2).nextUpdateTime
        = now + expire := by
    intro expire
    have h := CacheMap.storeAll_spec data expire now unCachedDataMap c hnd p hp
    by_cases hs : p.2 = updatedStatus
    · simp only [CacheMap.setItem, hs, Function.update_same]
      rw [hs] at h
      exact h
    · simp only [CacheMap.setItem, Function.update_noteq hs]
      exact h
  unfold CacheMap.updateBatch
  cases err
  · exact hfin c.expiration
  · have hne : ¬ c.expirationOnErr ≤ 0 := by
      rcases hok with h | h
      · cases h
      · omega
    simp only [hne, if_false, if_true]
    exact hfin c.expirationOnErr

/-- Claim C21.  CacheMap.updateBatch calls the batch callback once, with the
keys of the refresh set; when the result is applied at time `now` (the callback
succeeded, or failed with `expirationOnErr > 0`) and no two keys of the refresh
set share an item, every entry of the refresh set holds `result[key]` when the
returned map has the key and the zero value of V otherwise (so for every key
when the returned map is nil), and its `nextUpdateTime` is `now + expiration`,
or `now + expirationOnErr` on error, that sum being in the range of `int64`. -/
theorem batch_result_distributed {K V : Type} [DecidableEq K] [Inhabited V]
    (c : CacheMap K V) (loadDataBatch : List K → List (K × V) × Bool)
    (unCachedDataMap : List (K × Nat)) (updatedStatus : Nat) (now : Int)
    (hok : (loadDataBatch (unCachedDataMap.map Prod.fst)).2 = false ∨ 0 < c.expirationOnErr)
    (hnd : (unCachedDataMap.map Prod.snd).Nodup)
    (_hfit : fitsInt64 (now + (if (loadDataBatch (unCachedDataMap.map Prod.fst)).2
      then c.expirationOnErr else c.expiration))) :
    (c.runBatch loadDataBatch unCachedDataMap updatedStatus now).2
      = [unCachedDataMap.map Prod.fst] ∧
    ∀ p ∈ unCachedDataMap,
      (∀ v, mapGet (loadDataBatch (unCachedDataMap.map Prod.fst)).1 p.1 = some v →
        (((c.runBatch loadDataBatch unCachedDataMap updatedStatus now).1.items p.2).data
          = some v)) ∧
      (mapGet (loadDataBatch (unCachedDataMap.map Prod.fst)).1 p.1 = none →
        (((c.runBatch loadDataBatch unCachedDataMap updatedStatus now).1.items p.2).data
          = some default)) ∧
      ((loadDataBatch (unCachedDataMap.map Prod.fst)).1 = [] →
        (((c.runBatch loadDataBatch unCachedDataMap updatedStatus now).1.items p.2).data
          = some default)) ∧
      ((c.runBatch loadDataBatch unCachedDataMap updatedStatus now).1.items p.2).nextUpdateTime
        = now + (if (loadDataBatch (unCachedDataMap.map Prod.fst)).2 then c.expirationOnErr
            else c.expiration) := by
  refine ⟨rfl, fun p hp => ?_⟩
  have h := CacheMap.updateBatch_applied c unCachedDataMap updatedStatus
    (loadDataBatch (unCachedDataMap.map Prod.fst)).1
    (loadDataBatch (unCachedDataMap.map Prod.fst)).2 now hok hnd p hp
  have hrun : (c.runBatch loadDataBatch unCachedDataMap updatedStatus now).1
      = c.updateBatch unCachedDataMap updatedStatus
          (loadDataBatch (unCachedDataMap.map Prod.fst)).1
          (loadDataBatch (unCachedDataMap.map Prod.fst)).2 now := rfl
  rw [hrun]
  refine ⟨fun v hv => ?_, fun hnone => ?_, fun hnil => ?_, h.2⟩
  · rw [h.1, hv]
    rfl
  · rw [h.1, hnone]
    rfl
  · rw [h.1, hnil]
    rfl

/-- The example map after a GetMany for the new keys 8 and 9: a batch result
that has key 8 only gives 5 to key 8 and the zero value to key 9; with errors
cached for 20 ms, a failed batch with a nil map gives the zero value to both
and moves their gates to `now + 20 ms`. -/
theorem batch_result_distributed_witness :
    (exampleMap.getManyStart [8, 9] 1000).tasks = [Task.updateBatch [(8, 1), (9, 2)] 3] ∧
    ((exampleBatchCache2.runBatch exampleBatchLoad [(8, 1), (9, 2)] 3 500000).1.items 1).data
      = some 5 ∧
    ((exampleBatchCache2.runBatch exampleBatchLoad [(8, 1), (9, 2)] 3 500000).1.items 2).data
      = some 0 ∧
    ((({ exampleBatchCache2 with expirationOnErr := 20000000 } : CacheMap Nat Nat).runBatch
        nilBatchErr [(8, 1), (9, 2)] 3 500000).1.items 2).nextUpdateTime = 20500000 ∧
    ((exampleBatchCache2.runBatch exampleBatchLoad [(8, 1), (9, 2)] 3 500000).2
        = [[8, 9]] ∧
      ∀ p ∈ [((8 : Nat), (1 : Nat)), (9, 2)],
        (∀ v, mapGet (exampleBatchLoad [8, 9]).1 p.1 = some v →
          (((exampleBatchCache2.runBatch exampleBatchLoad [(8, 1), (9, 2)] 3 500000).1.items
            p.2).data = some v)) ∧
        (mapGet (exampleBatchLoad [8, 9]).1 p.1 = none →
          (((exampleBatchCache2.runBatch exampleBatchLoad [(8, 1), (9, 2)] 3 500000).1.items
            p.2).data = some default)) ∧
        ((exampleBatchLoad [8, 9]).1 = [] →
          (((exampleBatchCache2.runBatch exampleBatchLoad [(8, 1), (9, 2)] 3 500000).1.items
            p.2).data = some default)) ∧
        ((exampleBatchCache2.runBatch exampleBatchLoad [(8, 1), (9, 2)] 3 500000).1.items
          p.2).nextUpdateTime
          = 500000 + (if (exampleBatchLoad [8, 9]).2 then exampleBatchCache2.expirationOnErr
              else exampleBatchCache2.expiration)) :=
  ⟨by decide, by decide, by decide, by decide,
    batch_result_distributed exampleBatchCache2 exampleBatchLoad [(8, 1), (9, 2)] 3 500000
      (Or.inl rfl) (by decide) (by decide)⟩

/-! ## C22: the scenario of the single-value cache -/

/-- Claim C22.  The single-value cache of TestDataCache (initial data 0,
expiration 50 ms, default retry interval and wait timeout), with a load
callback that returns an incrementing counter and whose result is applied
10 ms after the load is started: Get calls 0, 30, 70 and 100 ms after a time
`T0 >= 0` return 0, 1, 1 and 2, given fuel for two iterations of the polling
loop. -/
theorem single_value_scenario (T0 clock : Int) (fuel : Nat) (h0 : 0 ≤ T0) :
    DataCache.scenario (fuel + 2) (10 * MilliToNanoSecond) (NewDataCache scenarioOption clock)
      0 []
      [T0, T0 + 30 * MilliToNanoSecond, T0 + 70 * MilliToNanoSecond,
        T0 + 100 * MilliToNanoSecond]
      = some [0, 1, 1, 2] := by
  by_cases hz : T0 = 0
  · subst hz
    simp [DataCache.scenario, DataCache.applyFinished, DataCache.Get, DataCache.refresh,
      DataCache.refreshFrom, DataCache.loadTask, NewDataCache, wrap64, scenarioOption, waitLoop,
      MilliToNanoSecond, DefaultRetryInterval, add_assoc]
  · simp [DataCache.scenario, DataCache.applyFinished, DataCache.Get, DataCache.refresh,
      DataCache.refreshFrom, DataCache.loadTask, NewDataCache, wrap64, scenarioOption, waitLoop,
      MilliToNanoSecond, DefaultRetryInterval, h0, hz, add_assoc]

/-- The scenario started at the clock reading 1700000000 s. -/
theorem single_value_scenario_witness :
    (0 : Int) ≤ 1700000000000000000 ∧
    DataCache.scenario (0 + 2) (10 * MilliToNanoSecond)
      (NewDataCache scenarioOption 1700000000000000000) 0 []
      [1700000000000000000, 1700000000000000000 + 30 * MilliToNanoSecond,
        1700000000000000000 + 70 * MilliToNanoSecond,
        1700000000000000000 + 100 * MilliToNanoSecond]
      = some [0, 1, 1, 2] :=
  ⟨by decide, single_value_scenario 1700000000000000000 1700000000000000000 0 (by decide)⟩

/-! ## C23: the scenario of the keyed map -/

/-- The first Get of the scenario: the key is created, one load is started,
the call sleeps twice and returns the zero value. -/
theorem oneKeyMap_first_get (T0 : Int) (fuel : Nat) (c : CacheMap String (Option Int))
    (h : NewCacheMap testMapOption = some c) :
    c.Get (fuel + 3) "1" T0 = some
      { cache := oneKeyMap ⟨none, T0 + 1000000000, T0 + 1000000, T0 + 32000000⟩
        tasks := [Task.updateData "1" 0]
        sleeps := 2
        value := none } := by
  have hc : c = CacheMap.mk [] (fun _ => CacheItem.zero) 0 false 20000000 0 1000000000
      1000000 30000000 := by
    simp [NewCacheMap, wrap64, testMapOption, MilliToNanoSecond, DefaultRetryInterval] at h
    rw [← h]
  subst hc
  simp [CacheMap.Get, CacheMap.getStart, CacheMap.getStartFrom, CacheMap.lookupOrCreate,
    CacheMap.refreshItemFrom, CacheMap.updateEvictTime, CacheMap.setItem, mapGet, mapSet,
    valueOrZero, waitLoop, MilliToNanoSecond, oneKeyMap, add_assoc]
  rfl

/-- A Get on the key of `oneKeyMap` after the cutoff of its item: no sleep, the
stored value, a load when the item is due, and the eviction time moved on. -/
theorem oneKeyMap_get (it : CacheItem (Option Int)) (t : Int) (fuel : Nat)
    (hcut : it.initCutOffTime < t) :
    (oneKeyMap it).Get (fuel + 1) "1" t = some
      { cache := oneKeyMap
          ⟨it.data, if t > it.nextUpdateTime then t + 1000000000 else it.nextUpdateTime,
            it.initCutOffTime,
            if t + 30000000 > it.evictTime then t + 30000000 else it.evictTime⟩
        tasks := if t > it.nextUpdateTime then [Task.updateData "1" 0] else []
        sleeps := 0
        value := valueOrZero it.data } := by
  by_cases hd : t > it.nextUpdateTime <;> by_cases he : t + 30000000 > it.evictTime <;>
    simp [CacheMap.Get, CacheMap.getStart, CacheMap.getStartFrom, CacheMap.lookupOrCreate,
      CacheMap.refreshItemFrom, CacheMap.updateEvictTime, CacheMap.setItem, mapGet,
      waitLoop, oneKeyMap, hcut, hd, he]

/-- A successful load applied to the item of `oneKeyMap` after its cutoff. -/
theorem oneKeyMap_updateData (it : CacheItem (Option Int)) (v : Option Int) (t : Int)
    (hcut : ¬ t < it.initCutOffTime) :
    (oneKeyMap it).updateData 0 v false t
      = oneKeyMap ⟨some v, t + 20000000, it.initCutOffTime, it.evictTime⟩ := by
  simp [CacheMap.updateData, CacheMap.storeItem, CacheMap.setItem, oneKeyMap, hcut]

/-- A sweep no later than the eviction time of the item of `oneKeyMap` keeps
the key. -/
theorem oneKeyMap_evictKeys (it : CacheItem (Option Int)) (s : Int) (h : ¬ it.evictTime < s) :
    (oneKeyMap it).evictKeys s = oneKeyMap it := by
  simp [CacheMap.evictKeys, oneKeyMap, h]

/-- The key "1" is in `oneKeyMap`. -/
theorem oneKeyMap_has_key (it : CacheItem (Option Int)) :
    (mapGet (oneKeyMap it).dataMap "1").isSome = true := by
  simp [oneKeyMap, mapGet]

/-- Claim C23.  On a new keyed map with the options of TestDataCacheMap
(expiration 20 ms, eviction timeout 30 ms, wait timeout 1 ms, default retry
interval), with a per-key load callback that returns an incrementing counter
and whose result is applied 10 ms after the load is started: Get("1") calls 0,
15, 35 and 50 ms after a time `T0` return the zero value, 1, 1 and 2, and the
sweeps 30 and 60 ms after `T0` leave the key in the map; the polling loop
needs fuel for three iterations. -/
theorem keyed_map_scenario (T0 : Int) (fuel : Nat) :
    mapScenario (fuel + 3) T0 = some [MapSeen.value none, MapSeen.value (some 1),
      MapSeen.kept true, MapSeen.value (some 1), MapSeen.value (some 2),
      MapSeen.kept true] := by
  have hnew : (NewCacheMap testMapOption : Option (CacheMap String (Option Int)))
      = some (CacheMap.mk [] (fun _ => CacheItem.zero) 0 false 20000000 0 1000000000
          1000000 30000000) := by
    simp [NewCacheMap, wrap64, testMapOption, MilliToNanoSecond, DefaultRetryInterval]
  have hfirst := oneKeyMap_first_get T0 fuel _ hnew
  unfold mapScenario
  rw [hnew]
  simp only [mapScenarioCalls, CacheMap.scenario, CacheMap.applyFinished, hfirst]
  simp [CacheMap.scenario, CacheMap.applyFinished, startedLoads, oneKeyMap_get,
    oneKeyMap_updateData, oneKeyMap_evictKeys, oneKeyMap_has_key, MilliToNanoSecond,
    add_assoc, valueOrZero]

/-! ## C27: a stale result can overwrite a newer one -/

/-- Claim C27.  There is an execution of the single-value cache, and one of an
entry of the keyed map, in which load A is started, load B is started at least
`retryInterval` later while A is still running, the successful result of B (2)
is applied and then the successful result of A (1): afterwards the entry holds
the result of A, and Get returns it. -/
theorem stale_overwrite_possible :
    ((CacheSys.run ⟨exampleCache, []⟩ (exampleStaleEvents.take 1)).running = [1000] ∧
      (CacheSys.run ⟨exampleCache, []⟩ (exampleStaleEvents.take 2)).running
        = [1000, 1000001000] ∧
      1000 + exampleCache.retryInterval ≤ 1000001000 ∧
      (CacheSys.run ⟨exampleCache, []⟩ (exampleStaleEvents.take 3)).cache.data = 2 ∧
      (CacheSys.run ⟨exampleCache, []⟩ (exampleStaleEvents.take 3)).running = [1000] ∧
      (CacheSys.run ⟨exampleCache, []⟩ exampleStaleEvents).cache.data = 1 ∧
      (CacheSys.run ⟨exampleCache, []⟩ exampleStaleEvents).running = [] ∧
      ((CacheSys.run ⟨exampleCache, []⟩ exampleStaleEvents).cache.Get 3 1000004000).map
        GetResult.value = some 1) ∧
    ((MapSys.run ⟨exampleMap, []⟩ (exampleMapStaleEvents.take 1)).running = [(0, 1000)] ∧
      (MapSys.run ⟨exampleMap, []⟩ (exampleMapStaleEvents.take 2)).running
        = [(0, 1000), (0, 10001001)] ∧
      1000 + exampleMap.retryInterval ≤ 10001001 ∧
      ((MapSys.run ⟨exampleMap, []⟩ (exampleMapStaleEvents.take 3)).cache.items 0).data
        = some 2 ∧
      (MapSys.run ⟨exampleMap, []⟩ (exampleMapStaleEvents.take 3)).running = [(0, 1000)] ∧
      ((MapSys.run ⟨exampleMap, []⟩ exampleMapStaleEvents).cache.items 0).data = some 1 ∧
      (MapSys.run ⟨exampleMap, []⟩ exampleMapStaleEvents).running = [] ∧
      ((MapSys.run ⟨exampleMap, []⟩ exampleMapStaleEvents).cache.Get 3 7 10004000).map
        (fun r => (r.value, r.tasks)) = some (1, [])) := by
  decide

/-! ## C29: an entry accessed recently survives the sweep -/

/-- The keys of a map after `m[k] = a`. -/
theorem mapSet_keys {K A : Type} [DecidableEq K] (m : List (K × A)) (k : K) (a : A) :
    (mapSet m k a).map Prod.fst
      = if k ∈ m.map Prod.fst then m.map Prod.fst else m.map Prod.fst ++ [k] := by
  induction m with
  | nil => simp [mapSet]
  | cons p rest ih =>
    by_cases h : p.1 = k
    · simp [mapSet, h]
    · have hne : ¬ k = p.1 := fun e => h e.symm
      by_cases hin : k ∈ rest.map Prod.fst
      · simp only [mapSet, h, if_false, List.map_cons, ih, hin, if_true, List.mem_cons,
          or_true]
      · simp only [mapSet, h, if_false, List.map_cons, ih, hin, List.mem_cons, hne,
          or_self, List.cons_append]

/-- The assignment `m[k] = a` keeps the keys of the map unique. -/
theorem mapSet_nodup {K A : Type} [DecidableEq K] (m : List (K × A)) (k : K) (a : A)
    (h : (m.map Prod.fst).Nodup) : ((mapSet m k a).map Prod.fst).Nodup := by
  rw [mapSet_keys]
  by_cases hin : k ∈ m.map Prod.fst
  · simp only [hin, if_true]
    exact h
  · simp only [hin, if_false]
    exact List.nodup_append.mpr ⟨h, List.nodup_singleton k, by
      intro x hx hx1
      rw [List.mem_singleton] at hx1
      exact hin (hx1 ▸ hx)⟩

/-- A sweep at a time not after the eviction time of the item of a key keeps
the key. -/
theorem CacheMap.evictKeys_keeps {K V : Type} [DecidableEq K] (c : CacheMap K V) (key : K)
    (item : Nat) (s : Int) (hu : c.uniqueKeys) (hk : mapGet c.dataMap key = some item)
    (hs : s ≤ (c.items item).evictTime) :
    mapGet (c.evictKeys s).dataMap key = some item := by
  rw [CacheMap.evictKeys_dataMap c s hu, mapGet_filter_unique _ c.dataMap key hu, hk]
  have hn : ¬ (c.items item).evictTime < s := not_lt.mpr hs
  simp [hn]

/-- One iteration of the first loop of GetMany changes no entry but its
eviction time. -/
theorem CacheMap.readKey_same {K V : Type} [DecidableEq K] [Inhabited V] (now : Int)
    (st : CacheMap K V × List (K × V) × List K) (k : K) :
    st.1.SameEntries (CacheMap.readKey now st k).1 :=
  (CacheMap.readKey_fold now [k] st).1

/-- After the first loop of GetMany on a well-formed map, every requested key
that is in the map has an eviction time of at least `now + evictTimeout`. -/
theorem CacheMap.afterRead_touched {K V : Type} [DecidableEq K] [Inhabited V]
    (c : CacheMap K V) (keys : List K) (now : Int) (hwf : c.wellFormed) :
    ∀ k ∈ keys, ∀ a, mapGet c.dataMap k = some a →
      now + c.evictTimeout ≤ ((c.afterRead keys now).1.items a).evictTime := by
  intro k hk a ha
  have halloc : a < c.nextAddr := hwf (k, a) (mapGet_mem _ _ _ ha)
  exact foldl_establish (CacheMap.readKey now)
    (fun st => c.SameEntries st.1)
    (fun st => now + c.evictTimeout ≤ (st.1.items a).evictTime) k keys
    (c, ([] : List (K × V)), ([] : List K))
    (fun st x _ hs => hs.trans_same (CacheMap.readKey_same now st x))
    (fun st hs => by
      have hka : mapGet st.1.dataMap k = some a := by rw [hs.dataMap]; exact ha
      rw [CacheMap.readKey_present now st k a hka]
      simp only
      rw [(CacheMap.updateEvictTime_evictTime st.1 a now).1, hs.evictTimeout]
      exact le_max_right _ _)
    (fun st x _ hs hq => by
      have hm := (CacheMap.readKey_mono now st x).2 a (by rw [hs.nextAddr]; exact halloc)
      exact le_trans hq hm)
    hk (CacheMap.SameEntries.rfl_same c)

/-- One iteration of the second loop of GetMany keeps the invariant. -/
theorem CacheMap.claimKey_touched {K V : Type} [DecidableEq K] (E now : Int)
    (keys : List K) (st : CacheMap K V × List (K × Nat) × Bool) (x : K)
    (h : CacheMap.TouchInv E now keys st.1) :
    CacheMap.TouchInv E now keys (CacheMap.claimKey now st x).1 := by
  cases hk : mapGet st.1.dataMap x with
  | none =>
    rw [CacheMap.claimKey_absent now st x hk]
    refine ⟨?_, ?_, h.policy, ?_⟩
    · intro p hp
      rcases mem_mapSet _ _ _ _ hp with h1 | h1
      · exact Nat.lt_succ_of_lt (h.wf p h1)
      · rw [h1]
        exact Nat.lt_succ_self _
    · exact mapSet_nodup _ _ _ h.unique
    · intro k hkin a ha
      simp only at ha
      by_cases e : k = x
      · rw [e, mapGet_mapSet_same] at ha
        simp only [Option.some.injEq] at ha
        rw [← ha]
        simp only [Function.update_same, h.policy]
        exact le_refl _
      · rw [mapGet_mapSet_ne _ _ _ _ e] at ha
        have hlt : a < st.1.nextAddr := h.wf (k, a) (mapGet_mem _ _ _ ha)
        simp only [Function.update_noteq (Nat.ne_of_lt hlt)]
        exact h.fresh k hkin a ha
  | some item =>
    by_cases hdue : (st.1.items item).nextUpdateTime < now
    · rw [CacheMap.claimKey_due now st x item hk hdue]
      refine ⟨h.wf, h.unique, h.policy, ?_⟩
      intro k hkin a ha
      have hold := h.fresh k hkin a ha
      by_cases e : a = item
      · subst e
        simp only [CacheMap.setItem, Function.update_same]
        exact hold
      · simp only [CacheMap.setItem, Function.update_noteq e]
        exact hold
    · rw [CacheMap.claimKey_skip now st x item hk hdue]
      exact h

/-- The locked part of CacheMap.GetMany on a well-formed map with unique keys
keeps both properties and the eviction timeout, and leaves every requested key
in the map with an eviction time of at least `now + evictTimeout`. -/
theorem CacheMap.getManyStart_touched {K V : Type} [DecidableEq K] [Inhabited V]
    (c : CacheMap K V) (keys : List K) (now : Int) (hwf : c.wellFormed)
    (hu : c.uniqueKeys) :
    (c.getManyStart keys now).cache.uniqueKeys ∧
    (c.getManyStart keys now).cache.evictTimeout = c.evictTimeout ∧
    ∀ k ∈ keys, (c.getManyStart keys now).cache.touched now k := by
  have hread := CacheMap.afterRead_spec c keys now
  have h1 : CacheMap.TouchInv c.evictTimeout now keys (c.afterRead keys now).1 := by
    refine ⟨?_, ?_, hread.1.evictTimeout, ?_⟩
    · intro p hp
      rw [hread.1.dataMap] at hp
      rw [hread.1.nextAddr]
      exact hwf p hp
    · unfold CacheMap.uniqueKeys
      rw [hread.1.dataMap]
      exact hu
    · intro k hk a ha
      rw [hread.1.dataMap] at ha
      exact CacheMap.afterRead_touched c keys now hwf k hk a ha
  have h2 : CacheMap.TouchInv c.evictTimeout now keys (c.afterClaim keys now).1 :=
    foldl_invariant (CacheMap.claimKey now)
      (fun st => CacheMap.TouchInv c.evictTimeout now keys st.1)
      (c.afterRead keys now).2.2 ((c.afterRead keys now).1, ([] : List (K × Nat)), false)
      (fun st x _ hs => CacheMap.claimKey_touched c.evictTimeout now keys st x hs) h1
  have h3 : CacheMap.TouchInv c.evictTimeout now keys ((c.afterClaim keys now).1.withStatus now) := by
    refine ⟨(CacheMap.withStatus_keeps _ now h2.wf).1, h2.unique, h2.policy, ?_⟩
    intro k hk a ha
    have hlt : a < (c.afterClaim keys now).1.nextAddr := h2.wf (k, a) (mapGet_mem _ _ _ ha)
    simp only [CacheMap.withStatus, Function.update_noteq (Nat.ne_of_lt hlt)]
    exact h2.fresh k hk a ha
  have hpres := CacheMap.getManyStart_present c keys now hwf
  have hfin : CacheMap.TouchInv c.evictTimeout now keys (c.getManyStart keys now).cache := by
    rw [CacheMap.getManyStart_eq]
    by_cases hlen : (c.afterRead keys now).2.2.length > 0
    · by_cases hm : (c.afterClaim keys now).2.1.length > 0
      · simp only [hlen, hm, if_true]
        exact h3
      · simp only [hlen, hm, if_true, if_false]
        exact h2
    · simp only [hlen, if_false]
      exact h1
  refine ⟨hfin.unique, hfin.policy, fun k hk => ?_⟩
  obtain ⟨item, hitem⟩ := hpres k hk
  refine ⟨item, hitem, ?_⟩
  rw [hfin.policy]
  exact hfin.fresh k hk item hitem

/-- CacheMap.Get returns, given enough fuel for its polling loop. -/
theorem CacheMap.Get_terminates {K V : Type} [DecidableEq K] [Inhabited V] (c : CacheMap K V)
    (key : K) (now : Int) :
    ∃ n : Nat, ∀ fuel, n < fuel → ∃ r, c.Get fuel key now = some r := by
  obtain ⟨n, hn⟩ := waitLoop_const
    (((c.getStart key now).1.items (c.getStart key now).2.1).initCutOffTime) now
  refine ⟨n, fun fuel hf => ?_⟩
  simp [CacheMap.Get, hn fuel hf]

/-- The part of CacheMap.Get before the polling loop keeps the eviction
timeout and the uniqueness of the keys. -/
theorem CacheMap.getStart_keeps {K V : Type} [DecidableEq K] (c : CacheMap K V) (key : K)
    (now : Int) :
    (c.getStart key now).1.evictTimeout = c.evictTimeout ∧
    (c.uniqueKeys → (c.getStart key now).1.uniqueKeys) := by
  have he : (c.getStart key now).1
      = ((c.lookupOrCreate key now).1.refreshItemFrom (c.lookupOrCreate key now).2.1
          ((c.lookupOrCreate key now).1.items (c.lookupOrCreate key now).2.1).nextUpdateTime
          now).1 := rfl
  have hd : ∀ (c1 : CacheMap K V) (item : Nat) (snapshot : Int),
      (c1.refreshItemFrom item snapshot now).1.dataMap = c1.dataMap := by
    intro c1 item snapshot
    simp only [CacheMap.refreshItemFrom]
    split_ifs <;> rfl
  refine ⟨?_, fun hu => ?_⟩
  · rw [he, (CacheMap.refreshItemFrom_policy _ _ _ _).2, (CacheMap.lookupOrCreate_policy _ _ _).2]
  · unfold CacheMap.uniqueKeys
    rw [he, hd]
    unfold CacheMap.lookupOrCreate
    cases hk : mapGet c.dataMap key with
    | some item => exact hu
    | none => exact mapSet_nodup _ _ _ hu

/-- CacheMap.Get at time `t` leaves the key in the map with an eviction time
of at least `t + evictTimeout`, and keeps the keys unique. -/
theorem CacheMap.Get_touched {K V : Type} [DecidableEq K] [Inhabited V] (c : CacheMap K V)
    (key : K) (t : Int) (fuel : Nat) (r : MapResult K V V)
    (h : c.Get fuel key t = some r) :
    r.cache.evictTimeout = c.evictTimeout ∧ r.cache.touched t key ∧
    (c.uniqueKeys → r.cache.uniqueKeys) := by
  obtain ⟨w, hw, hcache, _⟩ := CacheMap.Get_result c key t fuel r h
  have hsame := CacheMap.updateEvictTime_same (c.getStart key t).1 (c.getStart key t).2.1 w
  have hkeep := CacheMap.getStart_keeps c key t
  have hpol : r.cache.evictTimeout = c.evictTimeout := by
    rw [hcache, hsame.evictTimeout, hkeep.1]
  refine ⟨hpol, ⟨(c.getStart key t).2.1, ?_, ?_⟩, fun hu => ?_⟩
  · rw [hcache, hsame.dataMap]
    exact (CacheMap.getStart_spec c key t).1
  · rw [hpol, hcache, (CacheMap.updateEvictTime_evictTime _ _ w).1, hkeep.1]
    exact le_trans (by omega) (le_max_right _ _)
  · unfold CacheMap.uniqueKeys
    rw [hcache, hsame.dataMap]
    exact hkeep.2 hu

/-- Claim C29.  An access at time `t` protects the key from every sweep at a
time `s <= t + evictTimeout`: on a map with unique keys (and, for GetMany,
well-formed), CacheMap.Get and CacheMap.GetMany, run with nothing in between
and with every sum they compute in the range of `int64`,
return and leave each accessed key in the map with an eviction time of at
least `t + evictTimeout`, and a sweep at `s` run on that state keeps the key;
in any state, a sweep at a time not after the eviction time of a key keeps the
key. -/
theorem accessed_entry_survives_sweep :
    (∀ (K V : Type) [DecidableEq K] [Inhabited V] (c : CacheMap K V) (key : K) (t s : Int),
      c.uniqueKeys → c.fitsAt key t → s ≤ t + c.evictTimeout →
      ∃ n : Nat, ∀ fuel, n < fuel → ∃ r item, c.Get fuel key t = some r ∧
        mapGet r.cache.dataMap key = some item ∧
        t + c.evictTimeout ≤ (r.cache.items item).evictTime ∧
        mapGet (r.cache.evictKeys s).dataMap key = some item) ∧
    (∀ (K V : Type) [DecidableEq K] [Inhabited V] (c : CacheMap K V) (keys : List K)
      (t s : Int),
      c.uniqueKeys → c.wellFormed → c.fitsManyAt t → s ≤ t + c.evictTimeout →
      ∃ n : Nat, ∀ fuel, n < fuel → ∃ r, c.GetMany fuel keys t = some r ∧
        ∀ k ∈ keys, ∃ item, mapGet r.cache.dataMap k = some item ∧
          t + c.evictTimeout ≤ (r.cache.items item).evictTime ∧
          mapGet (r.cache.evictKeys s).dataMap k = some item) ∧
    (∀ (K V : Type) [DecidableEq K] (c : CacheMap K V) (key : K) (item : Nat) (s : Int),
      c.uniqueKeys → mapGet c.dataMap key = some item → s ≤ (c.items item).evictTime →
      mapGet (c.evictKeys s).dataMap key = some item) := by
  refine ⟨?_, ?_, ?_⟩
  · intro K V _ _ c key t s hu _ hs
    obtain ⟨n, hn⟩ := CacheMap.Get_terminates c key t
    refine ⟨n, fun fuel hf => ?_⟩
    obtain ⟨r, hr⟩ := hn fuel hf
    obtain ⟨hpol, ⟨item, hitem, hev⟩, huniq⟩ := CacheMap.Get_touched c key t fuel r hr
    rw [hpol] at hev
    exact ⟨r, item, hr, hitem, hev,
      CacheMap.evictKeys_keeps r.cache key item s (huniq hu) hitem (le_trans hs hev)⟩
  · intro K V _ _ c keys t s hu hwf _ hs
    obtain ⟨n, hn⟩ := CacheMap.GetMany_returns c keys t
    refine ⟨n, fun fuel hf => ?_⟩
    obtain ⟨r, hr, hcache, _⟩ := hn fuel hf
    obtain ⟨huniq, hpol, htouched⟩ := CacheMap.getManyStart_touched c keys t hwf hu
    rw [← hcache] at huniq hpol htouched
    refine ⟨r, hr, fun k hk => ?_⟩
    obtain ⟨item, hitem, hev⟩ := htouched k hk
    rw [hpol] at hev
    exact ⟨item, hitem, hev,
      CacheMap.evictKeys_keeps r.cache k item s huniq hitem (le_trans hs hev)⟩
  · intro K V _ c key item s hu hk hs
    exact CacheMap.evictKeys_keeps c key item s hu hk hs

/-- The example map (eviction timeout 30 ms): after a Get on key 8, or a
GetMany on the keys 8, 7 and 8, at time 1000, a sweep at time 30001000 keeps
the keys; and a sweep at time 30000000 keeps key 7 of the example map. -/
theorem accessed_entry_survives_sweep_witness :
    (exampleMap.uniqueKeys ∧ exampleMap.fitsAt 8 1000 ∧
      (30001000 : Int) ≤ 1000 + exampleMap.evictTimeout ∧
      ∃ n : Nat, ∀ fuel, n < fuel → ∃ r item, exampleMap.Get fuel 8 1000 = some r ∧
        mapGet r.cache.dataMap 8 = some item ∧
        1000 + exampleMap.evictTimeout ≤ (r.cache.items item).evictTime ∧
        mapGet (r.cache.evictKeys 30001000).dataMap 8 = some item) ∧
    (exampleMap.wellFormed ∧ exampleMap.fitsManyAt 1000 ∧
      ∃ n : Nat, ∀ fuel, n < fuel → ∃ r, exampleMap.GetMany fuel [8, 7, 8] 1000 = some r ∧
        ∀ k ∈ [8, 7, 8], ∃ item, mapGet r.cache.dataMap k = some item ∧
          1000 + exampleMap.evictTimeout ≤ (r.cache.items item).evictTime ∧
          mapGet (r.cache.evictKeys 30001000).dataMap k = some item) ∧
    (mapGet exampleMap.dataMap 7 = some 0 ∧
      (30000000 : Int) ≤ (exampleMap.items 0).evictTime ∧
      mapGet (exampleMap.evictKeys 30000000).dataMap 7 = some 0) :=
  ⟨⟨exampleMap_uniqueKeys, by decide, by decide,
      accessed_entry_survives_sweep.1 Nat Nat exampleMap 8 1000 30001000 exampleMap_uniqueKeys
        (by decide) (by decide)⟩,
    ⟨exampleMap_wellFormed, by decide,
      accessed_entry_survives_sweep.2.1 Nat Nat exampleMap [8, 7, 8] 1000 30001000
        exampleMap_uniqueKeys exampleMap_wellFormed (by decide) (by decide)⟩,
    ⟨by decide, by decide,
      accessed_entry_survives_sweep.2.2 Nat Nat exampleMap 7 0 30000000 exampleMap_uniqueKeys
        (by decide) (by decide)⟩⟩

/-! ## C28: the lock discipline -/

/-- The polling loop keeps the discipline and leaves the held mutexes as they
were, when the lock of the entry is not held at the start. -/
theorem violations_waitEvents (e : Entry) (line : Nat) (rest : List LockEvent) :
    ∀ sleeps, violations [] (waitEvents e line sleeps ++ rest) = violations [] rest := by
  intro sleeps
  induction sleeps with
  | zero => simp [waitEvents, violations]
  | succ n ih =>
    have h : waitEvents e line (n + 1) ++ rest
        = LockEvent.lock e.ownLock :: LockEvent.access e EntryField.initCutOffTime line ::
            LockEvent.unlock e.ownLock :: (waitEvents e line n ++ rest) := by
      simp [waitEvents]
    rw [h]
    simp [violations, ih]

/-- Storing a value in an entry keeps the discipline. -/
theorem violations_storeEvents (e : Entry) (line : Nat) (lower : Bool)
    (rest : List LockEvent) :
    violations [] (storeEvents e line lower ++ rest) = violations [] rest := by
  cases lower <;> simp [storeEvents, violations]

/-- Reading the value of an item under its lock keeps the discipline. -/
theorem violations_readDataEvents (item line : Nat) (rest : List LockEvent) :
    violations [] (readDataEvents item line ++ rest) = violations [] rest := by
  simp [readDataEvents, violations, Entry.ownLock]

/-- The loop of updateBatch keeps the discipline. -/
theorem violations_storeAllEvents {K V : Type} (c : CacheMap K V) (now : Int)
    (rest : List LockEvent) :
    ∀ unCachedDataMap : List (K × Nat),
      violations [] (c.storeAllEvents now unCachedDataMap ++ rest) = violations [] rest := by
  intro unCachedDataMap
  induction unCachedDataMap with
  | nil => rfl
  | cons p tail ih =>
    have h : c.storeAllEvents now (p :: tail) ++ rest
        = storeEvents (Entry.item p.2) 238 (decide (now < (c.items p.2).initCutOffTime)) ++
            (c.storeAllEvents now tail ++ rest) := by
      simp [CacheMap.storeAllEvents]
    rw [h, violations_storeEvents, ih]

/-- The last loop of GetMany keeps the discipline. -/
theorem violations_readBackEvents {K : Type} (rest : List LockEvent) :
    ∀ unCachedDataMap : List (K × Nat),
      violations [] (readBackEvents unCachedDataMap ++ rest) = violations [] rest := by
  intro unCachedDataMap
  induction unCachedDataMap with
  | nil => rfl
  | cons p tail ih =>
    have h : readBackEvents (p :: tail) ++ rest
        = readDataEvents p.2 333 ++ (readBackEvents tail ++ rest) := by
      simp [readBackEvents]
    rw [h, violations_readDataEvents, ih]

/-- The first loop of GetMany, run under the lock of the map, keeps the
discipline. -/
theorem violations_readEvents {K V : Type} [DecidableEq K] [Inhabited V] (now : Int)
    (rest : List LockEvent) :
    ∀ (keys : List K) (st : CacheMap K V × List (K × V) × List K),
      violations [Mutex.map] (CacheMap.readEvents now st keys ++ rest)
        = violations [Mutex.map] rest := by
  intro keys
  induction keys with
  | nil => intro st; rfl
  | cons key tail ih =>
    intro st
    cases hk : mapGet st.1.dataMap key with
    | none =>
      have h : CacheMap.readEvents now st (key :: tail) ++ rest
          = CacheMap.readEvents now (CacheMap.readKey now st key) tail ++ rest := by
        simp [CacheMap.readEvents, hk]
      rw [h, ih]
    | some item =>
      have h : CacheMap.readEvents now st (key :: tail) ++ rest
          = LockEvent.lock (Mutex.itemEvict item) :: LockEvent.unlock (Mutex.itemEvict item) ::
              LockEvent.lock (Mutex.itemUpdate item) ::
              LockEvent.access (Entry.item item) EntryField.data 266 ::
              LockEvent.access (Entry.item item) EntryField.nextUpdateTime 272 ::
              LockEvent.unlock (Mutex.itemUpdate item) ::
              (CacheMap.readEvents now (CacheMap.readKey now st key) tail ++ rest) := by
        simp [CacheMap.readEvents, hk]
      rw [h]
      simp [violations, Entry.ownLock, ih]

/-- Every step of the second loop of GetMany on an item breaks the discipline:
the loop runs under the lock of the map and takes no lock of an item. -/
theorem violations_claimEvents {K V : Type} [DecidableEq K] (now : Int)
    (rest : List LockEvent) :
    ∀ (keys : List K) (st : CacheMap K V × List (K × Nat) × Bool),
      violations [Mutex.map] (CacheMap.claimEvents now st keys ++ rest)
        = CacheMap.claimEvents now st keys ++ violations [Mutex.map] rest := by
  intro keys
  induction keys with
  | nil => intro st; rfl
  | cons key tail ih =>
    intro st
    cases hk : mapGet st.1.dataMap key with
    | none =>
      have h : CacheMap.claimEvents now st (key :: tail)
          = CacheMap.claimEvents now (CacheMap.claimKey now st key) tail := by
        simp [CacheMap.claimEvents, hk]
      rw [h, ih]
    | some item =>
      by_cases hdue : now > (st.1.items item).nextUpdateTime
      · have h : CacheMap.claimEvents now st (key :: tail)
            = LockEvent.access (Entry.item item) EntryField.nextUpdateTime 297 ::
                LockEvent.access (Entry.item item) EntryField.nextUpdateTime 298 ::
                CacheMap.claimEvents now (CacheMap.claimKey now st key) tail := by
          simp [CacheMap.claimEvents, hk, hdue]
        rw [h]
        simp [violations, Entry.ownLock, ih]
      · have h : CacheMap.claimEvents now st (key :: tail)
            = LockEvent.access (Entry.item item) EntryField.nextUpdateTime 297 ::
                CacheMap.claimEvents now (CacheMap.claimKey now st key) tail := by
          simp [CacheMap.claimEvents, hk, hdue]
        rw [h]
        simp [violations, Entry.ownLock, ih]

/-- Taking a mutex adds it to the mutexes held. -/
theorem violations_lock (held : List Mutex) (m : Mutex) (rest : List LockEvent) :
    violations held (LockEvent.lock m :: rest) = violations (m :: held) rest := rfl

/-- Releasing a mutex removes it from the mutexes held. -/
theorem violations_unlock (held : List Mutex) (m : Mutex) (rest : List LockEvent) :
    violations held (LockEvent.unlock m :: rest) = violations (held.erase m) rest := rfl

/-- The steps of CacheMap.GetMany that break the discipline are those of its
second loop. -/
theorem CacheMap.GetManyEvents_violations {K V : Type} [DecidableEq K] [Inhabited V]
    (c : CacheMap K V) (keys : List K) (now : Int) (sleeps : Nat) :
    violations [] (c.GetManyEvents keys now sleeps)
      = if (c.afterRead keys now).2.2.length > 0 then
          CacheMap.claimEvents now ((c.afterRead keys now).1, [], false)
            (c.afterRead keys now).2.2
        else [] := by
  have hrest : violations []
      ((if (c.afterClaim keys now).2.1.length > 0 then
          if (c.afterClaim keys now).2.2 = true then
            waitEvents (Entry.item (c.afterClaim keys now).1.nextAddr) 320 sleeps
          else []
        else []) ++ readBackEvents (c.afterClaim keys now).2.1) = [] := by
    have hb := violations_readBackEvents ([] : List LockEvent) (c.afterClaim keys now).2.1
    rw [List.append_nil] at hb
    split_ifs
    · rw [violations_waitEvents, hb]
      rfl
    · rw [List.nil_append, hb]
      rfl
    · rw [List.nil_append, hb]
      rfl
  by_cases hu : (c.afterRead keys now).2.2.length > 0
  · have e : c.GetManyEvents keys now sleeps
        = LockEvent.lock Mutex.map :: (CacheMap.readEvents now (c, [], []) keys ++
            (LockEvent.unlock Mutex.map :: LockEvent.lock Mutex.map ::
              (CacheMap.claimEvents now ((c.afterRead keys now).1, [], false)
                  (c.afterRead keys now).2.2 ++
                (LockEvent.unlock Mutex.map ::
                  ((if (c.afterClaim keys now).2.1.length > 0 then
                      if (c.afterClaim keys now).2.2 = true then
                        waitEvents (Entry.item (c.afterClaim keys now).1.nextAddr) 320 sleeps
                      else []
                    else []) ++ readBackEvents (c.afterClaim keys now).2.1))))) := by
      simp [CacheMap.GetManyEvents, hu]
    rw [e, violations_lock, violations_readEvents, violations_unlock, List.erase_cons_head,
      violations_lock, violations_claimEvents, violations_unlock, List.erase_cons_head, hrest,
      List.append_nil]
    simp only [hu, if_true]
  · have e : c.GetManyEvents keys now sleeps
        = LockEvent.lock Mutex.map :: (CacheMap.readEvents now (c, [], []) keys ++
            [LockEvent.unlock Mutex.map]) := by
      simp [CacheMap.GetManyEvents, hu]
    rw [e, violations_lock, violations_readEvents, violations_unlock, List.erase_cons_head]
    simp only [hu, if_false]
    rfl

/-- Claim C28 fails on the code.  Every DataCache.Get reads `c.data` on line
130 after it has released `c.mu`, and this is its only step outside the lock.
The steps of CacheMap.GetMany outside the lock of the entry are those of its
second loop, which reads and writes `item.nextUpdateTime` on lines 297 and 298
under the lock of the map alone: for the example map and the due key 7, one
read and one write.  CacheMap.Get and the goroutines (the one of
DataCache.Get, updateData and updateBatch) keep the discipline, and none calls
the load callback under the lock of the map. -/
theorem lock_discipline_violations :
    (∀ (T : Type) (c : DataCache T) (snapshot now : Int) (sleeps : Nat),
      violations [] (c.GetEvents snapshot now sleeps)
        = [LockEvent.access Entry.single EntryField.data 130]) ∧
    (∀ (K V : Type) [DecidableEq K] [Inhabited V] (c : CacheMap K V) (keys : List K)
      (now : Int) (sleeps : Nat),
      violations [] (c.GetManyEvents keys now sleeps)
        = if (c.afterRead keys now).2.2.length > 0 then
            CacheMap.claimEvents now ((c.afterRead keys now).1, [], false)
              (c.afterRead keys now).2.2
          else []) ∧
    violations [] (exampleMap.GetManyEvents [7] 1000 0)
      = [LockEvent.access (Entry.item 0) EntryField.nextUpdateTime 297,
          LockEvent.access (Entry.item 0) EntryField.nextUpdateTime 298] ∧
    (∀ (K V : Type) [DecidableEq K] (c : CacheMap K V) (key : K) (snapshot now : Int)
      (sleeps : Nat), violations [] (c.GetEvents key snapshot now sleeps) = []) ∧
    (∀ (T : Type) (c : DataCache T) (err : Bool) (now : Int),
      violations [] (c.loadTaskEvents err now) = []) ∧
    (∀ (K V : Type) (c : CacheMap K V) (item : Nat) (err : Bool) (now : Int),
      violations [] (c.updateDataEvents item err now) = []) ∧
    (∀ (K V : Type) (c : CacheMap K V) (unCachedDataMap : List (K × Nat))
      (updatedStatus : Nat) (err : Bool) (now : Int),
      violations [] (c.updateBatchEvents unCachedDataMap updatedStatus err now) = []) := by
  refine ⟨?_, ?_, by decide, ?_, ?_, ?_, ?_⟩
  · intro T c snapshot now sleeps
    by_cases h1 : now ≥ snapshot <;> by_cases h2 : now ≥ c.nextUpdateTime <;>
      by_cases h3 : c.initCutOffTime = 0 <;>
      simp [DataCache.GetEvents, h1, h2, h3, violations, violations_waitEvents, Entry.ownLock]
  · intro K V _ _ c keys now sleeps
    exact CacheMap.GetManyEvents_violations c keys now sleeps
  · intro K V _ c key snapshot now sleeps
    have hread := violations_readDataEvents (c.lookupOrCreate key now).2.1 196 []
    rw [List.append_nil] at hread
    by_cases h0 : (c.lookupOrCreate key now).2.2 = true <;> by_cases h1 : now > snapshot <;>
      by_cases h2 : now > ((c.lookupOrCreate key now).1.items
        (c.lookupOrCreate key now).2.1).nextUpdateTime <;>
      simp [CacheMap.GetEvents, h0, h1, h2, violations, violations_waitEvents, Entry.ownLock,
        hread]
  · intro T c err now
    have hs := violations_storeEvents Entry.single 109 (decide (now < c.initCutOffTime)) []
    rw [List.append_nil] at hs
    by_cases h : err = true ∧ c.expirationOnErr ≤ 0
    · simp [DataCache.loadTaskEvents, h, violations]
    · simp [DataCache.loadTaskEvents, h, violations, hs]
  · intro K V c item err now
    have hs := violations_storeEvents (Entry.item item) 105
      (decide (now < (c.items item).initCutOffTime)) []
    rw [List.append_nil] at hs
    by_cases h : err = true ∧ c.expirationOnErr ≤ 0
    · simp [CacheMap.updateDataEvents, h, violations]
    · simp [CacheMap.updateDataEvents, h, violations, hs]
  · intro K V c unCachedDataMap updatedStatus err now
    by_cases h : err = true ∧ c.expirationOnErr ≤ 0
    · simp [CacheMap.updateBatchEvents, h, violations]
    · simp [CacheMap.updateBatchEvents, h, violations, violations_storeAllEvents,
        Entry.ownLock]

end Datacache

namespace Uniqueid

/-! ## C30: unique IDs -/

/-- Three bit fields that do not overlap add up. -/
theorem fields_eq_sum (l n s : Nat) (hl : l < 2 ^ 42) (hn : n ≤ 4095) (hs : s ≤ 1023) :
    ((l <<< 22) % word) ||| ((n <<< 10) % word) ||| s = l * 2 ^ 22 + n * 2 ^ 10 + s := by
  have h1 : (l <<< 22) % word = 2 ^ 22 * l := by
    rw [Nat.shiftLeft_eq, Nat.mod_eq_of_lt (by unfold word; omega)]
    ring
  have h2 : (n <<< 10) % word = n * 2 ^ 10 := by
    rw [Nat.shiftLeft_eq, Nat.mod_eq_of_lt (by unfold word; omega)]
  rw [h1, h2, ← Nat.mul_add_lt_is_or (by omega) l]
  have h3 : 2 ^ 22 * l + n * 2 ^ 10 = 2 ^ 10 * (2 ^ 12 * l + n) := by ring
  rw [h3, ← Nat.mul_add_lt_is_or (by omega) _]
  ring

/-- NewGenerator accepts the node IDs 0 to 4095 with a key of 16 bytes, and
what it builds is valid, with `lastTime` and `step` zero. -/
theorem NewGenerator_valid (keyLen : Nat) (nodeID : Int) (g : generatorImpl)
    (h : NewGenerator keyLen nodeID = some g) :
    g.valid ∧ g.lastTime = 0 ∧ g.step = 0 ∧ 0 ≤ nodeID ∧ nodeID ≤ 4095 ∧ keyLen = 16 := by
  unfold NewGenerator at h
  simp only [nodeBits, stepBits] at h
  split_ifs at h with h1 h2
  simp only [Option.some.injEq] at h
  rw [← h]
  have hn : 0 ≤ nodeID ∧ nodeID ≤ 4095 := by
    norm_num at h1
    omega
  have hk : keyLen = 16 := by
    by_contra hne
    exact h2 hne
  refine ⟨⟨?_, ?_, ?_, ?_, ?_⟩, rfl, rfl, ?_, ?_, hk⟩ <;> first | rfl | omega | (norm_num <;> omega)

/-- One call of snowflakeID on a valid generator whose `lastTime` is below
`2 ^ 42`: the generator stays valid, `(lastTime, step)` grows, and the plain
ID returned is made of the three fields. -/
theorem snowflakeID_step (g : generatorImpl) (clock : Int) (hv : g.valid)
    (hc : validClock clock) (hl : g.lastTime < 2 ^ 42) :
    (g.snowflakeID clock).1.valid ∧
    (g.snowflakeID clock).1.nodeID = g.nodeID ∧
    (((g.snowflakeID clock).1.lastTime = g.lastTime ∧
        (g.snowflakeID clock).1.step = g.step + 1) ∨
      (g.lastTime < (g.snowflakeID clock).1.lastTime ∧ (g.snowflakeID clock).1.step = 0)) ∧
    ((g.snowflakeID clock).1.lastTime < 2 ^ 42 →
      (g.snowflakeID clock).2 = (g.snowflakeID clock).1.plain) := by
  obtain ⟨hn, hs, hm, ht, hsh⟩ := hv
  obtain ⟨hc1, hc2⟩ := hc
  have hstep : (g.step + 1) % word = g.step + 1 := Nat.mod_eq_of_lt (by unfold word; omega)
  have hlast : (g.lastTime + 1) % word = g.lastTime + 1 :=
    Nat.mod_eq_of_lt (by unfold word; omega)
  by_cases hnow : ((clock - (epoch : Int)) % (word : Int)).toNat ≤ g.lastTime
  · by_cases hover : g.step + 1 > 1023
    · have e : g.snowflakeID clock
          = ({ g with step := 0, lastTime := g.lastTime + 1 },
              (((g.lastTime + 1) <<< g.timeShift) % word)
                ||| ((g.nodeID <<< g.nodeShift) % word) ||| 0) := by
        simp [generatorImpl.snowflakeID, hnow, hstep, hlast, hm, hover]
      rw [e]
      refine ⟨⟨hn, by simp, hm, ht, hsh⟩, rfl, Or.inr ⟨by simp, rfl⟩, fun hb => ?_⟩
      simp only [ht, hsh]
      exact fields_eq_sum _ _ _ hb hn (by omega)
    · have e : g.snowflakeID clock
          = ({ g with step := g.step + 1 },
              ((g.lastTime <<< g.timeShift) % word)
                ||| ((g.nodeID <<< g.nodeShift) % word) ||| (g.step + 1)) := by
        simp [generatorImpl.snowflakeID, hnow, hstep, hm, hover]
      rw [e]
      refine ⟨⟨hn, by simp only []; omega, hm, ht, hsh⟩, rfl, Or.inl ⟨rfl, rfl⟩, fun hb => ?_⟩
      simp only [ht, hsh]
      exact fields_eq_sum _ _ _ hb hn (by omega)
  · have e : g.snowflakeID clock
        = ({ g with lastTime := ((clock - (epoch : Int)) % (word : Int)).toNat, step := 0 },
            ((((clock - (epoch : Int)) % (word : Int)).toNat <<< g.timeShift) % word)
              ||| ((g.nodeID <<< g.nodeShift) % word) ||| 0) := by
      simp [generatorImpl.snowflakeID, hnow]
    rw [e]
    refine ⟨⟨hn, by simp, hm, ht, hsh⟩, rfl, Or.inr ⟨by simp only []; omega, rfl⟩, fun hb => ?_⟩
    simp only [ht, hsh]
    exact fields_eq_sum _ _ _ hb hn (by omega)

/-- One call of snowflakeID that leaves `lastTime` below `2 ^ 42` returns a
plain ID above the one the fields stood for before. -/
theorem snowflakeID_grows (g : generatorImpl) (clock : Int) (hv : g.valid)
    (hc : validClock clock) (hl : g.lastTime < 2 ^ 42)
    (hb : (g.snowflakeID clock).1.lastTime < 2 ^ 42) :
    g.plain < (g.snowflakeID clock).2 ∧ (g.snowflakeID clock).2 < word := by
  obtain ⟨hv1, hnode, hcase, hplain⟩ := snowflakeID_step g clock hv hc hl
  rw [hplain hb]
  obtain ⟨hn, hs, _⟩ := hv
  obtain ⟨hn1, hs1, _⟩ := hv1
  unfold generatorImpl.plain word
  rw [hnode] at hn1 ⊢
  rcases hcase with ⟨h1, h2⟩ | ⟨h1, h2⟩
  · rw [h1, h2]
    rw [h1] at hb
    omega
  · rw [h2]
    omega

/-- Successive snowflakeID calls that keep `lastTime` below `2 ^ 42` return
strictly increasing plain IDs, all above the one the fields stood for at the
start and below `2 ^ 64`, and every generator on the way is valid. -/
theorem run_increasing :
    ∀ (clocks : List Int) (g : generatorImpl), g.valid → g.lastTime < 2 ^ 42 →
      (∀ t ∈ clocks, validClock t) →
      (∀ p ∈ g.run clocks, p.1.lastTime < 2 ^ 42) →
      List.Pairwise (fun a b => a < b) ((g.run clocks).map Prod.snd) ∧
      ∀ p ∈ g.run clocks, g.plain < p.2 ∧ p.2 < word ∧ p.1.valid := by
  intro clocks
  induction clocks with
  | nil =>
    intro g _ _ _ _
    exact ⟨List.Pairwise.nil, fun p hp => (by cases hp)⟩
  | cons t rest ih =>
    intro g hv hl hc hb
    have hrun : g.run (t :: rest) = g.snowflakeID t :: (g.snowflakeID t).1.run rest := rfl
    rw [hrun] at hb ⊢
    have hb1 : (g.snowflakeID t).1.lastTime < 2 ^ 42 := hb _ (List.mem_cons_self _ _)
    have hct : validClock t := hc t (List.mem_cons_self _ _)
    obtain ⟨hv1, _, _, hplain⟩ := snowflakeID_step g t hv hct hl
    obtain ⟨hgrow, hword⟩ := snowflakeID_grows g t hv hct hl hb1
    obtain ⟨hpair, hall⟩ := ih (g.snowflakeID t).1 hv1 hb1
      (fun x hx => hc x (List.mem_cons_of_mem _ hx))
      (fun p hp => hb p (List.mem_cons_of_mem _ hp))
    refine ⟨?_, ?_⟩
    · rw [List.map_cons, List.pairwise_cons]
      refine ⟨fun b hbm => ?_, hpair⟩
      obtain ⟨p, hp, hpb⟩ := List.mem_map.mp hbm
      rw [← hpb, hplain hb1]
      exact (hall p hp).1
    · intro p hp
      rcases List.mem_cons.mp hp with e | hin
      · rw [e]
        exact ⟨hgrow, hword, hv1⟩
      · obtain ⟨h1, h2, h3⟩ := hall p hin
        refine ⟨?_, h2, h3⟩
        rw [hplain hb1] at hgrow
        exact lt_trans hgrow h1

/-- The ID that NewID returns is above `maxReservedId`, and it is the cipher
text of a plain ID that snowflakeID returned; the plain IDs of later calls come
after it. -/
theorem NewID_sub (block : Nat → Nat) :
    ∀ (clocks : List Int) (g : generatorImpl) (r : generatorImpl × Nat × List Int),
      g.NewID block clocks = some r →
      r.2.1 > maxReservedId ∧
      ∃ x, r.2.1 = block x ∧
        List.Sublist (x :: (r.1.run r.2.2).map Prod.snd) ((g.run clocks).map Prod.snd) := by
  intro clocks
  induction clocks with
  | nil =>
    intro g r h
    cases h
  | cons t rest ih =>
    intro g r h
    have hrun : g.run (t :: rest) = g.snowflakeID t :: (g.snowflakeID t).1.run rest := rfl
    rw [hrun, List.map_cons]
    unfold generatorImpl.NewID at h
    simp only at h
    by_cases hbig : block (g.snowflakeID t).2 > maxReservedId
    · simp only [hbig, if_true, Option.some.injEq] at h
      rw [← h]
      exact ⟨hbig, (g.snowflakeID t).2, rfl, List.Sublist.refl _⟩
    · simp only [hbig, if_false] at h
      obtain ⟨h1, x, hx, hsub⟩ := ih _ r h
      exact ⟨h1, x, hx, List.Sublist.cons _ hsub⟩

/-- The IDs that successive NewID calls return are above `maxReservedId`, and
they are the cipher texts of some of the plain IDs, in order. -/
theorem newIDs_sub (block : Nat → Nat) :
    ∀ (n : Nat) (g : generatorImpl) (clocks : List Int) (ids : List Nat),
      g.newIDs block n clocks = some ids →
      (∀ id ∈ ids, id > maxReservedId) ∧ ids.length = n ∧
      ∃ sub, List.Sublist sub ((g.run clocks).map Prod.snd) ∧ ids = sub.map block := by
  intro n
  induction n with
  | zero =>
    intro g clocks ids h
    simp only [generatorImpl.newIDs, Option.some.injEq] at h
    rw [← h]
    exact ⟨fun id hid => (by cases hid), rfl, [], List.nil_sublist _, rfl⟩
  | succ n ih =>
    intro g clocks ids h
    unfold generatorImpl.newIDs at h
    cases hnew : g.NewID block clocks with
    | none =>
      rw [hnew] at h
      cases h
    | some r =>
      rw [hnew] at h
      simp only at h
      cases hrest : generatorImpl.newIDs block n r.1 r.2.2 with
      | none =>
        rw [hrest] at h
        cases h
      | some rest =>
        rw [hrest] at h
        simp only [Option.some.injEq] at h
        obtain ⟨hbig, x, hx, hsub⟩ := NewID_sub block clocks g r hnew
        obtain ⟨hall, hlen, sub, hs, hids⟩ := ih r.1 r.2.2 rest hrest
        rw [← h]
        refine ⟨fun id hid => ?_, by rw [List.length_cons, hlen], x :: sub, ?_, ?_⟩
        · rcases List.mem_cons.mp hid with e | hin
          · rw [e]
            exact hbig
          · exact hall id hin
        · exact List.Sublist.trans (List.Sublist.cons₂ x hs) hsub
        · rw [List.map_cons, hx, hids]

/-- Claim C30.  For a generator built by NewGenerator and clock readings at or
after the epoch, in any order: while `lastTime` stays below `2 ^ 42`, the plain
IDs of successive snowflakeID calls are strictly increasing and `step` is at
most 1023 after every call; hence, for a cipher that is injective on 64-bit
blocks, the IDs that successive NewID calls return are pairwise distinct, and
each is above `0xffffffff`. -/
theorem unique_ids (keyLen : Nat) (nodeID : Int) (g : generatorImpl) (clocks : List Int)
    (hnew : NewGenerator keyLen nodeID = some g)
    (hc : ∀ t ∈ clocks, validClock t)
    (hb : ∀ p ∈ g.run clocks, p.1.lastTime < 2 ^ 42) :
    List.Pairwise (fun a b => a < b) ((g.run clocks).map Prod.snd) ∧
    (∀ p ∈ g.run clocks, p.1.step ≤ 1023 ∧ p.2 < word) ∧
    ∀ (block : Nat → Nat) (n : Nat) (ids : List Nat),
      (∀ x y, x < word → y < word → block x = block y → x = y) →
      g.newIDs block n clocks = some ids →
      ids.Nodup ∧ ids.length = n ∧ ∀ id ∈ ids, id > 0xffffffff := by
  obtain ⟨hv, hl, _⟩ := NewGenerator_valid keyLen nodeID g hnew
  obtain ⟨hpair, hall⟩ := run_increasing clocks g hv (by rw [hl]; norm_num) hc hb
  refine ⟨hpair, fun p hp => ⟨(hall p hp).2.2.2.1, (hall p hp).2.1⟩, ?_⟩
  intro block n ids hinj hids
  obtain ⟨hbig, hlen, sub, hsub, hmap⟩ := newIDs_sub block n g clocks ids hids
  refine ⟨?_, hlen, hbig⟩
  have hnd : sub.Nodup := by
    have hnd0 : ((g.run clocks).map Prod.snd).Nodup :=
      List.Pairwise.imp (fun h => Nat.ne_of_lt h) hpair
    exact List.Nodup.sublist hsub hnd0
  have hlt : ∀ x ∈ sub, x < word := by
    intro x hx
    obtain ⟨p, hp, hpx⟩ := List.mem_map.mp (hsub.subset hx)
    rw [← hpx]
    exact (hall p hp).2.1
  rw [hmap]
  exact List.Nodup.map_on (fun x hx y hy hxy => hinj x y (hlt x hx) (hlt y hy) hxy) hnd

/-- The example cipher is injective on 64-bit blocks. -/
theorem exampleBlock_injective :
    ∀ x y, x < word → y < word → exampleBlock x = exampleBlock y → x = y := by
  intro x y hx hy h
  unfold exampleBlock at h
  rw [Nat.mod_eq_of_lt hx, Nat.mod_eq_of_lt hy] at h
  omega

/-- The example clock readings are at or after the epoch. -/
theorem exampleClocks_valid : ∀ t ∈ exampleClocks, validClock t := by
  intro t ht
  simp only [exampleClocks, List.mem_cons, List.mem_singleton, List.not_mem_nil, or_false] at ht
  unfold validClock epoch
  rcases ht with e | e | e <;> rw [e] <;> norm_num

/-- The generator of node 5 with a clock that stalls and then goes back by a
second: three plain IDs in increasing order, and three distinct IDs from
NewID under the example cipher. -/
theorem unique_ids_witness :
    NewGenerator 16 5 = some exampleGenerator ∧
    (exampleGenerator.run exampleClocks).map Prod.snd = [4194309120, 4194309121, 4194309122] ∧
    exampleGenerator.newIDs exampleBlock 3 exampleClocks
      = some [18446744069515242495, 18446744069515242494, 18446744069515242493] ∧
    (List.Pairwise (fun a b => a < b) ((exampleGenerator.run exampleClocks).map Prod.snd) ∧
      (∀ p ∈ exampleGenerator.run exampleClocks, p.1.step ≤ 1023 ∧ p.2 < word) ∧
      ∀ (block : Nat → Nat) (n : Nat) (ids : List Nat),
        (∀ x y, x < word → y < word → block x = block y → x = y) →
        exampleGenerator.newIDs block n exampleClocks = some ids →
        ids.Nodup ∧ ids.length = n ∧ ∀ id ∈ ids, id > 0xffffffff) ∧
    ([18446744069515242495, 18446744069515242494, 18446744069515242493].Nodup ∧
      [18446744069515242495, 18446744069515242494, 18446744069515242493].length = 3 ∧
      ∀ id ∈ [18446744069515242495, 18446744069515242494, 18446744069515242493],
        id > 0xffffffff) :=
  ⟨by decide, by decide, by decide,
    unique_ids 16 5 exampleGenerator exampleClocks (by decide) exampleClocks_valid
      (by decide),
    (unique_ids 16 5 exampleGenerator exampleClocks (by decide) exampleClocks_valid
      (by decide)).2.2 exampleBlock 3 _ exampleBlock_injective (by decide)⟩

end Uniqueid

namespace Cache

/-! ## C24: Serialize and Deserialize -/

/-- Reading digits after a prefix. -/
theorem parseDigits_append (l : List Nat) (d : Nat) :
    ∀ acc, parseDigits (l ++ [d]) acc
      = match parseDigits l acc with
        | none => none
        | some a => if 48 ≤ d ∧ d ≤ 57 then some (a * 10 + (d - 48)) else none := by
  induction l with
  | nil =>
    intro acc
    simp [parseDigits]
  | cons b rest ih =>
    intro acc
    by_cases hb : 48 ≤ b ∧ b ≤ 57
    · simp only [List.cons_append, parseDigits, hb, and_self, if_true]
      exact ih _
    · simp only [List.cons_append, parseDigits, hb, if_false]

/-- The digits written with enough fuel read back as the number; there is at
least one, and the first is a digit. -/
theorem parseDigits_digits :
    ∀ (fuel n : Nat), n < fuel →
      parseDigits (digits fuel n) 0 = some n ∧
      ∃ d rest, digits fuel n = d :: rest ∧ 48 ≤ d ∧ d ≤ 57 := by
  intro fuel
  induction fuel with
  | zero =>
    intro n h
    omega
  | succ fuel ih =>
    intro n h
    by_cases hn : n < 10
    · have e : digits (fuel + 1) n = [48 + n] := by simp [digits, hn]
      rw [e]
      refine ⟨?_, 48 + n, [], rfl, by omega, by omega⟩
      have h1 : 48 ≤ 48 + n ∧ 48 + n ≤ 57 := ⟨by omega, by omega⟩
      simp [parseDigits, h1]
    · have e : digits (fuel + 1) n = digits fuel (n / 10) ++ [48 + n % 10] := by
        simp [digits, hn]
      obtain ⟨h1, d, rest, h2, h3⟩ := ih (n / 10) (by omega)
      rw [e]
      refine ⟨?_, d, rest ++ [48 + n % 10], by rw [h2]; rfl, h3⟩
      rw [parseDigits_append, h1]
      have h4 : 48 ≤ 48 + n % 10 ∧ 48 + n % 10 ≤ 57 := ⟨by omega, by omega⟩
      simp only [h4, and_self, if_true, Option.some.injEq]
      omega

/-- ParseUint reads back what FormatUint wrote, for a uint64. -/
theorem parseUint_formatUint (n : Nat) (h : n < 2 ^ 64) :
    parseUint (formatUint n) = some n := by
  obtain ⟨h1, d, rest, h2, _⟩ := parseDigits_digits (n + 1) n (Nat.lt_succ_self n)
  have h3 : n < 18446744073709551616 := by
    norm_num at h
    exact h
  unfold parseUint formatUint
  rw [h1]
  simp [h2, h3]

/-- ParseInt reads back what FormatInt wrote, for an int64. -/
theorem parseInt_formatInt (i : Int) (h1 : -(2 ^ 63 : Int) ≤ i) (h2 : i < 2 ^ 63) :
    parseInt (formatInt i) = some i := by
  by_cases hneg : i < 0
  · obtain ⟨_, d, rest, hd, _, _⟩ :=
      parseDigits_digits ((-i).toNat + 1) (-i).toNat (Nat.lt_succ_self _)
    have hu := parseUint_formatUint (-i).toNat (by omega)
    have e : formatInt i = 45 :: formatUint (-i).toNat := by simp [formatInt, hneg]
    have hbig : ¬ (-i).toNat > 2 ^ 63 := by omega
    rw [e]
    unfold parseInt
    simp only [List.head?_cons, List.tail_cons, or_true, if_true, hu, not_true_eq_false,
      false_and, if_false, true_and, hbig, reduceCtorEq]
    congr 1
    omega
  · obtain ⟨_, d, rest, hd, hd1, hd2⟩ :=
      parseDigits_digits (i.toNat + 1) i.toNat (Nat.lt_succ_self _)
    have hu := parseUint_formatUint i.toNat (by omega)
    have e : formatInt i = formatUint i.toNat := by simp [formatInt, hneg]
    have hf : formatUint i.toNat = d :: rest := hd
    have h43 : ¬ d = 43 := by omega
    have h45 : ¬ d = 45 := by omega
    have hbig : ¬ i.toNat ≥ 2 ^ 63 := by omega
    rw [e]
    unfold parseInt
    rw [hf] at hu ⊢
    simp only [List.head?_cons, Option.some.injEq, h43, h45, or_self, if_false, hu,
      not_false_eq_true, true_and, hbig, false_and, reduceCtorEq]
    omega

/-- The conversion to a signed kind keeps a value in the range of the kind, and
such a value is an int64. -/
theorem wrapInt_of_range (k : IntKind) (v : Int)
    (h : -(2 ^ (k.bits - 1) : Int) ≤ v ∧ v < 2 ^ (k.bits - 1)) :
    wrapInt k.bits v = v ∧ -(2 ^ 63 : Int) ≤ v ∧ v < 2 ^ 63 := by
  cases k <;> simp only [IntKind.bits, wrapInt] at h ⊢ <;> norm_num at h ⊢ <;> omega

/-- The conversion to an unsigned kind keeps a value in the range of the kind,
and such a value is a uint64. -/
theorem wrapUint_of_range (k : UintKind) (v : Nat) (h : v < 2 ^ k.bits) :
    wrapUint k.bits v = v ∧ v < 2 ^ 64 := by
  cases k <;> simp only [UintKind.bits, wrapUint] at h ⊢ <;> norm_num at h ⊢ <;> omega

/-- Claim C24.  For every byte slice, string, signed integer and unsigned
integer within the range of its kind, Serialize succeeds, and Deserialize of
the result into a variable of the type of the value returns no error and
leaves the value in the variable; integers are written as base-10 text,
strings and byte slices as their bytes. -/
theorem serialize_round_trip {E : Codecs} (v : Value E) (h : v.plain) :
    ∃ b, Serialize v = some b ∧ Deserialize b v.target = some v ∧
      (∀ k i, v = Value.int k i → b = formatInt i) ∧
      (∀ k n, v = Value.uint k n → b = formatUint n) ∧
      (∀ s, v = Value.str s → b = s) ∧
      (∀ s, v = Value.bytes s ∨ v = Value.byteSlice s → b = s) := by
  cases v with
  | bytes b =>
    refine ⟨b, rfl, rfl, ?_, ?_, ?_, ?_⟩
    · intro k i e; cases e
    · intro k n e; cases e
    · intro s e; cases e
    · intro s e
      rcases e with e | e
      · cases e; rfl
      · cases e
  | byteSlice b =>
    refine ⟨b, rfl, rfl, ?_, ?_, ?_, ?_⟩
    · intro k i e; cases e
    · intro k n e; cases e
    · intro s e; cases e
    · intro s e
      rcases e with e | e
      · cases e
      · cases e; rfl
  | int k i =>
    obtain ⟨hw, h1, h2⟩ := wrapInt_of_range k i h
    refine ⟨formatInt i, rfl, ?_, ?_, ?_, ?_, ?_⟩
    · simp only [Value.target, Deserialize, parseInt_formatInt i h1 h2, hw]
    · intro k1 i1 e; cases e; rfl
    · intro k1 n e; cases e
    · intro s e; cases e
    · intro s e
      rcases e with e | e <;> cases e
  | uint k n =>
    obtain ⟨hw, h1⟩ := wrapUint_of_range k n h
    refine ⟨formatUint n, rfl, ?_, ?_, ?_, ?_, ?_⟩
    · simp only [Value.target, Deserialize, parseUint_formatUint n h1, hw]
    · intro k1 i e; cases e
    · intro k1 n1 e; cases e; rfl
    · intro s e; cases e
    · intro s e
      rcases e with e | e <;> cases e
  | float f => exact absurd h (by simp [Value.plain])
  | str s =>
    refine ⟨s, rfl, rfl, ?_, ?_, ?_, ?_⟩
    · intro k i e; cases e
    · intro k n e; cases e
    · intro s1 e; cases e; rfl
    · intro s1 e
      rcases e with e | e <;> cases e
  | other x => exact absurd h (by simp [Value.plain])

/-- The example value is in the range of int8. -/
theorem exampleInt8_plain : exampleInt8.plain := by
  unfold exampleInt8 Value.plain IntKind.bits
  norm_num

/-- The int8 value -128 travels as the text "-128" and comes back. -/
theorem serialize_round_trip_witness :
    exampleInt8.plain ∧
    Serialize exampleInt8 = some [45, 49, 50, 56] ∧
    ∃ b, Serialize exampleInt8 = some b ∧
      Deserialize b exampleInt8.target = some exampleInt8 ∧
      (∀ k i, exampleInt8 = Value.int k i → b = formatInt i) ∧
      (∀ k n, exampleInt8 = Value.uint k n → b = formatUint n) ∧
      (∀ s, exampleInt8 = Value.str s → b = s) ∧
      (∀ s, exampleInt8 = Value.bytes s ∨ exampleInt8 = Value.byteSlice s → b = s) :=
  ⟨exampleInt8_plain, by decide, serialize_round_trip exampleInt8 exampleInt8_plain⟩

end Cache

namespace Crypto

/-! ## C25: AESGCMDecrypt on input it cannot decrypt -/

/-- AESGCMDecrypt returns an error for a key of a wrong length and never
panics on data of 12 bytes or more. -/
theorem AESGCMDecrypt_no_panic
    (gcmOpen : List Nat → List Nat → List Nat → Option (List Nat)) (data key : List Nat) :
    (validKeyLen key.length = false → AESGCMDecrypt gcmOpen data key = Outcome.error) ∧
    (nonceSize ≤ data.length → AESGCMDecrypt gcmOpen data key ≠ Outcome.panic) := by
  constructor
  · intro h
    simp [AESGCMDecrypt, h]
  · intro h
    have hn : ¬ data.length < nonceSize := Nat.not_lt.mpr h
    unfold AESGCMDecrypt
    split_ifs
    · cases gcmOpen key (data.take nonceSize) (data.drop nonceSize) <;> simp
    · simp

/-- Claim C25 fails on the code: with a key of 16, 24 or 32 bytes and data
shorter than the nonce of 12 bytes, AESGCMDecrypt panics on the slice
expression of line 43 and returns nothing, whatever `Open` would do. -/
theorem AESGCMDecrypt_short_data_panics
    (gcmOpen : List Nat → List Nat → List Nat → Option (List Nat)) (data key : List Nat)
    (hk : validKeyLen key.length = true) (hd : data.length < nonceSize) :
    AESGCMDecrypt gcmOpen data key = Outcome.panic := by
  simp [AESGCMDecrypt, hk, hd]

/-- Empty data under the key of the tests: a panic, not an error. -/
theorem AESGCMDecrypt_short_data_panics_witness :
    validKeyLen exampleKey.length = true ∧ ([] : List Nat).length < nonceSize ∧
    AESGCMDecrypt rejectAll [] exampleKey = Outcome.panic :=
  ⟨by decide, by decide,
    AESGCMDecrypt_short_data_panics rejectAll [] exampleKey (by decide) (by decide)⟩

end Crypto

namespace Config

/-! ## C26: GetStructWithValidation of a StringMap -/

/-- Claim C26 fails on the code.  The method GetStructWithValidation does not
look at its receiver: any two StringMaps give the same result, that of the
package-level GetStruct on the process-wide configuration followed by the
validation.  With the section `db` in the StringMap and nothing in the
process-wide configuration, GetStruct of the StringMap fills the target with
`port = 5432`, as the method asked for by C26 would, and
GetStructWithValidation of the same StringMap returns without error and leaves
the target empty; with the process-wide configuration set, it returns the port
of that configuration. -/
theorem getStructWithValidation_ignores_receiver :
    (∀ (Raw Target Global : Type) (L : Libs Raw Target Global) (global : Global) (m m1 : Raw)
      (path : List Char) (value : Target),
      StringMap.GetStructWithValidation L global m path value
        = StringMap.GetStructWithValidation L global m1 path value) ∧
    filledWith (StringMap.GetStruct toyLibs exampleStringMap ['d', 'b'] [])
      [(['p', 'o', 'r', 't'], 5432)] = true ∧
    filledWith (getStructThenValidate toyLibs exampleStringMap ['d', 'b'] [])
      [(['p', 'o', 'r', 't'], 5432)] = true ∧
    filledWith (StringMap.GetStructWithValidation toyLibs [] exampleStringMap ['d', 'b'] []) []
      = true ∧
    filledWith (StringMap.GetStructWithValidation toyLibs
      [(['d', 'b'], [(['p', 'o', 'r', 't'], 1)])] exampleStringMap ['d', 'b'] [])
      [(['p', 'o', 'r', 't'], 1)] = true :=
  ⟨fun _ _ _ _ _ _ _ _ _ => rfl, by decide, by decide, by decide, by decide⟩

end Config
